import Mathlib

/-!
# Randomised Prim maze generation with rooms

A shallow embedding of `MazeComplex` (src/src/maze_complex.cpp), of the structures of
src/includes/structs.hpp, of `calculateDistance` (src/src/utils.cpp) and of the tick at
the end of `Game::updateGame` (src/src/game.cpp).

Modelling conventions.

* C++ `int` is `Int`; `/` and `%` on `int` are `Int.tdiv` and `Int.tmod` (truncation).
  Grid sizes are screen sizes divided by a cell size, so no value comes near `2^31` and
  overflow is not modelled.
* `std::vector` is `List`.  A read outside the vector (undefined behaviour in C++) yields a
  fixed default element and a write outside it changes nothing.  A division or a modulus by
  zero makes the function return `none`.  The last section of the model repeats the
  functions with every index and every modulus checked, a failed check giving `none`.
* `std::shared_ptr<MazeStructure>` is a handle (an index) into the list `structures` of the
  state: the cells of a room share one handle, and an update of the structure through one
  cell is seen through every other one.  Structures that no cell references any more stay
  in the list; only the structures referenced by a cell are live.
* `Uint32` times are natural numbers below `2^32`; their difference is taken modulo `2^32`.
* `float` values: the field `angle` of `MazeRenderConfig` holds a rational number and the
  comparison of two angles is computed exactly; in `generateColor`, which calls `sin`, the
  floating-point type and its operations are parameters of the model.
* `std::rand()` is the next element of a sequence `rng : Nat → Nat`; every function that
  draws takes the position `k` of the next draw and returns the new position.
* `std::unordered_set<int>` (the frontier) and the `std::unordered_map` of `getNeighbors`
  are lists without repeated keys, kept in insertion order; inserting a key that is already
  there changes nothing.  The iteration order of the C++ containers is left open by the
  language; no theorem below depends on the order chosen here, because each one
  holds for every random sequence.
-/

namespace Maze

/-! ## Data model (structs.hpp) -/

inductive StructureType where
  | CELL
  | ROOM
deriving DecidableEq, Repr

inductive Direction where
  | NORTH
  | SOUTH
  | EAST
  | WEST
deriving DecidableEq, Repr

/-- A perimeter record; `visited = true` means that the wall is present. -/
structure PerimeterCell where
  direction : Direction
  cell : Int
  visited : Bool
deriving DecidableEq, Repr

structure MazeStructure where
  visited : Bool
  width : Int
  height : Int
  startX : Int
  startY : Int
  cells : List Int
  perimeterCells : List PerimeterCell
  structureType : StructureType
deriving DecidableEq, Repr

/-- The pairs `(x, y)` in the order of the two nested loops of the constructor
(`y` outer, `x` inner). -/
def footprintOffsets (width height : Int) : List (Int × Int) :=
  (List.range height.toNat).flatMap fun (y : Nat) =>
    (List.range width.toNat).map fun (x : Nat) => ((x : Int), (y : Int))

/-- The records pushed by one pass through the body of the constructor's inner loop. -/
def perimeterAt (width height x y cellIndex : Int) : List PerimeterCell :=
  (if x = 0 then [⟨Direction.WEST, cellIndex, true⟩] else []) ++
  (if x = width - 1 then [⟨Direction.EAST, cellIndex, true⟩] else []) ++
  (if y = 0 then [⟨Direction.NORTH, cellIndex, true⟩] else []) ++
  (if y = height - 1 then [⟨Direction.SOUTH, cellIndex, true⟩] else [])

/-- The constructor `MazeStructure(width, height, gridX, gridY, numCellX)`. -/
def MazeStructure.new (width height gridX gridY numCellX : Int) : MazeStructure :=
  { visited := false
    width := width
    height := height
    startX := gridX
    startY := gridY
    cells := (footprintOffsets width height).map fun p =>
      (gridY + p.2) * numCellX + (gridX + p.1)
    perimeterCells := (footprintOffsets width height).flatMap fun p =>
      perimeterAt width height p.1 p.2 ((gridY + p.2) * numCellX + (gridX + p.1))
    structureType := StructureType.CELL }

structure MazeElement where
  visited : Bool
  gridX : Int
  gridY : Int
  place : Int
  parentStructure : Nat
  generationTime : Int
  distance : Int
deriving DecidableEq, Repr

/-- The constructor `MazeElement(gridX, gridY, place, structure)`. -/
def MazeElement.new (gridX gridY place : Int) (parentStructure : Nat) : MazeElement :=
  { visited := false
    gridX := gridX
    gridY := gridY
    place := place
    parentStructure := parentStructure
    generationTime := -1
    distance := 0 }

instance : Inhabited MazeElement := ⟨MazeElement.new 0 0 0 0⟩

instance : Inhabited MazeStructure := ⟨MazeStructure.new 0 0 0 0 0⟩

structure Application where
  screenWidth : Int
  screenHeight : Int
deriving DecidableEq, Repr

/-- The struct `MazeRenderConfig`.  The `float` field `angle` holds the rational number
that the float stands for (every finite float is one). -/
structure MazeRenderConfig where
  renderByFrame : Bool
  numRooms : Int
  roomWidth : Int
  roomHeight : Int
  pixelSize : Int
  angle : Rat := 0
deriving DecidableEq, Repr

/-- The constant `MazeRenderConfig::epsilon`, written `1e-6f` in the source. -/
def MazeRenderConfig.epsilon : Rat := 1 / 1000000

/-- The `operator==` of `MazeRenderConfig`; the difference of the two angles and its
absolute value are computed exactly (the rounding of the float subtraction is not
modelled). -/
def MazeRenderConfig.operatorEq (a other : MazeRenderConfig) : Bool :=
  a.renderByFrame == other.renderByFrame &&
  a.numRooms == other.numRooms &&
  a.roomWidth == other.roomWidth &&
  a.roomHeight == other.roomHeight &&
  a.pixelSize == other.pixelSize &&
  decide (|a.angle - other.angle| < MazeRenderConfig.epsilon)

/-- One statement `seed ^= h + 0x9e3779b9 + (seed << 6) + (seed >> 2)` of
`MazeRenderConfig::hash`, on a `size_t` of 64 bits. -/
def hashCombine (seed h : Nat) : Nat :=
  seed ^^^ ((h + 0x9e3779b9 + (seed <<< 6) + (seed >>> 2)) % 2 ^ 64)

/-- The function `MazeRenderConfig::hash`.  The library functions `std::hash<bool>`,
`std::hash<int>` and `std::hash<float>`, whose values the language leaves to the
implementation, are the parameters `bool_hash`, `int_hash` and `float_hash`. -/
def MazeRenderConfig.hash (bool_hash : Bool → Nat) (int_hash : Int → Nat)
    (float_hash : Rat → Nat) (c : MazeRenderConfig) : Nat :=
  let seed := 0
  let seed := hashCombine seed (bool_hash c.renderByFrame)
  let seed := hashCombine seed (int_hash c.numRooms)
  let seed := hashCombine seed (int_hash c.roomWidth)
  let seed := hashCombine seed (int_hash c.roomHeight)
  let seed := hashCombine seed (int_hash c.pixelSize)
  let seed := hashCombine seed (float_hash c.angle)
  seed

/-- What `MazeComplex` reads through its `game` pointer. -/
structure Game where
  app : Application
  renderConfig : MazeRenderConfig
deriving DecidableEq, Repr

/-- The data members of `MazeComplex` that the generation reads or writes. -/
structure MazeComplex where
  mazeComplete : Bool
  pixelSize : Int
  numCellX : Int
  numCellY : Int
  maze : List MazeElement
  structures : List MazeStructure
  frontier : List Int
  startX : Int
  startY : Int
  maxDistance : Int
  mazeDisplayTime : Nat
  mazeCompletionTime : Nat
  configNumRooms : Int
  configRoomWidth : Int
  configRoomHeight : Int
deriving DecidableEq, Repr

/-- The default constructor `MazeComplex()` together with the in-class initialisers. -/
def MazeComplex.new : MazeComplex :=
  { mazeComplete := false
    pixelSize := 10
    numCellX := 0
    numCellY := 0
    maze := []
    structures := []
    frontier := []
    startX := 0
    startY := 0
    maxDistance := 0
    mazeDisplayTime := 5000
    mazeCompletionTime := 0
    configNumRooms := 0
    configRoomWidth := 5
    configRoomHeight := 5 }

/-! ## Access to the vector of cells and to the shared structures -/

/-- The cell `maze[i]`. -/
def MazeComplex.cell (s : MazeComplex) (i : Int) : MazeElement :=
  s.maze.getD i.toNat default

/-- The structure behind the handle `h`. -/
def MazeComplex.structAt (s : MazeComplex) (h : Nat) : MazeStructure :=
  s.structures.getD h default

/-- The structure `maze[i].parentStructure` points to. -/
def MazeComplex.structOf (s : MazeComplex) (i : Int) : MazeStructure :=
  s.structAt (s.cell i).parentStructure

/-- An assignment to fields of `maze[i]`. -/
def MazeComplex.modifyCell (s : MazeComplex) (i : Int) (f : MazeElement → MazeElement) :
    MazeComplex :=
  if 0 ≤ i ∧ i.toNat < s.maze.length then
    { s with maze := s.maze.set i.toNat (f (s.cell i)) }
  else s

/-- An assignment to fields of the structure behind the handle `h`. -/
def MazeComplex.modifyStruct (s : MazeComplex) (h : Nat)
    (f : MazeStructure → MazeStructure) : MazeComplex :=
  { s with structures := s.structures.set h (f (s.structAt h)) }

/-! ## utils.cpp -/

def calculateDistance (x1 y1 x2 y2 : Int) : Int :=
  |x1 - x2| + |y1 - y2|

/-- The overload `calculateDistance(const MazeElement&, const MazeElement&)`. -/
def MazeElement.calculateDistance (elem1 elem2 : MazeElement) : Int :=
  Maze.calculateDistance elem1.gridX elem1.gridY elem2.gridX elem2.gridY

/-- The conversion of a `Uint32` to `int` (the value modulo `2^32`, read as two's
complement). -/
def toInt32 (t : Nat) : Int :=
  if t % 2 ^ 32 < 2 ^ 31 then ((t % 2 ^ 32 : Nat) : Int) else ((t % 2 ^ 32 : Nat) : Int) - 2 ^ 32

/-! ## Neighbours -/

/-- The body of `mazeStructureNeighbors`: `nx` with `neighbor.place` pushed when the
neighbour can be connected and has the wanted `visited` flag. -/
def mazeStructureNeighbors (s : MazeComplex) (nx : List Int) (neighbor : MazeElement)
    (visited : Bool) : List Int :=
  let neighborStruct := s.structAt neighbor.parentStructure
  let canConnect :=
    if neighborStruct.structureType ≠ StructureType.CELL then
      neighborStruct.perimeterCells.any fun perimCell => perimCell.cell = neighbor.place
    else true
  if canConnect then
    if visited then
      if neighbor.visited then nx ++ [neighbor.place] else nx
    else
      if !neighbor.visited then nx ++ [neighbor.place] else nx
  else nx

/-- Insertion into the `std::unordered_map<int, bool>` of `getNeighbors`: a key that is
already present keeps its first value. -/
def conditionsInsert (m : List (Int × Bool)) (kv : Int × Bool) : List (Int × Bool) :=
  if m.any (fun e => e.1 = kv.1) then m else m ++ [kv]

/-- The map `conditions` of `getNeighbors`, built from its initialiser list. -/
def neighborConditions (numCellX numCellY place gridX gridY : Int) : List (Int × Bool) :=
  [ (place - 1, decide (gridX > 0)),
    (place + 1, decide (gridX < numCellX - 1)),
    (place - numCellX, decide (gridY > 0)),
    (place + numCellX, decide (gridY < numCellY - 1)) ].foldl conditionsInsert []

def getNeighbors (s : MazeComplex) (current_element : MazeElement) (visited : Bool) :
    List Int :=
  (neighborConditions s.numCellX s.numCellY current_element.place current_element.gridX
      current_element.gridY).foldl
    (fun nx mapElem =>
      if mapElem.2 then mazeStructureNeighbors s nx (s.cell mapElem.1) visited else nx)
    []

/-! ## Walls -/

def getOppositeDirection : Direction → Direction
  | Direction.NORTH => Direction.SOUTH
  | Direction.SOUTH => Direction.NORTH
  | Direction.EAST => Direction.WEST
  | Direction.WEST => Direction.EAST

/-- One loop of `checkCell`: the first record of `cell` on side `direction` gets
`visited = false`, and the loop stops there. -/
def clearWall (cell : Int) (direction : Direction) : List PerimeterCell → List PerimeterCell
  | [] => []
  | perim :: rest =>
    if perim.cell = cell ∧ perim.direction = direction then
      { perim with visited := false } :: rest
    else perim :: clearWall cell direction rest

def checkCell (s : MazeComplex) (direction : Direction) (one two : Int) : MazeComplex :=
  let cellOne := (s.cell one).parentStructure
  let cellTwo := (s.cell two).parentStructure
  let s1 := s.modifyStruct cellOne fun st =>
    { st with perimeterCells := clearWall one direction st.perimeterCells }
  let oppositeDir := getOppositeDirection direction
  s1.modifyStruct cellTwo fun st =>
    { st with perimeterCells := clearWall two oppositeDir st.perimeterCells }

def removeWall (s : MazeComplex) (cell1 cell2 : Int) : MazeComplex :=
  let x1 := cell1.tmod s.numCellX
  let y1 := cell1.tdiv s.numCellX
  let x2 := cell2.tmod s.numCellX
  let y2 := cell2.tdiv s.numCellX
  if x1 = x2 then
    if y1 < y2 then checkCell s Direction.SOUTH cell1 cell2
    else checkCell s Direction.NORTH cell1 cell2
  else
    if x1 < x2 then checkCell s Direction.EAST cell1 cell2
    else checkCell s Direction.WEST cell1 cell2

def chooseWallCandidate (rng : Nat → Nat) (s : MazeComplex) (frontierCell : Int) (k : Nat) :
    MazeComplex × Nat :=
  let element := s.cell frontierCell
  let visited := getNeighbors s element true
  if !visited.isEmpty then
    let connectVisitor := visited.getD (rng k % visited.length) 0
    (removeWall s frontierCell connectVisitor, k + 1)
  else (s, k)

/-! ## Growth -/

/-- The `insert` of the frontier set. -/
def frontierInsert (frontier : List Int) (x : Int) : List Int :=
  if x ∈ frontier then frontier else frontier ++ [x]

def lookahead (rng : Nat → Nat) (currentTime : Nat) (s : MazeComplex) (k : Nat) :
    MazeComplex × Nat :=
  if !s.frontier.isEmpty then
    let randomIndex := rng k % s.frontier.length
    let cell := s.frontier.getD randomIndex 0
    let s1 := { s with frontier := s.frontier.eraseIdx randomIndex }
    let s2 := s1.modifyCell cell fun e =>
      { e with visited := true, generationTime := toInt32 currentTime }
    let gridX := (s2.cell cell).gridX
    let gridY := (s2.cell cell).gridY
    let distance := calculateDistance s2.startX s2.startY gridX gridY
    let s3 := s2.modifyCell cell fun e => { e with distance := distance }
    let r := chooseWallCandidate rng s3 cell (k + 1)
    let unVisited := getNeighbors r.1 (r.1.cell cell) false
    ({ r.1 with frontier := unVisited.foldl frontierInsert r.1.frontier }, r.2)
  else (s, k)

/-- One pass through the body of the `while` loop of `generateCompleteMaze`. -/
def generateCompleteMazeBody (rng : Nat → Nat) (s : MazeComplex) (k : Nat) :
    MazeComplex × Nat :=
  let randomIndex := rng k % s.frontier.length
  let cell := s.frontier.getD randomIndex 0
  let s1 := { s with frontier := s.frontier.eraseIdx randomIndex }
  let s2 := s1.modifyCell cell fun e => { e with visited := true, generationTime := 0 }
  let gridX := (s2.cell cell).gridX
  let gridY := (s2.cell cell).gridY
  let distance := calculateDistance s2.startX s2.startY gridX gridY
  let s3 := s2.modifyCell cell fun e => { e with distance := distance }
  let r := chooseWallCandidate rng s3 cell (k + 1)
  let unVisited := getNeighbors r.1 (r.1.cell cell) false
  ({ r.1 with frontier := unVisited.foldl frontierInsert r.1.frontier }, r.2)

/-- The function `generateCompleteMaze`; `fuel` bounds the number of passes through the
loop, and `none` means that the bound was reached with a non-empty frontier. -/
def generateCompleteMaze (rng : Nat → Nat) : Nat → MazeComplex → Nat → Option (MazeComplex × Nat)
  | 0, s, k => if s.frontier.isEmpty then some ({ s with mazeComplete := true }, k) else none
  | fuel + 1, s, k =>
    if s.frontier.isEmpty then some ({ s with mazeComplete := true }, k)
    else
      generateCompleteMaze rng fuel (generateCompleteMazeBody rng s k).1
        (generateCompleteMazeBody rng s k).2

/-! ## Rooms -/

/-- The cell indices visited by the two nested loops of `addRoom`, in loop order. -/
def roomFootprint (numCellX sX sY width height : Int) : List Int :=
  (List.range height.toNat).flatMap fun (y : Nat) =>
    (List.range width.toNat).map fun (x : Nat) => (sY + (y : Int)) * numCellX + (sX + (x : Int))

/-- The loop of `addRoom` with `attempts` passes left. -/
def addRoomAttempts (rng : Nat → Nat) (width height : Int) :
    Nat → MazeComplex → Nat → Option (MazeComplex × Nat)
  | 0, s, k => some (s, k)
  | attempts + 1, s, k =>
    if s.maze.length = 0 then none
    else
      let randomIndex := rng k % s.maze.length
      let elem := s.cell (randomIndex : Nat)
      let sX := elem.gridX
      let sY := elem.gridY
      if sX + width > s.numCellX ∨ sY + height > s.numCellY then
        addRoomAttempts rng width height attempts s (k + 1)
      else
        let roomCells := roomFootprint s.numCellX sX sY width height
        if roomCells.all fun cellIndex =>
            decide ((s.structOf cellIndex).structureType = StructureType.CELL) then
          let roomStruct : MazeStructure :=
            { MazeStructure.new width height sX sY s.numCellX with
              structureType := StructureType.ROOM, height := height, width := width }
          let handle := s.structures.length
          let s1 := { s with structures := s.structures ++ [roomStruct] }
          some (roomCells.foldl
            (fun st cellIndex => st.modifyCell cellIndex fun e =>
              { e with parentStructure := handle }) s1, k + 1)
        else addRoomAttempts rng width height attempts s (k + 1)

def addRoom (rng : Nat → Nat) (width height : Int) (s : MazeComplex) (k : Nat) :
    Option (MazeComplex × Nat) :=
  addRoomAttempts rng width height 20 s k

/-- The loop `for (i = 0; i < configNumRooms; i++) addRoom(...)` with `n` passes left. -/
def addRooms (rng : Nat → Nat) (width height : Int) :
    Nat → MazeComplex → Nat → Option (MazeComplex × Nat)
  | 0, s, k => some (s, k)
  | n + 1, s, k =>
    match addRoom rng width height s k with
    | none => none
    | some r => addRooms rng width height n r.1 r.2

/-! ## Initialisation and reset -/

def resetMazeComplex (s : MazeComplex) : MazeComplex :=
  { s with maze := [], structures := [], frontier := [] }

def configureRooms (s : MazeComplex) (numRooms width height : Int) : MazeComplex :=
  { s with configNumRooms := numRooms, configRoomWidth := width, configRoomHeight := height }

/-- The cells pushed by the first loop of `initMazeComplex`; `base` is the handle of the
structure made for the first of them. -/
def initCells (numCellX numCellY : Int) (base : Nat) : List MazeElement :=
  (List.range (numCellX * numCellY).toNat).map fun (i : Nat) =>
    MazeElement.new ((i : Int).tmod numCellX) ((i : Int).tdiv numCellX) (i : Int) (base + i)

/-- The structures made by the first loop of `initMazeComplex`. -/
def initStructures (numCellX numCellY : Int) : List MazeStructure :=
  (List.range (numCellX * numCellY).toNat).map fun (i : Nat) =>
    MazeStructure.new 1 1 ((i : Int).tmod numCellX) ((i : Int).tdiv numCellX) numCellX

def initMazeComplex (rng : Nat → Nat) (game : Game) (s : MazeComplex) (k : Nat) :
    Option (MazeComplex × Nat) :=
  let pixelSize := game.renderConfig.pixelSize
  if pixelSize = 0 then none
  else
    let numCellX := game.app.screenWidth.tdiv pixelSize
    let numCellY := game.app.screenHeight.tdiv pixelSize
    let s1 : MazeComplex :=
      { s with
        pixelSize := pixelSize
        mazeComplete := false
        numCellX := numCellX
        numCellY := numCellY
        maze := s.maze ++ initCells numCellX numCellY s.structures.length
        structures := s.structures ++ initStructures numCellX numCellY }
    if numCellX * numCellY = 0 then none
    else
      let start := ((rng k : Nat) : Int).tmod (numCellX * numCellY)
      match addRooms rng s1.configRoomWidth s1.configRoomHeight s1.configNumRooms.toNat s1
          (k + 1) with
      | none => none
      | some r =>
        let s2 := r.1.modifyCell start fun e => { e with visited := true, generationTime := 0 }
        let startX := (s2.cell start).gridX
        let startY := (s2.cell start).gridY
        let maxX := max startX (numCellX - startX)
        let maxY := max startY (numCellY - startY)
        let s3 : MazeComplex :=
          { s2 with startX := startX, startY := startY, maxDistance := maxX + maxY }
        let neighbors := getNeighbors s3 (s3.cell start) false
        some ({ s3 with frontier := neighbors.foldl frontierInsert s3.frontier }, r.2)

/-! ## The generation controller -/

/-- The difference of two `Uint32` values. -/
def subUint32 (a b : Nat) : Nat :=
  (a % 2 ^ 32 + 2 ^ 32 - b % 2 ^ 32) % 2 ^ 32

/-- The first `if` of `updateMazeComplex`: one growth step, or the run to completion. -/
def updateGrow (rng : Nat → Nat) (game : Game) (fuel : Nat) (currentTime : Nat)
    (s : MazeComplex) (k : Nat) : Option (MazeComplex × Nat) :=
  if !s.mazeComplete && !s.frontier.isEmpty then
    if game.renderConfig.renderByFrame then some (lookahead rng currentTime s k)
    else generateCompleteMaze rng fuel s k
  else some (s, k)

/-- The second `if` of `updateMazeComplex`: an empty frontier is observed. -/
def updateObserve (currentTime : Nat) (s : MazeComplex) : MazeComplex :=
  if s.frontier.isEmpty then
    let s1 := { s with mazeComplete := true }
    if s1.mazeCompletionTime = 0 then { s1 with mazeCompletionTime := currentTime }
    else s1
  else s

/-- The third `if` of `updateMazeComplex`: a complete maze is replaced by a new one. -/
def updateCycle (rng : Nat → Nat) (game : Game) (currentTime : Nat) (s : MazeComplex)
    (k : Nat) : Option (MazeComplex × Nat) :=
  if s.mazeComplete then
    if game.renderConfig.renderByFrame then
      initMazeComplex rng game (resetMazeComplex s) k
    else if subUint32 currentTime s.mazeCompletionTime > s.mazeDisplayTime then
      match initMazeComplex rng game (resetMazeComplex s) k with
      | none => none
      | some r => some ({ r.1 with mazeCompletionTime := 0 }, r.2)
    else some (s, k)
  else some (s, k)

/-- The function `updateMazeComplex`; `fuel` bounds the passes through the loop of
`generateCompleteMaze`. -/
def updateMazeComplex (rng : Nat → Nat) (game : Game) (fuel : Nat) (currentTime : Nat)
    (s : MazeComplex) (k : Nat) : Option (MazeComplex × Nat) :=
  match updateGrow rng game fuel currentTime s k with
  | none => none
  | some r => updateCycle rng game currentTime (updateObserve currentTime r.1) r.2

/-- The end of `Game::updateGame` (game.cpp): when the parameters of the user interface
changed the rooms are configured again and the maze is reset and initialised, and then
the controller ticks at time `mTicksCount`. -/
def updateGame (rng : Nat → Nat) (game : Game) (uiParamsChanged : Bool)
    (uiNumRooms uiRoomWidth uiRoomHeight : Int) (fuel : Nat) (mTicksCount : Nat)
    (s : MazeComplex) (k : Nat) : Option (MazeComplex × Nat) :=
  if uiParamsChanged then
    match initMazeComplex rng game
        (resetMazeComplex (configureRooms s uiNumRooms uiRoomWidth uiRoomHeight)) k with
    | none => none
    | some r => updateMazeComplex rng game fuel mTicksCount r.1 r.2
  else updateMazeComplex rng game fuel mTicksCount s k

/-! ## The colour function -/

/-- The floating-point arithmetic that `generateColor` and `ImVec4ToSDLColor` use, over a
type `F` of floating-point values.  All of it is library or hardware behaviour, so it is a
parameter of the model: the conversions from and to integers, the four operations, `sin`,
the comparison `<`, and the value `lit q` of a literal that is written as the decimal
number `q`.  The conversions to integers are total here; C++ leaves them undefined
outside the range of the target type. -/
structure FloatOps (F : Type) where
  ofInt : Int → F
  ofUint32 : Nat → F
  toInt : F → Int
  toUint8 : F → Nat
  add : F → F → F
  sub : F → F → F
  mul : F → F → F
  div : F → F → F
  sin : F → F
  lt : F → F → Bool
  lit : Rat → F

structure ImVec4 (F : Type) where
  x : F
  y : F
  z : F
  w : F

structure SDL_Color where
  r : Nat
  g : Nat
  b : Nat
  a : Nat
deriving DecidableEq, Repr

structure ColorConfig (F : Type) where
  color1 : ImVec4 F
  color2 : ImVec4 F
  color3 : ImVec4 F
  colorWave : Bool
  distanceCoef : F
  timeCoef : F

def ImVec4ToSDLColor {F : Type} (ops : FloatOps F) (imColor : ImVec4 F) : SDL_Color :=
  { r := ops.toUint8 (ops.mul imColor.x (ops.lit 255))
    g := ops.toUint8 (ops.mul imColor.y (ops.lit 255))
    b := ops.toUint8 (ops.mul imColor.z (ops.lit 255))
    a := ops.toUint8 (ops.mul imColor.w (ops.lit 255)) }

/-- The function `generateColor`, with the colour configuration that the source reaches
through the pointer `mazeColorConfig`. -/
def generateColor {F : Type} (ops : FloatOps F) (s : MazeComplex)
    (mazeColorConfig : ColorConfig F) (distance : Int) (time : Nat) : SDL_Color :=
  let distance :=
    if !mazeColorConfig.colorWave then
      let normal_distance := ops.div (ops.ofInt distance) (ops.ofInt s.maxDistance)
      ops.toInt normal_distance
    else distance
  let first_color := ImVec4ToSDLColor ops mazeColorConfig.color1
  let second_color := ImVec4ToSDLColor ops mazeColorConfig.color2
  let third_color := ImVec4ToSDLColor ops mazeColorConfig.color3
  let wave :=
    ops.add
      (ops.mul
        (ops.sin
          (ops.sub (ops.mul (ops.ofInt distance) mazeColorConfig.distanceCoef)
            (ops.mul (ops.ofUint32 time) mazeColorConfig.timeCoef)))
        (ops.lit (1 / 2)))
      (ops.lit (1 / 2))
  let pulse := ops.lit 1
  let intensity := ops.mul wave pulse
  if ops.lt intensity (ops.lit (33 / 100)) then first_color
  else if ops.lt intensity (ops.lit (66 / 100)) then second_color
  else third_color

/-! ## The same functions with every index checked

In the functions below every access `maze[i]` is checked against the size of the vector,
every modulus of a random draw is checked against zero, and so are the divisions by
`pixelSize` and by `numCellX` and the accesses to the list of visited candidates and to
the frontier; a failed check makes the function return `none`. Apart from the checks they
are the functions above. -/

/-- The access `maze[i]`; `none` when `i` is not an index of the vector. -/
def MazeComplex.cellChecked (s : MazeComplex) (i : Int) : Option MazeElement :=
  if 0 ≤ i ∧ i.toNat < s.maze.length then some (s.cell i) else none

/-- An assignment to fields of `maze[i]`; `none` when `i` is not an index of the vector. -/
def MazeComplex.modifyCellChecked (s : MazeComplex) (i : Int)
    (f : MazeElement → MazeElement) : Option MazeComplex :=
  if 0 ≤ i ∧ i.toNat < s.maze.length then some (s.modifyCell i f) else none

def getNeighborsChecked (s : MazeComplex) (current_element : MazeElement) (visited : Bool) :
    Option (List Int) :=
  (neighborConditions s.numCellX s.numCellY current_element.place current_element.gridX
      current_element.gridY).foldl
    (fun acc mapElem =>
      match acc with
      | none => none
      | some nx =>
        if mapElem.2 then
          match s.cellChecked mapElem.1 with
          | none => none
          | some neighbor => some (mazeStructureNeighbors s nx neighbor visited)
        else some nx)
    (some [])

def checkCellChecked (s : MazeComplex) (direction : Direction) (one two : Int) :
    Option MazeComplex :=
  match s.cellChecked one with
  | none => none
  | some _ =>
    match s.cellChecked two with
    | none => none
    | some _ => some (checkCell s direction one two)

def removeWallChecked (s : MazeComplex) (cell1 cell2 : Int) : Option MazeComplex :=
  if s.numCellX = 0 then none
  else
    let x1 := cell1.tmod s.numCellX
    let y1 := cell1.tdiv s.numCellX
    let x2 := cell2.tmod s.numCellX
    let y2 := cell2.tdiv s.numCellX
    if x1 = x2 then
      if y1 < y2 then checkCellChecked s Direction.SOUTH cell1 cell2
      else checkCellChecked s Direction.NORTH cell1 cell2
    else
      if x1 < x2 then checkCellChecked s Direction.EAST cell1 cell2
      else checkCellChecked s Direction.WEST cell1 cell2

def chooseWallCandidateChecked (rng : Nat → Nat) (s : MazeComplex) (frontierCell : Int)
    (k : Nat) : Option (MazeComplex × Nat) :=
  match s.cellChecked frontierCell with
  | none => none
  | some element =>
    match getNeighborsChecked s element true with
    | none => none
    | some visited =>
      if !visited.isEmpty then
        if visited.length = 0 then none
        else
          match visited[rng k % visited.length]? with
          | none => none
          | some connectVisitor =>
            match removeWallChecked s frontierCell connectVisitor with
            | none => none
            | some s1 => some (s1, k + 1)
      else some (s, k)

/-- The body that `lookahead` and the loop of `generateCompleteMaze` have in common, with
the generation time `t` they write, on a non-empty frontier. -/
def growChecked (rng : Nat → Nat) (t : Int) (s : MazeComplex) (k : Nat) :
    Option (MazeComplex × Nat) :=
  if s.frontier.length = 0 then none
  else
    let randomIndex := rng k % s.frontier.length
    match s.frontier[randomIndex]? with
    | none => none
    | some cell =>
      let s1 := { s with frontier := s.frontier.eraseIdx randomIndex }
      match s1.modifyCellChecked cell fun e => { e with visited := true, generationTime := t } with
      | none => none
      | some s2 =>
        match s2.cellChecked cell with
        | none => none
        | some element =>
          let distance := calculateDistance s2.startX s2.startY element.gridX element.gridY
          match s2.modifyCellChecked cell fun e => { e with distance := distance } with
          | none => none
          | some s3 =>
            match chooseWallCandidateChecked rng s3 cell (k + 1) with
            | none => none
            | some r =>
              match r.1.cellChecked cell with
              | none => none
              | some current =>
                match getNeighborsChecked r.1 current false with
                | none => none
                | some unVisited =>
                  some ({ r.1 with frontier := unVisited.foldl frontierInsert r.1.frontier },
                    r.2)

def lookaheadChecked (rng : Nat → Nat) (currentTime : Nat) (s : MazeComplex) (k : Nat) :
    Option (MazeComplex × Nat) :=
  if !s.frontier.isEmpty then growChecked rng (toInt32 currentTime) s k else some (s, k)

def generateCompleteMazeChecked (rng : Nat → Nat) :
    Nat → MazeComplex → Nat → Option (MazeComplex × Nat)
  | 0, s, k => if s.frontier.isEmpty then some ({ s with mazeComplete := true }, k) else none
  | fuel + 1, s, k =>
    if s.frontier.isEmpty then some ({ s with mazeComplete := true }, k)
    else
      match growChecked rng 0 s k with
      | none => none
      | some r => generateCompleteMazeChecked rng fuel r.1 r.2

/-- The two nested loops of `addRoom` that look at the cells of the rectangle, in loop
order, until one is found that is not a `CELL` structure: `some true` when all are free. -/
def roomCellsChecked (s : MazeComplex) : List Int → Option Bool
  | [] => some true
  | cellIndex :: rest =>
    match s.cellChecked cellIndex with
    | none => none
    | some cellElem =>
      if (s.structAt cellElem.parentStructure).structureType ≠ StructureType.CELL then
        some false
      else roomCellsChecked s rest

def addRoomAttemptsChecked (rng : Nat → Nat) (width height : Int) :
    Nat → MazeComplex → Nat → Option (MazeComplex × Nat)
  | 0, s, k => some (s, k)
  | attempts + 1, s, k =>
    if s.maze.length = 0 then none
    else
      let randomIndex := rng k % s.maze.length
      match s.cellChecked (randomIndex : Nat) with
      | none => none
      | some elem =>
        let sX := elem.gridX
        let sY := elem.gridY
        if sX + width > s.numCellX ∨ sY + height > s.numCellY then
          addRoomAttemptsChecked rng width height attempts s (k + 1)
        else
          let roomCells := roomFootprint s.numCellX sX sY width height
          match roomCellsChecked s roomCells with
          | none => none
          | some false => addRoomAttemptsChecked rng width height attempts s (k + 1)
          | some true =>
            let roomStruct : MazeStructure :=
              { MazeStructure.new width height sX sY s.numCellX with
                structureType := StructureType.ROOM, height := height, width := width }
            let handle := s.structures.length
            let s1 := { s with structures := s.structures ++ [roomStruct] }
            match roomCells.foldl
                (fun acc cellIndex =>
                  match acc with
                  | none => none
                  | some st =>
                    st.modifyCellChecked cellIndex fun e => { e with parentStructure := handle })
                (some s1) with
            | none => none
            | some s2 => some (s2, k + 1)

def addRoomChecked (rng : Nat → Nat) (width height : Int) (s : MazeComplex) (k : Nat) :
    Option (MazeComplex × Nat) :=
  addRoomAttemptsChecked rng width height 20 s k

def addRoomsChecked (rng : Nat → Nat) (width height : Int) :
    Nat → MazeComplex → Nat → Option (MazeComplex × Nat)
  | 0, s, k => some (s, k)
  | n + 1, s, k =>
    match addRoomChecked rng width height s k with
    | none => none
    | some r => addRoomsChecked rng width height n r.1 r.2

def initMazeComplexChecked (rng : Nat → Nat) (game : Game) (s : MazeComplex) (k : Nat) :
    Option (MazeComplex × Nat) :=
  let pixelSize := game.renderConfig.pixelSize
  if pixelSize = 0 then none
  else
    let numCellX := game.app.screenWidth.tdiv pixelSize
    let numCellY := game.app.screenHeight.tdiv pixelSize
    let s1 : MazeComplex :=
      { s with
        pixelSize := pixelSize
        mazeComplete := false
        numCellX := numCellX
        numCellY := numCellY
        maze := s.maze ++ initCells numCellX numCellY s.structures.length
        structures := s.structures ++ initStructures numCellX numCellY }
    if numCellX * numCellY = 0 then none
    else
      let start := ((rng k : Nat) : Int).tmod (numCellX * numCellY)
      match addRoomsChecked rng s1.configRoomWidth s1.configRoomHeight s1.configNumRooms.toNat s1
          (k + 1) with
      | none => none
      | some r =>
        match r.1.modifyCellChecked start fun e =>
            { e with visited := true, generationTime := 0 } with
        | none => none
        | some s2 =>
          match s2.cellChecked start with
          | none => none
          | some element =>
            let startX := element.gridX
            let startY := element.gridY
            let maxX := max startX (numCellX - startX)
            let maxY := max startY (numCellY - startY)
            let s3 : MazeComplex :=
              { s2 with startX := startX, startY := startY, maxDistance := maxX + maxY }
            match getNeighborsChecked s3 element false with
            | none => none
            | some neighbors =>
              some ({ s3 with frontier := neighbors.foldl frontierInsert s3.frontier }, r.2)

/-! ## Vocabulary of the properties -/

/-- The index `i` is the index of a cell of the grid. -/
def MazeComplex.inRange (s : MazeComplex) (i : Int) : Prop :=
  0 ≤ i ∧ i < s.numCellX * s.numCellY

/-- The value that `mazeStructureNeighbors` computes in its local variable `canConnect`:
the cell is a `CELL` structure of its own, or its structure has a perimeter record for it. -/
def canConnect (s : MazeComplex) (e : MazeElement) : Bool :=
  if (s.structAt e.parentStructure).structureType ≠ StructureType.CELL then
    (s.structAt e.parentStructure).perimeterCells.any fun perimCell => perimCell.cell = e.place
  else true

/-- The index of the cell next to cell `i` on side `d`. -/
def neighborIndex (numCellX i : Int) : Direction → Int
  | Direction.NORTH => i - numCellX
  | Direction.SOUTH => i + numCellX
  | Direction.EAST => i + 1
  | Direction.WEST => i - 1

/-- Cell `i` has a cell of the grid next to it on side `d`. -/
def hasNeighbor (numCellX numCellY i : Int) : Direction → Bool
  | Direction.NORTH => decide (0 < i / numCellX)
  | Direction.SOUTH => decide (i / numCellX < numCellY - 1)
  | Direction.EAST => decide (i % numCellX < numCellX - 1)
  | Direction.WEST => decide (0 < i % numCellX)

/-- The key of a perimeter record: its side and its cell. -/
def PerimeterCell.key (p : PerimeterCell) : Direction × Int :=
  (p.direction, p.cell)

/-- The record that the loops of `checkCell` stop at: the first one of `cell` on side
`direction`. -/
def findPerimeter (cell : Int) (direction : Direction) (l : List PerimeterCell) :
    Option PerimeterCell :=
  l.find? fun p => decide (p.cell = cell ∧ p.direction = direction)

/-- The structure of cell `i` has a perimeter record for `i` on side `d`. -/
def MazeComplex.hasRecord (s : MazeComplex) (i : Int) (d : Direction) : Bool :=
  (findPerimeter i d (s.structOf i).perimeterCells).isSome

/-- The perimeter record of cell `i` on side `d` exists and has `visited = false`
(the wall is removed). -/
def MazeComplex.wallOpen (s : MazeComplex) (i : Int) (d : Direction) : Bool :=
  match findPerimeter i d (s.structOf i).perimeterCells with
  | some p => !p.visited
  | none => false

/-- The grid position `(x, y)` lies in the footprint of the structure. -/
def MazeStructure.inFootprint (st : MazeStructure) (x y : Int) : Prop :=
  st.startX ≤ x ∧ x < st.startX + st.width ∧ st.startY ≤ y ∧ y < st.startY + st.height

/-- The maze is a grid: `numCellX * numCellY` cells, cell `i` at column `i % numCellX` of
row `i / numCellX`. -/
structure GridWF (s : MazeComplex) : Prop where
  nx_pos : 0 < s.numCellX
  ny_pos : 0 < s.numCellY
  len : (s.maze.length : Int) = s.numCellX * s.numCellY
  place : ∀ i, s.inRange i → (s.cell i).place = i
  gridX : ∀ i, s.inRange i → (s.cell i).gridX = i % s.numCellX
  gridY : ∀ i, s.inRange i → (s.cell i).gridY = i / s.numCellX

/-- The structures referenced by the cells are rectangles of the grid that contain the
cells referencing them, are shared by all the cells they cover, and carry the perimeter
records the constructor made (up to the wall flags). -/
structure StructWF (s : MazeComplex) : Prop where
  handle : ∀ i, s.inRange i → (s.cell i).parentStructure < s.structures.length
  bounds : ∀ i, s.inRange i →
    0 ≤ (s.structOf i).startX ∧ (s.structOf i).startX + (s.structOf i).width ≤ s.numCellX ∧
    0 ≤ (s.structOf i).startY ∧ (s.structOf i).startY + (s.structOf i).height ≤ s.numCellY
  contains : ∀ i, s.inRange i →
    (s.structOf i).inFootprint (i % s.numCellX) (i / s.numCellX)
  shared : ∀ i j, s.inRange i → s.inRange j →
    (s.structOf i).inFootprint (j % s.numCellX) (j / s.numCellX) →
    (s.cell j).parentStructure = (s.cell i).parentStructure
  perims : ∀ i, s.inRange i →
    (s.structOf i).perimeterCells.map PerimeterCell.key =
      (MazeStructure.new (s.structOf i).width (s.structOf i).height (s.structOf i).startX
        (s.structOf i).startY s.numCellX).perimeterCells.map PerimeterCell.key
  single : ∀ i, s.inRange i → (s.structOf i).structureType = StructureType.CELL →
    (s.structOf i).width = 1 ∧ (s.structOf i).height = 1

/-- The index of the start cell. -/
def MazeComplex.start (s : MazeComplex) : Int :=
  s.startY * s.numCellX + s.startX

/-- What holds of the frontier, the visited flags, the distances and the walls while the
maze grows. -/
structure GrowthInv (s : MazeComplex) : Prop where
  start_x : 0 ≤ s.startX ∧ s.startX < s.numCellX
  start_y : 0 ≤ s.startY ∧ s.startY < s.numCellY
  start_visited : (s.cell s.start).visited = true
  frontier_nodup : s.frontier.Nodup
  frontier_mem : ∀ f ∈ s.frontier,
    s.inRange f ∧ (s.cell f).visited = false ∧ canConnect s (s.cell f) = true
  closure : 1 < s.numCellX → ∀ v d, s.inRange v → (s.cell v).visited = true →
    hasNeighbor s.numCellX s.numCellY v d = true →
    canConnect s (s.cell (neighborIndex s.numCellX v d)) = true →
    (s.cell (neighborIndex s.numCellX v d)).visited = false →
    neighborIndex s.numCellX v d ∈ s.frontier
  visited_connect : ∀ v, s.inRange v → (s.cell v).visited = true → v ≠ s.start →
    canConnect s (s.cell v) = true
  distance : ∀ v, s.inRange v → (s.cell v).visited = true →
    (s.cell v).distance =
      |v % s.numCellX - s.startX| + |v / s.numCellX - s.startY|
  wall_sym : ∀ a d, s.inRange a → hasNeighbor s.numCellX s.numCellY a d = true →
    (s.wallOpen a d = true ↔
      s.wallOpen (neighborIndex s.numCellX a d) (getOppositeDirection d) = true)
  open_visited : ∀ a d, s.inRange a → s.wallOpen a d = true → (s.cell a).visited = true
  narrow : s.numCellX = 1 → s.frontier = []
  anchored : canConnect s (s.cell s.start) = true → ∀ f ∈ s.frontier, ∃ d,
    hasNeighbor s.numCellX s.numCellY f d = true ∧
    (s.cell (neighborIndex s.numCellX f d)).visited = true ∧
    canConnect s (s.cell (neighborIndex s.numCellX f d)) = true

/-- The states of a maze model on a grid with at least one cell: the one
`initMazeComplex` builds from an emptied model, and those that `lookahead` and
`generateCompleteMaze` make from them. -/
inductive Reachable : MazeComplex → Prop where
  | init (rng : Nat → Nat) (game : Game) (s : MazeComplex) (k : Nat) (s0 : MazeComplex)
      (k0 : Nat) :
      0 < game.app.screenWidth.tdiv game.renderConfig.pixelSize →
      0 < game.app.screenHeight.tdiv game.renderConfig.pixelSize →
      initMazeComplex rng game (resetMazeComplex s) k = some (s0, k0) → Reachable s0
  | lookahead (rng : Nat → Nat) (currentTime : Nat) (s : MazeComplex) (k : Nat) :
      Reachable s → Reachable (lookahead rng currentTime s k).1
  | generate (rng : Nat → Nat) (fuel : Nat) (s : MazeComplex) (k : Nat) (s1 : MazeComplex)
      (k1 : Nat) :
      Reachable s → generateCompleteMaze rng fuel s k = some (s1, k1) → Reachable s1

/-- The state `s2` has the grid, the start, the structure handles, the rectangles, the
types and the record keys of `s`: only the `visited`, `distance` and `generationTime` of
cells, the wall flags, the frontier and the completion data may differ. -/
structure SameStatic (s s2 : MazeComplex) : Prop where
  numCellX : s2.numCellX = s.numCellX
  numCellY : s2.numCellY = s.numCellY
  startX : s2.startX = s.startX
  startY : s2.startY = s.startY
  length : s2.maze.length = s.maze.length
  slength : s2.structures.length = s.structures.length
  place : ∀ i, (s2.cell i).place = (s.cell i).place
  gridX : ∀ i, (s2.cell i).gridX = (s.cell i).gridX
  gridY : ∀ i, (s2.cell i).gridY = (s.cell i).gridY
  parent : ∀ i, (s2.cell i).parentStructure = (s.cell i).parentStructure
  width : ∀ h, (s2.structAt h).width = (s.structAt h).width
  height : ∀ h, (s2.structAt h).height = (s.structAt h).height
  sx : ∀ h, (s2.structAt h).startX = (s.structAt h).startX
  sy : ∀ h, (s2.structAt h).startY = (s.structAt h).startY
  stype : ∀ h, (s2.structAt h).structureType = (s.structAt h).structureType
  keys : ∀ h, (s2.structAt h).perimeterCells.map PerimeterCell.key =
    (s.structAt h).perimeterCells.map PerimeterCell.key

/-- The column offset of the neighbour on side `d`. -/
def Direction.dx : Direction → Int
  | Direction.EAST => 1
  | Direction.WEST => -1
  | _ => 0

/-- The row offset of the neighbour on side `d`. -/
def Direction.dy : Direction → Int
  | Direction.SOUTH => 1
  | Direction.NORTH => -1
  | _ => 0

/-- The cell that a growth step takes out of the frontier at draw position `k`. -/
def pickedCell (rng : Nat → Nat) (s : MazeComplex) (k : Nat) : Int :=
  s.frontier.getD (rng k % s.frontier.length) 0

/-- The first half of a pass through the loop body of `lookahead` and of
`generateCompleteMaze`: the picked cell leaves the frontier and is marked, with the
generation time `t`. -/
def visitPicked (rng : Nat → Nat) (t : Int) (s : MazeComplex) (k : Nat) : MazeComplex :=
  let c := pickedCell rng s k
  let s1 : MazeComplex := { s with frontier := s.frontier.eraseIdx (rng k % s.frontier.length) }
  let s2 := s1.modifyCell c fun e => { e with visited := true, generationTime := t }
  s2.modifyCell c fun e =>
    { e with distance := calculateDistance s2.startX s2.startY (s2.cell c).gridX (s2.cell c).gridY }

/-- The pass through the loop body that `lookahead` and `generateCompleteMaze` have in
common, with the generation time `t` they write. -/
def growStep (rng : Nat → Nat) (t : Int) (s : MazeComplex) (k : Nat) : MazeComplex × Nat :=
  let c := pickedCell rng s k
  let r := chooseWallCandidate rng (visitPicked rng t s k) c (k + 1)
  ({ r.1 with frontier := (getNeighbors r.1 (r.1.cell c) false).foldl frontierInsert r.1.frontier },
    r.2)

/-- What one growth step that takes `c` out of the frontier of `s` does. -/
structure StepFacts (s s2 : MazeComplex) (c : Int) : Prop where
  static : SameStatic s s2
  picked : c ∈ s.frontier
  visited_c : (s2.cell c).visited = true
  visited_other : ∀ j, 0 ≤ j → j ≠ c → (s2.cell j).visited = (s.cell j).visited
  distance_c : (s2.cell c).distance =
    |s.startX - c % s.numCellX| + |s.startY - c / s.numCellX|
  distance_other : ∀ j, 0 ≤ j → j ≠ c → (s2.cell j).distance = (s.cell j).distance
  frontier_nodup : s2.frontier.Nodup
  frontier : ∀ x, x ∈ s2.frontier ↔ (x ∈ s.frontier ∧ x ≠ c) ∨
    ∃ d, hasNeighbor s.numCellX s.numCellY c d = true ∧ x = neighborIndex s.numCellX c d ∧
      canConnect s (s.cell x) = true ∧ (s.cell x).visited = false
  walls :
    ((∀ d, hasNeighbor s.numCellX s.numCellY c d = true →
        ¬ ((s.cell (neighborIndex s.numCellX c d)).visited = true ∧
          canConnect s (s.cell (neighborIndex s.numCellX c d)) = true)) ∧
      ∀ x e, s2.wallOpen x e = s.wallOpen x e) ∨
    ∃ d, hasNeighbor s.numCellX s.numCellY c d = true ∧
      (s.cell (neighborIndex s.numCellX c d)).visited = true ∧
      canConnect s (s.cell (neighborIndex s.numCellX c d)) = true ∧
      ∀ x e, s2.wallOpen x e =
        if (x = c ∧ e = d) ∨ (x = neighborIndex s.numCellX c d ∧ e = getOppositeDirection d)
        then s.hasRecord x e else s.wallOpen x e

/-- The offset `(x, y)` inside a `width` by `height` rectangle lies on side `d` of the
rectangle's outline. -/
def onOutline (width height x y : Int) : Direction → Bool
  | Direction.WEST => decide (x = 0)
  | Direction.EAST => decide (x = width - 1)
  | Direction.NORTH => decide (y = 0)
  | Direction.SOUTH => decide (y = height - 1)

/-- The invariant of the maze model. -/
structure MazeInv (s : MazeComplex) : Prop where
  grid : GridWF s
  structs : StructWF s
  growth : GrowthInv s

/-- The number of cells that are not visited. -/
def unvisitedCount (s : MazeComplex) : Nat :=
  s.maze.countP fun e => !e.visited

/-- The number of visited cells. -/
def visitedCount (s : MazeComplex) : Nat :=
  s.maze.countP fun e => e.visited

/-- The state of the maze model before a start cell is marked: a grid of unvisited cells
with all walls present and an empty frontier. -/
structure FreshInv (s : MazeComplex) : Prop where
  grid : GridWF s
  structs : StructWF s
  walls : ∀ h, ∀ p ∈ (s.structAt h).perimeterCells, p.visited = true
  unvisited : ∀ i, (s.cell i).visited = false
  distance : ∀ i, (s.cell i).distance = 0
  frontier : s.frontier = []

/-- The state `addRoom` makes when it places the room with its top-left corner at column
`sX` of row `sY`: a new `ROOM` structure, referenced by the cells of the rectangle. -/
def placeRoom (s : MazeComplex) (sX sY width height : Int) : MazeComplex :=
  (roomFootprint s.numCellX sX sY width height).foldl
    (fun st cellIndex => st.modifyCell cellIndex fun e =>
      { e with parentStructure := s.structures.length })
    { s with structures := s.structures ++
        [{ MazeStructure.new width height sX sY s.numCellX with
            structureType := StructureType.ROOM, height := height, width := width }] }

/-- The state after the first loop of `initMazeComplex`: the grid of cells, each with a
`CELL` structure of its own. -/
def gridState (game : Game) (s : MazeComplex) : MazeComplex :=
  { s with
    pixelSize := game.renderConfig.pixelSize
    mazeComplete := false
    numCellX := game.app.screenWidth.tdiv game.renderConfig.pixelSize
    numCellY := game.app.screenHeight.tdiv game.renderConfig.pixelSize
    maze := s.maze ++ initCells (game.app.screenWidth.tdiv game.renderConfig.pixelSize)
      (game.app.screenHeight.tdiv game.renderConfig.pixelSize) s.structures.length
    structures := s.structures ++
      initStructures (game.app.screenWidth.tdiv game.renderConfig.pixelSize)
        (game.app.screenHeight.tdiv game.renderConfig.pixelSize) }

/-- The last part of `initMazeComplex`, after the rooms: the start cell is marked, the
start position and `maxDistance` are set, and the frontier receives the neighbours of the
start cell. -/
def seedStart (r : MazeComplex) (start numCellX numCellY : Int) : MazeComplex :=
  let s2 := r.modifyCell start fun e => { e with visited := true, generationTime := 0 }
  let startX := (s2.cell start).gridX
  let startY := (s2.cell start).gridY
  let s3 : MazeComplex :=
    { s2 with
      startX := startX
      startY := startY
      maxDistance := max startX (numCellX - startX) + max startY (numCellY - startY) }
  { s3 with frontier := (getNeighbors s3 (s3.cell start) false).foldl frontierInsert s3.frontier }

/-- The index of the start cell that `initMazeComplex` draws at position `k`. -/
def drawnStart (rng : Nat → Nat) (game : Game) (k : Nat) : Int :=
  ((rng k : Nat) : Int).tmod
    (game.app.screenWidth.tdiv game.renderConfig.pixelSize *
      game.app.screenHeight.tdiv game.renderConfig.pixelSize)

/-- A model for the examples: a screen of 100 by 100 pixels with cells of 10 pixels. -/
def exampleGame : Game :=
  { app := { screenWidth := 100, screenHeight := 100 }
    renderConfig :=
      { renderByFrame := false, numRooms := 0, roomWidth := 5, roomHeight := 5, pixelSize := 10 } }

/-- The wall between cell `a` and the cell next to it on side `d` is opened: that cell is
in the grid and the two facing perimeter records are both cleared. -/
def MazeComplex.openEdge (s : MazeComplex) (a : Int) (d : Direction) : Bool :=
  hasNeighbor s.numCellX s.numCellY a d && s.wallOpen a d &&
    s.wallOpen (neighborIndex s.numCellX a d) (getOppositeDirection d)

/-- The number of opened walls: every pair of adjacent cells is looked at once, from its
left cell (side `EAST`) or from its upper cell (side `SOUTH`). -/
def openedWallCount (s : MazeComplex) : Nat :=
  (List.range s.maze.length).countP (fun i => s.openEdge (i : Nat) Direction.EAST) +
    (List.range s.maze.length).countP (fun i => s.openEdge (i : Nat) Direction.SOUTH)

/-- One can go from cell `a` to cell `b` through an opened wall. -/
def MazeComplex.Linked (s : MazeComplex) (a b : Int) : Prop :=
  ∃ d, s.inRange a ∧ s.openEdge a d = true ∧ b = neighborIndex s.numCellX a d

/-- Every cell of the grid is a `CELL` structure (no room was placed). -/
def AllSingle (s : MazeComplex) : Prop :=
  ∀ i, s.inRange i → (s.structOf i).structureType = StructureType.CELL

/-- The opened walls of a maze without rooms form a tree on the visited cells. -/
structure TreeInv (s : MazeComplex) : Prop where
  single : AllSingle s
  count : openedWallCount s + 1 = visitedCount s
  reach : ∀ v, s.inRange v → (s.cell v).visited = true →
    Relation.ReflTransGen s.Linked s.start v

/-- A model for the examples with a room: a screen of 30 by 30 pixels with cells of 10
pixels. -/
def roomGame : Game :=
  { app := { screenWidth := 30, screenHeight := 30 }
    renderConfig :=
      { renderByFrame := false, numRooms := 1, roomWidth := 3, roomHeight := 3, pixelSize := 10 } }

/-- The maze model configured for one room of 3 by 3 cells. -/
def roomModel : MazeComplex :=
  configureRooms MazeComplex.new 1 3 3

/-- The function `generateCompleteMaze` run on the result of `initMazeComplex`. -/
def initAndGenerate (rng : Nat → Nat) (game : Game) (s : MazeComplex) (k fuel : Nat) :
    Option (MazeComplex × Nat) :=
  match initMazeComplex rng game (resetMazeComplex s) k with
  | none => none
  | some r => generateCompleteMaze rng fuel r.1 r.2

/-- A model for the examples with a small room: a screen of 20 by 20 pixels with cells of
10 pixels. -/
def pairGame : Game :=
  { app := { screenWidth := 20, screenHeight := 20 }
    renderConfig :=
      { renderByFrame := false, numRooms := 1, roomWidth := 2, roomHeight := 1, pixelSize := 10 } }

/-- The maze model configured for one room of 2 by 1 cells. -/
def pairModel : MazeComplex :=
  configureRooms MazeComplex.new 1 2 1

/-- A random sequence for the examples: the start cell is cell 2, the room is placed at
cell 0, and the last cell of the room is connected to the cell below it. -/
def pairRng (k : Nat) : Nat :=
  match k with
  | 0 => 2
  | 2 => 1
  | 7 => 1
  | _ => 0

/-- The state and the draw position after `initMazeComplex` in the example. -/
def pairInit : MazeComplex × Nat :=
  (initMazeComplex pairRng pairGame (resetMazeComplex pairModel) 0).getD (pairModel, 0)

/-- The state and the draw position after `generateCompleteMaze` in the example. -/
def pairFinal : MazeComplex × Nat :=
  (generateCompleteMaze pairRng 4 pairInit.1 pairInit.2).getD (pairModel, 0)

/-- Repeating `lookahead` until the frontier is empty, the call number `n` (counted from
the end) being made at tick time `times n`; `fuel` bounds the number of calls, and `none`
means that the bound was reached with a non-empty frontier. -/
def lookaheadUntilEmpty (rng : Nat → Nat) (times : Nat → Nat) :
    Nat → MazeComplex → Nat → Option (MazeComplex × Nat)
  | 0, s, k => if s.frontier.isEmpty then some (s, k) else none
  | fuel + 1, s, k =>
    if s.frontier.isEmpty then some (s, k)
    else
      lookaheadUntilEmpty rng times fuel (lookahead rng (times fuel) s k).1
        (lookahead rng (times fuel) s k).2

/-- The cell with its generation time forgotten. -/
def eraseCellTime (e : MazeElement) : MazeElement :=
  { e with generationTime := -1 }

/-- The state with the generation times of the cells and the completion flag forgotten. -/
def eraseTime (s : MazeComplex) : MazeComplex :=
  { s with maze := s.maze.map eraseCellTime, mazeComplete := false }

/-- The number of structures referenced by the cells. -/
def structureCount (s : MazeComplex) : Nat :=
  (s.maze.map fun e => e.parentStructure).dedup.length

/-- The number of structures referenced by visited cells. -/
def visitedStructureCount (s : MazeComplex) : Nat :=
  ((s.maze.filter fun e => e.visited).map fun e => e.parentStructure).dedup.length

/-- The bounds on the number of opened walls that the growth steps keep. -/
structure BoundInv (s : MazeComplex) : Prop where
  upper : openedWallCount s + 1 ≤ visitedCount s
  lower : canConnect s (s.cell s.start) = true →
    visitedStructureCount s ≤ openedWallCount s + 1

/-- A model for the examples with one column: a screen of 10 by 20 pixels with cells of 10
pixels. -/
def columnGame : Game :=
  { app := { screenWidth := 10, screenHeight := 20 }
    renderConfig :=
      { renderByFrame := false, numRooms := 0, roomWidth := 5, roomHeight := 5, pixelSize := 10 } }

/-- The value that `generateColor` compares with the band boundaries (its local variable
`intensity`): the wave `sin(distance * distanceCoef - time * timeCoef) * 0.5 + 0.5`, times
the pulse `1.0`; without the colour wave, `distance` is first replaced by the quotient
`distance / maxDistance`, converted to `int`. -/
def colorIntensity {F : Type} (ops : FloatOps F) (s : MazeComplex) (cfg : ColorConfig F)
    (distance : Int) (time : Nat) : F :=
  ops.mul
    (ops.add
      (ops.mul
        (ops.sin
          (ops.sub
            (ops.mul
              (ops.ofInt
                (if cfg.colorWave then distance
                  else ops.toInt (ops.div (ops.ofInt distance) (ops.ofInt s.maxDistance))))
              cfg.distanceCoef)
            (ops.mul (ops.ofUint32 time) cfg.timeCoef)))
        (ops.lit (1 / 2)))
      (ops.lit (1 / 2)))
    (ops.lit 1)

/-- The configuration `config` (and `config2`) of the test `test_hash_function`. -/
def testConfig : MazeRenderConfig :=
  { renderByFrame := false, numRooms := 0, roomWidth := 5, roomHeight := 5, pixelSize := 10 }

/-- The configuration `config3` of the test `test_hash_function`. -/
def testConfig3 : MazeRenderConfig :=
  { renderByFrame := true, numRooms := 3, roomWidth := 10, roomHeight := 2, pixelSize := 10 }

/-- The configuration of the test with the angle `2^-21` (about `4.8e-7`) in place of `0`. -/
def tiltedConfig : MazeRenderConfig :=
  { testConfig with angle := 1 / 2097152 }

/-- The relation between a perimeter record `p` of the structure with handle `h` before a
growth step and the record `p2` at the same position after it, when the step connects the
popped cell `c` to its neighbour on side `d`: the record keeps its side and its cell, and
it keeps its wall flag unless it is a record of `c` on side `d` in the structure of `c`, or
a record of the neighbour on the opposite side in the structure of the neighbour, and the
wall is now absent. -/
def wallStep (s : MazeComplex) (c : Int) (d : Direction) (h : Nat) (p p2 : PerimeterCell) :
    Prop :=
  p2.direction = p.direction ∧ p2.cell = p.cell ∧
    (p2.visited = p.visited ∨
      (p2.visited = false ∧
        ((h = (s.cell c).parentStructure ∧ p.cell = c ∧ p.direction = d) ∨
          (h = (s.cell (neighborIndex s.numCellX c d)).parentStructure ∧
            p.cell = neighborIndex s.numCellX c d ∧ p.direction = getOppositeDirection d))))

/-- The number of records of cell `c` on side `d` in a list of perimeter records. -/
def recordCount (l : List PerimeterCell) (c : Int) (d : Direction) : Nat :=
  l.countP fun p => decide (p.cell = c ∧ p.direction = d)

/-- The floating-point operations give the truncated integer quotient for the quotient of
two `int` values `0 <= a <= b` with `1 <= b < 2^24`, converted back to `int`. Single
precision has this property: `a` and `b` are converted exactly, the rounded quotient of
`a < b` is at most `1 - 2^-24`, and the quotient of `a = b` is 1. -/
def FloatOps.ExactQuotient {F : Type} (ops : FloatOps F) : Prop :=
  ∀ a b : Int, 0 ≤ a → a ≤ b → 1 ≤ b → b < 2 ^ 24 →
    ops.toInt (ops.div (ops.ofInt a) (ops.ofInt b)) = a.tdiv b

/-- Exact rational arithmetic as an interpretation of the floating-point operations, for
the examples; `sin`, which is not a rational function, is the constant 0 in it. -/
def ratOps : FloatOps Rat :=
  { ofInt := fun i => (i : Rat)
    ofUint32 := fun n => (n : Rat)
    toInt := fun q => q.num.tdiv q.den
    toUint8 := fun q => (q.num.tdiv q.den).toNat % 256
    add := fun a b => a + b
    sub := fun a b => a - b
    mul := fun a b => a * b
    div := fun a b => a / b
    sin := fun _ => 0
    lt := fun a b => decide (a < b)
    lit := fun q => q }

/-- A colour configuration for the examples, without the colour wave. -/
def flatColors : ColorConfig Rat :=
  { color1 := { x := 1, y := 0, z := 0, w := 1 }
    color2 := { x := 0, y := 1, z := 0, w := 1 }
    color3 := { x := 0, y := 0, z := 1, w := 1 }
    colorWave := false
    distanceCoef := 1 / 2
    timeCoef := 1 / 100 }

/-! ## Reading and writing cells and structures -/

theorem getD_set_eq {α : Type} (l : List α) (i j : Nat) (a d : α) :
    (l.set i a).getD j d = if i = j ∧ i < l.length then a else l.getD j d := by
  simp only [List.getD_eq_getElem?_getD, List.getElem?_set]
  by_cases h : i = j
  · subst h
    by_cases h2 : i < l.length
    · simp [h2]
    · simp [h2, List.getElem?_eq_none (Nat.le_of_not_lt h2)]
  · simp [h]

@[simp] theorem modifyCell_numCellX (s : MazeComplex) (i : Int) (f : MazeElement → MazeElement) :
    (s.modifyCell i f).numCellX = s.numCellX := by
  unfold MazeComplex.modifyCell; split <;> rfl

@[simp] theorem modifyCell_numCellY (s : MazeComplex) (i : Int) (f : MazeElement → MazeElement) :
    (s.modifyCell i f).numCellY = s.numCellY := by
  unfold MazeComplex.modifyCell; split <;> rfl

@[simp] theorem modifyCell_structures (s : MazeComplex) (i : Int)
    (f : MazeElement → MazeElement) : (s.modifyCell i f).structures = s.structures := by
  unfold MazeComplex.modifyCell; split <;> rfl

@[simp] theorem modifyCell_frontier (s : MazeComplex) (i : Int) (f : MazeElement → MazeElement) :
    (s.modifyCell i f).frontier = s.frontier := by
  unfold MazeComplex.modifyCell; split <;> rfl

@[simp] theorem modifyCell_startX (s : MazeComplex) (i : Int) (f : MazeElement → MazeElement) :
    (s.modifyCell i f).startX = s.startX := by
  unfold MazeComplex.modifyCell; split <;> rfl

@[simp] theorem modifyCell_startY (s : MazeComplex) (i : Int) (f : MazeElement → MazeElement) :
    (s.modifyCell i f).startY = s.startY := by
  unfold MazeComplex.modifyCell; split <;> rfl

@[simp] theorem modifyCell_maxDistance (s : MazeComplex) (i : Int)
    (f : MazeElement → MazeElement) : (s.modifyCell i f).maxDistance = s.maxDistance := by
  unfold MazeComplex.modifyCell; split <;> rfl

@[simp] theorem modifyCell_mazeComplete (s : MazeComplex) (i : Int)
    (f : MazeElement → MazeElement) : (s.modifyCell i f).mazeComplete = s.mazeComplete := by
  unfold MazeComplex.modifyCell; split <;> rfl

@[simp] theorem modifyCell_length (s : MazeComplex) (i : Int) (f : MazeElement → MazeElement) :
    (s.modifyCell i f).maze.length = s.maze.length := by
  unfold MazeComplex.modifyCell; split <;> simp

@[simp] theorem modifyCell_structAt (s : MazeComplex) (i : Int) (f : MazeElement → MazeElement)
    (h : Nat) : (s.modifyCell i f).structAt h = s.structAt h := by
  simp [MazeComplex.structAt]

theorem cell_modifyCell (s : MazeComplex) (i j : Int) (f : MazeElement → MazeElement)
    (hj : 0 ≤ j) :
    (s.modifyCell i f).cell j =
      if j = i ∧ i.toNat < s.maze.length then f (s.cell i) else s.cell j := by
  unfold MazeComplex.modifyCell
  by_cases h : 0 ≤ i ∧ i.toNat < s.maze.length
  · rw [if_pos h]
    simp only [MazeComplex.cell, getD_set_eq]
    by_cases hji : j = i
    · subst hji; simp [h.2]
    · have : ¬ i.toNat = j.toNat := by omega
      simp [hji, this]
  · rw [if_neg h]
    by_cases hji : j = i
    · subst hji
      have : ¬ j.toNat < s.maze.length := fun h2 => h ⟨hj, h2⟩
      simp [this]
    · simp [hji]

theorem cell_modifyCell_self (s : MazeComplex) (i : Int) (f : MazeElement → MazeElement)
    (hi : 0 ≤ i) (hlt : i.toNat < s.maze.length) : (s.modifyCell i f).cell i = f (s.cell i) := by
  rw [cell_modifyCell s i i f hi]; simp [hlt]

theorem cell_modifyCell_ne (s : MazeComplex) (i j : Int) (f : MazeElement → MazeElement)
    (hj : 0 ≤ j) (hne : j ≠ i) : (s.modifyCell i f).cell j = s.cell j := by
  rw [cell_modifyCell s i j f hj]; simp [hne]

@[simp] theorem modifyStruct_numCellX (s : MazeComplex) (h : Nat)
    (f : MazeStructure → MazeStructure) : (s.modifyStruct h f).numCellX = s.numCellX := rfl

@[simp] theorem modifyStruct_numCellY (s : MazeComplex) (h : Nat)
    (f : MazeStructure → MazeStructure) : (s.modifyStruct h f).numCellY = s.numCellY := rfl

@[simp] theorem modifyStruct_maze (s : MazeComplex) (h : Nat)
    (f : MazeStructure → MazeStructure) : (s.modifyStruct h f).maze = s.maze := rfl

@[simp] theorem modifyStruct_frontier (s : MazeComplex) (h : Nat)
    (f : MazeStructure → MazeStructure) : (s.modifyStruct h f).frontier = s.frontier := rfl

@[simp] theorem modifyStruct_startX (s : MazeComplex) (h : Nat)
    (f : MazeStructure → MazeStructure) : (s.modifyStruct h f).startX = s.startX := rfl

@[simp] theorem modifyStruct_startY (s : MazeComplex) (h : Nat)
    (f : MazeStructure → MazeStructure) : (s.modifyStruct h f).startY = s.startY := rfl

@[simp] theorem modifyStruct_cell (s : MazeComplex) (h : Nat)
    (f : MazeStructure → MazeStructure) (i : Int) : (s.modifyStruct h f).cell i = s.cell i := rfl

@[simp] theorem modifyStruct_length (s : MazeComplex) (h : Nat)
    (f : MazeStructure → MazeStructure) :
    (s.modifyStruct h f).structures.length = s.structures.length := by
  simp [MazeComplex.modifyStruct]

theorem structAt_modifyStruct (s : MazeComplex) (h h2 : Nat)
    (f : MazeStructure → MazeStructure) :
    (s.modifyStruct h f).structAt h2 =
      if h = h2 ∧ h < s.structures.length then f (s.structAt h) else s.structAt h2 := by
  simp only [MazeComplex.modifyStruct, MazeComplex.structAt, getD_set_eq]

/-- A structure update that keeps every field but the wall flags keeps every field but the
wall flags of every structure. -/
theorem structAt_modifyStruct_field {β : Type} (s : MazeComplex) (h h2 : Nat)
    (f : MazeStructure → MazeStructure) (proj : MazeStructure → β)
    (hf : ∀ st, proj (f st) = proj st) :
    proj ((s.modifyStruct h f).structAt h2) = proj (s.structAt h2) := by
  rw [structAt_modifyStruct]
  split
  · next hh => rw [hf, hh.1]
  · rfl

/-! ## The loop of `checkCell` on a list of perimeter records -/

theorem clearWall_keys (c : Int) (d : Direction) (l : List PerimeterCell) :
    (clearWall c d l).map PerimeterCell.key = l.map PerimeterCell.key := by
  induction l with
  | nil => rfl
  | cons p rest ih =>
    unfold clearWall
    split
    · simp [PerimeterCell.key]
    · simp [ih]

theorem findPerimeter_clearWall (c c2 : Int) (d d2 : Direction) (l : List PerimeterCell) :
    findPerimeter c2 d2 (clearWall c d l) =
      if c2 = c ∧ d2 = d then
        (findPerimeter c d l).map fun p => { p with visited := false }
      else findPerimeter c2 d2 l := by
  induction l with
  | nil => simp [clearWall, findPerimeter]
  | cons p rest ih =>
    unfold clearWall
    by_cases hp : p.cell = c ∧ p.direction = d
    · rw [if_pos hp]
      by_cases hq : c2 = c ∧ d2 = d
      · rw [if_pos hq]
        obtain ⟨rfl, rfl⟩ := hq
        simp [findPerimeter, List.find?_cons, hp]
      · rw [if_neg hq]
        have h1 : ¬ (p.cell = c2 ∧ p.direction = d2) := by
          rintro ⟨h1, h2⟩; exact hq ⟨by rw [← h1, hp.1], by rw [← h2, hp.2]⟩
        simp [findPerimeter, List.find?_cons, h1]
    · rw [if_neg hp]
      unfold findPerimeter at ih ⊢
      rw [List.find?_cons]
      by_cases hq : c2 = c ∧ d2 = d
      · rw [if_pos hq] at ih
        rw [if_pos hq]
        obtain ⟨rfl, rfl⟩ := hq
        simp only [hp, decide_False]
        rw [ih, List.find?_cons]
        simp [hp]
      · rw [if_neg hq] at ih
        rw [if_neg hq, ih, List.find?_cons]

theorem findPerimeter_isSome_iff (c : Int) (d : Direction) (l : List PerimeterCell) :
    (findPerimeter c d l).isSome = true ↔ (d, c) ∈ l.map PerimeterCell.key := by
  unfold findPerimeter
  rw [List.find?_isSome]
  simp only [List.mem_map, PerimeterCell.key, decide_eq_true_eq, Prod.mk.injEq]
  constructor
  · rintro ⟨p, hp, h1, h2⟩; exact ⟨p, hp, h2, h1⟩
  · rintro ⟨p, hp, h1, h2⟩; exact ⟨p, hp, h2, h1⟩

theorem any_cell_iff (x : Int) (l : List PerimeterCell) :
    (l.any fun p => decide (p.cell = x)) = true ↔ ∃ d, (d, x) ∈ l.map PerimeterCell.key := by
  simp only [List.any_eq_true, decide_eq_true_eq, List.mem_map, PerimeterCell.key,
    Prod.mk.injEq]
  constructor
  · rintro ⟨p, hp, h⟩; exact ⟨p.direction, p, hp, rfl, h⟩
  · rintro ⟨d, p, hp, _, h⟩; exact ⟨p, hp, h⟩

theorem any_cell_congr (x : Int) (l l2 : List PerimeterCell)
    (h : l2.map PerimeterCell.key = l.map PerimeterCell.key) :
    (l2.any fun p => decide (p.cell = x)) = (l.any fun p => decide (p.cell = x)) := by
  rw [Bool.eq_iff_iff, any_cell_iff, any_cell_iff, h]

theorem findPerimeter_isSome_congr (c : Int) (d : Direction) (l l2 : List PerimeterCell)
    (h : l2.map PerimeterCell.key = l.map PerimeterCell.key) :
    (findPerimeter c d l2).isSome = (findPerimeter c d l).isSome := by
  rw [Bool.eq_iff_iff, findPerimeter_isSome_iff, findPerimeter_isSome_iff, h]

/-! ## What does not change while the maze grows -/

theorem SameStatic.refl (s : MazeComplex) : SameStatic s s :=
  ⟨rfl, rfl, rfl, rfl, rfl, rfl, fun _ => rfl, fun _ => rfl, fun _ => rfl, fun _ => rfl,
    fun _ => rfl, fun _ => rfl, fun _ => rfl, fun _ => rfl, fun _ => rfl, fun _ => rfl⟩

theorem SameStatic.trans {s s2 s3 : MazeComplex} (h : SameStatic s s2) (h2 : SameStatic s2 s3) :
    SameStatic s s3 :=
  ⟨h2.numCellX.trans h.numCellX, h2.numCellY.trans h.numCellY, h2.startX.trans h.startX,
    h2.startY.trans h.startY, h2.length.trans h.length, h2.slength.trans h.slength,
    fun i => (h2.place i).trans (h.place i), fun i => (h2.gridX i).trans (h.gridX i),
    fun i => (h2.gridY i).trans (h.gridY i), fun i => (h2.parent i).trans (h.parent i),
    fun i => (h2.width i).trans (h.width i), fun i => (h2.height i).trans (h.height i),
    fun i => (h2.sx i).trans (h.sx i), fun i => (h2.sy i).trans (h.sy i),
    fun i => (h2.stype i).trans (h.stype i), fun i => (h2.keys i).trans (h.keys i)⟩

theorem SameStatic.symm {s s2 : MazeComplex} (h : SameStatic s s2) : SameStatic s2 s :=
  ⟨h.numCellX.symm, h.numCellY.symm, h.startX.symm, h.startY.symm, h.length.symm,
    h.slength.symm, fun i => (h.place i).symm, fun i => (h.gridX i).symm,
    fun i => (h.gridY i).symm, fun i => (h.parent i).symm, fun i => (h.width i).symm,
    fun i => (h.height i).symm, fun i => (h.sx i).symm, fun i => (h.sy i).symm,
    fun i => (h.stype i).symm, fun i => (h.keys i).symm⟩

theorem cell_modifyCell_field {β : Type} (s : MazeComplex) (c i : Int)
    (f : MazeElement → MazeElement) (proj : MazeElement → β)
    (hf : ∀ e, proj (f e) = proj e) :
    proj ((s.modifyCell c f).cell i) = proj (s.cell i) := by
  unfold MazeComplex.modifyCell
  split
  · simp only [MazeComplex.cell, getD_set_eq]
    split
    · next h => rw [hf, h.1]
    · rfl
  · rfl

/-- An assignment to the `visited`, `generationTime` or `distance` of a cell. -/
theorem sameStatic_modifyCell (s : MazeComplex) (c : Int) (f : MazeElement → MazeElement)
    (h1 : ∀ e, (f e).place = e.place) (h2 : ∀ e, (f e).gridX = e.gridX)
    (h3 : ∀ e, (f e).gridY = e.gridY) (h4 : ∀ e, (f e).parentStructure = e.parentStructure) :
    SameStatic s (s.modifyCell c f) :=
  ⟨by simp, by simp, by simp, by simp, by simp, by simp,
    fun i => cell_modifyCell_field s c i f (fun e => e.place) h1,
    fun i => cell_modifyCell_field s c i f (fun e => e.gridX) h2,
    fun i => cell_modifyCell_field s c i f (fun e => e.gridY) h3,
    fun i => cell_modifyCell_field s c i f (fun e => e.parentStructure) h4,
    fun h => by simp, fun h => by simp, fun h => by simp, fun h => by simp, fun h => by simp,
    fun h => by simp⟩

/-- One loop of `checkCell`. -/
theorem sameStatic_clearWall (s : MazeComplex) (h : Nat) (c : Int) (d : Direction) :
    SameStatic s (s.modifyStruct h fun st =>
      { st with perimeterCells := clearWall c d st.perimeterCells }) :=
  ⟨rfl, rfl, rfl, rfl, rfl, by simp, fun _ => rfl, fun _ => rfl, fun _ => rfl, fun _ => rfl,
    fun h2 => structAt_modifyStruct_field s h h2 _ (fun st => st.width) (fun _ => rfl),
    fun h2 => structAt_modifyStruct_field s h h2 _ (fun st => st.height) (fun _ => rfl),
    fun h2 => structAt_modifyStruct_field s h h2 _ (fun st => st.startX) (fun _ => rfl),
    fun h2 => structAt_modifyStruct_field s h h2 _ (fun st => st.startY) (fun _ => rfl),
    fun h2 => structAt_modifyStruct_field s h h2 _ (fun st => st.structureType) (fun _ => rfl),
    fun h2 => structAt_modifyStruct_field s h h2 _
      (fun st => st.perimeterCells.map PerimeterCell.key) (fun st => clearWall_keys c d _)⟩

theorem sameStatic_frontier (s : MazeComplex) (fr : List Int) :
    SameStatic s { s with frontier := fr } :=
  ⟨rfl, rfl, rfl, rfl, rfl, rfl, fun _ => rfl, fun _ => rfl, fun _ => rfl, fun _ => rfl,
    fun _ => rfl, fun _ => rfl, fun _ => rfl, fun _ => rfl, fun _ => rfl, fun _ => rfl⟩

theorem sameStatic_complete (s : MazeComplex) (b : Bool) :
    SameStatic s { s with mazeComplete := b } :=
  ⟨rfl, rfl, rfl, rfl, rfl, rfl, fun _ => rfl, fun _ => rfl, fun _ => rfl, fun _ => rfl,
    fun _ => rfl, fun _ => rfl, fun _ => rfl, fun _ => rfl, fun _ => rfl, fun _ => rfl⟩

theorem sameStatic_checkCell (s : MazeComplex) (d : Direction) (one two : Int) :
    SameStatic s (checkCell s d one two) := by
  unfold checkCell
  exact (sameStatic_clearWall s _ one d).trans (sameStatic_clearWall _ _ two _)

theorem sameStatic_removeWall (s : MazeComplex) (c1 c2 : Int) :
    SameStatic s (removeWall s c1 c2) := by
  unfold removeWall
  simp only
  split <;> split <;> exact sameStatic_checkCell _ _ _ _

theorem sameStatic_chooseWallCandidate (rng : Nat → Nat) (s : MazeComplex) (c : Int) (k : Nat) :
    SameStatic s (chooseWallCandidate rng s c k).1 := by
  unfold chooseWallCandidate
  simp only
  split
  · exact sameStatic_removeWall _ _ _
  · exact SameStatic.refl s

theorem SameStatic.inRange {s s2 : MazeComplex} (h : SameStatic s s2) (i : Int) :
    s2.inRange i ↔ s.inRange i := by
  unfold MazeComplex.inRange; rw [h.numCellX, h.numCellY]

theorem SameStatic.structOf_eq {s s2 : MazeComplex} (h : SameStatic s s2) (i : Int) :
    s2.structOf i = s2.structAt (s.cell i).parentStructure := by
  unfold MazeComplex.structOf; rw [h.parent]

theorem SameStatic.canConnect {s s2 : MazeComplex} (h : SameStatic s s2) (i : Int) :
    canConnect s2 (s2.cell i) = canConnect s (s.cell i) := by
  unfold Maze.canConnect
  rw [h.parent, h.place, h.stype, any_cell_congr _ _ _ (h.keys _)]

theorem SameStatic.hasRecord {s s2 : MazeComplex} (h : SameStatic s s2) (i : Int)
    (d : Direction) : s2.hasRecord i d = s.hasRecord i d := by
  unfold MazeComplex.hasRecord
  rw [h.structOf_eq]
  exact findPerimeter_isSome_congr _ _ _ _ (h.keys _)

theorem SameStatic.gridWF {s s2 : MazeComplex} (h : SameStatic s s2) (g : GridWF s) :
    GridWF s2 where
  nx_pos := by rw [h.numCellX]; exact g.nx_pos
  ny_pos := by rw [h.numCellY]; exact g.ny_pos
  len := by rw [h.length, h.numCellX, h.numCellY]; exact g.len
  place i hi := by rw [h.place]; exact g.place i ((h.inRange i).1 hi)
  gridX i hi := by rw [h.gridX, h.numCellX]; exact g.gridX i ((h.inRange i).1 hi)
  gridY i hi := by rw [h.gridY, h.numCellX]; exact g.gridY i ((h.inRange i).1 hi)

theorem SameStatic.inFootprint {s s2 : MazeComplex} (h : SameStatic s s2) (i : Int)
    (x y : Int) : (s2.structOf i).inFootprint x y ↔ (s.structOf i).inFootprint x y := by
  rw [h.structOf_eq]
  unfold MazeStructure.inFootprint MazeComplex.structOf
  rw [h.sx, h.sy, h.width, h.height]

theorem SameStatic.structWF {s s2 : MazeComplex} (h : SameStatic s s2) (g : StructWF s) :
    StructWF s2 where
  handle i hi := by rw [h.parent, h.slength]; exact g.handle i ((h.inRange i).1 hi)
  bounds i hi := by
    have := g.bounds i ((h.inRange i).1 hi)
    rw [h.structOf_eq, h.sx, h.sy, h.width, h.height, h.numCellX, h.numCellY]
    exact this
  contains i hi := by
    rw [h.inFootprint, h.numCellX]; exact g.contains i ((h.inRange i).1 hi)
  shared i j hi hj hf := by
    rw [h.parent, h.parent]
    rw [h.inFootprint, h.numCellX] at hf
    exact g.shared i j ((h.inRange i).1 hi) ((h.inRange j).1 hj) hf
  perims i hi := by
    have := g.perims i ((h.inRange i).1 hi)
    rw [h.structOf_eq, h.keys, h.sx, h.sy, h.width, h.height, h.numCellX]
    exact this
  single i hi ht := by
    rw [h.structOf_eq, h.stype] at ht
    rw [h.structOf_eq, h.width, h.height]
    exact g.single i ((h.inRange i).1 hi) ht

/-! ## Arithmetic of the grid -/

theorem tmod_eq_emod_nat {a b : Int} (ha : 0 ≤ a) (hb : 0 ≤ b) : a.tmod b = a % b :=
  Int.tmod_eq_emod ha hb

theorem index_coords {nx : Int} (hnx : 0 < nx) (x y : Int) (hx : 0 ≤ x) (hx2 : x < nx) :
    (y * nx + x) % nx = x ∧ (y * nx + x) / nx = y := by
  constructor
  · rw [add_comm, Int.add_mul_emod_self]; exact Int.emod_eq_of_lt hx hx2
  · rw [add_comm, Int.add_mul_ediv_right _ _ (ne_of_gt hnx), Int.ediv_eq_zero_of_lt hx hx2]
    simp

theorem index_split (nx i : Int) : i = i / nx * nx + i % nx := by
  have := Int.ediv_add_emod i nx
  rw [mul_comm] at this; exact this.symm

theorem coords_range {nx ny : Int} (hnx : 0 < nx) (i : Int) (h0 : 0 ≤ i) (h1 : i < nx * ny) :
    0 ≤ i % nx ∧ i % nx < nx ∧ 0 ≤ i / nx ∧ i / nx < ny := by
  refine ⟨Int.emod_nonneg _ (ne_of_gt hnx), Int.emod_lt_of_pos _ hnx,
    Int.ediv_nonneg h0 (le_of_lt hnx), ?_⟩
  exact Int.ediv_lt_of_lt_mul hnx (by rw [mul_comm]; exact h1)

theorem index_range {nx ny : Int} (x y : Int) (hx : 0 ≤ x) (hx2 : x < nx) (hy : 0 ≤ y)
    (hy2 : y < ny) : 0 ≤ y * nx + x ∧ y * nx + x < nx * ny := by
  have hnx : 0 < nx := lt_of_le_of_lt hx hx2
  constructor
  · have := mul_nonneg hy (le_of_lt hnx); omega
  · have h1 : (y + 1) * nx ≤ ny * nx := Int.mul_le_mul_of_nonneg_right (by omega) (le_of_lt hnx)
    have h2 : (y + 1) * nx = y * nx + nx := by ring
    have h3 : ny * nx = nx * ny := mul_comm _ _
    omega

theorem neighbor_split (nx i : Int) (d : Direction) :
    neighborIndex nx i d = (i / nx + d.dy) * nx + (i % nx + d.dx) := by
  have := index_split nx i
  cases d <;> simp only [neighborIndex, Direction.dx, Direction.dy] <;> linarith

theorem neighbor_bounds {nx ny : Int} (hnx : 0 < nx) (i : Int) (d : Direction)
    (h0 : 0 ≤ i) (h1 : i < nx * ny) (h : hasNeighbor nx ny i d = true) :
    (0 ≤ i % nx + d.dx ∧ i % nx + d.dx < nx) ∧ (0 ≤ i / nx + d.dy ∧ i / nx + d.dy < ny) := by
  have hc := coords_range hnx i h0 h1
  cases d <;> simp only [hasNeighbor, decide_eq_true_eq] at h <;>
    simp only [Direction.dx, Direction.dy] <;> omega

theorem neighbor_coords {nx ny : Int} (hnx : 0 < nx) (i : Int) (d : Direction)
    (h0 : 0 ≤ i) (h1 : i < nx * ny) (h : hasNeighbor nx ny i d = true) :
    neighborIndex nx i d % nx = i % nx + d.dx ∧ neighborIndex nx i d / nx = i / nx + d.dy := by
  have hb := neighbor_bounds hnx i d h0 h1 h
  rw [neighbor_split]
  exact index_coords hnx _ _ hb.1.1 hb.1.2

theorem neighbor_range {nx ny : Int} (hnx : 0 < nx) (i : Int) (d : Direction)
    (h0 : 0 ≤ i) (h1 : i < nx * ny) (h : hasNeighbor nx ny i d = true) :
    0 ≤ neighborIndex nx i d ∧ neighborIndex nx i d < nx * ny := by
  have hb := neighbor_bounds hnx i d h0 h1 h
  rw [neighbor_split]
  exact index_range _ _ hb.1.1 hb.1.2 hb.2.1 hb.2.2

theorem neighbor_opposite (nx i : Int) (d : Direction) :
    neighborIndex nx (neighborIndex nx i d) (getOppositeDirection d) = i := by
  cases d <;> simp [neighborIndex, getOppositeDirection]

theorem opposite_opposite (d : Direction) :
    getOppositeDirection (getOppositeDirection d) = d := by
  cases d <;> rfl

theorem opposite_dx (d : Direction) : (getOppositeDirection d).dx = - d.dx := by
  cases d <;> simp [getOppositeDirection, Direction.dx]

theorem opposite_dy (d : Direction) : (getOppositeDirection d).dy = - d.dy := by
  cases d <;> simp [getOppositeDirection, Direction.dy]

theorem hasNeighbor_iff {nx ny : Int} (i : Int) (d : Direction) (hx : 0 ≤ i % nx)
    (hx2 : i % nx < nx) (hy : 0 ≤ i / nx) (hy2 : i / nx < ny) :
    hasNeighbor nx ny i d = true ↔
      (0 ≤ i % nx + d.dx ∧ i % nx + d.dx < nx) ∧ (0 ≤ i / nx + d.dy ∧ i / nx + d.dy < ny) := by
  cases d <;> simp only [hasNeighbor, decide_eq_true_eq, Direction.dx, Direction.dy] <;> omega

theorem neighbor_hasNeighbor {nx ny : Int} (hnx : 0 < nx) (i : Int) (d : Direction)
    (h0 : 0 ≤ i) (h1 : i < nx * ny) (h : hasNeighbor nx ny i d = true) :
    hasNeighbor nx ny (neighborIndex nx i d) (getOppositeDirection d) = true := by
  have hb := neighbor_bounds hnx i d h0 h1 h
  have hc := neighbor_coords hnx i d h0 h1 h
  have hi := coords_range hnx i h0 h1
  rw [hasNeighbor_iff _ _ (by rw [hc.1]; exact hb.1.1) (by rw [hc.1]; exact hb.1.2)
    (by rw [hc.2]; exact hb.2.1) (by rw [hc.2]; exact hb.2.2)]
  rw [hc.1, hc.2, opposite_dx, opposite_dy]
  omega

theorem neighbor_ne (nx i : Int) (hnx : 0 < nx) (d : Direction) : neighborIndex nx i d ≠ i := by
  cases d <;> simp only [neighborIndex] <;> omega

theorem neighbor_injective (nx i : Int) (hnx : 1 < nx) (d d2 : Direction)
    (h : neighborIndex nx i d = neighborIndex nx i d2) : d = d2 := by
  cases d <;> cases d2 <;> simp only [neighborIndex] at h <;> first | rfl | omega

/-! ## What `getNeighbors` returns -/

theorem mazeStructureNeighbors_eq (s : MazeComplex) (nx : List Int) (n : MazeElement)
    (v : Bool) :
    mazeStructureNeighbors s nx n v =
      nx ++ (if canConnect s n = true ∧ n.visited = v then [n.place] else []) := by
  unfold mazeStructureNeighbors Maze.canConnect
  cases v <;> cases n.visited <;> simp <;> split <;> simp_all

theorem foldl_append_flatMap {α β : Type} (g : α → List β) (l : List α) (init : List β) :
    l.foldl (fun acc a => acc ++ g a) init = init ++ l.flatMap g := by
  induction l generalizing init with
  | nil => simp
  | cons a rest ih => simp [List.foldl_cons, ih, List.flatMap_cons, List.append_assoc]

theorem getNeighbors_eq (s : MazeComplex) (e : MazeElement) (v : Bool) :
    getNeighbors s e v =
      (neighborConditions s.numCellX s.numCellY e.place e.gridX e.gridY).flatMap fun m =>
        if m.2 = true ∧ canConnect s (s.cell m.1) = true ∧ (s.cell m.1).visited = v then
          [(s.cell m.1).place]
        else [] := by
  unfold getNeighbors
  have h : ∀ (acc : List Int) (m : Int × Bool),
      (if m.2 = true then mazeStructureNeighbors s acc (s.cell m.1) v else acc) =
        acc ++ (if m.2 = true ∧ canConnect s (s.cell m.1) = true ∧ (s.cell m.1).visited = v
          then [(s.cell m.1).place] else []) := by
    intro acc m
    rw [mazeStructureNeighbors_eq]
    by_cases h1 : m.2 = true <;> simp [h1]
  simp only [h]
  rw [foldl_append_flatMap]
  simp

theorem neighborConditions_wide (nx ny p gx gy : Int) (h : 1 < nx) :
    neighborConditions nx ny p gx gy =
      [ (p - 1, decide (gx > 0)), (p + 1, decide (gx < nx - 1)),
        (p - nx, decide (gy > 0)), (p + nx, decide (gy < ny - 1)) ] := by
  have h1 : ¬ p - 1 = p + 1 := by omega
  have h2 : ¬ p - 1 = p - nx := by omega
  have h3 : ¬ p + 1 = p - nx := by omega
  have h4 : ¬ p - 1 = p + nx := by omega
  have h5 : ¬ p + 1 = p + nx := by omega
  have h6 : ¬ p - nx = p + nx := by omega
  simp [neighborConditions, conditionsInsert, h1, h2, h3, h4, h5, h6]

theorem neighborConditions_one (ny p gx gy : Int) :
    neighborConditions 1 ny p gx gy =
      [ (p - 1, decide (gx > 0)), (p + 1, decide (gx < 1 - 1)) ] := by
  have h1 : ¬ p - 1 = p + 1 := by omega
  simp [neighborConditions, conditionsInsert, h1]

/-- In a grid with at least two columns `getNeighbors` returns the cells next to `c` that
can be connected and have the wanted `visited` flag. -/
theorem mem_getNeighbors {s : MazeComplex} (g : GridWF s) (hw : 1 < s.numCellX) (c : Int)
    (hc : s.inRange c) (v : Bool) (u : Int) :
    u ∈ getNeighbors s (s.cell c) v ↔
      ∃ d, hasNeighbor s.numCellX s.numCellY c d = true ∧ u = neighborIndex s.numCellX c d ∧
        canConnect s (s.cell u) = true ∧ (s.cell u).visited = v := by
  rw [getNeighbors_eq, neighborConditions_wide _ _ _ _ _ hw, g.place c hc, g.gridX c hc,
    g.gridY c hc]
  have hp : ∀ d, hasNeighbor s.numCellX s.numCellY c d = true →
      (s.cell (neighborIndex s.numCellX c d)).place = neighborIndex s.numCellX c d :=
    fun d hd => g.place _ (neighbor_range g.nx_pos c d hc.1 hc.2 hd)
  have hW := hp Direction.WEST
  have hE := hp Direction.EAST
  have hN := hp Direction.NORTH
  have hS := hp Direction.SOUTH
  simp only [neighborIndex, hasNeighbor, decide_eq_true_eq] at hW hE hN hS
  simp only [List.mem_flatMap, List.mem_cons, List.mem_singleton, List.not_mem_nil, or_false]
  constructor
  · rintro ⟨m, hm, hu⟩
    rcases hm with rfl | rfl | rfl | rfl <;>
      simp only [decide_eq_true_eq, gt_iff_lt] at hu <;>
      split at hu <;> simp only [List.mem_singleton, List.not_mem_nil] at hu
    · next h =>
      rw [hW h.1] at hu; subst hu
      exact ⟨Direction.WEST, by simpa [hasNeighbor] using h.1, rfl, h.2.1, h.2.2⟩
    · next h =>
      rw [hE h.1] at hu; subst hu
      exact ⟨Direction.EAST, by simpa [hasNeighbor] using h.1, rfl, h.2.1, h.2.2⟩
    · next h =>
      rw [hN h.1] at hu; subst hu
      exact ⟨Direction.NORTH, by simpa [hasNeighbor] using h.1, rfl, h.2.1, h.2.2⟩
    · next h =>
      rw [hS h.1] at hu; subst hu
      exact ⟨Direction.SOUTH, by simpa [hasNeighbor] using h.1, rfl, h.2.1, h.2.2⟩
  · rintro ⟨d, hd, rfl, hcc, hv⟩
    have hpl := hp d hd
    cases d <;> simp only [hasNeighbor, decide_eq_true_eq] at hd <;>
      simp only [neighborIndex] at hcc hv hpl ⊢
    · exact ⟨_, Or.inr (Or.inr (Or.inl rfl)), by simp [hd, hcc, hv, hpl]⟩
    · exact ⟨_, Or.inr (Or.inr (Or.inr rfl)), by simp [hd, hcc, hv, hpl]⟩
    · exact ⟨_, Or.inr (Or.inl rfl), by simp [hd, hcc, hv, hpl]⟩
    · exact ⟨_, Or.inl rfl, by simp [hd, hcc, hv, hpl]⟩

/-- In a grid with one column the second pair of keys of the map of `getNeighbors` repeats
the first one, and `getNeighbors` returns nothing. -/
theorem getNeighbors_one_column {s : MazeComplex} (g : GridWF s) (hw : s.numCellX = 1) (c : Int)
    (hc : s.inRange c) (v : Bool) : getNeighbors s (s.cell c) v = [] := by
  rw [getNeighbors_eq, hw, neighborConditions_one, g.gridX c hc, hw]
  have : c % 1 = 0 := Int.emod_one c
  simp [this]

/-! ## The frontier as a list without repetition -/

theorem mem_foldl_frontierInsert (l fr : List Int) (x : Int) :
    x ∈ l.foldl frontierInsert fr ↔ x ∈ fr ∨ x ∈ l := by
  induction l generalizing fr with
  | nil => simp
  | cons a rest ih =>
    rw [List.foldl_cons, ih]
    unfold frontierInsert
    split
    · next h =>
      simp only [List.mem_cons]
      constructor
      · rintro (h1 | h1)
        · exact Or.inl h1
        · exact Or.inr (Or.inr h1)
      · rintro (h1 | rfl | h1)
        · exact Or.inl h1
        · exact Or.inl h
        · exact Or.inr h1
    · simp only [List.mem_append, List.mem_singleton, List.mem_cons]
      tauto

theorem nodup_foldl_frontierInsert (l fr : List Int) (h : fr.Nodup) :
    (l.foldl frontierInsert fr).Nodup := by
  induction l generalizing fr with
  | nil => simpa
  | cons a rest ih =>
    rw [List.foldl_cons]
    apply ih
    unfold frontierInsert
    split
    · exact h
    · next hn =>
      rw [List.nodup_append]
      refine ⟨h, List.nodup_singleton a, ?_⟩
      intro x hx hx2
      rw [List.mem_singleton] at hx2
      subst hx2; exact hn hx

theorem mem_eraseIdx_nodup (l : List Int) (h : l.Nodup) (i : Nat) (hi : i < l.length) (x : Int) :
    x ∈ l.eraseIdx i ↔ x ∈ l ∧ x ≠ l.getD i 0 := by
  rw [List.getD_eq_getElem l 0 hi, List.mem_eraseIdx_iff_getElem]
  constructor
  · rintro ⟨j, hj, hne, rfl⟩
    refine ⟨List.getElem_mem hj, ?_⟩
    intro heq
    exact hne ((List.Nodup.getElem_inj_iff h).1 heq)
  · rintro ⟨hx, hne⟩
    obtain ⟨j, hj, rfl⟩ := List.mem_iff_getElem.1 hx
    refine ⟨j, hj, ?_, rfl⟩
    rintro rfl
    exact hne rfl

theorem pickedCell_mem (rng : Nat → Nat) (s : MazeComplex) (k : Nat) (h : s.frontier ≠ []) :
    pickedCell rng s k ∈ s.frontier := by
  unfold pickedCell
  have hl : 0 < s.frontier.length := List.length_pos.2 h
  rw [List.getD_eq_getElem _ 0 (Nat.mod_lt _ hl)]
  exact List.getElem_mem _

/-! ## The two loop bodies are the same pass -/

theorem lookahead_eq (rng : Nat → Nat) (t : Nat) (s : MazeComplex) (k : Nat) :
    lookahead rng t s k = if s.frontier.isEmpty then (s, k) else growStep rng (toInt32 t) s k := by
  unfold lookahead growStep visitPicked pickedCell
  cases h : s.frontier.isEmpty <;> simp

theorem generateCompleteMazeBody_eq (rng : Nat → Nat) (s : MazeComplex) (k : Nat) :
    generateCompleteMazeBody rng s k = growStep rng 0 s k := rfl

/-! ## The walls after `checkCell` -/

@[simp] theorem checkCell_maze (s : MazeComplex) (d : Direction) (one two : Int) :
    (checkCell s d one two).maze = s.maze := rfl

@[simp] theorem checkCell_frontier (s : MazeComplex) (d : Direction) (one two : Int) :
    (checkCell s d one two).frontier = s.frontier := rfl

@[simp] theorem removeWall_maze (s : MazeComplex) (c1 c2 : Int) :
    (removeWall s c1 c2).maze = s.maze := by
  unfold removeWall; simp only; split <;> split <;> rfl

@[simp] theorem removeWall_frontier (s : MazeComplex) (c1 c2 : Int) :
    (removeWall s c1 c2).frontier = s.frontier := by
  unfold removeWall; simp only; split <;> split <;> rfl

@[simp] theorem chooseWallCandidate_maze (rng : Nat → Nat) (s : MazeComplex) (c : Int) (k : Nat) :
    (chooseWallCandidate rng s c k).1.maze = s.maze := by
  unfold chooseWallCandidate; simp only; split <;> simp

@[simp] theorem chooseWallCandidate_frontier (rng : Nat → Nat) (s : MazeComplex) (c : Int)
    (k : Nat) : (chooseWallCandidate rng s c k).1.frontier = s.frontier := by
  unfold chooseWallCandidate; simp only; split <;> simp

theorem cell_eq_of_maze {s s2 : MazeComplex} (h : s2.maze = s.maze) (i : Int) :
    s2.cell i = s.cell i := by
  unfold MazeComplex.cell; rw [h]

theorem findPerimeter_checkCell (s : MazeComplex) (d : Direction) (c v x : Int) (e : Direction)
    (hc : (s.cell c).parentStructure < s.structures.length)
    (hv : (s.cell v).parentStructure < s.structures.length) :
    findPerimeter x e ((checkCell s d c v).structOf x).perimeterCells =
      if (x = c ∧ e = d) ∨ (x = v ∧ e = getOppositeDirection d) then
        (findPerimeter x e (s.structOf x).perimeterCells).map fun p => { p with visited := false }
      else findPerimeter x e (s.structOf x).perimeterCells := by
  have hcell : (checkCell s d c v).cell x = s.cell x := cell_eq_of_maze (checkCell_maze _ _ _ _) x
  unfold MazeComplex.structOf
  rw [hcell]
  unfold checkCell
  simp only [structAt_modifyStruct, modifyStruct_length, hc, hv, and_true]
  by_cases h2 : (s.cell v).parentStructure = (s.cell x).parentStructure
  · rw [if_pos h2]
    simp only [if_true]
    rw [findPerimeter_clearWall]
    by_cases h1 : (s.cell c).parentStructure = (s.cell v).parentStructure
    · rw [if_pos h1, findPerimeter_clearWall]
      simp only
      rw [findPerimeter_clearWall]
      by_cases hxv : x = v ∧ e = getOppositeDirection d
      · rw [if_pos hxv, if_pos (Or.inr hxv)]
        obtain ⟨rfl, rfl⟩ := hxv
        by_cases hxc : x = c ∧ getOppositeDirection d = d
        · exfalso
          have := hxc.2
          cases d <;> simp [getOppositeDirection] at this
        · rw [if_neg hxc, h1]
      · rw [if_neg hxv]
        by_cases hxc : x = c ∧ e = d
        · rw [if_pos hxc, if_pos (Or.inl hxc)]
          obtain ⟨rfl, rfl⟩ := hxc
          rw [h1, h2]
        · rw [if_neg hxc, if_neg (by tauto), h1, h2]
    · rw [if_neg h1]
      by_cases hxv : x = v ∧ e = getOppositeDirection d
      · rw [if_pos hxv, if_pos (Or.inr hxv)]
        obtain ⟨rfl, rfl⟩ := hxv
        rfl
      · rw [if_neg hxv]
        have hxc : ¬ (x = c ∧ e = d) := by
          rintro ⟨rfl, rfl⟩; exact h1 (by rw [h2])
        rw [if_neg (by tauto), h2]
  · rw [if_neg h2]
    have hxv : ¬ (x = v ∧ e = getOppositeDirection d) := by
      rintro ⟨rfl, rfl⟩; exact h2 rfl
    by_cases h1 : (s.cell c).parentStructure = (s.cell x).parentStructure
    · rw [if_pos h1]
      simp only
      rw [findPerimeter_clearWall]
      by_cases hxc : x = c ∧ e = d
      · rw [if_pos hxc, if_pos (Or.inl hxc)]
        obtain ⟨rfl, rfl⟩ := hxc
        rfl
      · rw [if_neg hxc, if_neg (by tauto), h1]
    · rw [if_neg h1]
      have hxc : ¬ (x = c ∧ e = d) := by
        rintro ⟨rfl, rfl⟩; exact h1 rfl
      rw [if_neg (by tauto)]

theorem wallOpen_checkCell (s : MazeComplex) (d : Direction) (c v x : Int) (e : Direction)
    (hc : (s.cell c).parentStructure < s.structures.length)
    (hv : (s.cell v).parentStructure < s.structures.length) :
    (checkCell s d c v).wallOpen x e =
      if (x = c ∧ e = d) ∨ (x = v ∧ e = getOppositeDirection d) then s.hasRecord x e
      else s.wallOpen x e := by
  unfold MazeComplex.wallOpen MazeComplex.hasRecord
  rw [findPerimeter_checkCell s d c v x e hc hv]
  by_cases h : (x = c ∧ e = d) ∨ (x = v ∧ e = getOppositeDirection d)
  · rw [if_pos h, if_pos h]
    cases findPerimeter x e (s.structOf x).perimeterCells <;> simp
  · rw [if_neg h, if_neg h]

theorem wallOpen_congr {s s2 : MazeComplex} (h : s2.structures = s.structures)
    (hp : ∀ i, (s2.cell i).parentStructure = (s.cell i).parentStructure) (x : Int)
    (e : Direction) : s2.wallOpen x e = s.wallOpen x e := by
  unfold MazeComplex.wallOpen MazeComplex.structOf MazeComplex.structAt
  rw [h, hp]

theorem hasRecord_congr {s s2 : MazeComplex} (h : s2.structures = s.structures)
    (hp : ∀ i, (s2.cell i).parentStructure = (s.cell i).parentStructure) (x : Int)
    (e : Direction) : s2.hasRecord x e = s.hasRecord x e := by
  unfold MazeComplex.hasRecord MazeComplex.structOf MazeComplex.structAt
  rw [h, hp]

theorem removeWall_neighbor {s : MazeComplex} (g : GridWF s) (c : Int) (hc : s.inRange c)
    (d : Direction) (hd : hasNeighbor s.numCellX s.numCellY c d = true) :
    removeWall s c (neighborIndex s.numCellX c d) =
      checkCell s d c (neighborIndex s.numCellX c d) := by
  have hr := neighbor_range g.nx_pos c d hc.1 hc.2 hd
  have hco := neighbor_coords g.nx_pos c d hc.1 hc.2 hd
  have hb := neighbor_bounds g.nx_pos c d hc.1 hc.2 hd
  have hnx := le_of_lt g.nx_pos
  unfold removeWall
  simp only [Int.tmod_eq_emod hc.1 hnx, Int.tdiv_eq_ediv hc.1 hnx, Int.tmod_eq_emod hr.1 hnx,
    Int.tdiv_eq_ediv hr.1 hnx, hco.1, hco.2]
  cases d <;> simp [Direction.dx, Direction.dy]

/-- What `chooseWallCandidate` does to the walls. -/
theorem chooseWallCandidate_walls (rng : Nat → Nat) {s : MazeComplex} (g : GridWF s)
    (w : StructWF s) (hw : 1 < s.numCellX) (c : Int) (hc : s.inRange c) (k : Nat) :
    ((∀ d, hasNeighbor s.numCellX s.numCellY c d = true →
        ¬ ((s.cell (neighborIndex s.numCellX c d)).visited = true ∧
          canConnect s (s.cell (neighborIndex s.numCellX c d)) = true)) ∧
      (chooseWallCandidate rng s c k).2 = k ∧
      ∀ x e, (chooseWallCandidate rng s c k).1.wallOpen x e = s.wallOpen x e) ∨
    ∃ d, hasNeighbor s.numCellX s.numCellY c d = true ∧
      (s.cell (neighborIndex s.numCellX c d)).visited = true ∧
      canConnect s (s.cell (neighborIndex s.numCellX c d)) = true ∧
      (chooseWallCandidate rng s c k).2 = k + 1 ∧
      ∀ x e, (chooseWallCandidate rng s c k).1.wallOpen x e =
        if (x = c ∧ e = d) ∨ (x = neighborIndex s.numCellX c d ∧ e = getOppositeDirection d)
        then s.hasRecord x e else s.wallOpen x e := by
  unfold chooseWallCandidate
  simp only
  cases hvs : getNeighbors s (s.cell c) true with
  | nil =>
    left
    refine ⟨?_, by simp, fun x e => by simp⟩
    intro d hd ⟨hv, hcc⟩
    have : neighborIndex s.numCellX c d ∈ getNeighbors s (s.cell c) true :=
      (mem_getNeighbors g hw c hc true _).2 ⟨d, hd, rfl, hcc, hv⟩
    rw [hvs] at this
    exact List.not_mem_nil _ this
  | cons a rest =>
    right
    have hlen : rng k % (a :: rest).length < (a :: rest).length :=
      Nat.mod_lt _ (by simp)
    have hmem : (a :: rest).getD (rng k % (a :: rest).length) 0 ∈ getNeighbors s (s.cell c) true := by
      rw [hvs, List.getD_eq_getElem _ 0 hlen]
      exact List.getElem_mem _
    obtain ⟨d, hd, hv, hcc, hvis⟩ := (mem_getNeighbors g hw c hc true _).1 hmem
    rw [hv] at hcc hvis
    refine ⟨d, hd, hvis, hcc, by simp, ?_⟩
    intro x e
    simp only [List.isEmpty_cons, Bool.not_false, if_true]
    rw [hv, removeWall_neighbor g c hc d hd]
    exact wallOpen_checkCell s d c _ x e (w.handle c hc)
      (w.handle _ (neighbor_range g.nx_pos c d hc.1 hc.2 hd))

/-! ## One growth step -/

theorem cell_withFrontier (s : MazeComplex) (fr : List Int) (i : Int) :
    MazeComplex.cell { s with frontier := fr } i = s.cell i := rfl

theorem wallOpen_withFrontier (s : MazeComplex) (fr : List Int) (x : Int) (e : Direction) :
    MazeComplex.wallOpen { s with frontier := fr } x e = s.wallOpen x e := rfl

theorem sameStatic_visitPicked (rng : Nat → Nat) (t : Int) (s : MazeComplex) (k : Nat) :
    SameStatic s (visitPicked rng t s k) := by
  unfold visitPicked
  simp only
  refine SameStatic.trans ?_
    (sameStatic_modifyCell _ _ _ (fun _ => rfl) (fun _ => rfl) (fun _ => rfl) (fun _ => rfl))
  refine SameStatic.trans ?_
    (sameStatic_modifyCell _ _ _ (fun _ => rfl) (fun _ => rfl) (fun _ => rfl) (fun _ => rfl))
  exact sameStatic_frontier s _

@[simp] theorem visitPicked_structures (rng : Nat → Nat) (t : Int) (s : MazeComplex) (k : Nat) :
    (visitPicked rng t s k).structures = s.structures := by
  simp [visitPicked]

@[simp] theorem visitPicked_frontier (rng : Nat → Nat) (t : Int) (s : MazeComplex) (k : Nat) :
    (visitPicked rng t s k).frontier = s.frontier.eraseIdx (rng k % s.frontier.length) := by
  simp [visitPicked]

theorem toNat_lt_length {s : MazeComplex} (g : GridWF s) {c : Int} (hc : s.inRange c) :
    c.toNat < s.maze.length := by
  have h1 := g.len
  have h2 := hc.1
  have h3 := hc.2
  omega

theorem visitPicked_cell_self (rng : Nat → Nat) (t : Int) {s : MazeComplex} (g : GridWF s)
    (k : Nat) (hc : s.inRange (pickedCell rng s k)) :
    (visitPicked rng t s k).cell (pickedCell rng s k) =
      { s.cell (pickedCell rng s k) with
        visited := true
        generationTime := t
        distance := |s.startX - pickedCell rng s k % s.numCellX| +
          |s.startY - pickedCell rng s k / s.numCellX| } := by
  have hlt := toNat_lt_length g hc
  unfold visitPicked
  simp only
  rw [cell_modifyCell_self _ _ _ hc.1 (by simpa using hlt)]
  rw [cell_modifyCell_self _ _ _ hc.1 (by simpa using hlt)]
  simp only [cell_withFrontier, calculateDistance, modifyCell_startX, modifyCell_startY, g.gridX _ hc,
    g.gridY _ hc]

theorem visitPicked_cell_other (rng : Nat → Nat) (t : Int) (s : MazeComplex) (k : Nat) (j : Int)
    (hj : 0 ≤ j) (hne : j ≠ pickedCell rng s k) :
    (visitPicked rng t s k).cell j = s.cell j := by
  unfold visitPicked
  simp only
  rw [cell_modifyCell_ne _ _ _ _ hj hne, cell_modifyCell_ne _ _ _ _ hj hne, cell_withFrontier]

theorem growStep_cell (rng : Nat → Nat) (t : Int) (s : MazeComplex) (k : Nat) (i : Int) :
    (growStep rng t s k).1.cell i = (visitPicked rng t s k).cell i := by
  unfold growStep
  simp only
  rw [cell_withFrontier]
  exact cell_eq_of_maze (chooseWallCandidate_maze _ _ _ _) i

theorem growStep_wallOpen (rng : Nat → Nat) (t : Int) (s : MazeComplex) (k : Nat) (x : Int)
    (e : Direction) :
    (growStep rng t s k).1.wallOpen x e =
      (chooseWallCandidate rng (visitPicked rng t s k) (pickedCell rng s k) (k + 1)).1.wallOpen
        x e := by
  unfold growStep
  simp only
  rw [wallOpen_withFrontier]

theorem sameStatic_growStep (rng : Nat → Nat) (t : Int) (s : MazeComplex) (k : Nat) :
    SameStatic s (growStep rng t s k).1 := by
  unfold growStep
  simp only
  exact ((sameStatic_visitPicked rng t s k).trans
    (sameStatic_chooseWallCandidate _ _ _ _)).trans (sameStatic_frontier _ _)

theorem stepFacts (rng : Nat → Nat) (t : Int) {s : MazeComplex} (g : GridWF s) (w : StructWF s)
    (hw : 1 < s.numCellX) (k : Nat) (hne : s.frontier ≠ []) (hnd : s.frontier.Nodup)
    (hfr : ∀ f ∈ s.frontier, s.inRange f) :
    StepFacts s (growStep rng t s k).1 (pickedCell rng s k) := by
  have hpick := pickedCell_mem rng s k hne
  have hc := hfr _ hpick
  have hst := sameStatic_visitPicked rng t s k
  have g3 := hst.gridWF g
  have w3 := hst.structWF w
  have hc3 : (visitPicked rng t s k).inRange (pickedCell rng s k) := (hst.inRange _).2 hc
  have hw3 : 1 < (visitPicked rng t s k).numCellX := by rw [hst.numCellX]; exact hw
  have hself := visitPicked_cell_self rng t g k hc
  have hother := visitPicked_cell_other rng t s k
  have hnbr : ∀ d, hasNeighbor s.numCellX s.numCellY (pickedCell rng s k) d = true →
      (visitPicked rng t s k).cell (neighborIndex s.numCellX (pickedCell rng s k) d) =
        s.cell (neighborIndex s.numCellX (pickedCell rng s k) d) := fun d hd =>
    hother _ (neighbor_range g.nx_pos _ d hc.1 hc.2 hd).1 (neighbor_ne _ _ g.nx_pos d)
  have hstr : ∀ i, ((visitPicked rng t s k).cell i).parentStructure =
      (s.cell i).parentStructure := hst.parent
  refine ⟨sameStatic_growStep rng t s k, hpick, ?_, ?_, ?_, ?_, ?_, ?_, ?_⟩
  · rw [growStep_cell, hself]
  · intro j hj hne2
    rw [growStep_cell, hother j hj hne2]
  · rw [growStep_cell, hself]
  · intro j hj hne2
    rw [growStep_cell, hother j hj hne2]
  · unfold growStep
    simp only
    apply nodup_foldl_frontierInsert
    rw [chooseWallCandidate_frontier, visitPicked_frontier]
    exact List.Nodup.sublist (List.eraseIdx_sublist _ _) hnd
  · intro x
    unfold growStep
    simp only
    rw [mem_foldl_frontierInsert, chooseWallCandidate_frontier, visitPicked_frontier,
      mem_eraseIdx_nodup _ hnd _ (Nat.mod_lt _ (List.length_pos.2 hne))]
    have hsc := sameStatic_chooseWallCandidate rng (visitPicked rng t s k)
      (pickedCell rng s k) (k + 1)
    have h4 := hst.trans hsc
    have g4 := h4.gridWF g
    have hc4 := (h4.inRange _).2 hc
    rw [mem_getNeighbors g4 (by rw [h4.numCellX]; exact hw) _ hc4, h4.numCellX, h4.numCellY]
    have hcell4 : ∀ i, (chooseWallCandidate rng (visitPicked rng t s k)
        (pickedCell rng s k) (k + 1)).1.cell i = (visitPicked rng t s k).cell i :=
      fun i => cell_eq_of_maze (chooseWallCandidate_maze _ _ _ _) i
    constructor
    · rintro (h | ⟨d, hd, rfl, hcc, hv⟩)
      · exact Or.inl h
      · right
        refine ⟨d, hd, rfl, ?_, ?_⟩
        · rw [← h4.canConnect]; exact hcc
        · rw [hcell4, hnbr d hd] at hv; exact hv
    · rintro (h | ⟨d, hd, rfl, hcc, hv⟩)
      · exact Or.inl h
      · right
        refine ⟨d, hd, rfl, ?_, ?_⟩
        · rw [h4.canConnect]; exact hcc
        · rw [hcell4, hnbr d hd]; exact hv
  · have hcw := chooseWallCandidate_walls rng g3 w3 hw3 _ hc3 (k + 1)
    rw [hst.numCellX, hst.numCellY] at hcw
    have hwo : ∀ x e, (visitPicked rng t s k).wallOpen x e = s.wallOpen x e :=
      fun x e => wallOpen_congr (visitPicked_structures rng t s k) hstr x e
    have hhr : ∀ x e, (visitPicked rng t s k).hasRecord x e = s.hasRecord x e :=
      fun x e => hasRecord_congr (visitPicked_structures rng t s k) hstr x e
    rcases hcw with ⟨h1, _, h2⟩ | ⟨d, hd, hv, hcc, _, h2⟩
    · left
      refine ⟨?_, ?_⟩
      · intro d hd
        have := h1 d hd
        rw [hst.canConnect, hnbr d hd] at this
        exact this
      · intro x e
        rw [growStep_wallOpen, h2, hwo]
    · right
      refine ⟨d, hd, ?_, ?_, ?_⟩
      · rw [hnbr d hd] at hv; exact hv
      · rw [hst.canConnect] at hcc; exact hcc
      · intro x e
        rw [growStep_wallOpen, h2, hwo, hhr]

/-! ## The perimeter records of a structure -/

theorem mem_footprintOffsets (w h x y : Int) :
    (x, y) ∈ footprintOffsets w h ↔ (0 ≤ x ∧ x < w) ∧ (0 ≤ y ∧ y < h) := by
  unfold footprintOffsets
  simp only [List.mem_flatMap, List.mem_range, List.mem_map, Prod.mk.injEq]
  constructor
  · rintro ⟨yn, hy, xn, hx, rfl, rfl⟩
    omega
  · rintro ⟨⟨hx1, hx2⟩, hy1, hy2⟩
    exact ⟨y.toNat, by omega, x.toNat, by omega, by omega, by omega⟩

theorem mem_perimeterAt (w h x y c : Int) (p : PerimeterCell) :
    p ∈ perimeterAt w h x y c ↔
      p.cell = c ∧ p.visited = true ∧ onOutline w h x y p.direction = true := by
  obtain ⟨d, c2, v⟩ := p
  unfold perimeterAt
  simp only [List.mem_append, PerimeterCell.mk.injEq]
  constructor
  · rintro (((h1 | h1) | h1) | h1) <;> split at h1 <;>
      simp only [List.mem_singleton, List.not_mem_nil, PerimeterCell.mk.injEq] at h1 <;>
      obtain ⟨rfl, rfl, rfl⟩ := h1 <;> simp [onOutline, *]
  · rintro ⟨rfl, rfl, h1⟩
    cases d <;> simp only [onOutline, decide_eq_true_eq] at h1 <;> simp [h1]

/-- The records the constructor makes, by key. -/
theorem mem_new_keys (w h sx sy nx : Int) (d : Direction) (c : Int) :
    (d, c) ∈ (MazeStructure.new w h sx sy nx).perimeterCells.map PerimeterCell.key ↔
      ∃ x y, (0 ≤ x ∧ x < w) ∧ (0 ≤ y ∧ y < h) ∧ c = (sy + y) * nx + (sx + x) ∧
        onOutline w h x y d = true := by
  unfold MazeStructure.new
  simp only [List.mem_map, List.mem_flatMap, mem_perimeterAt, PerimeterCell.key, Prod.mk.injEq,
    Prod.exists, mem_footprintOffsets]
  constructor
  · rintro ⟨p, ⟨x, y, hxy, hc, _, ho⟩, rfl, rfl⟩
    exact ⟨x, y, hxy.1, hxy.2, hc, ho⟩
  · rintro ⟨x, y, hx, hy, hc, ho⟩
    exact ⟨⟨d, c, true⟩, ⟨x, y, ⟨hx, hy⟩, hc, rfl, ho⟩, rfl, rfl⟩

/-- A cell has a record on side `d` exactly when it lies on that side of the outline of
the rectangle of its structure. -/
theorem hasRecord_iff {s : MazeComplex} (g : GridWF s) (w : StructWF s) (i : Int)
    (hi : s.inRange i) (d : Direction) :
    s.hasRecord i d = true ↔
      onOutline (s.structOf i).width (s.structOf i).height
        (i % s.numCellX - (s.structOf i).startX) (i / s.numCellX - (s.structOf i).startY) d
        = true := by
  unfold MazeComplex.hasRecord
  rw [findPerimeter_isSome_iff, w.perims i hi, mem_new_keys]
  have hb := w.bounds i hi
  have hc := w.contains i hi
  unfold MazeStructure.inFootprint at hc
  constructor
  · rintro ⟨x, y, hx, hy, hidx, ho⟩
    have h2 := index_coords g.nx_pos ((s.structOf i).startX + x) ((s.structOf i).startY + y)
      (by omega) (by omega)
    rw [← hidx] at h2
    have hx2 : i % s.numCellX - (s.structOf i).startX = x := by omega
    have hy2 : i / s.numCellX - (s.structOf i).startY = y := by omega
    rw [hx2, hy2]; exact ho
  · intro ho
    refine ⟨_, _, by omega, by omega, ?_, ho⟩
    have := index_split s.numCellX i
    have e1 : (s.structOf i).startY + (i / s.numCellX - (s.structOf i).startY) = i / s.numCellX := by
      ring
    have e2 : (s.structOf i).startX + (i % s.numCellX - (s.structOf i).startX) = i % s.numCellX := by
      ring
    rw [e1, e2]; exact this

/-- The cell next to `a` on side `d` is in the rectangle of the structure of `a` exactly
when `a` has no record on that side. -/
theorem hasRecord_iff_outside {s : MazeComplex} (g : GridWF s) (w : StructWF s) (a : Int)
    (ha : s.inRange a) (d : Direction)
    (hd : hasNeighbor s.numCellX s.numCellY a d = true) :
    s.hasRecord a d = true ↔
      ¬ (s.structOf a).inFootprint (neighborIndex s.numCellX a d % s.numCellX)
        (neighborIndex s.numCellX a d / s.numCellX) := by
  rw [hasRecord_iff g w a ha]
  have hco := neighbor_coords g.nx_pos a d ha.1 ha.2 hd
  have hc := w.contains a ha
  rw [hco.1, hco.2]
  unfold MazeStructure.inFootprint at hc ⊢
  cases d <;> simp only [onOutline, decide_eq_true_eq, Direction.dx, Direction.dy] <;> omega

theorem hasRecord_iff_parent_ne {s : MazeComplex} (g : GridWF s) (w : StructWF s) (a : Int)
    (ha : s.inRange a) (d : Direction)
    (hd : hasNeighbor s.numCellX s.numCellY a d = true) :
    s.hasRecord a d = true ↔
      (s.cell (neighborIndex s.numCellX a d)).parentStructure ≠ (s.cell a).parentStructure := by
  rw [hasRecord_iff_outside g w a ha d hd]
  have hb := neighbor_range g.nx_pos a d ha.1 ha.2 hd
  constructor
  · intro h1 h2
    apply h1
    have := w.contains _ hb
    unfold MazeComplex.structOf at this ⊢
    rw [h2] at this
    exact this
  · intro h1 h2
    exact h1 (w.shared a _ ha hb h2)

theorem hasRecord_sym {s : MazeComplex} (g : GridWF s) (w : StructWF s) (a : Int)
    (ha : s.inRange a) (d : Direction)
    (hd : hasNeighbor s.numCellX s.numCellY a d = true) :
    s.hasRecord a d = s.hasRecord (neighborIndex s.numCellX a d) (getOppositeDirection d) := by
  rw [Bool.eq_iff_iff, hasRecord_iff_parent_ne g w a ha d hd,
    hasRecord_iff_parent_ne g w _ (neighbor_range g.nx_pos a d ha.1 ha.2 hd) _
      (neighbor_hasNeighbor g.nx_pos a d ha.1 ha.2 hd), neighbor_opposite]
  exact ⟨fun h => Ne.symm h, fun h => Ne.symm h⟩

theorem wallOpen_hasRecord (s : MazeComplex) (i : Int) (d : Direction)
    (h : s.wallOpen i d = true) : s.hasRecord i d = true := by
  unfold MazeComplex.wallOpen at h
  unfold MazeComplex.hasRecord
  cases hf : findPerimeter i d (s.structOf i).perimeterCells <;> simp_all

/-! ## The growth invariant is kept by a step -/

theorem SameStatic.start {s s2 : MazeComplex} (h : SameStatic s s2) : s2.start = s.start := by
  unfold MazeComplex.start; rw [h.startX, h.startY, h.numCellX]

theorem StepFacts.visited_mono {s s2 : MazeComplex} {c : Int} (sf : StepFacts s s2 c) (x : Int)
    (hx : 0 ≤ x) (h : (s.cell x).visited = true) : (s2.cell x).visited = true := by
  by_cases hxc : x = c
  · subst hxc; exact sf.visited_c
  · rw [sf.visited_other x hx hxc]; exact h

theorem neighbor_left_cancel (nx a b : Int) (d : Direction)
    (h : neighborIndex nx a d = neighborIndex nx b d) : a = b := by
  cases d <;> simp only [neighborIndex] at h <;> omega

theorem opposite_injective (d d2 : Direction)
    (h : getOppositeDirection d = getOppositeDirection d2) : d = d2 := by
  cases d <;> cases d2 <;> simp [getOppositeDirection] at h <;> rfl

theorem start_inRange {s : MazeComplex} (inv : GrowthInv s) : s.inRange s.start :=
  index_range _ _ inv.start_x.1 inv.start_x.2 inv.start_y.1 inv.start_y.2

theorem growthInv_step {s s2 : MazeComplex} (g : GridWF s) (w : StructWF s) (inv : GrowthInv s)
    (hw : 1 < s.numCellX) (c : Int) (sf : StepFacts s s2 c) : GrowthInv s2 := by
  have hst := sf.static
  have hcf := inv.frontier_mem c sf.picked
  have hcr := hcf.1
  have hnx := hst.numCellX
  have hny := hst.numCellY
  refine
    { start_x := by rw [hst.startX, hnx]; exact inv.start_x
      start_y := by rw [hst.startY, hny]; exact inv.start_y
      start_visited := ?_
      frontier_nodup := sf.frontier_nodup
      frontier_mem := ?_
      closure := ?_
      visited_connect := ?_
      distance := ?_
      wall_sym := ?_
      open_visited := ?_
      narrow := by intro h; rw [hnx] at h; omega
      anchored := ?_ }
  · rw [hst.start]
    exact sf.visited_mono _ (start_inRange inv).1 inv.start_visited
  · intro f hf
    rw [hst.inRange, hst.canConnect]
    rcases (sf.frontier f).1 hf with ⟨h1, h2⟩ | ⟨d, hd, rfl, hcc, hv⟩
    · have := inv.frontier_mem f h1
      exact ⟨this.1, by rw [sf.visited_other f this.1.1 h2]; exact this.2.1, this.2.2⟩
    · have hr := neighbor_range g.nx_pos c d hcr.1 hcr.2 hd
      exact ⟨hr, by rw [sf.visited_other _ hr.1 (neighbor_ne _ _ g.nx_pos d)]; exact hv, hcc⟩
  · intro _ v d hv hvis hd hcc hun
    rw [hnx] at hcc hun ⊢
    rw [hny] at hd
    rw [hnx] at hd
    rw [hst.inRange] at hv
    rw [hst.canConnect] at hcc
    have hr := neighbor_range g.nx_pos v d hv.1 hv.2 hd
    have hne : neighborIndex s.numCellX v d ≠ c := by
      intro h; rw [h, sf.visited_c] at hun; exact Bool.noConfusion hun
    rw [sf.visited_other _ hr.1 hne] at hun
    rw [sf.frontier]
    by_cases hvc : v = c
    · subst hvc
      exact Or.inr ⟨d, hd, rfl, hcc, hun⟩
    · rw [sf.visited_other v hv.1 hvc] at hvis
      exact Or.inl ⟨inv.closure hw v d hv hvis hd hcc hun, hne⟩
  · intro v hv hvis hne
    rw [hst.inRange] at hv
    rw [hst.start] at hne
    rw [hst.canConnect]
    by_cases hvc : v = c
    · subst hvc; exact hcf.2.2
    · rw [sf.visited_other v hv.1 hvc] at hvis
      exact inv.visited_connect v hv hvis hne
  · intro v hv hvis
    rw [hst.inRange] at hv
    rw [hnx, hst.startX, hst.startY]
    by_cases hvc : v = c
    · subst hvc
      rw [sf.distance_c, abs_sub_comm s.startX, abs_sub_comm s.startY]
    · rw [sf.visited_other v hv.1 hvc] at hvis
      rw [sf.distance_other v hv.1 hvc]
      exact inv.distance v hv hvis
  · intro a d ha hd
    rw [hst.inRange] at ha
    rw [hnx, hny] at hd
    rw [hnx]
    rcases sf.walls with ⟨_, h⟩ | ⟨d0, hd0, _, _, h⟩
    · rw [h, h]; exact inv.wall_sym a d ha hd
    · rw [h, h]
      have hiff : ((a = c ∧ d = d0) ∨
          (a = neighborIndex s.numCellX c d0 ∧ d = getOppositeDirection d0)) ↔
          ((neighborIndex s.numCellX a d = c ∧ getOppositeDirection d = d0) ∨
            (neighborIndex s.numCellX a d = neighborIndex s.numCellX c d0 ∧
              getOppositeDirection d = getOppositeDirection d0)) := by
        constructor
        · rintro (⟨rfl, rfl⟩ | ⟨rfl, rfl⟩)
          · exact Or.inr ⟨rfl, rfl⟩
          · exact Or.inl ⟨neighbor_opposite _ _ _, opposite_opposite _⟩
        · rintro (⟨h1, h2⟩ | ⟨h1, h2⟩)
          · right
            subst h2
            rw [opposite_opposite]
            refine ⟨?_, rfl⟩
            rw [← h1, neighbor_opposite]
          · left
            have := opposite_injective _ _ h2
            subst this
            exact ⟨neighbor_left_cancel _ _ _ _ h1, rfl⟩
      by_cases hcond : (a = c ∧ d = d0) ∨
          (a = neighborIndex s.numCellX c d0 ∧ d = getOppositeDirection d0)
      · rw [if_pos hcond, if_pos (hiff.1 hcond), hasRecord_sym g w a ha d hd]
      · rw [if_neg hcond, if_neg (fun h2 => hcond (hiff.2 h2))]
        exact inv.wall_sym a d ha hd
  · intro a d ha hopen
    rw [hst.inRange] at ha
    rcases sf.walls with ⟨_, h⟩ | ⟨d0, hd0, hv0, _, h⟩
    · rw [h] at hopen
      exact sf.visited_mono a ha.1 (inv.open_visited a d ha hopen)
    · rw [h] at hopen
      by_cases hcond : (a = c ∧ d = d0) ∨
          (a = neighborIndex s.numCellX c d0 ∧ d = getOppositeDirection d0)
      · rcases hcond with ⟨rfl, _⟩ | ⟨rfl, _⟩
        · exact sf.visited_c
        · exact sf.visited_mono _ ha.1 hv0
      · rw [if_neg hcond] at hopen
        exact sf.visited_mono a ha.1 (inv.open_visited a d ha hopen)
  · intro hstart f hf
    rw [hst.start, hst.canConnect] at hstart
    rw [hnx, hny]
    rcases (sf.frontier f).1 hf with ⟨h1, h2⟩ | ⟨d, hd, rfl, hcc, hv⟩
    · obtain ⟨d, hd, hv, hcc⟩ := inv.anchored hstart f h1
      have hfr := (inv.frontier_mem f h1).1
      have hr := neighbor_range g.nx_pos f d hfr.1 hfr.2 hd
      exact ⟨d, hd, sf.visited_mono _ hr.1 hv, by rw [hst.canConnect]; exact hcc⟩
    · refine ⟨getOppositeDirection d, neighbor_hasNeighbor g.nx_pos c d hcr.1 hcr.2 hd, ?_, ?_⟩
      · rw [neighbor_opposite]; exact sf.visited_c
      · rw [neighbor_opposite, hst.canConnect]; exact hcf.2.2

/-! ## Steps keep the invariant, and the loop of `generateCompleteMaze` ends -/

theorem mazeInv_growStep (rng : Nat → Nat) (t : Int) {s : MazeComplex} (inv : MazeInv s)
    (k : Nat) (hne : s.frontier ≠ []) : MazeInv (growStep rng t s k).1 := by
  have hw : 1 < s.numCellX := by
    have h1 := inv.grid.nx_pos
    have h2 : s.numCellX ≠ 1 := fun h => hne (inv.growth.narrow h)
    omega
  have sf := stepFacts rng t inv.grid inv.structs hw k hne inv.growth.frontier_nodup
    (fun f hf => (inv.growth.frontier_mem f hf).1)
  exact ⟨sf.static.gridWF inv.grid, sf.static.structWF inv.structs,
    growthInv_step inv.grid inv.structs inv.growth hw _ sf⟩

theorem isEmpty_eq_false_iff (l : List Int) : l.isEmpty = false ↔ l ≠ [] := by
  cases l <;> simp

theorem mazeInv_lookahead (rng : Nat → Nat) (t : Nat) {s : MazeComplex} (inv : MazeInv s)
    (k : Nat) : MazeInv (lookahead rng t s k).1 := by
  rw [lookahead_eq]
  cases h : s.frontier.isEmpty
  · simp only [Bool.false_eq_true, if_false]
    exact mazeInv_growStep rng _ inv k ((isEmpty_eq_false_iff _).1 h)
  · simpa using inv

theorem growthInv_complete {s : MazeComplex} (inv : GrowthInv s) (b : Bool) :
    GrowthInv { s with mazeComplete := b } :=
  ⟨inv.start_x, inv.start_y, inv.start_visited, inv.frontier_nodup, inv.frontier_mem,
    inv.closure, inv.visited_connect, inv.distance, inv.wall_sym, inv.open_visited, inv.narrow,
    inv.anchored⟩

theorem mazeInv_complete {s : MazeComplex} (inv : MazeInv s) (b : Bool) :
    MazeInv { s with mazeComplete := b } :=
  ⟨(sameStatic_complete s b).gridWF inv.grid, (sameStatic_complete s b).structWF inv.structs,
    growthInv_complete inv.growth b⟩

theorem visitPicked_maze (rng : Nat → Nat) (t : Int) {s : MazeComplex} (g : GridWF s) (k : Nat)
    (hc : s.inRange (pickedCell rng s k)) :
    (visitPicked rng t s k).maze =
      s.maze.set (pickedCell rng s k).toNat ((visitPicked rng t s k).cell (pickedCell rng s k)) := by
  have hlt := toNat_lt_length g hc
  rw [visitPicked_cell_self rng t g k hc]
  unfold visitPicked MazeComplex.modifyCell
  simp only [List.length_set, hc.1, hlt, and_self, if_true, List.set_set]
  congr 1
  simp only [MazeComplex.cell, getD_set_eq, hlt, and_self, if_true, calculateDistance]
  have h1 := g.gridX _ hc
  have h2 := g.gridY _ hc
  unfold MazeComplex.cell at h1 h2
  rw [h1, h2]

theorem growStep_maze (rng : Nat → Nat) (t : Int) (s : MazeComplex) (k : Nat) :
    (growStep rng t s k).1.maze = (visitPicked rng t s k).maze := by
  unfold growStep
  simp only
  exact chooseWallCandidate_maze _ _ _ _

theorem cell_eq_getElem (s : MazeComplex) (c : Int) (h : c.toNat < s.maze.length) :
    s.cell c = s.maze[c.toNat] := by
  unfold MazeComplex.cell
  exact List.getD_eq_getElem _ _ h

theorem unvisitedCount_growStep (rng : Nat → Nat) (t : Int) {s : MazeComplex} (inv : MazeInv s)
    (k : Nat) (hne : s.frontier ≠ []) :
    unvisitedCount (growStep rng t s k).1 + 1 = unvisitedCount s := by
  have hpick := pickedCell_mem rng s k hne
  have hcf := inv.growth.frontier_mem _ hpick
  have hlt := toNat_lt_length inv.grid hcf.1
  unfold unvisitedCount
  rw [growStep_maze, visitPicked_maze rng t inv.grid k hcf.1, List.countP_set _ _ _ _ hlt,
    visitPicked_cell_self rng t inv.grid k hcf.1, ← cell_eq_getElem s _ hlt, hcf.2.1]
  simp only [Bool.not_false, if_true, Bool.not_true, Bool.false_eq_true, if_false, add_zero]
  have hpos : 0 < List.countP (fun e => !e.visited) s.maze := by
    rw [List.countP_pos_iff]
    refine ⟨s.maze[(pickedCell rng s k).toNat], List.getElem_mem _, ?_⟩
    rw [← cell_eq_getElem s _ hlt, hcf.2.1]; rfl
  omega

theorem visitedCount_growStep (rng : Nat → Nat) (t : Int) {s : MazeComplex} (inv : MazeInv s)
    (k : Nat) (hne : s.frontier ≠ []) :
    visitedCount (growStep rng t s k).1 = visitedCount s + 1 := by
  have hpick := pickedCell_mem rng s k hne
  have hcf := inv.growth.frontier_mem _ hpick
  have hlt := toNat_lt_length inv.grid hcf.1
  unfold visitedCount
  rw [growStep_maze, visitPicked_maze rng t inv.grid k hcf.1, List.countP_set _ _ _ _ hlt,
    visitPicked_cell_self rng t inv.grid k hcf.1, ← cell_eq_getElem s _ hlt, hcf.2.1]
  simp

/-- With as much fuel as there are unvisited cells, `generateCompleteMaze` returns, and it
returns a state with an empty frontier that satisfies the invariant, together with every
property `P` that the growth steps keep. -/
theorem generateCompleteMaze_spec_with (rng : Nat → Nat) (P : MazeComplex → Prop)
    (hstep : ∀ s k, MazeInv s → P s → s.frontier ≠ [] → P (growStep rng 0 s k).1)
    (hdone : ∀ s, P s → P { s with mazeComplete := true }) (fuel : Nat) :
    ∀ (s : MazeComplex) (k : Nat), MazeInv s → P s → unvisitedCount s ≤ fuel →
      ∃ s1 k1, generateCompleteMaze rng fuel s k = some (s1, k1) ∧ MazeInv s1 ∧ P s1 ∧
        s1.frontier = [] ∧ s1.mazeComplete = true := by
  induction fuel with
  | zero =>
    intro s k inv hP hf
    cases hfr : s.frontier with
    | nil =>
      refine ⟨{ s with mazeComplete := true }, k, ?_, mazeInv_complete inv true, hdone s hP,
        hfr, rfl⟩
      simp [generateCompleteMaze, hfr]
    | cons a rest =>
      exfalso
      have hne : s.frontier ≠ [] := by rw [hfr]; simp
      have := unvisitedCount_growStep rng 0 inv k hne
      omega
  | succ n ih =>
    intro s k inv hP hf
    cases hfr : s.frontier with
    | nil =>
      refine ⟨{ s with mazeComplete := true }, k, ?_, mazeInv_complete inv true, hdone s hP,
        hfr, rfl⟩
      simp [generateCompleteMaze, hfr]
    | cons a rest =>
      have hne : s.frontier ≠ [] := by rw [hfr]; simp
      have hdec := unvisitedCount_growStep rng 0 inv k hne
      have inv2 := mazeInv_growStep rng 0 inv k hne
      obtain ⟨s1, k1, h1, h2, h3, h4, h5⟩ := ih (growStep rng 0 s k).1 (growStep rng 0 s k).2
        inv2 (hstep s k inv hP hne) (by omega)
      refine ⟨s1, k1, ?_, h2, h3, h4, h5⟩
      rw [← h1]
      simp [generateCompleteMaze, hfr, generateCompleteMazeBody_eq]

theorem generateCompleteMaze_spec (rng : Nat → Nat) (fuel : Nat) (s : MazeComplex) (k : Nat)
    (inv : MazeInv s) (hf : unvisitedCount s ≤ fuel) :
    ∃ s1 k1, generateCompleteMaze rng fuel s k = some (s1, k1) ∧ MazeInv s1 ∧
      s1.frontier = [] ∧ s1.mazeComplete = true := by
  obtain ⟨s1, k1, h1, h2, _, h3, h4⟩ := generateCompleteMaze_spec_with rng (fun _ => True)
    (fun _ _ _ _ _ => trivial) (fun _ _ => trivial) fuel s k inv trivial hf
  exact ⟨s1, k1, h1, h2, h3, h4⟩

theorem unvisitedCount_le_length (s : MazeComplex) : unvisitedCount s ≤ s.maze.length :=
  List.countP_le_length _

/-! ## Placing a room -/

theorem mem_roomFootprint (nx sX sY w h c : Int) :
    c ∈ roomFootprint nx sX sY w h ↔
      ∃ x y, (0 ≤ x ∧ x < w) ∧ (0 ≤ y ∧ y < h) ∧ c = (sY + y) * nx + (sX + x) := by
  unfold roomFootprint
  simp only [List.mem_flatMap, List.mem_range, List.mem_map]
  constructor
  · rintro ⟨yn, hy, xn, hx, rfl⟩
    exact ⟨xn, yn, by omega, by omega, rfl⟩
  · rintro ⟨x, y, hx, hy, rfl⟩
    refine ⟨y.toNat, by omega, x.toNat, by omega, ?_⟩
    have h1 : ((x.toNat : Nat) : Int) = x := by omega
    have h2 : ((y.toNat : Nat) : Int) = y := by omega
    rw [h1, h2]

/-- Inside the grid the cells of the footprint are those whose position is in the
rectangle. -/
theorem mem_roomFootprint_iff {nx : Int} (hnx : 0 < nx) (sX sY w h c : Int) (hsx : 0 ≤ sX)
    (hfit : sX + w ≤ nx) :
    c ∈ roomFootprint nx sX sY w h ↔
      (sX ≤ c % nx ∧ c % nx < sX + w) ∧ (sY ≤ c / nx ∧ c / nx < sY + h) := by
  rw [mem_roomFootprint]
  constructor
  · rintro ⟨x, y, hx, hy, rfl⟩
    have := index_coords hnx (sX + x) (sY + y) (by omega) (by omega)
    rw [this.1, this.2]
    omega
  · rintro ⟨hx, hy⟩
    refine ⟨c % nx - sX, c / nx - sY, by omega, by omega, ?_⟩
    have := index_split nx c
    have e1 : sY + (c / nx - sY) = c / nx := by ring
    have e2 : sX + (c % nx - sX) = c % nx := by ring
    rw [e1, e2]; exact this

theorem foldl_setParent_fields (l : List Int) (h : Nat) (s : MazeComplex) :
    let r := l.foldl (fun st c => st.modifyCell c fun e => { e with parentStructure := h }) s
    r.numCellX = s.numCellX ∧ r.numCellY = s.numCellY ∧ r.structures = s.structures ∧
      r.frontier = s.frontier ∧ r.maze.length = s.maze.length := by
  induction l generalizing s with
  | nil => simp
  | cons a rest ih =>
    simp only [List.foldl_cons]
    have := ih (s.modifyCell a fun e => { e with parentStructure := h })
    simp only [modifyCell_numCellX, modifyCell_numCellY, modifyCell_structures,
      modifyCell_frontier, modifyCell_length] at this
    exact this

theorem foldl_setParent_cell (l : List Int) (h : Nat) (s : MazeComplex) (j : Int) (hj : 0 ≤ j)
    (hlt : j.toNat < s.maze.length) :
    (l.foldl (fun st c => st.modifyCell c fun e => { e with parentStructure := h }) s).cell j =
      if j ∈ l then { s.cell j with parentStructure := h } else s.cell j := by
  induction l generalizing s with
  | nil => simp
  | cons a rest ih =>
    simp only [List.foldl_cons]
    rw [ih _ (by simpa using hlt), cell_modifyCell _ _ _ _ hj]
    by_cases hja : j = a
    · subst hja
      simp [hlt]
    · simp [hja]

theorem new_walls (w h sx sy nx : Int) :
    ∀ p ∈ (MazeStructure.new w h sx sy nx).perimeterCells, p.visited = true := by
  intro p hp
  unfold MazeStructure.new at hp
  simp only [List.mem_flatMap, mem_perimeterAt] at hp
  obtain ⟨_, _, _, hv, _⟩ := hp
  exact hv

@[simp] theorem placeRoom_numCellX (s : MazeComplex) (sX sY w h : Int) :
    (placeRoom s sX sY w h).numCellX = s.numCellX :=
  (foldl_setParent_fields _ _ _).1

@[simp] theorem placeRoom_numCellY (s : MazeComplex) (sX sY w h : Int) :
    (placeRoom s sX sY w h).numCellY = s.numCellY :=
  (foldl_setParent_fields _ _ _).2.1

theorem placeRoom_structures (s : MazeComplex) (sX sY w h : Int) :
    (placeRoom s sX sY w h).structures = s.structures ++
      [{ MazeStructure.new w h sX sY s.numCellX with
          structureType := StructureType.ROOM, height := h, width := w }] :=
  (foldl_setParent_fields _ _ _).2.2.1

@[simp] theorem placeRoom_frontier (s : MazeComplex) (sX sY w h : Int) :
    (placeRoom s sX sY w h).frontier = s.frontier :=
  (foldl_setParent_fields _ _ _).2.2.2.1

@[simp] theorem placeRoom_length (s : MazeComplex) (sX sY w h : Int) :
    (placeRoom s sX sY w h).maze.length = s.maze.length :=
  (foldl_setParent_fields _ _ _).2.2.2.2

theorem placeRoom_cell (s : MazeComplex) (sX sY w h : Int) (j : Int) (hj : 0 ≤ j)
    (hlt : j.toNat < s.maze.length) :
    (placeRoom s sX sY w h).cell j =
      if j ∈ roomFootprint s.numCellX sX sY w h then
        { s.cell j with parentStructure := s.structures.length }
      else s.cell j := by
  unfold placeRoom
  rw [foldl_setParent_cell _ _ _ j hj (by simpa using hlt)]
  rfl

theorem placeRoom_structAt_old (s : MazeComplex) (sX sY w h : Int) (n : Nat)
    (hn : n < s.structures.length) : (placeRoom s sX sY w h).structAt n = s.structAt n := by
  unfold MazeComplex.structAt
  rw [placeRoom_structures, List.getD_eq_getElem?_getD, List.getD_eq_getElem?_getD,
    List.getElem?_append_left hn]

theorem placeRoom_structAt_new (s : MazeComplex) (sX sY w h : Int) :
    (placeRoom s sX sY w h).structAt s.structures.length =
      { MazeStructure.new w h sX sY s.numCellX with
          structureType := StructureType.ROOM, height := h, width := w } := by
  unfold MazeComplex.structAt
  rw [placeRoom_structures, List.getD_eq_getElem?_getD]
  simp

theorem placeRoom_structAt_beyond (s : MazeComplex) (sX sY w h : Int) (n : Nat)
    (hn : s.structures.length < n) : (placeRoom s sX sY w h).structAt n = default := by
  unfold MazeComplex.structAt
  rw [placeRoom_structures, List.getD_eq_getElem?_getD, List.getElem?_eq_none]
  · rfl
  · simp; omega

/-! ## A placed room keeps the grid and the structures well formed -/

theorem placeRoom_inRange (s : MazeComplex) (sX sY w h : Int) (i : Int) :
    (placeRoom s sX sY w h).inRange i ↔ s.inRange i := by
  unfold MazeComplex.inRange; simp

theorem placeRoom_cell_in {s : MazeComplex} (g : GridWF s) (sX sY w h : Int) (j : Int)
    (hj : s.inRange j) (hin : j ∈ roomFootprint s.numCellX sX sY w h) :
    (placeRoom s sX sY w h).cell j = { s.cell j with parentStructure := s.structures.length } := by
  rw [placeRoom_cell s sX sY w h j hj.1 (toNat_lt_length g hj), if_pos hin]

theorem placeRoom_cell_out {s : MazeComplex} (g : GridWF s) (sX sY w h : Int) (j : Int)
    (hj : s.inRange j) (hout : j ∉ roomFootprint s.numCellX sX sY w h) :
    (placeRoom s sX sY w h).cell j = s.cell j := by
  rw [placeRoom_cell s sX sY w h j hj.1 (toNat_lt_length g hj), if_neg hout]

theorem foldl_setParent_cell_field {β : Type} (l : List Int) (n : Nat) (st : MazeComplex)
    (j : Int) (proj : MazeElement → β)
    (hp : ∀ (e : MazeElement) (n : Nat), proj { e with parentStructure := n } = proj e) :
    proj ((l.foldl (fun st c => st.modifyCell c fun e => { e with parentStructure := n }) st).cell j)
      = proj (st.cell j) := by
  induction l generalizing st with
  | nil => rfl
  | cons a rest ih =>
    rw [List.foldl_cons, ih]
    exact cell_modifyCell_field st a j _ proj (fun e => hp e _)

theorem placeRoom_cell_field {β : Type} (s : MazeComplex) (sX sY w h : Int) (j : Int)
    (proj : MazeElement → β)
    (hp : ∀ (e : MazeElement) (n : Nat), proj { e with parentStructure := n } = proj e) :
    proj ((placeRoom s sX sY w h).cell j) = proj (s.cell j) := by
  unfold placeRoom
  rw [foldl_setParent_cell_field _ _ _ j proj hp]
  rfl

theorem placeRoom_structOf_in {s : MazeComplex} (g : GridWF s) (sX sY w h : Int) (j : Int)
    (hj : s.inRange j) (hin : j ∈ roomFootprint s.numCellX sX sY w h) :
    (placeRoom s sX sY w h).structOf j =
      { MazeStructure.new w h sX sY s.numCellX with
          structureType := StructureType.ROOM, height := h, width := w } := by
  unfold MazeComplex.structOf
  rw [placeRoom_cell_in g sX sY w h j hj hin]
  exact placeRoom_structAt_new s sX sY w h

theorem placeRoom_structOf_out {s : MazeComplex} (g : GridWF s) (ws : StructWF s)
    (sX sY w h : Int) (j : Int) (hj : s.inRange j)
    (hout : j ∉ roomFootprint s.numCellX sX sY w h) :
    (placeRoom s sX sY w h).structOf j = s.structOf j := by
  unfold MazeComplex.structOf
  rw [placeRoom_cell_out g sX sY w h j hj hout]
  exact placeRoom_structAt_old s sX sY w h _ (ws.handle j hj)

theorem single_position {s : MazeComplex} (ws : StructWF s) (j : Int) (hj : s.inRange j)
    (ht : (s.structOf j).structureType = StructureType.CELL) :
    (s.structOf j).startX = j % s.numCellX ∧ (s.structOf j).startY = j / s.numCellX ∧
      (s.structOf j).width = 1 ∧ (s.structOf j).height = 1 := by
  have h1 := ws.single j hj ht
  have h2 := ws.contains j hj
  unfold MazeStructure.inFootprint at h2
  omega

theorem index_ext (nx i j : Int) (h1 : i % nx = j % nx) (h2 : i / nx = j / nx) :
    i = j := by
  rw [index_split nx i, index_split nx j, h1, h2]

theorem freshInv_placeRoom {s : MazeComplex} (inv : FreshInv s) (sX sY w h : Int)
    (hsx : 0 ≤ sX) (hfx : sX + w ≤ s.numCellX) (hsy : 0 ≤ sY) (hfy : sY + h ≤ s.numCellY)
    (hcell : ∀ c ∈ roomFootprint s.numCellX sX sY w h,
      (s.structOf c).structureType = StructureType.CELL) :
    FreshInv (placeRoom s sX sY w h) := by
  have g := inv.grid
  have ws := inv.structs
  have hmem := fun c => mem_roomFootprint_iff g.nx_pos sX sY w h c hsx hfx
  have hgrid : GridWF (placeRoom s sX sY w h) :=
    { nx_pos := by simpa using g.nx_pos
      ny_pos := by simpa using g.ny_pos
      len := by simpa using g.len
      place := fun i hi => by
        rw [placeRoom_cell_field s sX sY w h i (fun e => e.place) (fun _ _ => rfl)]
        exact g.place i ((placeRoom_inRange s sX sY w h i).1 hi)
      gridX := fun i hi => by
        rw [placeRoom_cell_field s sX sY w h i (fun e => e.gridX) (fun _ _ => rfl),
          placeRoom_numCellX]
        exact g.gridX i ((placeRoom_inRange s sX sY w h i).1 hi)
      gridY := fun i hi => by
        rw [placeRoom_cell_field s sX sY w h i (fun e => e.gridY) (fun _ _ => rfl),
          placeRoom_numCellX]
        exact g.gridY i ((placeRoom_inRange s sX sY w h i).1 hi) }
  refine ⟨hgrid, ?_, ?_, ?_, ?_, by simpa using inv.frontier⟩
  · refine ⟨?_, ?_, ?_, ?_, ?_, ?_⟩
    · intro i hi
      rw [placeRoom_inRange] at hi
      rw [placeRoom_structures]
      simp only [List.length_append, List.length_singleton]
      by_cases hin : i ∈ roomFootprint s.numCellX sX sY w h
      · rw [placeRoom_cell_in g sX sY w h i hi hin]; simp
      · rw [placeRoom_cell_out g sX sY w h i hi hin]
        have := ws.handle i hi; omega
    · intro i hi
      rw [placeRoom_inRange] at hi
      simp only [placeRoom_numCellX, placeRoom_numCellY]
      by_cases hin : i ∈ roomFootprint s.numCellX sX sY w h
      · rw [placeRoom_structOf_in g sX sY w h i hi hin]
        exact ⟨hsx, hfx, hsy, hfy⟩
      · rw [placeRoom_structOf_out g ws sX sY w h i hi hin]
        exact ws.bounds i hi
    · intro i hi
      rw [placeRoom_inRange] at hi
      simp only [placeRoom_numCellX]
      by_cases hin : i ∈ roomFootprint s.numCellX sX sY w h
      · rw [placeRoom_structOf_in g sX sY w h i hi hin]
        have := (hmem i).1 hin
        exact ⟨this.1.1, this.1.2, this.2.1, this.2.2⟩
      · rw [placeRoom_structOf_out g ws sX sY w h i hi hin]
        exact ws.contains i hi
    · intro i j hi hj hf
      rw [placeRoom_inRange] at hi hj
      simp only [placeRoom_numCellX] at hf
      by_cases hin : i ∈ roomFootprint s.numCellX sX sY w h
      · rw [placeRoom_structOf_in g sX sY w h i hi hin] at hf
        have hjin : j ∈ roomFootprint s.numCellX sX sY w h :=
          (hmem j).2 ⟨⟨hf.1, hf.2.1⟩, hf.2.2.1, hf.2.2.2⟩
        rw [placeRoom_cell_in g sX sY w h i hi hin, placeRoom_cell_in g sX sY w h j hj hjin]
      · rw [placeRoom_structOf_out g ws sX sY w h i hi hin] at hf
        have hsh := ws.shared i j hi hj hf
        have hjout : j ∉ roomFootprint s.numCellX sX sY w h := by
          intro hjin
          have hsp := single_position ws j hj (hcell j hjin)
          have hsame : s.structOf i = s.structOf j := by
            unfold MazeComplex.structOf; rw [hsh]
          have hci := ws.contains i hi
          rw [hsame] at hci
          unfold MazeStructure.inFootprint at hci
          have : i = j := index_ext s.numCellX i j (by omega) (by omega)
          exact hin (this ▸ hjin)
        rw [placeRoom_cell_out g sX sY w h i hi hin, placeRoom_cell_out g sX sY w h j hj hjout]
        exact hsh
    · intro i hi
      rw [placeRoom_inRange] at hi
      simp only [placeRoom_numCellX]
      by_cases hin : i ∈ roomFootprint s.numCellX sX sY w h
      · rw [placeRoom_structOf_in g sX sY w h i hi hin]
        rfl
      · rw [placeRoom_structOf_out g ws sX sY w h i hi hin]
        exact ws.perims i hi
    · intro i hi ht
      rw [placeRoom_inRange] at hi
      by_cases hin : i ∈ roomFootprint s.numCellX sX sY w h
      · rw [placeRoom_structOf_in g sX sY w h i hi hin] at ht
        exact absurd ht (by simp)
      · rw [placeRoom_structOf_out g ws sX sY w h i hi hin] at ht ⊢
        exact ws.single i hi ht
  · intro n p hp
    rcases Nat.lt_trichotomy n s.structures.length with hn | hn | hn
    · rw [placeRoom_structAt_old s sX sY w h n hn] at hp
      exact inv.walls n p hp
    · rw [hn, placeRoom_structAt_new] at hp
      exact new_walls w h sX sY s.numCellX p hp
    · rw [placeRoom_structAt_beyond s sX sY w h n hn] at hp
      exact new_walls 0 0 0 0 0 p hp
  · intro i
    rw [placeRoom_cell_field s sX sY w h i (fun e => e.visited) (fun _ _ => rfl)]
    exact inv.unvisited i
  · intro i
    rw [placeRoom_cell_field s sX sY w h i (fun e => e.distance) (fun _ _ => rfl)]
    exact inv.distance i

/-! ## `addRoom` and `initMazeComplex` -/

/-- The outcome of `addRoom`: it draws at most `n` times and either changes nothing or places
one room, at the position of a cell, where the rectangle fits in the grid and covers only
`CELL` structures. -/
theorem addRoomAttempts_cases (rng : Nat → Nat) (w h : Int) (n : Nat) :
    ∀ (s : MazeComplex) (k : Nat), s.maze.length ≠ 0 →
      ∃ k2, k ≤ k2 ∧ k2 ≤ k + n ∧
        (addRoomAttempts rng w h n s k = some (s, k2) ∨
          ∃ i : Nat, i < s.maze.length ∧
            (s.cell i).gridX + w ≤ s.numCellX ∧ (s.cell i).gridY + h ≤ s.numCellY ∧
            (∀ c ∈ roomFootprint s.numCellX (s.cell i).gridX (s.cell i).gridY w h,
              (s.structOf c).structureType = StructureType.CELL) ∧
            addRoomAttempts rng w h n s k =
              some (placeRoom s (s.cell i).gridX (s.cell i).gridY w h, k2)) := by
  induction n with
  | zero => intro s k _; exact ⟨k, le_refl _, le_refl _, Or.inl rfl⟩
  | succ n ih =>
    intro s k hlen
    unfold addRoomAttempts
    rw [if_neg hlen]
    simp only
    by_cases hfit : (s.cell ((rng k % s.maze.length : Nat) : Int)).gridX + w > s.numCellX ∨
        (s.cell ((rng k % s.maze.length : Nat) : Int)).gridY + h > s.numCellY
    · rw [if_pos hfit]
      obtain ⟨k2, h1, h2, h3⟩ := ih s (k + 1) hlen
      exact ⟨k2, by omega, by omega, h3⟩
    · rw [if_neg hfit]
      by_cases hall : (roomFootprint s.numCellX (s.cell ((rng k % s.maze.length : Nat) : Int)).gridX
          (s.cell ((rng k % s.maze.length : Nat) : Int)).gridY w h).all
          (fun cellIndex => decide ((s.structOf cellIndex).structureType = StructureType.CELL))
          = true
      · rw [if_pos hall]
        refine ⟨k + 1, by omega, by omega, Or.inr ⟨rng k % s.maze.length,
          Nat.mod_lt _ (Nat.pos_of_ne_zero hlen), by omega, by omega, ?_, rfl⟩⟩
        intro c hc
        rw [List.all_eq_true] at hall
        simpa using hall c hc
      · rw [if_neg hall]
        obtain ⟨k2, h1, h2, h3⟩ := ih s (k + 1) hlen
        exact ⟨k2, by omega, by omega, h3⟩

theorem length_ne_zero {s : MazeComplex} (g : GridWF s) : s.maze.length ≠ 0 := by
  have h1 := g.len
  have h2 := mul_pos g.nx_pos g.ny_pos
  omega

theorem inRange_of_lt {s : MazeComplex} (g : GridWF s) (i : Nat) (hi : i < s.maze.length) :
    s.inRange (i : Int) := by
  have h1 := g.len
  exact ⟨by omega, by omega⟩

theorem freshInv_addRoomAttempts (rng : Nat → Nat) (w h : Int) (n : Nat) {s : MazeComplex}
    (inv : FreshInv s) (k : Nat) :
    ∃ s2 k2, addRoomAttempts rng w h n s k = some (s2, k2) ∧ FreshInv s2 ∧
      s2.numCellX = s.numCellX ∧ s2.numCellY = s.numCellY := by
  obtain ⟨k2, _, _, h3 | ⟨i, hi, hfx, hfy, hcell, h3⟩⟩ :=
    addRoomAttempts_cases rng w h n s k (length_ne_zero inv.grid)
  · exact ⟨s, k2, h3, inv, rfl, rfl⟩
  · refine ⟨_, k2, h3, ?_, by simp, by simp⟩
    have hr := inRange_of_lt inv.grid i hi
    have hc := coords_range inv.grid.nx_pos (i : Int) hr.1 hr.2
    have hx := inv.grid.gridX _ hr
    have hy := inv.grid.gridY _ hr
    exact freshInv_placeRoom inv _ _ w h (by omega) hfx (by omega) hfy hcell

theorem freshInv_addRooms (rng : Nat → Nat) (w h : Int) (n : Nat) :
    ∀ {s : MazeComplex} (inv : FreshInv s) (k : Nat),
      ∃ s2 k2, addRooms rng w h n s k = some (s2, k2) ∧ FreshInv s2 ∧
        s2.numCellX = s.numCellX ∧ s2.numCellY = s.numCellY := by
  induction n with
  | zero => intro s inv k; exact ⟨s, k, rfl, inv, rfl, rfl⟩
  | succ n ih =>
    intro s inv k
    obtain ⟨s2, k2, h1, h2, h3, h4⟩ := freshInv_addRoomAttempts rng w h 20 inv k
    obtain ⟨s3, k3, h5, h6, h7, h8⟩ := ih h2 k2
    refine ⟨s3, k3, ?_, h6, h7.trans h3, h8.trans h4⟩
    unfold addRooms addRoom
    rw [h1]
    exact h5

theorem getD_map_range {α : Type} (f : Nat → α) (n i : Nat) (d : α) (hi : i < n) :
    ((List.range n).map f).getD i d = f i := by
  rw [List.getD_eq_getElem _ _ (by simpa using hi)]
  simp

theorem cell_mem_or_default (s : MazeComplex) (i : Int) :
    s.cell i ∈ s.maze ∨ s.cell i = default := by
  unfold MazeComplex.cell
  by_cases h : i.toNat < s.maze.length
  · left; rw [List.getD_eq_getElem _ _ h]; exact List.getElem_mem _
  · right; rw [List.getD_eq_getElem?_getD, List.getElem?_eq_none (by omega)]; rfl

theorem structAt_mem_or_default (s : MazeComplex) (n : Nat) :
    s.structAt n ∈ s.structures ∨ s.structAt n = default := by
  unfold MazeComplex.structAt
  by_cases h : n < s.structures.length
  · left; rw [List.getD_eq_getElem _ _ h]; exact List.getElem_mem _
  · right; rw [List.getD_eq_getElem?_getD, List.getElem?_eq_none (by omega)]; rfl

theorem grid_cell (s : MazeComplex) (nx ny : Int) (hnx : 0 < nx)
    (hm : s.maze = initCells nx ny 0) (i : Int) (h0 : 0 ≤ i) (h1 : i < nx * ny) :
    s.cell i = MazeElement.new (i % nx) (i / nx) i i.toNat := by
  unfold MazeComplex.cell
  rw [hm]
  unfold initCells
  rw [getD_map_range _ _ _ _ (by omega)]
  have e1 : ((i.toNat : Nat) : Int) = i := by omega
  rw [e1, Int.tmod_eq_emod h0 (le_of_lt hnx), Int.tdiv_eq_ediv h0 (le_of_lt hnx)]
  simp

theorem grid_structOf (s : MazeComplex) (nx ny : Int) (hnx : 0 < nx)
    (hm : s.maze = initCells nx ny 0) (hs : s.structures = initStructures nx ny) (i : Int)
    (h0 : 0 ≤ i) (h1 : i < nx * ny) :
    s.structOf i = MazeStructure.new 1 1 (i % nx) (i / nx) nx := by
  unfold MazeComplex.structOf MazeComplex.structAt
  rw [grid_cell s nx ny hnx hm i h0 h1, hs]
  unfold initStructures
  simp only [MazeElement.new]
  rw [getD_map_range _ _ _ _ (by omega)]
  have e1 : ((i.toNat : Nat) : Int) = i := by omega
  rw [e1, Int.tmod_eq_emod h0 (le_of_lt hnx), Int.tdiv_eq_ediv h0 (le_of_lt hnx)]

/-- The state after the first loop of `initMazeComplex`, run on an emptied model. -/
theorem freshInv_grid (s : MazeComplex) (nx ny : Int) (hnx : 0 < nx) (hny : 0 < ny)
    (hm : s.maze = initCells nx ny 0) (hs : s.structures = initStructures nx ny)
    (hf : s.frontier = []) (hx : s.numCellX = nx) (hy : s.numCellY = ny) : FreshInv s := by
  have hpos : 0 < nx * ny := mul_pos hnx hny
  have hcell : ∀ i, 0 ≤ i → i < nx * ny →
      s.cell i = MazeElement.new (i % nx) (i / nx) i i.toNat :=
    grid_cell s nx ny hnx hm
  have hstruct : ∀ i, 0 ≤ i → i < nx * ny →
      s.structOf i = MazeStructure.new 1 1 (i % nx) (i / nx) nx :=
    grid_structOf s nx ny hnx hm hs
  have hlen : (s.maze.length : Int) = nx * ny := by
    rw [hm]; unfold initCells; simp; omega
  refine ⟨⟨by rw [hx]; exact hnx, by rw [hy]; exact hny, by rw [hx, hy]; exact hlen, ?_, ?_, ?_⟩,
    ⟨?_, ?_, ?_, ?_, ?_, ?_⟩, ?_, ?_, ?_, hf⟩
  · intro i hi
    unfold MazeComplex.inRange at hi; rw [hx, hy] at hi
    rw [hcell i hi.1 hi.2]; rfl
  · intro i hi
    unfold MazeComplex.inRange at hi; rw [hx, hy] at hi
    rw [hcell i hi.1 hi.2, hx]; rfl
  · intro i hi
    unfold MazeComplex.inRange at hi; rw [hx, hy] at hi
    rw [hcell i hi.1 hi.2, hx]; rfl
  · intro i hi
    unfold MazeComplex.inRange at hi; rw [hx, hy] at hi
    rw [hcell i hi.1 hi.2, hs]
    unfold initStructures
    simp only [MazeElement.new, List.length_map, List.length_range]
    omega
  · intro i hi
    unfold MazeComplex.inRange at hi; rw [hx, hy] at hi
    have hc := coords_range hnx i hi.1 hi.2
    rw [hstruct i hi.1 hi.2, hx, hy]
    simp only [MazeStructure.new]
    omega
  · intro i hi
    unfold MazeComplex.inRange at hi; rw [hx, hy] at hi
    rw [hstruct i hi.1 hi.2, hx]
    simp only [MazeStructure.new, MazeStructure.inFootprint]
    omega
  · intro i j hi hj hfp
    unfold MazeComplex.inRange at hi hj; rw [hx, hy] at hi hj
    rw [hstruct i hi.1 hi.2, hx] at hfp
    simp only [MazeStructure.new, MazeStructure.inFootprint] at hfp
    have : j = i := index_ext nx j i (by omega) (by omega)
    rw [this]
  · intro i hi
    unfold MazeComplex.inRange at hi; rw [hx, hy] at hi
    rw [hstruct i hi.1 hi.2, hx]
    rfl
  · intro i hi _
    unfold MazeComplex.inRange at hi; rw [hx, hy] at hi
    rw [hstruct i hi.1 hi.2]
    exact ⟨rfl, rfl⟩
  · intro n p hp
    rcases structAt_mem_or_default s n with h | h
    · rw [hs] at h
      unfold initStructures at h
      rw [List.mem_map] at h
      obtain ⟨i, _, hi⟩ := h
      rw [← hi] at hp
      exact new_walls _ _ _ _ _ p hp
    · rw [h] at hp
      exact new_walls 0 0 0 0 0 p hp
  · intro i
    rcases cell_mem_or_default s i with h | h
    · rw [hm] at h
      unfold initCells at h
      rw [List.mem_map] at h
      obtain ⟨n, _, hn⟩ := h
      rw [← hn]; rfl
    · rw [h]; rfl
  · intro i
    rcases cell_mem_or_default s i with h | h
    · rw [hm] at h
      unfold initCells at h
      rw [List.mem_map] at h
      obtain ⟨n, _, hn⟩ := h
      rw [← hn]; rfl
    · rw [h]; rfl

/-! ## The start cell and the first frontier -/

theorem initMazeComplex_eq (rng : Nat → Nat) (game : Game) (s : MazeComplex) (k : Nat) :
    initMazeComplex rng game s k =
      if game.renderConfig.pixelSize = 0 then none
      else if game.app.screenWidth.tdiv game.renderConfig.pixelSize *
          game.app.screenHeight.tdiv game.renderConfig.pixelSize = 0 then none
      else
        match addRooms rng s.configRoomWidth s.configRoomHeight s.configNumRooms.toNat
            (gridState game s) (k + 1) with
        | none => none
        | some r =>
          some (seedStart r.1 (drawnStart rng game k)
            (game.app.screenWidth.tdiv game.renderConfig.pixelSize)
            (game.app.screenHeight.tdiv game.renderConfig.pixelSize), r.2) := rfl

theorem wallOpen_false_of_walls (s : MazeComplex)
    (hw : ∀ h, ∀ p ∈ (s.structAt h).perimeterCells, p.visited = true) (x : Int)
    (e : Direction) : s.wallOpen x e = false := by
  unfold MazeComplex.wallOpen
  cases hf : findPerimeter x e (s.structOf x).perimeterCells with
  | none => rfl
  | some p =>
    have hm : p ∈ (s.structOf x).perimeterCells := by
      unfold findPerimeter at hf
      exact List.mem_of_find?_eq_some hf
    simp [hw _ p hm]

/-- The state `seedStart` builds, with the assignments in another order. -/
theorem seedStart_eq (r : MazeComplex) (start nx ny : Int) :
    seedStart r start nx ny =
      { (MazeComplex.modifyCell
          { r with
            startX := (r.cell start).gridX
            startY := (r.cell start).gridY
            maxDistance := max (r.cell start).gridX (nx - (r.cell start).gridX) +
              max (r.cell start).gridY (ny - (r.cell start).gridY) }
          start fun e => { e with visited := true, generationTime := 0 }) with
        frontier := (getNeighbors (seedStart r start nx ny)
          ((seedStart r start nx ny).cell start) false).foldl frontierInsert r.frontier } := by
  have hx : ((r.modifyCell start fun e =>
      { e with visited := true, generationTime := 0 }).cell start).gridX = (r.cell start).gridX :=
    cell_modifyCell_field r start start _ (fun e => e.gridX) (fun _ => rfl)
  have hy : ((r.modifyCell start fun e =>
      { e with visited := true, generationTime := 0 }).cell start).gridY = (r.cell start).gridY :=
    cell_modifyCell_field r start start _ (fun e => e.gridY) (fun _ => rfl)
  have hg : ∀ (a : MazeComplex) (e : MazeElement) (fr : List Int),
      getNeighbors { a with frontier := fr } e false = getNeighbors a e false := fun _ _ _ => rfl
  unfold seedStart
  simp only [hx, hy, hg]
  unfold MazeComplex.modifyCell
  by_cases h : 0 ≤ start ∧ start.toNat < r.maze.length
  · simp only [if_pos h]; rfl
  · simp only [if_neg h]; rfl

theorem sameStatic_seedStart (r : MazeComplex) (start nx ny : Int) :
    SameStatic
      { r with
        startX := (r.cell start).gridX
        startY := (r.cell start).gridY
        maxDistance := max (r.cell start).gridX (nx - (r.cell start).gridX) +
          max (r.cell start).gridY (ny - (r.cell start).gridY) }
      (seedStart r start nx ny) := by
  rw [seedStart_eq]
  refine SameStatic.trans ?_ (sameStatic_frontier _ _)
  exact sameStatic_modifyCell _ _ _ (fun _ => rfl) (fun _ => rfl) (fun _ => rfl) (fun _ => rfl)

theorem seedStart_cell (r : MazeComplex) (start nx ny : Int) (j : Int) (hj : 0 ≤ j) :
    (seedStart r start nx ny).cell j =
      if j = start ∧ start.toNat < r.maze.length then
        { r.cell start with visited := true, generationTime := 0 }
      else r.cell j := by
  rw [seedStart_eq, cell_withFrontier, cell_modifyCell _ _ _ _ hj]
  rfl

@[simp] theorem seedStart_structures (r : MazeComplex) (start nx ny : Int) :
    (seedStart r start nx ny).structures = r.structures := by
  rw [seedStart_eq]; simp

theorem seedStart_frontier (r : MazeComplex) (start nx ny : Int) :
    (seedStart r start nx ny).frontier =
      (getNeighbors (seedStart r start nx ny) ((seedStart r start nx ny).cell start)
        false).foldl frontierInsert r.frontier := by
  conv_lhs => rw [seedStart_eq]

@[simp] theorem seedStart_startX (r : MazeComplex) (start nx ny : Int) :
    (seedStart r start nx ny).startX = (r.cell start).gridX := by
  rw [seedStart_eq]; simp

@[simp] theorem seedStart_startY (r : MazeComplex) (start nx ny : Int) :
    (seedStart r start nx ny).startY = (r.cell start).gridY := by
  rw [seedStart_eq]; simp

@[simp] theorem seedStart_maxDistance (r : MazeComplex) (start nx ny : Int) :
    (seedStart r start nx ny).maxDistance =
      max (r.cell start).gridX (nx - (r.cell start).gridX) +
        max (r.cell start).gridY (ny - (r.cell start).gridY) := by
  rw [seedStart_eq]; simp

/-- The facts about the state that `initMazeComplex` returns. -/
theorem mazeInv_seedStart {r : MazeComplex} (inv : FreshInv r) (start : Int)
    (hs : r.inRange start) (nx ny : Int) :
    MazeInv (seedStart r start nx ny) ∧ (seedStart r start nx ny).start = start ∧
      (seedStart r start nx ny).numCellX = r.numCellX ∧
      (seedStart r start nx ny).numCellY = r.numCellY ∧
      (∀ j, r.inRange j → ((seedStart r start nx ny).cell j).visited = decide (j = start)) ∧
      (∀ x e, (seedStart r start nx ny).wallOpen x e = false) := by
  have hst := sameStatic_seedStart r start nx ny
  have g0 : GridWF { r with
      startX := (r.cell start).gridX
      startY := (r.cell start).gridY
      maxDistance := max (r.cell start).gridX (nx - (r.cell start).gridX) +
        max (r.cell start).gridY (ny - (r.cell start).gridY) } :=
    ⟨inv.grid.nx_pos, inv.grid.ny_pos, inv.grid.len, inv.grid.place, inv.grid.gridX,
      inv.grid.gridY⟩
  have w0 : StructWF { r with
      startX := (r.cell start).gridX
      startY := (r.cell start).gridY
      maxDistance := max (r.cell start).gridX (nx - (r.cell start).gridX) +
        max (r.cell start).gridY (ny - (r.cell start).gridY) } :=
    ⟨inv.structs.handle, inv.structs.bounds, inv.structs.contains, inv.structs.shared,
      inv.structs.perims, inv.structs.single⟩
  have g := hst.gridWF g0
  have w := hst.structWF w0
  have hnx : (seedStart r start nx ny).numCellX = r.numCellX := hst.numCellX
  have hny : (seedStart r start nx ny).numCellY = r.numCellY := hst.numCellY
  have hlt := toNat_lt_length inv.grid hs
  have hco := coords_range inv.grid.nx_pos start hs.1 hs.2
  have hsx : (seedStart r start nx ny).startX = start % r.numCellX := by
    rw [seedStart_startX, inv.grid.gridX start hs]
  have hsy : (seedStart r start nx ny).startY = start / r.numCellX := by
    rw [seedStart_startY, inv.grid.gridY start hs]
  have hstart : (seedStart r start nx ny).start = start := by
    unfold MazeComplex.start
    rw [hsx, hsy, hnx]
    exact (index_split _ start).symm
  have hvis : ∀ j, r.inRange j →
      ((seedStart r start nx ny).cell j).visited = decide (j = start) := by
    intro j hj
    rw [seedStart_cell _ _ _ _ _ hj.1]
    by_cases h : j = start
    · simp [h, hlt]
    · simp [h, inv.unvisited j]
  have hwall : ∀ x e, (seedStart r start nx ny).wallOpen x e = false := by
    intro x e
    apply wallOpen_false_of_walls
    intro h p hp
    unfold MazeComplex.structAt at hp
    rw [seedStart_structures] at hp
    exact inv.walls h p hp
  have hrange : ∀ j, (seedStart r start nx ny).inRange j ↔ r.inRange j := by
    intro j; unfold MazeComplex.inRange; rw [hnx, hny]
  have hcan : ∀ j, canConnect (seedStart r start nx ny) ((seedStart r start nx ny).cell j) =
      canConnect r (r.cell j) := fun j => hst.canConnect j
  have hfr : ∀ x, x ∈ (seedStart r start nx ny).frontier ↔
      1 < r.numCellX ∧ ∃ d, hasNeighbor r.numCellX r.numCellY start d = true ∧
        x = neighborIndex r.numCellX start d ∧ canConnect r (r.cell x) = true := by
    intro x
    rw [seedStart_frontier, mem_foldl_frontierInsert, inv.frontier]
    simp only [List.not_mem_nil, false_or]
    by_cases hw : 1 < r.numCellX
    · rw [mem_getNeighbors g (by rw [hnx]; exact hw) start ((hrange _).2 hs), hnx, hny]
      constructor
      · rintro ⟨d, hd, hx, hcc, _⟩
        exact ⟨hw, d, hd, hx, by rw [← hcan]; exact hcc⟩
      · rintro ⟨_, d, hd, hx, hcc⟩
        refine ⟨d, hd, hx, by rw [hcan]; exact hcc, ?_⟩
        have hr := neighbor_range inv.grid.nx_pos start d hs.1 hs.2 hd
        rw [hx, hvis _ hr]
        simp [neighbor_ne _ _ inv.grid.nx_pos d]
    · have h1 : (seedStart r start nx ny).numCellX = 1 := by
        have := inv.grid.nx_pos; omega
      rw [getNeighbors_one_column g h1 start ((hrange _).2 hs)]
      simp [hw]
  refine ⟨⟨g, w, ?_⟩, hstart, hnx, hny, hvis, hwall⟩
  refine
    { start_x := by rw [hsx, hnx]; exact ⟨hco.1, hco.2.1⟩
      start_y := by rw [hsy, hny]; exact ⟨hco.2.2.1, hco.2.2.2⟩
      start_visited := by rw [hstart, hvis start hs]; simp
      frontier_nodup := by
        rw [seedStart_frontier]
        exact nodup_foldl_frontierInsert _ _ (by rw [inv.frontier]; exact List.nodup_nil)
      frontier_mem := ?_
      closure := ?_
      visited_connect := ?_
      distance := ?_
      wall_sym := fun a d _ _ => by rw [hwall, hwall]
      open_visited := fun a d _ h => by rw [hwall] at h; exact absurd h (by simp)
      narrow := ?_
      anchored := ?_ }
  · intro f hf
    obtain ⟨_, d, hd, rfl, hcc⟩ := (hfr f).1 hf
    have hr := neighbor_range inv.grid.nx_pos start d hs.1 hs.2 hd
    refine ⟨(hrange _).2 hr, ?_, by rw [hcan]; exact hcc⟩
    rw [hvis _ hr]
    simp [neighbor_ne _ _ inv.grid.nx_pos d]
  · intro hw v d hv hvv hd hcc _
    rw [hnx] at hw hcc ⊢
    rw [hnx, hny] at hd
    rw [hrange] at hv
    rw [hvis v hv] at hvv
    have : v = start := by simpa using hvv
    subst this
    rw [hcan] at hcc
    exact (hfr _).2 ⟨hw, d, hd, rfl, hcc⟩
  · intro v hv hvv hne
    rw [hrange] at hv
    rw [hvis v hv] at hvv
    rw [hstart] at hne
    exact absurd (by simpa using hvv) hne
  · intro v hv hvv
    rw [hrange] at hv
    rw [hvis v hv] at hvv
    have : v = start := by simpa using hvv
    subst this
    rw [seedStart_cell _ _ _ _ _ hs.1, hsx, hsy, hnx]
    simp [hlt, inv.distance v]
  · intro h1
    rw [hnx] at h1
    cases hfn : (seedStart r start nx ny).frontier with
    | nil => rfl
    | cons a rest =>
      have : a ∈ (seedStart r start nx ny).frontier := by rw [hfn]; simp
      have := ((hfr a).1 this).1
      omega
  · intro _ f hf
    obtain ⟨_, d, hd, rfl, _⟩ := (hfr f).1 hf
    rw [hnx, hny]
    refine ⟨getOppositeDirection d, neighbor_hasNeighbor inv.grid.nx_pos start d hs.1 hs.2 hd,
      ?_, ?_⟩
    · rw [neighbor_opposite, hvis start hs]; simp
    · rw [neighbor_opposite]
      rw [hstart] at *
      assumption

/-! ## The invariant holds in every reachable state -/

theorem freshInv_gridState (game : Game) (s : MazeComplex)
    (hnx : 0 < game.app.screenWidth.tdiv game.renderConfig.pixelSize)
    (hny : 0 < game.app.screenHeight.tdiv game.renderConfig.pixelSize) :
    FreshInv (gridState game (resetMazeComplex s)) :=
  freshInv_grid _ _ _ hnx hny (by simp [gridState, resetMazeComplex])
    (by simp [gridState, resetMazeComplex]) rfl rfl rfl

theorem drawnStart_range (rng : Nat → Nat) (game : Game) (k : Nat)
    (hnx : 0 < game.app.screenWidth.tdiv game.renderConfig.pixelSize)
    (hny : 0 < game.app.screenHeight.tdiv game.renderConfig.pixelSize) :
    0 ≤ drawnStart rng game k ∧
      drawnStart rng game k < game.app.screenWidth.tdiv game.renderConfig.pixelSize *
        game.app.screenHeight.tdiv game.renderConfig.pixelSize := by
  have hpos := mul_pos hnx hny
  unfold drawnStart
  rw [Int.tmod_eq_emod (Int.ofNat_nonneg _) (le_of_lt hpos)]
  exact ⟨Int.emod_nonneg _ (ne_of_gt hpos), Int.emod_lt_of_pos _ hpos⟩

/-- On a grid with at least one cell `initMazeComplex` returns: the rooms are placed on
the fresh grid and the start cell is seeded. -/
theorem initMazeComplex_spec (rng : Nat → Nat) (game : Game) (s : MazeComplex) (k : Nat)
    (hnx : 0 < game.app.screenWidth.tdiv game.renderConfig.pixelSize)
    (hny : 0 < game.app.screenHeight.tdiv game.renderConfig.pixelSize) :
    ∃ r kr,
      addRooms rng s.configRoomWidth s.configRoomHeight s.configNumRooms.toNat
        (gridState game (resetMazeComplex s)) (k + 1) = some (r, kr) ∧
      FreshInv r ∧
      r.numCellX = game.app.screenWidth.tdiv game.renderConfig.pixelSize ∧
      r.numCellY = game.app.screenHeight.tdiv game.renderConfig.pixelSize ∧
      r.inRange (drawnStart rng game k) ∧
      initMazeComplex rng game (resetMazeComplex s) k =
        some (seedStart r (drawnStart rng game k)
          (game.app.screenWidth.tdiv game.renderConfig.pixelSize)
          (game.app.screenHeight.tdiv game.renderConfig.pixelSize), kr) := by
  have hfresh := freshInv_gridState game s hnx hny
  obtain ⟨r, kr, h1, h2, h3, h4⟩ :=
    freshInv_addRooms rng s.configRoomWidth s.configRoomHeight s.configNumRooms.toNat hfresh
      (k + 1)
  have hpx : game.renderConfig.pixelSize ≠ 0 := by
    intro h; rw [h, Int.tdiv_zero] at hnx; exact absurd hnx (lt_irrefl _)
  have hprod : game.app.screenWidth.tdiv game.renderConfig.pixelSize *
      game.app.screenHeight.tdiv game.renderConfig.pixelSize ≠ 0 :=
    ne_of_gt (mul_pos hnx hny)
  have hx : r.numCellX = game.app.screenWidth.tdiv game.renderConfig.pixelSize := h3
  have hy : r.numCellY = game.app.screenHeight.tdiv game.renderConfig.pixelSize := h4
  refine ⟨r, kr, h1, h2, hx, hy, ?_, ?_⟩
  · unfold MazeComplex.inRange
    rw [hx, hy]
    exact drawnStart_range rng game k hnx hny
  · rw [initMazeComplex_eq, if_neg hpx, if_neg hprod]
    have h1b : addRooms rng (resetMazeComplex s).configRoomWidth
        (resetMazeComplex s).configRoomHeight (resetMazeComplex s).configNumRooms.toNat
        (gridState game (resetMazeComplex s)) (k + 1) = some (r, kr) := h1
    rw [h1b]

theorem mazeInv_init (rng : Nat → Nat) (game : Game) (s : MazeComplex) (k : Nat)
    (s0 : MazeComplex) (k0 : Nat)
    (hnx : 0 < game.app.screenWidth.tdiv game.renderConfig.pixelSize)
    (hny : 0 < game.app.screenHeight.tdiv game.renderConfig.pixelSize)
    (h : initMazeComplex rng game (resetMazeComplex s) k = some (s0, k0)) : MazeInv s0 := by
  obtain ⟨r, kr, _, h2, _, _, h5, h6⟩ := initMazeComplex_spec rng game s k hnx hny
  rw [h6] at h
  have : seedStart r (drawnStart rng game k)
      (game.app.screenWidth.tdiv game.renderConfig.pixelSize)
      (game.app.screenHeight.tdiv game.renderConfig.pixelSize) = s0 := by
    injection h with h; exact (Prod.mk.inj h).1
  rw [← this]
  exact (mazeInv_seedStart h2 _ h5 _ _).1

theorem generateCompleteMaze_inv (rng : Nat → Nat) (fuel : Nat) :
    ∀ (s : MazeComplex) (k : Nat) (s1 : MazeComplex) (k1 : Nat), MazeInv s →
      generateCompleteMaze rng fuel s k = some (s1, k1) → MazeInv s1 ∧ s1.frontier = [] := by
  induction fuel with
  | zero =>
    intro s k s1 k1 inv h
    unfold generateCompleteMaze at h
    cases hfr : s.frontier.isEmpty
    · rw [hfr] at h; exact absurd h (by simp)
    · rw [hfr] at h
      simp only [if_true, Option.some.injEq, Prod.mk.injEq] at h
      rw [← h.1]
      exact ⟨mazeInv_complete inv true, by simpa using hfr⟩
  | succ n ih =>
    intro s k s1 k1 inv h
    unfold generateCompleteMaze at h
    cases hfr : s.frontier.isEmpty
    · rw [hfr] at h
      simp only [Bool.false_eq_true, if_false] at h
      rw [generateCompleteMazeBody_eq] at h
      exact ih _ _ s1 k1 (mazeInv_growStep rng 0 inv k ((isEmpty_eq_false_iff _).1 hfr)) h
    · rw [hfr] at h
      simp only [if_true, Option.some.injEq, Prod.mk.injEq] at h
      rw [← h.1]
      exact ⟨mazeInv_complete inv true, by simpa using hfr⟩

theorem reachable_inv {s : MazeComplex} (h : Reachable s) : MazeInv s := by
  induction h with
  | init rng game s k s0 k0 hnx hny h => exact mazeInv_init rng game s k s0 k0 hnx hny h
  | lookahead rng t s k _ ih => exact mazeInv_lookahead rng t ih k
  | generate rng fuel s k s1 k1 _ h ih => exact (generateCompleteMaze_inv rng fuel s k s1 k1 ih h).1

/-! ## Every connectable cell is reached -/

theorem canConnect_of_hasRecord {s : MazeComplex} (g : GridWF s) (j : Int) (hj : s.inRange j)
    (d : Direction) (h : s.hasRecord j d = true) : canConnect s (s.cell j) = true := by
  unfold MazeComplex.hasRecord MazeComplex.structOf at h
  rw [findPerimeter_isSome_iff] at h
  unfold Maze.canConnect
  split
  · rw [g.place j hj, any_cell_iff]; exact ⟨d, h⟩
  · rfl

theorem hasRecord_of_canConnect {s : MazeComplex} (g : GridWF s) (j : Int) (hj : s.inRange j)
    (h : canConnect s (s.cell j) = true)
    (ht : (s.structOf j).structureType ≠ StructureType.CELL) : ∃ d, s.hasRecord j d = true := by
  unfold Maze.canConnect at h
  unfold MazeComplex.structOf at ht
  rw [if_pos ht, g.place j hj, any_cell_iff] at h
  obtain ⟨d, hd⟩ := h
  refine ⟨d, ?_⟩
  unfold MazeComplex.hasRecord MazeComplex.structOf
  rw [findPerimeter_isSome_iff]; exact hd

/-- A cell that cannot be connected lies strictly inside the rectangle of a room. -/
theorem interior_of_not_canConnect {s : MazeComplex} (g : GridWF s) (w : StructWF s) (j : Int)
    (hj : s.inRange j) (h : canConnect s (s.cell j) = false) :
    (s.structOf j).structureType ≠ StructureType.CELL ∧
      (s.structOf j).startX < j % s.numCellX ∧
      j % s.numCellX < (s.structOf j).startX + (s.structOf j).width - 1 ∧
      (s.structOf j).startY < j / s.numCellX ∧
      j / s.numCellX < (s.structOf j).startY + (s.structOf j).height - 1 := by
  have hno : ∀ d, ¬ s.hasRecord j d = true := fun d hd => by
    rw [canConnect_of_hasRecord g j hj d hd] at h; exact Bool.noConfusion h
  have hc := w.contains j hj
  unfold MazeStructure.inFootprint at hc
  have hW := hno Direction.WEST
  have hE := hno Direction.EAST
  have hN := hno Direction.NORTH
  have hS := hno Direction.SOUTH
  rw [hasRecord_iff g w j hj] at hW hE hN hS
  simp only [onOutline, decide_eq_true_eq] at hW hE hN hS
  refine ⟨?_, by omega, by omega, by omega, by omega⟩
  intro ht
  unfold Maze.canConnect MazeComplex.structOf at *
  rw [if_neg (by simpa using ht)] at h
  exact Bool.noConfusion h

/-- A connectable cell other than cell 0 has a connectable cell to its left or above it. -/
theorem connectable_pred {s : MazeComplex} (g : GridWF s) (w : StructWF s) (i : Int)
    (hi : s.inRange i) (hne : i ≠ 0) (hcc : canConnect s (s.cell i) = true) :
    ∃ d, (d = Direction.WEST ∨ d = Direction.NORTH) ∧
      hasNeighbor s.numCellX s.numCellY i d = true ∧
      canConnect s (s.cell (neighborIndex s.numCellX i d)) = true := by
  have hco := coords_range g.nx_pos i hi.1 hi.2
  have hsplit := index_split s.numCellX i
  by_cases hx : 0 < i % s.numCellX
  · have hdW : hasNeighbor s.numCellX s.numCellY i Direction.WEST = true := by
      simp [hasNeighbor, hx]
    cases hL : canConnect s (s.cell (neighborIndex s.numCellX i Direction.WEST))
    · have hrL := neighbor_range g.nx_pos i _ hi.1 hi.2 hdW
      have hcoL := neighbor_coords g.nx_pos i _ hi.1 hi.2 hdW
      simp only [Direction.dx, Direction.dy] at hcoL
      obtain ⟨htL, h1, h2, h3, h4⟩ := interior_of_not_canConnect g w _ hrL hL
      have hcL1 := hcoL.1
      have hcL2 := hcoL.2
      have hbL := w.bounds _ hrL
      have hin : (s.structOf (neighborIndex s.numCellX i Direction.WEST)).inFootprint
          (i % s.numCellX) (i / s.numCellX) := by
        unfold MazeStructure.inFootprint; omega
      have hpar := w.shared _ i hrL hi hin
      have hSi : s.structOf i = s.structOf (neighborIndex s.numCellX i Direction.WEST) := by
        unfold MazeComplex.structOf; rw [hpar]
      have hdN : hasNeighbor s.numCellX s.numCellY i Direction.NORTH = true := by
        simp only [hasNeighbor, decide_eq_true_eq]; omega
      obtain ⟨d, hd⟩ := hasRecord_of_canConnect g i hi hcc (by rw [hSi]; exact htL)
      rw [hasRecord_iff g w i hi, hSi] at hd
      have hEast : i % s.numCellX =
          (s.structOf (neighborIndex s.numCellX i Direction.WEST)).startX +
            (s.structOf (neighborIndex s.numCellX i Direction.WEST)).width - 1 := by
        cases d <;> simp only [onOutline, decide_eq_true_eq] at hd <;> omega
      have hrU := neighbor_range g.nx_pos i _ hi.1 hi.2 hdN
      have hcoU := neighbor_coords g.nx_pos i _ hi.1 hi.2 hdN
      simp only [Direction.dx, Direction.dy] at hcoU
      have hinU : (s.structOf (neighborIndex s.numCellX i Direction.WEST)).inFootprint
          (neighborIndex s.numCellX i Direction.NORTH % s.numCellX)
          (neighborIndex s.numCellX i Direction.NORTH / s.numCellX) := by
        rw [hcoU.1, hcoU.2]; unfold MazeStructure.inFootprint; omega
      have hparU := w.shared _ _ hrL hrU hinU
      have hSU : s.structOf (neighborIndex s.numCellX i Direction.NORTH) =
          s.structOf (neighborIndex s.numCellX i Direction.WEST) := by
        unfold MazeComplex.structOf; rw [hparU]
      refine ⟨Direction.NORTH, Or.inr rfl, hdN, ?_⟩
      apply canConnect_of_hasRecord g _ hrU Direction.EAST
      rw [hasRecord_iff g w _ hrU, hSU, hcoU.1, hcoU.2]
      simp only [onOutline, decide_eq_true_eq]
      omega
    · exact ⟨Direction.WEST, Or.inl rfl, hdW, hL⟩
  · have hx0 : i % s.numCellX = 0 := by omega
    have hy : 0 < i / s.numCellX := by
      rcases lt_or_eq_of_le hco.2.2.1 with h | h
      · exact h
      · exfalso; apply hne; rw [hsplit, hx0, ← h]; simp
    have hdN : hasNeighbor s.numCellX s.numCellY i Direction.NORTH = true := by
      simp [hasNeighbor, hy]
    refine ⟨Direction.NORTH, Or.inr rfl, hdN, ?_⟩
    cases hU : canConnect s (s.cell (neighborIndex s.numCellX i Direction.NORTH))
    · exfalso
      have hrU := neighbor_range g.nx_pos i _ hi.1 hi.2 hdN
      have hcoU := neighbor_coords g.nx_pos i _ hi.1 hi.2 hdN
      simp only [Direction.dx, Direction.dy] at hcoU
      obtain ⟨_, h1, _, _, _⟩ := interior_of_not_canConnect g w _ hrU hU
      have hb := w.bounds _ hrU
      rw [hcoU.1] at h1
      omega
    · rfl

theorem neighbor_pred_lt {nx : Int} (hnx : 0 < nx) (i : Int) (d : Direction)
    (hd : d = Direction.WEST ∨ d = Direction.NORTH) : neighborIndex nx i d < i := by
  rcases hd with rfl | rfl <;> simp only [neighborIndex] <;> omega

/-- When the frontier is empty, the visited cells are closed under connectable
neighbours. -/
theorem closed_of_empty {s : MazeComplex} (inv : MazeInv s) (hw : 1 < s.numCellX)
    (hf : s.frontier = []) (v : Int) (d : Direction) (hv : s.inRange v)
    (hvis : (s.cell v).visited = true) (hd : hasNeighbor s.numCellX s.numCellY v d = true)
    (hcc : canConnect s (s.cell (neighborIndex s.numCellX v d)) = true) :
    (s.cell (neighborIndex s.numCellX v d)).visited = true := by
  cases hu : (s.cell (neighborIndex s.numCellX v d)).visited
  · have := inv.growth.closure hw v d hv hvis hd hcc hu
    rw [hf] at this
    exact absurd this (List.not_mem_nil _)
  · rfl

theorem zero_visited {s : MazeComplex} (inv : MazeInv s) (hw : 1 < s.numCellX)
    (hf : s.frontier = []) :
    ∀ (n : Nat) (i : Int), i.toNat = n → s.inRange i → (s.cell i).visited = true →
      canConnect s (s.cell i) = true → (s.cell 0).visited = true := by
  intro n
  induction n using Nat.strong_induction_on with
  | _ n ih =>
    intro i hn hi hvis hcc
    by_cases h0 : i = 0
    · rw [← h0]; exact hvis
    · obtain ⟨d, hd, hnb, hc2⟩ := connectable_pred inv.grid inv.structs i hi h0 hcc
      have hlt := neighbor_pred_lt inv.grid.nx_pos i d hd
      have hr := neighbor_range inv.grid.nx_pos i d hi.1 hi.2 hnb
      have hv2 := closed_of_empty inv hw hf i d hi hvis hnb hc2
      have h1 := hi.1
      exact ih (neighborIndex s.numCellX i d).toNat (by omega) _ rfl hr hv2 hc2

/-- At the end of the generation every connectable cell is visited, provided the start
cell is connectable itself. -/
theorem complete_visited {s : MazeComplex} (inv : MazeInv s) (hw : 1 < s.numCellX)
    (hf : s.frontier = []) (hstart : canConnect s (s.cell s.start) = true) :
    ∀ (n : Nat) (i : Int), i.toNat = n → s.inRange i → canConnect s (s.cell i) = true →
      (s.cell i).visited = true := by
  have hz := zero_visited inv hw hf _ s.start rfl (start_inRange inv.growth)
    inv.growth.start_visited hstart
  intro n
  induction n using Nat.strong_induction_on with
  | _ n ih =>
    intro i hn hi hcc
    by_cases h0 : i = 0
    · rw [h0]; exact hz
    · obtain ⟨d, hd, hnb, hc2⟩ := connectable_pred inv.grid inv.structs i hi h0 hcc
      have hlt := neighbor_pred_lt inv.grid.nx_pos i d hd
      have hr := neighbor_range inv.grid.nx_pos i d hi.1 hi.2 hnb
      have h1 := hi.1
      have hv2 := ih (neighborIndex s.numCellX i d).toNat (by omega) _ rfl hr hc2
      have hback := closed_of_empty inv hw hf _ (getOppositeDirection d) hr hv2
        (neighbor_hasNeighbor inv.grid.nx_pos i d hi.1 hi.2 hnb)
        (by rw [neighbor_opposite]; exact hcc)
      rw [neighbor_opposite] at hback
      exact hback

/-! ## C1: the complete maze without rooms -/

theorem sameStatic_generateCompleteMaze (rng : Nat → Nat) (fuel : Nat) :
    ∀ (s : MazeComplex) (k : Nat) (s1 : MazeComplex) (k1 : Nat),
      generateCompleteMaze rng fuel s k = some (s1, k1) →
      SameStatic s s1 ∧ s1.startX = s.startX ∧ s1.startY = s.startY := by
  induction fuel with
  | zero =>
    intro s k s1 k1 h
    unfold generateCompleteMaze at h
    cases hfr : s.frontier.isEmpty
    · rw [hfr] at h; exact absurd h (by simp)
    · rw [hfr] at h
      simp only [if_true, Option.some.injEq, Prod.mk.injEq] at h
      rw [← h.1]
      exact ⟨sameStatic_complete s true, rfl, rfl⟩
  | succ n ih =>
    intro s k s1 k1 h
    unfold generateCompleteMaze at h
    cases hfr : s.frontier.isEmpty
    · rw [hfr] at h
      simp only [Bool.false_eq_true, if_false] at h
      rw [generateCompleteMazeBody_eq] at h
      obtain ⟨h1, h2, h3⟩ := ih _ _ s1 k1 h
      have hs := sameStatic_growStep rng 0 s k
      exact ⟨hs.trans h1, h2.trans hs.startX, h3.trans hs.startY⟩
    · rw [hfr] at h
      simp only [if_true, Option.some.injEq, Prod.mk.injEq] at h
      rw [← h.1]
      exact ⟨sameStatic_complete s true, rfl, rfl⟩

theorem mem_maze_iff_cell {s : MazeComplex} (g : GridWF s) (e : MazeElement) (he : e ∈ s.maze) :
    ∃ i, s.inRange i ∧ e = s.cell i := by
  obtain ⟨n, hn, rfl⟩ := List.mem_iff_getElem.1 he
  refine ⟨(n : Int), inRange_of_lt g n hn, ?_⟩
  rw [cell_eq_getElem s (n : Int) (by simpa using hn)]
  simp

theorem canConnect_of_cell (s : MazeComplex) (i : Int)
    (h : (s.structOf i).structureType = StructureType.CELL) : canConnect s (s.cell i) = true := by
  unfold Maze.canConnect
  unfold MazeComplex.structOf at h
  rw [if_neg (by simpa using h)]

theorem gridState_structOf (game : Game) (s : MazeComplex)
    (hnx : 0 < game.app.screenWidth.tdiv game.renderConfig.pixelSize) (i : Int)
    (hi : (gridState game (resetMazeComplex s)).inRange i) :
    ((gridState game (resetMazeComplex s)).structOf i).structureType = StructureType.CELL := by
  rw [grid_structOf _ _ _ hnx (by simp [gridState, resetMazeComplex])
    (by simp [gridState, resetMazeComplex]) i hi.1 hi.2]
  rfl

theorem SameStatic.structureType {s s2 : MazeComplex} (h : SameStatic s s2) (i : Int) :
    (s2.structOf i).structureType = (s.structOf i).structureType := by
  rw [h.structOf_eq, h.stype]; rfl

theorem seedStart_structureType (r : MazeComplex) (start nx ny : Int) (i : Int) :
    ((seedStart r start nx ny).structOf i).structureType = (r.structOf i).structureType :=
  (sameStatic_seedStart r start nx ny).structureType i

/-- The result of `initMazeComplex` followed by `generateCompleteMaze` when every cell is a
`CELL` structure. -/
theorem complete_all_visited {s1 : MazeComplex} (inv : MazeInv s1) (hw : 1 < s1.numCellX)
    (hf : s1.frontier = [])
    (hall : ∀ i, s1.inRange i → (s1.structOf i).structureType = StructureType.CELL) :
    ∀ e ∈ s1.maze, e.visited = true ∧
      e.distance = |e.gridX - s1.startX| + |e.gridY - s1.startY| := by
  intro e he
  obtain ⟨i, hi, rfl⟩ := mem_maze_iff_cell inv.grid e he
  have hv := complete_visited inv hw hf
    (canConnect_of_cell _ _ (hall _ (start_inRange inv.growth))) _ i rfl hi
    (canConnect_of_cell _ _ (hall i hi))
  refine ⟨hv, ?_⟩
  rw [inv.growth.distance i hi hv, inv.grid.gridX i hi, inv.grid.gridY i hi]

/-- C1. On a grid with at least two columns and one row and with no rooms,
`initMazeComplex` on an emptied model returns, and then `generateCompleteMaze` returns
with any fuel that is at least the number of cells; in the state it returns the maze has
`numCellX * numCellY` cells, the frontier is empty, every cell is visited, and the
distance of every cell is its Manhattan distance to the start cell, the cell drawn at
position `k` of the random sequence. -/
theorem C1_complete_maze_without_rooms (rng : Nat → Nat) (game : Game) (s : MazeComplex)
    (k : Nat)
    (hx : 2 ≤ game.app.screenWidth.tdiv game.renderConfig.pixelSize)
    (hy : 1 ≤ game.app.screenHeight.tdiv game.renderConfig.pixelSize)
    (hrooms : s.configNumRooms = 0) :
    ∃ s0 k0, initMazeComplex rng game (resetMazeComplex s) k = some (s0, k0) ∧
      ∀ fuel, s0.maze.length ≤ fuel →
        ∃ s1 k1, generateCompleteMaze rng fuel s0 k0 = some (s1, k1) ∧
          (s1.maze.length : Int) =
            game.app.screenWidth.tdiv game.renderConfig.pixelSize *
              game.app.screenHeight.tdiv game.renderConfig.pixelSize ∧
          s1.startX = drawnStart rng game k %
            game.app.screenWidth.tdiv game.renderConfig.pixelSize ∧
          s1.startY = drawnStart rng game k /
            game.app.screenWidth.tdiv game.renderConfig.pixelSize ∧
          s1.frontier = [] ∧
          ∀ e ∈ s1.maze, e.visited = true ∧
            e.distance = |e.gridX - s1.startX| + |e.gridY - s1.startY| := by
  have hnx : 0 < game.app.screenWidth.tdiv game.renderConfig.pixelSize := by omega
  have hny : 0 < game.app.screenHeight.tdiv game.renderConfig.pixelSize := by omega
  obtain ⟨r, kr, h1, h2, h3, h4, h5, h6⟩ := initMazeComplex_spec rng game s k hnx hny
  rw [hrooms] at h1
  simp only [Int.toNat_zero, addRooms, Option.some.injEq, Prod.mk.injEq] at h1
  obtain ⟨hr, _⟩ := h1
  obtain ⟨inv0, hstart, hnx0, hny0, _, _⟩ := mazeInv_seedStart h2 _ h5
    (game.app.screenWidth.tdiv game.renderConfig.pixelSize)
    (game.app.screenHeight.tdiv game.renderConfig.pixelSize)
  refine ⟨_, kr, h6, ?_⟩
  intro fuel hfuel
  obtain ⟨s1, k1, hg, inv1, hf1, _⟩ := generateCompleteMaze_spec rng fuel _ kr inv0
    (le_trans (unvisitedCount_le_length _) hfuel)
  obtain ⟨hst, hsx, hsy⟩ := sameStatic_generateCompleteMaze rng fuel _ _ _ _ hg
  have hnx1 : s1.numCellX = game.app.screenWidth.tdiv game.renderConfig.pixelSize := by
    rw [hst.numCellX, hnx0, h3]
  have hny1 : s1.numCellY = game.app.screenHeight.tdiv game.renderConfig.pixelSize := by
    rw [hst.numCellY, hny0, h4]
  refine ⟨s1, k1, hg, ?_, ?_, ?_, hf1, ?_⟩
  · rw [inv1.grid.len, hnx1, hny1]
  · rw [hsx, seedStart_startX, h2.grid.gridX _ h5, h3]
  · rw [hsy, seedStart_startY, h2.grid.gridY _ h5, h3]
  · apply complete_all_visited inv1 (by rw [hnx1]; omega) hf1
    intro i hi
    rw [hst.structureType, seedStart_structureType, ← hr]
    apply gridState_structOf game s hnx
    rw [hst.inRange] at hi
    unfold MazeComplex.inRange at hi ⊢
    rw [hnx0, hny0, ← hr] at hi
    exact hi

/-- C1 on the 10 by 10 grid of the scenario, with the random sequence that is constantly 0
(the start cell is cell 0). -/
theorem C1_complete_maze_without_rooms_witness :
    2 ≤ exampleGame.app.screenWidth.tdiv exampleGame.renderConfig.pixelSize ∧
    1 ≤ exampleGame.app.screenHeight.tdiv exampleGame.renderConfig.pixelSize ∧
    MazeComplex.new.configNumRooms = 0 ∧
    ∃ s0 k0, initMazeComplex (fun _ => 0) exampleGame (resetMazeComplex MazeComplex.new) 0
        = some (s0, k0) ∧
      ∀ fuel, s0.maze.length ≤ fuel →
        ∃ s1 k1, generateCompleteMaze (fun _ => 0) fuel s0 k0 = some (s1, k1) ∧
          (s1.maze.length : Int) =
            exampleGame.app.screenWidth.tdiv exampleGame.renderConfig.pixelSize *
              exampleGame.app.screenHeight.tdiv exampleGame.renderConfig.pixelSize ∧
          s1.startX = drawnStart (fun _ => 0) exampleGame 0 %
            exampleGame.app.screenWidth.tdiv exampleGame.renderConfig.pixelSize ∧
          s1.startY = drawnStart (fun _ => 0) exampleGame 0 /
            exampleGame.app.screenWidth.tdiv exampleGame.renderConfig.pixelSize ∧
          s1.frontier = [] ∧
          ∀ e ∈ s1.maze, e.visited = true ∧
            e.distance = |e.gridX - s1.startX| + |e.gridY - s1.startY| :=
  ⟨by decide, by decide, rfl,
    C1_complete_maze_without_rooms (fun _ => 0) exampleGame MazeComplex.new 0 (by decide)
      (by decide) rfl⟩

/-! ## C2: the opened walls of a maze without rooms -/

theorem countP_add_one (l : List Nat) (hnd : l.Nodup) (p p2 : Nat → Bool) (i0 : Nat)
    (hi0 : i0 ∈ l) (hp : p i0 = false) (h : ∀ i ∈ l, p2 i = (p i || decide (i = i0))) :
    l.countP p2 = l.countP p + 1 := by
  induction l with
  | nil => exact absurd hi0 (List.not_mem_nil _)
  | cons a rest ih =>
    rw [List.nodup_cons] at hnd
    rw [List.countP_cons, List.countP_cons]
    by_cases ha : a = i0
    · subst ha
      have hrest : rest.countP p2 = rest.countP p := by
        apply List.countP_congr
        intro i hi
        have hne : i ≠ a := fun h2 => hnd.1 (h2 ▸ hi)
        rw [h i (List.mem_cons_of_mem _ hi)]
        simp [hne]
      have h2 := h a (List.mem_cons_self _ _)
      simp only [decide_True, Bool.or_true] at h2
      rw [hrest, h2, hp]
      simp
    · have hin : i0 ∈ rest := by
        rcases List.mem_cons.1 hi0 with h2 | h2
        · exact absurd h2.symm ha
        · exact h2
      have h2 := h a (List.mem_cons_self _ _)
      simp only [ha, decide_False, Bool.or_false] at h2
      rw [ih hnd.2 hin (fun i hi => h i (List.mem_cons_of_mem _ hi)), h2]
      omega

theorem edge_cond_iff (nx a c : Int) (d d0 : Direction) :
    ((a = c ∧ d = d0) ∨ (a = neighborIndex nx c d0 ∧ d = getOppositeDirection d0)) ↔
      ((neighborIndex nx a d = c ∧ getOppositeDirection d = d0) ∨
        (neighborIndex nx a d = neighborIndex nx c d0 ∧
          getOppositeDirection d = getOppositeDirection d0)) := by
  constructor
  · rintro (⟨rfl, rfl⟩ | ⟨rfl, rfl⟩)
    · exact Or.inr ⟨rfl, rfl⟩
    · exact Or.inl ⟨neighbor_opposite _ _ _, opposite_opposite _⟩
  · rintro (⟨h1, h2⟩ | ⟨h1, h2⟩)
    · right
      subst h2
      rw [opposite_opposite]
      refine ⟨?_, rfl⟩
      rw [← h1, neighbor_opposite]
    · left
      have := opposite_injective _ _ h2
      subst this
      exact ⟨neighbor_left_cancel _ _ _ _ h1, rfl⟩

/-- The opened walls after a step that removed the wall on side `d0` of `c`, when both
records of that wall exist. -/
theorem openEdge_step {s s2 : MazeComplex} (g : GridWF s) (hst : SameStatic s s2) (c : Int)
    (hc : s.inRange c) (d0 : Direction)
    (hd0 : hasNeighbor s.numCellX s.numCellY c d0 = true)
    (hrec : s.hasRecord c d0 = true)
    (hrec2 : s.hasRecord (neighborIndex s.numCellX c d0) (getOppositeDirection d0) = true)
    (hw : ∀ x e, s2.wallOpen x e =
      if (x = c ∧ e = d0) ∨ (x = neighborIndex s.numCellX c d0 ∧ e = getOppositeDirection d0)
      then s.hasRecord x e else s.wallOpen x e) (a : Int) (e : Direction) :
    s2.openEdge a e =
      (s.openEdge a e ||
        decide ((a = c ∧ e = d0) ∨
          (a = neighborIndex s.numCellX c d0 ∧ e = getOppositeDirection d0))) := by
  unfold MazeComplex.openEdge
  rw [hst.numCellX, hst.numCellY, hw, hw]
  by_cases hcond : (a = c ∧ e = d0) ∨
      (a = neighborIndex s.numCellX c d0 ∧ e = getOppositeDirection d0)
  · have hcond2 := (edge_cond_iff s.numCellX a c e d0).1 hcond
    rw [if_pos hcond, if_pos hcond2]
    have hnb : hasNeighbor s.numCellX s.numCellY a e = true := by
      rcases hcond with ⟨rfl, rfl⟩ | ⟨rfl, rfl⟩
      · exact hd0
      · exact neighbor_hasNeighbor g.nx_pos c d0 hc.1 hc.2 hd0
    have hr1 : s.hasRecord a e = true := by
      rcases hcond with ⟨rfl, rfl⟩ | ⟨rfl, rfl⟩
      · exact hrec
      · exact hrec2
    have hr2 : s.hasRecord (neighborIndex s.numCellX a e) (getOppositeDirection e) = true := by
      rcases hcond with ⟨rfl, rfl⟩ | ⟨rfl, rfl⟩
      · exact hrec2
      · rw [neighbor_opposite, opposite_opposite]; exact hrec
    simp [hnb, hr1, hr2, hcond]
  · have hcond2 : ¬ ((neighborIndex s.numCellX a e = c ∧ getOppositeDirection e = d0) ∨
        (neighborIndex s.numCellX a e = neighborIndex s.numCellX c d0 ∧
          getOppositeDirection e = getOppositeDirection d0)) :=
      fun h => hcond ((edge_cond_iff s.numCellX a c e d0).2 h)
    rw [if_neg hcond, if_neg hcond2]
    simp [hcond]

theorem openEdge_same {s s2 : MazeComplex} (hst : SameStatic s s2)
    (hw : ∀ x e, s2.wallOpen x e = s.wallOpen x e) (a : Int) (e : Direction) :
    s2.openEdge a e = s.openEdge a e := by
  unfold MazeComplex.openEdge
  rw [hst.numCellX, hst.numCellY, hw, hw]

theorem openEdge_unvisited {s : MazeComplex} (inv : MazeInv s) (c : Int) (hc : s.inRange c)
    (hv : (s.cell c).visited = false) (d : Direction) : s.openEdge c d = false := by
  unfold MazeComplex.openEdge
  cases h : s.wallOpen c d
  · simp
  · rw [inv.growth.open_visited c d hc h] at hv
    exact Bool.noConfusion hv

theorem openEdge_to_unvisited {s : MazeComplex} (inv : MazeInv s) (c : Int) (hc : s.inRange c)
    (hv : (s.cell c).visited = false) (d : Direction)
    (hd : hasNeighbor s.numCellX s.numCellY c d = true) :
    s.openEdge (neighborIndex s.numCellX c d) (getOppositeDirection d) = false := by
  unfold MazeComplex.openEdge
  rw [neighbor_opposite, opposite_opposite]
  cases h : s.wallOpen c d
  · simp
  · rw [inv.growth.open_visited c d hc h] at hv
    exact Bool.noConfusion hv

/-- The count of opened walls grows by one when a wall between `c` and a neighbour is
removed for the first time. -/
theorem openedWallCount_step {s s2 : MazeComplex} (inv : MazeInv s) (hst : SameStatic s s2)
    (c : Int) (hc : s.inRange c) (hv : (s.cell c).visited = false) (d0 : Direction)
    (hd0 : hasNeighbor s.numCellX s.numCellY c d0 = true)
    (hedge : ∀ a e, s2.openEdge a e =
      (s.openEdge a e ||
        decide ((a = c ∧ e = d0) ∨
          (a = neighborIndex s.numCellX c d0 ∧ e = getOppositeDirection d0)))) :
    openedWallCount s2 = openedWallCount s + 1 := by
  have g := inv.grid
  have hr := neighbor_range g.nx_pos c d0 hc.1 hc.2 hd0
  have hcl := toNat_lt_length g hc
  have hvl := toNat_lt_length g hr
  have hc0 := hc.1
  have hv0 := hr.1
  have hu1 := openEdge_unvisited inv c hc hv
  have hu2 := openEdge_to_unvisited inv c hc hv d0 hd0
  have hcast1 : ((c.toNat : Nat) : Int) = c := by omega
  have hcast2 : (((neighborIndex s.numCellX c d0).toNat : Nat) : Int) =
      neighborIndex s.numCellX c d0 := by omega
  unfold openedWallCount
  rw [hst.length]
  have hsame : ∀ (e : Direction),
      (∀ a, ¬ ((a = c ∧ e = d0) ∨
        (a = neighborIndex s.numCellX c d0 ∧ e = getOppositeDirection d0))) →
      (List.range s.maze.length).countP (fun i => s2.openEdge (i : Nat) e) =
        (List.range s.maze.length).countP (fun i => s.openEdge (i : Nat) e) := by
    intro e he
    apply List.countP_congr
    intro i _
    simp only [hedge, he, decide_False, Bool.or_false]
  cases d0 with
  | EAST =>
    rw [hsame Direction.SOUTH (by simp [getOppositeDirection]),
      countP_add_one _ (List.nodup_range _) (fun i => s.openEdge (i : Nat) Direction.EAST)
        (fun i => s2.openEdge (i : Nat) Direction.EAST)
        c.toNat (by simpa using hcl) (by simp only [hcast1]; exact hu1 _)]
    · omega
    · intro i _
      simp only [hedge, getOppositeDirection]
      congr 1
      simp
      omega
  | WEST =>
    rw [hsame Direction.SOUTH (by simp [getOppositeDirection]),
      countP_add_one _ (List.nodup_range _) (fun i => s.openEdge (i : Nat) Direction.EAST)
        (fun i => s2.openEdge (i : Nat) Direction.EAST)
        (neighborIndex s.numCellX c Direction.WEST).toNat (by simpa using hvl)
        (by simp only [hcast2]; exact hu2)]
    · omega
    · intro i _
      simp only [hedge, getOppositeDirection]
      congr 1
      simp
      omega
  | SOUTH =>
    rw [hsame Direction.EAST (by simp [getOppositeDirection]),
      countP_add_one _ (List.nodup_range _) (fun i => s.openEdge (i : Nat) Direction.SOUTH)
        (fun i => s2.openEdge (i : Nat) Direction.SOUTH)
        c.toNat (by simpa using hcl) (by simp only [hcast1]; exact hu1 _)]
    · omega
    · intro i _
      simp only [hedge, getOppositeDirection]
      congr 1
      simp
      omega
  | NORTH =>
    rw [hsame Direction.EAST (by simp [getOppositeDirection]),
      countP_add_one _ (List.nodup_range _) (fun i => s.openEdge (i : Nat) Direction.SOUTH)
        (fun i => s2.openEdge (i : Nat) Direction.SOUTH)
        (neighborIndex s.numCellX c Direction.NORTH).toNat (by simpa using hvl)
        (by simp only [hcast2]; exact hu2)]
    · omega
    · intro i _
      simp only [hedge, getOppositeDirection]
      congr 1
      simp
      omega

theorem hasRecord_of_single {s : MazeComplex} (g : GridWF s) (w : StructWF s) (a : Int)
    (ha : s.inRange a) (ht : (s.structOf a).structureType = StructureType.CELL)
    (d : Direction) : s.hasRecord a d = true := by
  rw [hasRecord_iff g w a ha]
  have h := single_position w a ha ht
  rw [h.1, h.2.1, h.2.2.1, h.2.2.2]
  cases d <;> simp [onOutline]

theorem allSingle_static {s s2 : MazeComplex} (hst : SameStatic s s2) (h : AllSingle s) :
    AllSingle s2 := by
  intro i hi
  rw [hst.structureType]
  exact h i ((hst.inRange i).1 hi)

theorem linked_mono {s s2 : MazeComplex} (hst : SameStatic s s2)
    (hedge : ∀ a e, s.openEdge a e = true → s2.openEdge a e = true) (a b : Int)
    (h : s.Linked a b) : s2.Linked a b := by
  obtain ⟨d, ha, ho, hb⟩ := h
  exact ⟨d, (hst.inRange a).2 ha, hedge a d ho, by rw [hst.numCellX]; exact hb⟩

theorem treeInv_growStep (rng : Nat → Nat) (t : Int) {s : MazeComplex} (inv : MazeInv s)
    (tree : TreeInv s) (k : Nat) (hne : s.frontier ≠ []) : TreeInv (growStep rng t s k).1 := by
  have hw : 1 < s.numCellX := by
    have h1 := inv.grid.nx_pos
    have h2 : s.numCellX ≠ 1 := fun h => hne (inv.growth.narrow h)
    omega
  have sf := stepFacts rng t inv.grid inv.structs hw k hne inv.growth.frontier_nodup
    (fun f hf => (inv.growth.frontier_mem f hf).1)
  have hcf := inv.growth.frontier_mem _ sf.picked
  have hc := hcf.1
  have hstartc : canConnect s (s.cell s.start) = true :=
    canConnect_of_cell _ _ (tree.single _ (start_inRange inv.growth))
  obtain ⟨d1, hd1, hv1, hc1⟩ := inv.growth.anchored hstartc _ sf.picked
  rcases sf.walls with ⟨hno, _⟩ | ⟨d0, hd0, hv0, _, hwalls⟩
  · exact absurd ⟨hv1, hc1⟩ (hno d1 hd1)
  · have hr := neighbor_range inv.grid.nx_pos _ d0 hc.1 hc.2 hd0
    have hedge := openEdge_step inv.grid sf.static _ hc d0 hd0
      (hasRecord_of_single inv.grid inv.structs _ hc (tree.single _ hc) d0)
      (hasRecord_of_single inv.grid inv.structs _ hr (tree.single _ hr) _) hwalls
    have hmono : ∀ a e, s.openEdge a e = true → (growStep rng t s k).1.openEdge a e = true := by
      intro a e h
      rw [hedge, h]; rfl
    refine ⟨allSingle_static sf.static tree.single, ?_, ?_⟩
    · rw [openedWallCount_step inv sf.static _ hc hcf.2.1 d0 hd0 hedge,
        visitedCount_growStep rng t inv k hne, tree.count]
    · intro v hv hvis
      rw [sf.static.inRange] at hv
      have hstart : (growStep rng t s k).1.start = s.start := by
        unfold MazeComplex.start
        rw [(sameStatic_growStep rng t s k).startX, (sameStatic_growStep rng t s k).startY,
          sf.static.numCellX]
      rw [hstart]
      by_cases hvc : v = pickedCell rng s k
      · have h0 := tree.reach _ hr hv0
        have h1 := Relation.ReflTransGen.mono (linked_mono sf.static hmono) h0
        refine Relation.ReflTransGen.tail h1 ?_
        refine ⟨getOppositeDirection d0, (sf.static.inRange _).2 hr, ?_, ?_⟩
        · rw [hedge]
          simp
        · rw [sf.static.numCellX, neighbor_opposite]; exact hvc
      · rw [sf.visited_other v hv.1 hvc] at hvis
        exact Relation.ReflTransGen.mono (linked_mono sf.static hmono) (tree.reach v hv hvis)

theorem treeInv_complete {s : MazeComplex} (tree : TreeInv s) (b : Bool) :
    TreeInv { s with mazeComplete := b } :=
  ⟨tree.single, tree.count, tree.reach⟩

theorem seedStart_maze {r : MazeComplex} (g : GridWF r) (start : Int) (hs : r.inRange start)
    (nx ny : Int) :
    (seedStart r start nx ny).maze =
      r.maze.set start.toNat { r.cell start with visited := true, generationTime := 0 } := by
  have hlt := toNat_lt_length g hs
  rw [seedStart_eq]
  unfold MazeComplex.modifyCell
  simp only [hs.1, hlt, and_self, if_true]
  rfl

theorem visitedCount_seedStart {r : MazeComplex} (inv : FreshInv r) (start : Int)
    (hs : r.inRange start) (nx ny : Int) : visitedCount (seedStart r start nx ny) = 1 := by
  have hlt := toNat_lt_length inv.grid hs
  unfold visitedCount
  rw [seedStart_maze inv.grid start hs, List.countP_set _ _ _ _ hlt]
  have h0 : List.countP (fun e => e.visited) r.maze = 0 := by
    rw [List.countP_eq_zero]
    intro e he
    obtain ⟨i, _, rfl⟩ := mem_maze_iff_cell inv.grid e he
    rw [inv.unvisited i]; simp
  rw [h0]
  simp

theorem openedWallCount_zero (s : MazeComplex) (h : ∀ x e, s.wallOpen x e = false) :
    openedWallCount s = 0 := by
  unfold openedWallCount
  have h1 : ∀ (e : Direction),
      (List.range s.maze.length).countP (fun i => s.openEdge (i : Nat) e) = 0 := by
    intro e
    rw [List.countP_eq_zero]
    intro i _
    unfold MazeComplex.openEdge
    rw [h]; simp
  rw [h1, h1]

theorem treeInv_seedStart {r : MazeComplex} (inv : FreshInv r) (start : Int)
    (hs : r.inRange start) (nx ny : Int) (hall : AllSingle r) :
    TreeInv (seedStart r start nx ny) := by
  obtain ⟨_, hstart, hnx, hny, hvis, hwall⟩ := mazeInv_seedStart inv start hs nx ny
  refine ⟨?_, ?_, ?_⟩
  · intro i hi
    rw [seedStart_structureType]
    apply hall
    unfold MazeComplex.inRange at hi ⊢
    rw [hnx, hny] at hi; exact hi
  · rw [openedWallCount_zero _ hwall, visitedCount_seedStart inv start hs]
  · intro v hv hvv
    unfold MazeComplex.inRange at hv
    rw [hnx, hny] at hv
    rw [hvis v hv] at hvv
    have : v = start := by simpa using hvv
    rw [hstart, this]

theorem visitedCount_all {s : MazeComplex} (h : ∀ e ∈ s.maze, e.visited = true) :
    visitedCount s = s.maze.length := by
  unfold visitedCount
  rw [List.countP_eq_length]
  intro e he
  exact h e he

/-- C2. On a grid with at least two columns and one row and with no rooms, after
`initMazeComplex` and `generateCompleteMaze` (which both return) the number of opened
walls is the number of cells minus one, and every cell of the grid is reached from the
start cell by going through opened walls. -/
theorem C2_opened_walls_spanning_tree (rng : Nat → Nat) (game : Game) (s : MazeComplex)
    (k : Nat)
    (hx : 2 ≤ game.app.screenWidth.tdiv game.renderConfig.pixelSize)
    (hy : 1 ≤ game.app.screenHeight.tdiv game.renderConfig.pixelSize)
    (hrooms : s.configNumRooms = 0) :
    ∃ s0 k0, initMazeComplex rng game (resetMazeComplex s) k = some (s0, k0) ∧
      ∀ fuel, s0.maze.length ≤ fuel →
        ∃ s1 k1, generateCompleteMaze rng fuel s0 k0 = some (s1, k1) ∧
          (openedWallCount s1 : Int) =
            game.app.screenWidth.tdiv game.renderConfig.pixelSize *
              game.app.screenHeight.tdiv game.renderConfig.pixelSize - 1 ∧
          ∀ i, s1.inRange i → Relation.ReflTransGen s1.Linked s1.start i := by
  have hnx : 0 < game.app.screenWidth.tdiv game.renderConfig.pixelSize := by omega
  have hny : 0 < game.app.screenHeight.tdiv game.renderConfig.pixelSize := by omega
  obtain ⟨r, kr, h1, h2, h3, h4, h5, h6⟩ := initMazeComplex_spec rng game s k hnx hny
  rw [hrooms] at h1
  simp only [Int.toNat_zero, addRooms, Option.some.injEq, Prod.mk.injEq] at h1
  obtain ⟨hr, _⟩ := h1
  have hall : AllSingle r := by
    intro i hi
    rw [← hr] at hi ⊢
    exact gridState_structOf game s hnx i hi
  obtain ⟨inv0, _, hnx0, hny0, _, _⟩ := mazeInv_seedStart h2 _ h5
    (game.app.screenWidth.tdiv game.renderConfig.pixelSize)
    (game.app.screenHeight.tdiv game.renderConfig.pixelSize)
  have tree0 := treeInv_seedStart h2 _ h5
    (game.app.screenWidth.tdiv game.renderConfig.pixelSize)
    (game.app.screenHeight.tdiv game.renderConfig.pixelSize) hall
  refine ⟨_, kr, h6, ?_⟩
  intro fuel hfuel
  obtain ⟨s1, k1, hg, inv1, tree1, hf1, _⟩ := generateCompleteMaze_spec_with rng TreeInv
    (fun s k inv tree hne => treeInv_growStep rng 0 inv tree k hne)
    (fun s tree => treeInv_complete tree true) fuel _ kr inv0 tree0
    (le_trans (unvisitedCount_le_length _) hfuel)
  obtain ⟨hst, _, _⟩ := sameStatic_generateCompleteMaze rng fuel _ _ _ _ hg
  have hnx1 : s1.numCellX = game.app.screenWidth.tdiv game.renderConfig.pixelSize := by
    rw [hst.numCellX, hnx0, h3]
  have hny1 : s1.numCellY = game.app.screenHeight.tdiv game.renderConfig.pixelSize := by
    rw [hst.numCellY, hny0, h4]
  have hallv := complete_all_visited inv1 (by rw [hnx1]; omega) hf1 tree1.single
  refine ⟨s1, k1, hg, ?_, ?_⟩
  · have hc := tree1.count
    rw [visitedCount_all (fun e he => (hallv e he).1)] at hc
    have hl := inv1.grid.len
    rw [hnx1, hny1] at hl
    omega
  · intro i hi
    apply tree1.reach i hi
    have := hallv (s1.cell i) (by
      rw [cell_eq_getElem s1 i (toNat_lt_length inv1.grid hi)]
      exact List.getElem_mem _)
    exact this.1

/-- C2 on the 10 by 10 grid with the random sequence that is constantly 0. -/
theorem C2_opened_walls_spanning_tree_witness :
    2 ≤ exampleGame.app.screenWidth.tdiv exampleGame.renderConfig.pixelSize ∧
    1 ≤ exampleGame.app.screenHeight.tdiv exampleGame.renderConfig.pixelSize ∧
    MazeComplex.new.configNumRooms = 0 ∧
    ∃ s0 k0, initMazeComplex (fun _ => 0) exampleGame (resetMazeComplex MazeComplex.new) 0
        = some (s0, k0) ∧
      ∀ fuel, s0.maze.length ≤ fuel →
        ∃ s1 k1, generateCompleteMaze (fun _ => 0) fuel s0 k0 = some (s1, k1) ∧
          (openedWallCount s1 : Int) =
            exampleGame.app.screenWidth.tdiv exampleGame.renderConfig.pixelSize *
              exampleGame.app.screenHeight.tdiv exampleGame.renderConfig.pixelSize - 1 ∧
          ∀ i, s1.inRange i → Relation.ReflTransGen s1.Linked s1.start i :=
  ⟨by decide, by decide, rfl,
    C2_opened_walls_spanning_tree (fun _ => 0) exampleGame MazeComplex.new 0 (by decide)
      (by decide) rfl⟩

/-! ## C3: mazes with rooms -/

set_option maxRecDepth 100000 in
theorem pairInit_eq :
    initMazeComplex pairRng pairGame (resetMazeComplex pairModel) 0 =
      some (pairInit.1, pairInit.2) := by
  decide

set_option maxRecDepth 100000 in
theorem pairFinal_eq :
    generateCompleteMaze pairRng 4 pairInit.1 pairInit.2 = some (pairFinal.1, pairFinal.2) := by
  decide

theorem pairInit_reachable : Reachable pairInit.1 :=
  Reachable.init pairRng pairGame pairModel 0 pairInit.1 pairInit.2 (by decide) (by decide)
    pairInit_eq

theorem pairFinal_reachable : Reachable pairFinal.1 :=
  Reachable.generate pairRng 4 pairInit.1 pairInit.2 pairFinal.1 pairFinal.2 pairInit_reachable
    pairFinal_eq

/-- C4. In every reachable state, for a cell `a` and the cell next to it on side `d` that
belong to different structures: both cells have their perimeter record on the facing
side, and the record of `a` on side `d` is cleared exactly when the record of the other
cell on the opposite side is cleared. -/
theorem C4_wall_symmetry (s : MazeComplex) (h : Reachable s) (a : Int) (d : Direction)
    (ha : s.inRange a) (hd : hasNeighbor s.numCellX s.numCellY a d = true)
    (hdiff : (s.cell (neighborIndex s.numCellX a d)).parentStructure ≠
      (s.cell a).parentStructure) :
    s.hasRecord a d = true ∧
      s.hasRecord (neighborIndex s.numCellX a d) (getOppositeDirection d) = true ∧
      (s.wallOpen a d = true ↔
        s.wallOpen (neighborIndex s.numCellX a d) (getOppositeDirection d) = true) := by
  have inv := reachable_inv h
  have h1 := (hasRecord_iff_parent_ne inv.grid inv.structs a ha d hd).2 hdiff
  refine ⟨h1, ?_, inv.growth.wall_sym a d ha hd⟩
  rw [← hasRecord_sym inv.grid inv.structs a ha d hd]
  exact h1

set_option maxRecDepth 100000 in
/-- C4 on the complete maze of the example with a room of 2 by 1 cells, at the wall between
cell 1 of the room and cell 3 below it. -/
theorem C4_wall_symmetry_witness :
    Reachable pairFinal.1 ∧ pairFinal.1.inRange 1 ∧
    hasNeighbor pairFinal.1.numCellX pairFinal.1.numCellY 1 Direction.SOUTH = true ∧
    (pairFinal.1.cell (neighborIndex pairFinal.1.numCellX 1 Direction.SOUTH)).parentStructure ≠
      (pairFinal.1.cell 1).parentStructure ∧
    (pairFinal.1.hasRecord 1 Direction.SOUTH = true ∧
      pairFinal.1.hasRecord (neighborIndex pairFinal.1.numCellX 1 Direction.SOUTH)
        (getOppositeDirection Direction.SOUTH) = true ∧
      (pairFinal.1.wallOpen 1 Direction.SOUTH = true ↔
        pairFinal.1.wallOpen (neighborIndex pairFinal.1.numCellX 1 Direction.SOUTH)
          (getOppositeDirection Direction.SOUTH) = true)) :=
  ⟨pairFinal_reachable, ⟨by decide, by decide⟩, by decide, by decide,
    C4_wall_symmetry pairFinal.1 pairFinal_reachable 1 Direction.SOUTH ⟨by decide, by decide⟩
      (by decide) (by decide)⟩

/-! ## C5: stepping and running to completion -/

theorem eraseTime_cell (s : MazeComplex) (i : Int) :
    (eraseTime s).cell i = eraseCellTime (s.cell i) := by
  unfold MazeComplex.cell eraseTime
  simp only [List.getD_eq_getElem?_getD, List.getElem?_map]
  cases s.maze[i.toNat]? <;> rfl

theorem eraseTime_structAt (s : MazeComplex) (h : Nat) :
    (eraseTime s).structAt h = s.structAt h := rfl

theorem eraseTime_idem (s : MazeComplex) : eraseTime (eraseTime s) = eraseTime s := by
  unfold eraseTime
  simp only [List.map_map]
  congr 1

theorem mazeStructureNeighbors_erase (s : MazeComplex) (nx : List Int) (e : MazeElement)
    (v : Bool) :
    mazeStructureNeighbors (eraseTime s) nx (eraseCellTime e) v =
      mazeStructureNeighbors s nx e v := rfl

theorem getNeighbors_erase (s : MazeComplex) (e : MazeElement) (v : Bool) :
    getNeighbors (eraseTime s) (eraseCellTime e) v = getNeighbors s e v := by
  unfold getNeighbors
  congr 1
  funext nx mapElem
  rw [eraseTime_cell, mazeStructureNeighbors_erase]

theorem eraseTime_modifyStruct (s : MazeComplex) (h : Nat) (f : MazeStructure → MazeStructure) :
    eraseTime (s.modifyStruct h f) = (eraseTime s).modifyStruct h f := rfl

theorem eraseTime_checkCell (s : MazeComplex) (d : Direction) (a b : Int) :
    eraseTime (checkCell s d a b) = checkCell (eraseTime s) d a b := by
  unfold checkCell
  simp only [eraseTime_modifyStruct, eraseTime_cell]
  rfl

theorem eraseTime_removeWall (s : MazeComplex) (a b : Int) :
    eraseTime (removeWall s a b) = removeWall (eraseTime s) a b := by
  unfold removeWall
  simp only
  have h : (eraseTime s).numCellX = s.numCellX := rfl
  rw [h]
  split <;> split <;> exact eraseTime_checkCell _ _ _ _

theorem eraseTime_chooseWallCandidate (rng : Nat → Nat) (s : MazeComplex) (c : Int) (k : Nat) :
    eraseTime (chooseWallCandidate rng s c k).1 = (chooseWallCandidate rng (eraseTime s) c k).1 ∧
      (chooseWallCandidate rng s c k).2 = (chooseWallCandidate rng (eraseTime s) c k).2 := by
  unfold chooseWallCandidate
  simp only [eraseTime_cell, getNeighbors_erase]
  split
  · exact ⟨eraseTime_removeWall _ _ _, rfl⟩
  · exact ⟨rfl, rfl⟩

theorem eraseTime_modifyCell (s : MazeComplex) (i : Int) (f f2 : MazeElement → MazeElement)
    (h : ∀ e, eraseCellTime (f e) = eraseCellTime (f2 (eraseCellTime e))) :
    eraseTime (s.modifyCell i f) = eraseTime ((eraseTime s).modifyCell i f2) := by
  unfold MazeComplex.modifyCell
  have hlen : (eraseTime s).maze.length = s.maze.length := by simp [eraseTime]
  rw [hlen]
  split
  · unfold eraseTime
    simp only [List.map_set, List.map_map]
    have hc : MazeComplex.cell { s with maze := s.maze.map eraseCellTime, mazeComplete := false } i
        = eraseCellTime (s.cell i) := eraseTime_cell s i
    rw [hc, h]
    congr 1
  · exact (eraseTime_idem s).symm

theorem eraseTime_withFrontier (s : MazeComplex) (fr : List Int) :
    eraseTime { s with frontier := fr } = { eraseTime s with frontier := fr } := rfl

theorem eraseTime_frontier (s : MazeComplex) : (eraseTime s).frontier = s.frontier := rfl

theorem eraseTime_eq_frontier {s s2 : MazeComplex} (h : eraseTime s = eraseTime s2) :
    s.frontier = s2.frontier := by
  rw [← eraseTime_frontier s, h]; rfl

theorem eraseTime_eq_cell {s s2 : MazeComplex} (h : eraseTime s = eraseTime s2) (i : Int) :
    eraseCellTime (s.cell i) = eraseCellTime (s2.cell i) := by
  rw [← eraseTime_cell, h, eraseTime_cell]

theorem pickedCell_erase (rng : Nat → Nat) (s : MazeComplex) (k : Nat) :
    pickedCell rng (eraseTime s) k = pickedCell rng s k := rfl

theorem visitPicked_eq (rng : Nat → Nat) (t : Int) (s : MazeComplex) (k : Nat) :
    visitPicked rng t s k =
      MazeComplex.modifyCell
        (MazeComplex.modifyCell
          { s with frontier := s.frontier.eraseIdx (rng k % s.frontier.length) }
          (pickedCell rng s k) fun e => { e with visited := true, generationTime := t })
        (pickedCell rng s k) fun e =>
          { e with distance := calculateDistance s.startX s.startY (s.cell (pickedCell rng s k)).gridX (s.cell (pickedCell rng s k)).gridY } := by
  unfold visitPicked
  simp only [modifyCell_startX, modifyCell_startY]
  have hx := cell_modifyCell_field
    { s with frontier := s.frontier.eraseIdx (rng k % s.frontier.length) }
    (pickedCell rng s k) (pickedCell rng s k)
    (fun e => { e with visited := true, generationTime := t }) (fun e => e.gridX) (fun _ => rfl)
  have hy := cell_modifyCell_field
    { s with frontier := s.frontier.eraseIdx (rng k % s.frontier.length) }
    (pickedCell rng s k) (pickedCell rng s k)
    (fun e => { e with visited := true, generationTime := t }) (fun e => e.gridY) (fun _ => rfl)
  simp only [cell_withFrontier] at hx hy
  rw [hx, hy]

theorem eraseTime_visitPicked (rng : Nat → Nat) (t t2 : Int) (s : MazeComplex) (k : Nat) :
    eraseTime (visitPicked rng t s k) = eraseTime (visitPicked rng t2 (eraseTime s) k) := by
  rw [visitPicked_eq, visitPicked_eq, pickedCell_erase, eraseTime_cell]
  have h1 := eraseTime_modifyCell
    { s with frontier := s.frontier.eraseIdx (rng k % s.frontier.length) } (pickedCell rng s k)
    (fun e => { e with visited := true, generationTime := t })
    (fun e => { e with visited := true, generationTime := t2 }) (fun _ => rfl)
  have hD : ∀ (a : MazeComplex), eraseTime (a.modifyCell (pickedCell rng s k) fun e =>
      { e with distance := calculateDistance s.startX s.startY (s.cell (pickedCell rng s k)).gridX (s.cell (pickedCell rng s k)).gridY }) =
      eraseTime ((eraseTime a).modifyCell (pickedCell rng s k) fun e =>
        { e with distance := calculateDistance s.startX s.startY (s.cell (pickedCell rng s k)).gridX (s.cell (pickedCell rng s k)).gridY }) :=
    fun a => eraseTime_modifyCell a _ _ _ (fun _ => rfl)
  rw [hD, h1, ← hD]
  rfl

theorem eraseTime_grow_frontier (a b : MazeComplex) (c : Int) (h : eraseTime a = eraseTime b) :
    eraseTime { a with
        frontier := (getNeighbors a (a.cell c) false).foldl frontierInsert a.frontier } =
      eraseTime { b with
        frontier := (getNeighbors b (b.cell c) false).foldl frontierInsert b.frontier } := by
  have hf : a.frontier = b.frontier := eraseTime_eq_frontier h
  have hg : getNeighbors a (a.cell c) false = getNeighbors b (b.cell c) false := by
    rw [← getNeighbors_erase a, ← getNeighbors_erase b, ← eraseTime_cell, ← eraseTime_cell, h]
  rw [eraseTime_withFrontier, hf, hg, h]
  rfl

theorem eraseTime_growStep (rng : Nat → Nat) (t t2 : Int) (s : MazeComplex) (k : Nat) :
    eraseTime (growStep rng t s k).1 = eraseTime (growStep rng t2 (eraseTime s) k).1 ∧
      (growStep rng t s k).2 = (growStep rng t2 (eraseTime s) k).2 := by
  have hv := eraseTime_visitPicked rng t t2 s k
  have h1 := eraseTime_chooseWallCandidate rng (visitPicked rng t s k) (pickedCell rng s k)
    (k + 1)
  have h2 := eraseTime_chooseWallCandidate rng (visitPicked rng t2 (eraseTime s) k)
    (pickedCell rng s k) (k + 1)
  rw [hv] at h1
  unfold growStep
  simp only [pickedCell_erase]
  exact ⟨eraseTime_grow_frontier _ _ _ (h1.1.trans h2.1.symm), h1.2.trans h2.2.symm⟩

theorem eraseTime_growStep_congr (rng : Nat → Nat) (t t2 : Int) (s s2 : MazeComplex) (k : Nat)
    (h : eraseTime s = eraseTime s2) :
    eraseTime (growStep rng t s k).1 = eraseTime (growStep rng t2 s2 k).1 ∧
      (growStep rng t s k).2 = (growStep rng t2 s2 k).2 := by
  have h1 := eraseTime_growStep rng t 0 s k
  have h2 := eraseTime_growStep rng t2 0 s2 k
  rw [h] at h1
  exact ⟨h1.1.trans h2.1.symm, h1.2.trans h2.2.symm⟩

theorem eraseTime_complete (s : MazeComplex) (b : Bool) :
    eraseTime { s with mazeComplete := b } = eraseTime s := rfl

/-- Stepping with `lookahead` and running `generateCompleteMaze`, from two states that
differ in generation times and completion flag only and with the same draws, give results
that differ in generation times and completion flag only. -/
theorem lookaheadUntilEmpty_generate (rng : Nat → Nat) (times : Nat → Nat) (fuel : Nat) :
    ∀ (s s2 : MazeComplex) (k : Nat), eraseTime s = eraseTime s2 →
      (lookaheadUntilEmpty rng times fuel s k).map (fun r => (eraseTime r.1, r.2)) =
        (generateCompleteMaze rng fuel s2 k).map (fun r => (eraseTime r.1, r.2)) := by
  induction fuel with
  | zero =>
    intro s s2 k h
    unfold lookaheadUntilEmpty generateCompleteMaze
    rw [eraseTime_eq_frontier h]
    cases s2.frontier.isEmpty
    · rfl
    · simp only [if_true, Option.map_some', eraseTime_complete, h]
  | succ n ih =>
    intro s s2 k h
    unfold lookaheadUntilEmpty generateCompleteMaze
    rw [eraseTime_eq_frontier h]
    cases hfr : s2.frontier.isEmpty
    · simp only [Bool.false_eq_true, if_false]
      have hfr1 : s.frontier.isEmpty = false := by rw [eraseTime_eq_frontier h]; exact hfr
      rw [lookahead_eq, hfr1, generateCompleteMazeBody_eq]
      simp only [Bool.false_eq_true, if_false]
      have hc := eraseTime_growStep_congr rng (toInt32 (times n)) 0 s s2 k h
      rw [hc.2]
      exact ih _ _ _ hc.1
    · simp only [if_true, Option.map_some', eraseTime_complete, h]

/-- C5. From a reachable state, with fuel at least the number of cells and with the same
random sequence read from the same position, repeating `lookahead` until the frontier is
empty (at any tick times) and one call of `generateCompleteMaze` both return, at the same
draw position; the two states differ only in the generation times of the cells and in the
completion flag: they have the same structures (hence the same wall flags), the same
visited flags and distances, and both frontiers are empty. -/
theorem C5_mode_equivalence (rng : Nat → Nat) (times : Nat → Nat) (s : MazeComplex)
    (h : Reachable s) (k fuel : Nat) (hfuel : s.maze.length ≤ fuel) :
    ∃ sa sb k1, lookaheadUntilEmpty rng times fuel s k = some (sa, k1) ∧
      generateCompleteMaze rng fuel s k = some (sb, k1) ∧
      eraseTime sa = eraseTime sb ∧ sa.frontier = [] ∧ sb.frontier = [] ∧
      sa.structures = sb.structures ∧
      (∀ i, (sa.cell i).visited = (sb.cell i).visited ∧
        (sa.cell i).distance = (sb.cell i).distance) ∧
      sb.mazeComplete = true := by
  obtain ⟨sb, kb, hg, _, hfb, hcb⟩ := generateCompleteMaze_spec rng fuel s k (reachable_inv h)
    (le_trans (unvisitedCount_le_length _) hfuel)
  have heq := lookaheadUntilEmpty_generate rng times fuel s s k rfl
  rw [hg] at heq
  cases hl : lookaheadUntilEmpty rng times fuel s k with
  | none => rw [hl] at heq; exact absurd heq (by simp)
  | some r =>
    rw [hl] at heq
    simp only [Option.map_some', Option.some.injEq, Prod.mk.injEq] at heq
    obtain ⟨he, hk⟩ := heq
    refine ⟨r.1, sb, kb, ?_, hg, he, ?_, hfb, ?_, ?_, hcb⟩
    · rw [← hk]
    · rw [eraseTime_eq_frontier he]; exact hfb
    · have h1 : (eraseTime r.1).structures = (eraseTime sb).structures := by rw [he]
      exact h1
    · intro i
      have hc := eraseTime_eq_cell he i
      have h1 : (eraseCellTime (r.1.cell i)).visited = (eraseCellTime (sb.cell i)).visited := by
        rw [hc]
      have h2 : (eraseCellTime (r.1.cell i)).distance = (eraseCellTime (sb.cell i)).distance := by
        rw [hc]
      exact ⟨h1, h2⟩

set_option maxRecDepth 100000 in
/-- C5 from the initialised maze of the example with a room of 2 by 1 cells. -/
theorem C5_mode_equivalence_witness :
    Reachable pairInit.1 ∧ pairInit.1.maze.length ≤ 4 ∧
    ∃ sa sb k1, lookaheadUntilEmpty pairRng (fun n => 16 * n) 4 pairInit.1 pairInit.2
        = some (sa, k1) ∧
      generateCompleteMaze pairRng 4 pairInit.1 pairInit.2 = some (sb, k1) ∧
      eraseTime sa = eraseTime sb ∧ sa.frontier = [] ∧ sb.frontier = [] ∧
      sa.structures = sb.structures ∧
      (∀ i, (sa.cell i).visited = (sb.cell i).visited ∧
        (sa.cell i).distance = (sb.cell i).distance) ∧
      sb.mazeComplete = true :=
  ⟨pairInit_reachable, by decide,
    C5_mode_equivalence pairRng (fun n => 16 * n) pairInit.1 pairInit_reachable pairInit.2 4
      (by decide)⟩

/-! ## C6: the opened walls between structures -/

set_option maxRecDepth 100000 in
/-- C6 fails as stated: in the complete maze of the example (a 2 by 2 grid with one room of
2 by 1 cells) there are three structures and three opened walls between cells of different
structures, not two. -/
theorem C6_room_entered_twice :
    pairFinal.1.frontier = [] ∧ pairFinal.1.mazeComplete = true ∧
      structureCount pairFinal.1 = 3 ∧ openedWallCount pairFinal.1 = 3 ∧
      pairFinal.1.openEdge 0 Direction.SOUTH = true ∧
      pairFinal.1.openEdge 1 Direction.SOUTH = true ∧
      (pairFinal.1.cell 0).parentStructure = (pairFinal.1.cell 1).parentStructure := by
  decide

theorem cell_mem_maze {s : MazeComplex} (g : GridWF s) (i : Int) (hi : s.inRange i) :
    s.cell i ∈ s.maze := by
  rw [cell_eq_getElem s i (toNat_lt_length g hi)]
  exact List.getElem_mem _

theorem mem_visitedStructs {s : MazeComplex} (g : GridWF s) (h : Nat) :
    h ∈ ((s.maze.filter fun e => e.visited).map fun e => e.parentStructure).toFinset ↔
      ∃ i, s.inRange i ∧ (s.cell i).visited = true ∧ (s.cell i).parentStructure = h := by
  simp only [List.mem_toFinset, List.mem_map, List.mem_filter]
  constructor
  · rintro ⟨e, ⟨he, hv⟩, hp⟩
    obtain ⟨i, hi, rfl⟩ := mem_maze_iff_cell g e he
    exact ⟨i, hi, hv, hp⟩
  · rintro ⟨i, hi, hv, hp⟩
    exact ⟨s.cell i, ⟨cell_mem_maze g i hi, hv⟩, hp⟩

theorem mem_structs {s : MazeComplex} (g : GridWF s) (h : Nat) :
    h ∈ (s.maze.map fun e => e.parentStructure).toFinset ↔
      ∃ i, s.inRange i ∧ (s.cell i).parentStructure = h := by
  simp only [List.mem_toFinset, List.mem_map]
  constructor
  · rintro ⟨e, he, hp⟩
    obtain ⟨i, hi, rfl⟩ := mem_maze_iff_cell g e he
    exact ⟨i, hi, hp⟩
  · rintro ⟨i, hi, hp⟩
    exact ⟨s.cell i, cell_mem_maze g i hi, hp⟩

theorem visitedStructureCount_eq (s : MazeComplex) :
    visitedStructureCount s =
      (((s.maze.filter fun e => e.visited).map fun e => e.parentStructure).toFinset).card := by
  unfold visitedStructureCount
  rw [List.card_toFinset]

theorem structureCount_eq (s : MazeComplex) :
    structureCount s = ((s.maze.map fun e => e.parentStructure).toFinset).card := by
  unfold structureCount
  rw [List.card_toFinset]

theorem visitedStructs_step {s s2 : MazeComplex} (g : GridWF s) (c : Int) (hc : s.inRange c)
    (sf : StepFacts s s2 c) :
    ((s2.maze.filter fun e => e.visited).map fun e => e.parentStructure).toFinset =
      insert (s.cell c).parentStructure
        (((s.maze.filter fun e => e.visited).map fun e => e.parentStructure).toFinset) := by
  ext h
  rw [Finset.mem_insert, mem_visitedStructs (sf.static.gridWF g), mem_visitedStructs g]
  constructor
  · rintro ⟨i, hi, hv, hp⟩
    rw [sf.static.inRange] at hi
    rw [sf.static.parent] at hp
    by_cases hic : i = c
    · left; rw [← hp, hic]
    · right
      rw [sf.visited_other i hi.1 hic] at hv
      exact ⟨i, hi, hv, hp⟩
  · rintro (rfl | ⟨i, hi, hv, hp⟩)
    · exact ⟨c, (sf.static.inRange c).2 hc, sf.visited_c, sf.static.parent c⟩
    · exact ⟨i, (sf.static.inRange i).2 hi, sf.visited_mono i hi.1 hv,
        (sf.static.parent i).trans hp⟩

theorem openedWallCount_same {s s2 : MazeComplex} (hlen : s2.maze.length = s.maze.length)
    (h : ∀ a e, s2.openEdge a e = s.openEdge a e) : openedWallCount s2 = openedWallCount s := by
  unfold openedWallCount
  rw [hlen]
  simp only [h]

theorem boundInv_growStep (rng : Nat → Nat) (t : Int) {s : MazeComplex} (inv : MazeInv s)
    (b : BoundInv s) (k : Nat) (hne : s.frontier ≠ []) : BoundInv (growStep rng t s k).1 := by
  have hw : 1 < s.numCellX := by
    have h1 := inv.grid.nx_pos
    have h2 : s.numCellX ≠ 1 := fun h => hne (inv.growth.narrow h)
    omega
  have sf := stepFacts rng t inv.grid inv.structs hw k hne inv.growth.frontier_nodup
    (fun f hf => (inv.growth.frontier_mem f hf).1)
  have hcf := inv.growth.frontier_mem _ sf.picked
  have hc := hcf.1
  have hvc := visitedCount_growStep rng t inv k hne
  have hstart : (growStep rng t s k).1.start = s.start := by
    unfold MazeComplex.start
    rw [(sameStatic_growStep rng t s k).startX, (sameStatic_growStep rng t s k).startY,
      sf.static.numCellX]
  have hset := visitedStructs_step inv.grid _ hc sf
  have hb1 := b.upper
  rcases sf.walls with ⟨hno, hsame⟩ | ⟨d0, hd0, hv0, _, hwalls⟩
  · have hcount := openedWallCount_same sf.static.length (openEdge_same sf.static hsame)
    refine ⟨by omega, ?_⟩
    intro hst
    rw [hstart, sf.static.canConnect] at hst
    obtain ⟨d1, hd1, hv1, hc1⟩ := inv.growth.anchored hst _ sf.picked
    exact absurd ⟨hv1, hc1⟩ (hno d1 hd1)
  · have hr := neighbor_range inv.grid.nx_pos _ d0 hc.1 hc.2 hd0
    cases hrec : s.hasRecord (pickedCell rng s k) d0
    · have hrec2 : s.hasRecord (neighborIndex s.numCellX (pickedCell rng s k) d0)
          (getOppositeDirection d0) = false := by
        rw [← hasRecord_sym inv.grid inv.structs _ hc d0 hd0]; exact hrec
      have hsame : ∀ x e, (growStep rng t s k).1.wallOpen x e = s.wallOpen x e := by
        intro x e
        rw [hwalls]
        split
        · next hcond =>
          cases hwo : s.wallOpen x e
          · rcases hcond with ⟨rfl, rfl⟩ | ⟨rfl, rfl⟩
            · exact hrec
            · exact hrec2
          · have := wallOpen_hasRecord s x e hwo
            rcases hcond with ⟨rfl, rfl⟩ | ⟨rfl, rfl⟩
            · rw [hrec] at this; exact absurd this (by simp)
            · rw [hrec2] at this; exact absurd this (by simp)
        · rfl
      have hcount := openedWallCount_same sf.static.length (openEdge_same sf.static hsame)
      refine ⟨by omega, ?_⟩
      intro hst
      rw [hstart, sf.static.canConnect] at hst
      have hlow := b.lower hst
      have hpar : (s.cell (neighborIndex s.numCellX (pickedCell rng s k) d0)).parentStructure =
          (s.cell (pickedCell rng s k)).parentStructure := by
        by_contra hne2
        have := (hasRecord_iff_parent_ne inv.grid inv.structs _ hc d0 hd0).2 hne2
        rw [hrec] at this; exact absurd this (by simp)
      have hin : (s.cell (pickedCell rng s k)).parentStructure ∈
          ((s.maze.filter fun e => e.visited).map fun e => e.parentStructure).toFinset :=
        (mem_visitedStructs inv.grid _).2 ⟨_, hr, hv0, hpar⟩
      rw [visitedStructureCount_eq, hset, Finset.insert_eq_of_mem hin,
        ← visitedStructureCount_eq, hcount]
      exact hlow
    · have hrec2 : s.hasRecord (neighborIndex s.numCellX (pickedCell rng s k) d0)
          (getOppositeDirection d0) = true := by
        rw [← hasRecord_sym inv.grid inv.structs _ hc d0 hd0]; exact hrec
      have hedge := openEdge_step inv.grid sf.static _ hc d0 hd0 hrec hrec2 hwalls
      have hcount := openedWallCount_step inv sf.static _ hc hcf.2.1 d0 hd0 hedge
      refine ⟨by omega, ?_⟩
      intro hst
      rw [hstart, sf.static.canConnect] at hst
      have hlow := b.lower hst
      rw [visitedStructureCount_eq, hset, hcount]
      rw [visitedStructureCount_eq] at hlow
      have := Finset.card_insert_le (s.cell (pickedCell rng s k)).parentStructure
        (((s.maze.filter fun e => e.visited).map fun e => e.parentStructure).toFinset)
      omega

theorem boundInv_complete {s : MazeComplex} (b : BoundInv s) (c : Bool) :
    BoundInv { s with mazeComplete := c } :=
  ⟨b.upper, b.lower⟩

theorem visitedStructureCount_le (s : MazeComplex) : visitedStructureCount s ≤ visitedCount s := by
  unfold visitedStructureCount visitedCount
  rw [List.countP_eq_length_filter]
  have h1 := List.Sublist.length_le
    (List.dedup_sublist ((s.maze.filter fun e => e.visited).map fun e => e.parentStructure))
  simpa using h1

theorem boundInv_seedStart {r : MazeComplex} (inv : FreshInv r) (start : Int)
    (hs : r.inRange start) (nx ny : Int) : BoundInv (seedStart r start nx ny) := by
  obtain ⟨_, _, _, _, _, hwall⟩ := mazeInv_seedStart inv start hs nx ny
  have h1 := openedWallCount_zero _ hwall
  have h2 := visitedCount_seedStart inv start hs nx ny
  have h3 := visitedStructureCount_le (seedStart r start nx ny)
  exact ⟨by omega, fun _ => by omega⟩

/-- At the end of the generation every structure has a visited cell, when the start cell
can be connected. -/
theorem structureCount_le_visited {s : MazeComplex} (inv : MazeInv s) (hw : 1 < s.numCellX)
    (hf : s.frontier = []) (hstart : canConnect s (s.cell s.start) = true) :
    structureCount s ≤ visitedStructureCount s := by
  rw [structureCount_eq, visitedStructureCount_eq]
  apply Finset.card_le_card
  intro h hh
  rw [mem_structs inv.grid] at hh
  rw [mem_visitedStructs inv.grid]
  obtain ⟨i, hi, hp⟩ := hh
  have hb := inv.structs.bounds i hi
  have hc := inv.structs.contains i hi
  unfold MazeStructure.inFootprint at hc
  have hj := @index_range s.numCellX s.numCellY (s.structOf i).startX
    (s.structOf i).startY (by omega) (by omega) (by omega) (by omega)
  have hco := index_coords inv.grid.nx_pos (s.structOf i).startX (s.structOf i).startY
    (by omega) (by omega)
  have hpar := inv.structs.shared i _ hi hj (by
    rw [hco.1, hco.2]; unfold MazeStructure.inFootprint; omega)
  have hS : s.structOf ((s.structOf i).startY * s.numCellX + (s.structOf i).startX) =
      s.structOf i := congrArg s.structAt hpar
  refine ⟨_, hj, ?_, hpar.trans hp⟩
  apply complete_visited inv hw hf hstart _ _ rfl hj
  apply canConnect_of_hasRecord inv.grid _ hj Direction.WEST
  rw [hasRecord_iff inv.grid inv.structs _ hj, hS, hco.1]
  simp [onOutline]

theorem openEdge_parent_ne {s : MazeComplex} (inv : MazeInv s) (a : Int) (d : Direction)
    (ha : s.inRange a) (ho : s.openEdge a d = true) :
    (s.cell (neighborIndex s.numCellX a d)).parentStructure ≠ (s.cell a).parentStructure := by
  unfold MazeComplex.openEdge at ho
  simp only [Bool.and_eq_true] at ho
  exact (hasRecord_iff_parent_ne inv.grid inv.structs a ha d ho.1.1).1
    (wallOpen_hasRecord s a d ho.1.2)

/-- C6, amended. On a grid with at least two columns and one row, for every room
configuration and every random sequence, after `initMazeComplex` and
`generateCompleteMaze`: every opened wall lies between cells of different structures, the
number of opened walls is at most the number of visited cells minus one, and, when the
start cell can be connected, it is at least the number of structures minus one. -/
theorem C6_opened_walls_between_structures (rng : Nat → Nat) (game : Game) (s : MazeComplex)
    (k : Nat)
    (hx : 2 ≤ game.app.screenWidth.tdiv game.renderConfig.pixelSize)
    (hy : 1 ≤ game.app.screenHeight.tdiv game.renderConfig.pixelSize) :
    ∃ s0 k0, initMazeComplex rng game (resetMazeComplex s) k = some (s0, k0) ∧
      ∀ fuel, s0.maze.length ≤ fuel →
        ∃ s1 k1, generateCompleteMaze rng fuel s0 k0 = some (s1, k1) ∧
          (∀ a d, s1.inRange a → s1.openEdge a d = true →
            (s1.cell (neighborIndex s1.numCellX a d)).parentStructure ≠
              (s1.cell a).parentStructure) ∧
          openedWallCount s1 + 1 ≤ visitedCount s1 ∧
          (canConnect s1 (s1.cell s1.start) = true →
            structureCount s1 ≤ openedWallCount s1 + 1) := by
  have hnx : 0 < game.app.screenWidth.tdiv game.renderConfig.pixelSize := by omega
  have hny : 0 < game.app.screenHeight.tdiv game.renderConfig.pixelSize := by omega
  obtain ⟨r, kr, _, h2, h3, _, h5, h6⟩ := initMazeComplex_spec rng game s k hnx hny
  obtain ⟨inv0, _, hnx0, _, _, _⟩ := mazeInv_seedStart h2 _ h5
    (game.app.screenWidth.tdiv game.renderConfig.pixelSize)
    (game.app.screenHeight.tdiv game.renderConfig.pixelSize)
  have b0 := boundInv_seedStart h2 _ h5
    (game.app.screenWidth.tdiv game.renderConfig.pixelSize)
    (game.app.screenHeight.tdiv game.renderConfig.pixelSize)
  refine ⟨_, kr, h6, ?_⟩
  intro fuel hfuel
  obtain ⟨s1, k1, hg, inv1, b1, hf1, _⟩ := generateCompleteMaze_spec_with rng BoundInv
    (fun s k inv b hne => boundInv_growStep rng 0 inv b k hne)
    (fun s b => boundInv_complete b true) fuel _ kr inv0 b0
    (le_trans (unvisitedCount_le_length _) hfuel)
  obtain ⟨hst, _, _⟩ := sameStatic_generateCompleteMaze rng fuel _ _ _ _ hg
  have hw1 : 1 < s1.numCellX := by rw [hst.numCellX, hnx0, h3]; omega
  refine ⟨s1, k1, hg, fun a d ha ho => openEdge_parent_ne inv1 a d ha ho, b1.upper, ?_⟩
  intro hstart
  exact le_trans (structureCount_le_visited inv1 hw1 hf1 hstart) (b1.lower hstart)

/-- C6, amended, on the 2 by 2 grid with one room of 2 by 1 cells. -/
theorem C6_opened_walls_between_structures_witness :
    2 ≤ pairGame.app.screenWidth.tdiv pairGame.renderConfig.pixelSize ∧
    1 ≤ pairGame.app.screenHeight.tdiv pairGame.renderConfig.pixelSize ∧
    ∃ s0 k0, initMazeComplex pairRng pairGame (resetMazeComplex pairModel) 0 = some (s0, k0) ∧
      ∀ fuel, s0.maze.length ≤ fuel →
        ∃ s1 k1, generateCompleteMaze pairRng fuel s0 k0 = some (s1, k1) ∧
          (∀ a d, s1.inRange a → s1.openEdge a d = true →
            (s1.cell (neighborIndex s1.numCellX a d)).parentStructure ≠
              (s1.cell a).parentStructure) ∧
          openedWallCount s1 + 1 ≤ visitedCount s1 ∧
          (canConnect s1 (s1.cell s1.start) = true →
            structureCount s1 ≤ openedWallCount s1 + 1) :=
  ⟨by decide, by decide,
    C6_opened_walls_between_structures pairRng pairGame pairModel 0 (by decide) (by decide)⟩

/-! ## C7: room containment -/

theorem sum_indicator (n c : Nat) :
    ((List.range n).map fun x => if x = c then 1 else 0).sum = if c < n then 1 else 0 := by
  induction n with
  | zero => simp
  | succ n ih =>
    rw [List.sum_range_succ, ih]
    by_cases h1 : c < n
    · have h2 : n ≠ c := by omega
      have h3 : c < n + 1 := by omega
      simp [h1, h2, h3]
    · by_cases h2 : n = c
      · subst h2; simp
      · have h3 : ¬ c < n + 1 := by omega
        simp [h1, h2, h3]

theorem sum_const (n a : Nat) : ((List.range n).map fun _ => a).sum = n * a := by
  induction n with
  | zero => simp
  | succ n ih => rw [List.sum_range_succ, ih]; ring

theorem length_perimeterAt (w h x y c : Int) :
    (perimeterAt w h x y c).length =
      (if x = 0 then 1 else 0) + (if x = w - 1 then 1 else 0) + (if y = 0 then 1 else 0) +
        (if y = h - 1 then 1 else 0) := by
  unfold perimeterAt
  simp only [List.length_append]
  split_ifs <;> rfl

theorem perimeterCells_eq (w h gx gy nx : Int) :
    (MazeStructure.new w h gx gy nx).perimeterCells =
      (List.range h.toNat).flatMap fun (y : Nat) =>
        (List.range w.toNat).flatMap fun (x : Nat) =>
          perimeterAt w h x y ((gy + y) * nx + (gx + x)) := by
  unfold MazeStructure.new footprintOffsets
  simp only [List.flatMap_assoc, List.flatMap_map]

theorem inner_length (W H : Nat) (hW : 1 ≤ W) (y : Nat) (gx gy nx : Int) :
    ((List.range W).flatMap fun (x : Nat) =>
        perimeterAt W H x y ((gy + y) * nx + (gx + x))).length =
      2 + W * ((if y = 0 then 1 else 0) + (if y + 1 = H then 1 else 0)) := by
  rw [List.length_flatMap]
  have hfun : (List.length ∘ fun (x : Nat) =>
      perimeterAt (W : Int) (H : Int) x y ((gy + y) * nx + (gx + x))) =
      fun (x : Nat) => ((if x = 0 then 1 else 0) + (if x = W - 1 then 1 else 0)) +
        ((if y = 0 then 1 else 0) + (if y + 1 = H then 1 else 0)) := by
    funext x
    simp only [Function.comp, length_perimeterAt]
    have e1 : ((x : Int) = 0) ↔ x = 0 := by omega
    have e2 : ((x : Int) = (W : Int) - 1) ↔ x = W - 1 := by omega
    have e3 : ((y : Int) = 0) ↔ y = 0 := by omega
    have e4 : ((y : Int) = (H : Int) - 1) ↔ y + 1 = H := by omega
    simp only [e1, e2, e3, e4]
    ring
  rw [hfun, List.sum_map_add, List.sum_map_add, sum_indicator, sum_indicator, sum_const]
  have h1 : 0 < W := by omega
  have h2 : W - 1 < W := by omega
  simp only [h1, h2, if_true]

/-- The constructor makes `2 * (width + height)` perimeter records. -/
theorem new_perimeter_length (W H : Nat) (hW : 1 ≤ W) (hH : 1 ≤ H) (gx gy nx : Int) :
    (MazeStructure.new W H gx gy nx).perimeterCells.length = 2 * (W + H) := by
  rw [perimeterCells_eq, List.length_flatMap]
  have hfun : (List.length ∘ fun (y : Nat) =>
      (List.range (W : Int).toNat).flatMap fun (x : Nat) =>
        perimeterAt (W : Int) (H : Int) x y ((gy + y) * nx + (gx + x))) =
      fun (y : Nat) => 2 + (W * (if y = 0 then 1 else 0) + W * (if y = H - 1 then 1 else 0)) := by
    funext y
    simp only [Function.comp, Int.toNat_ofNat]
    rw [inner_length W H hW y gx gy nx]
    have e : (y + 1 = H) ↔ y = H - 1 := by omega
    simp only [e]
    ring
  simp only [Int.toNat_ofNat]
  simp only [Int.toNat_ofNat] at hfun
  rw [hfun, List.sum_map_add, List.sum_map_add, sum_const, List.sum_map_mul_left,
    List.sum_map_mul_left, sum_indicator, sum_indicator]
  have h1 : 0 < H := by omega
  have h2 : H - 1 < H := by omega
  simp only [h1, h2, if_true]
  ring

theorem sum_indicator_val (n c a : Nat) :
    ((List.range n).map fun x => if x = c then a else 0).sum = if c < n then a else 0 := by
  induction n with
  | zero => simp
  | succ n ih =>
    rw [List.sum_range_succ, ih]
    by_cases h1 : c < n
    · have h2 : n ≠ c := by omega
      have h3 : c < n + 1 := by omega
      simp [h1, h2, h3]
    · by_cases h2 : n = c
      · subst h2; simp
      · have h3 : ¬ c < n + 1 := by omega
        simp [h1, h2, h3]

theorem countP_perimeterAt (w h x y c c0 : Int) (d0 : Direction) :
    (perimeterAt w h x y c).countP (fun p => decide (p.cell = c0 ∧ p.direction = d0)) =
      if c = c0 ∧ onOutline w h x y d0 = true then 1 else 0 := by
  unfold perimeterAt
  simp only [List.countP_append]
  by_cases hc : c = c0
  · subst hc
    cases d0 <;> simp only [onOutline, decide_eq_true_eq] <;> split_ifs <;> simp_all
  · have : ¬ (c = c0 ∧ onOutline w h x y d0 = true) := fun h2 => hc h2.1
    rw [if_neg this]
    split_ifs <;> simp [hc]

/-- In a rectangle inside the rows of the grid, a cell on side `d` of the outline has one
record for that side, and every other pair of a cell and a side has none. -/
theorem new_perimeter_count (W H : Nat) (gx gy nx : Int) (hgx : 0 ≤ gx) (hfit : gx + W ≤ nx)
    (x0 y0 : Nat) (hx0 : x0 < W) (hy0 : y0 < H) (d0 : Direction) :
    (MazeStructure.new W H gx gy nx).perimeterCells.countP
        (fun p => decide (p.cell = (gy + y0) * nx + (gx + x0) ∧ p.direction = d0)) =
      if onOutline W H x0 y0 d0 = true then 1 else 0 := by
  have hnx : 0 < nx := by omega
  rw [perimeterCells_eq, List.countP_flatMap]
  simp only [Int.toNat_ofNat]
  have hinner : (List.countP (fun p =>
      decide (p.cell = (gy + y0) * nx + (gx + x0) ∧ p.direction = d0)) ∘ fun (y : Nat) =>
        (List.range W).flatMap fun (x : Nat) =>
          perimeterAt (W : Int) (H : Int) x y ((gy + y) * nx + (gx + x))) =
      fun (y : Nat) => if y = y0 then (if onOutline W H x0 y0 d0 = true then 1 else 0) else 0 := by
    funext y
    simp only [Function.comp]
    rw [List.countP_flatMap]
    have hx : (List.range W).map (List.countP (fun p =>
        decide (p.cell = (gy + y0) * nx + (gx + x0) ∧ p.direction = d0)) ∘ fun (x : Nat) =>
          perimeterAt (W : Int) (H : Int) x y ((gy + y) * nx + (gx + x))) =
        (List.range W).map fun (x : Nat) => if x = x0 then
          (if y = y0 ∧ onOutline W H x0 y0 d0 = true then 1 else 0) else 0 := by
      apply List.map_congr_left
      intro x hxm
      rw [List.mem_range] at hxm
      simp only [Function.comp, countP_perimeterAt]
      by_cases hxx : x = x0
      · subst hxx
        by_cases hyy : y = y0
        · subst hyy; simp
        · have hne : ¬ ((gy + (y : Int)) * nx + (gx + x) = (gy + y0) * nx + (gx + x)) := by
            intro heq
            have h1 := index_coords hnx (gx + x) (gy + y) (by omega) (by omega)
            have h2 := index_coords hnx (gx + x) (gy + y0) (by omega) (by omega)
            rw [heq] at h1
            have := h1.2.symm.trans h2.2
            omega
          simp [hne, hyy]
      · have hne : ¬ ((gy + (y : Int)) * nx + (gx + x) = (gy + y0) * nx + (gx + x0)) := by
          intro heq
          have h1 := index_coords hnx (gx + x) (gy + y) (by omega) (by omega)
          have h2 := index_coords hnx (gx + x0) (gy + y0) (by omega) (by omega)
          rw [heq] at h1
          have := h1.1.symm.trans h2.1
          omega
        simp [hne, hxx]
    rw [hx, sum_indicator_val]
    by_cases hyy : y = y0
    · simp [hyy, hx0]
    · simp [hyy]
  rw [hinner, sum_indicator_val]
  simp [hy0]

theorem onOutline_iff (w h x y : Int) (d : Direction) (hx : 0 ≤ x ∧ x < w)
    (hy : 0 ≤ y ∧ y < h) :
    onOutline w h x y d = true ↔
      ¬ ((0 ≤ x + d.dx ∧ x + d.dx < w) ∧ (0 ≤ y + d.dy ∧ y + d.dy < h)) := by
  cases d <;> simp only [onOutline, decide_eq_true_eq, Direction.dx, Direction.dy] <;> omega

/-- C8. For a width and a height of at least 1 the constructor makes `2 * (width + height)`
perimeter records, all with the wall present; every record is the record of a cell of the
footprint on a side on which that cell lies on the outline of the rectangle, that is, a
side on which the next position is outside the rectangle; and when the rectangle lies in
the rows of the grid, each cell of the footprint has exactly one record for each side on
which it lies on the outline and none for any other side. -/
theorem C8_constructor_perimeter (width height gridX gridY numCellX : Int)
    (hw : 1 ≤ width) (hh : 1 ≤ height) :
    (((MazeStructure.new width height gridX gridY numCellX).perimeterCells.length : Nat) : Int)
      = 2 * (width + height) ∧
    (∀ p ∈ (MazeStructure.new width height gridX gridY numCellX).perimeterCells,
      p.visited = true ∧
      ∃ x y, (0 ≤ x ∧ x < width) ∧ (0 ≤ y ∧ y < height) ∧
        p.cell = (gridY + y) * numCellX + (gridX + x) ∧
        onOutline width height x y p.direction = true) ∧
    (∀ x y d, (0 ≤ x ∧ x < width) → (0 ≤ y ∧ y < height) →
      (onOutline width height x y d = true ↔
        ¬ ((0 ≤ x + d.dx ∧ x + d.dx < width) ∧ (0 ≤ y + d.dy ∧ y + d.dy < height)))) ∧
    (0 ≤ gridX → gridX + width ≤ numCellX →
      ∀ x y d, (0 ≤ x ∧ x < width) → (0 ≤ y ∧ y < height) →
        (MazeStructure.new width height gridX gridY numCellX).perimeterCells.countP
            (fun p => decide (p.cell = (gridY + y) * numCellX + (gridX + x) ∧ p.direction = d))
          = if onOutline width height x y d = true then 1 else 0) := by
  have ew : ((width.toNat : Nat) : Int) = width := by omega
  have eh : ((height.toNat : Nat) : Int) = height := by omega
  refine ⟨?_, ?_, fun x y d hx hy => onOutline_iff width height x y d hx hy, ?_⟩
  · have := new_perimeter_length width.toNat height.toNat (by omega) (by omega) gridX gridY
      numCellX
    rw [ew, eh] at this
    rw [this]
    push_cast
    rw [ew, eh]
  · intro p hp
    refine ⟨new_walls _ _ _ _ _ p hp, ?_⟩
    have hk : (p.direction, p.cell) ∈
        (MazeStructure.new width height gridX gridY numCellX).perimeterCells.map
          PerimeterCell.key := List.mem_map.2 ⟨p, hp, rfl⟩
    obtain ⟨x, y, hx, hy, hc, ho⟩ := (mem_new_keys _ _ _ _ _ _ _).1 hk
    exact ⟨x, y, hx, hy, hc, ho⟩
  · intro hgx hfit x y d hx hy
    have := new_perimeter_count width.toNat height.toNat gridX gridY numCellX hgx
      (by rw [ew]; exact hfit) x.toNat y.toNat (by omega) (by omega) d
    have ex : ((x.toNat : Nat) : Int) = x := by omega
    have ey : ((y.toNat : Nat) : Int) = y := by omega
    rw [ew, eh, ex, ey] at this
    exact this

/-- C8 for a room of 3 by 3 cells with its corner at column 2 of row 2 of a grid with 10
columns. -/
theorem C8_constructor_perimeter_witness :
    (1 : Int) ≤ 3 ∧ (1 : Int) ≤ 3 ∧
    ((((MazeStructure.new 3 3 2 2 10).perimeterCells.length : Nat) : Int) = 2 * (3 + 3) ∧
    (∀ p ∈ (MazeStructure.new 3 3 2 2 10).perimeterCells,
      p.visited = true ∧
      ∃ x y, (0 ≤ x ∧ x < 3) ∧ (0 ≤ y ∧ y < 3) ∧
        p.cell = (2 + y) * 10 + (2 + x) ∧ onOutline 3 3 x y p.direction = true) ∧
    (∀ x y d, (0 ≤ x ∧ x < 3) → (0 ≤ y ∧ y < 3) →
      (onOutline 3 3 x y d = true ↔
        ¬ ((0 ≤ x + d.dx ∧ x + d.dx < 3) ∧ (0 ≤ y + d.dy ∧ y + d.dy < 3)))) ∧
    ((0 : Int) ≤ 2 → (2 : Int) + 3 ≤ 10 →
      ∀ x y d, (0 ≤ x ∧ x < 3) → (0 ≤ y ∧ y < 3) →
        (MazeStructure.new 3 3 2 2 10).perimeterCells.countP
            (fun p => decide (p.cell = (2 + y) * 10 + (2 + x) ∧ p.direction = d))
          = if onOutline 3 3 x y d = true then 1 else 0)) :=
  ⟨by decide, by decide, C8_constructor_perimeter 3 3 2 2 10 (by decide) (by decide)⟩

/-! ## C9: `addRoom` is best effort -/

theorem modifyCell_eq_with (s : MazeComplex) (i : Int) (f : MazeElement → MazeElement) :
    s.modifyCell i f = { s with maze := (s.modifyCell i f).maze } := by
  unfold MazeComplex.modifyCell
  split <;> rfl

theorem foldl_setParent_eq_with (l : List Int) (h : Nat) (s : MazeComplex) :
    l.foldl (fun st c => st.modifyCell c fun e => { e with parentStructure := h }) s =
      { s with maze :=
        (l.foldl (fun st c => st.modifyCell c fun e => { e with parentStructure := h }) s).maze }
    := by
  induction l generalizing s with
  | nil => rfl
  | cons a rest ih =>
    rw [List.foldl_cons]
    have h1 := ih (s.modifyCell a fun e => { e with parentStructure := h })
    rw [modifyCell_eq_with s a] at h1 ⊢
    rw [h1]

theorem placeRoom_eq_with (s : MazeComplex) (sX sY w h : Int) :
    placeRoom s sX sY w h =
      { s with
        structures := s.structures ++
          [{ MazeStructure.new w h sX sY s.numCellX with
              structureType := StructureType.ROOM, height := h, width := w }]
        maze := (placeRoom s sX sY w h).maze } := by
  unfold placeRoom
  rw [foldl_setParent_eq_with]

/-- C10 fails as stated: on a 3 by 3 grid with one 3 by 3 room, when the start cell is the
cell in the middle of the room, `initMazeComplex` returns a state whose frontier is the four
cells next to the start cell, and none of them has a visited neighbour that can be
connected. -/
theorem C10_frontier_without_visited_neighbour :
    (initMazeComplex (fun k => if k = 0 then 4 else 0) roomGame (resetMazeComplex roomModel)
        0).map
      (fun r => (r.1.start, canConnect r.1 (r.1.cell r.1.start), r.1.frontier,
        r.1.frontier.map fun f => getNeighbors r.1 (r.1.cell f) true)) =
      some (4, false, [3, 5, 1, 7], [[], [], [], []]) := by
  decide

theorem visited_neighbour_mem {s : MazeComplex} (g : GridWF s) (hw : 1 < s.numCellX) (f : Int)
    (hf : s.inRange f)
    (h : ∃ d, hasNeighbor s.numCellX s.numCellY f d = true ∧
      (s.cell (neighborIndex s.numCellX f d)).visited = true ∧
      canConnect s (s.cell (neighborIndex s.numCellX f d)) = true) :
    ∃ u ∈ getNeighbors s (s.cell f) true,
      (s.cell u).visited = true ∧ canConnect s (s.cell u) = true := by
  obtain ⟨d, hd, hv, hcc⟩ := h
  exact ⟨_, (mem_getNeighbors g hw f hf true _).2 ⟨d, hd, rfl, hcc, hv⟩, hv, hcc⟩

theorem wide_of_frontier {s : MazeComplex} (inv : MazeInv s) (hne : s.frontier ≠ []) :
    1 < s.numCellX := by
  have h1 := inv.grid.nx_pos
  have h2 : s.numCellX ≠ 1 := fun h => hne (inv.growth.narrow h)
  omega

/-! ## C11: the frontier is well formed -/

/-- C11. In every state reached from `initMazeComplex` by growth steps, no index occurs
twice in the frontier, and every member of the frontier is the index of a cell of the grid
(a position of the vector `maze`, holding the cell with that `place`) that is not
visited. -/
theorem C11_frontier_well_formed {s : MazeComplex} (h : Reachable s) :
    s.frontier.Nodup ∧
    ∀ f ∈ s.frontier, s.inRange f ∧ f.toNat < s.maze.length ∧ (s.cell f).place = f ∧
      (s.cell f).visited = false := by
  have inv := reachable_inv h
  refine ⟨inv.growth.frontier_nodup, ?_⟩
  intro f hf
  obtain ⟨hr, hv, _⟩ := inv.growth.frontier_mem f hf
  exact ⟨hr, toNat_lt_length inv.grid hr, inv.grid.place f hr, hv⟩

/-- C11 on the state that `initMazeComplex` returns in the example with a room of 2 by 1
cells, whose frontier holds two cells. -/
theorem C11_frontier_well_formed_witness :
    Reachable pairInit.1 ∧ pairInit.1.frontier.length = 2 ∧
    (pairInit.1.frontier.Nodup ∧
    ∀ f ∈ pairInit.1.frontier, pairInit.1.inRange f ∧ f.toNat < pairInit.1.maze.length ∧
      (pairInit.1.cell f).place = f ∧ (pairInit.1.cell f).visited = false) :=
  ⟨pairInit_reachable, by decide, C11_frontier_well_formed pairInit_reachable⟩

/-! ## C12: the state after `initMazeComplex` -/

theorem mem_structures_structAt (s : MazeComplex) (st : MazeStructure)
    (h : st ∈ s.structures) : ∃ i, s.structAt i = st := by
  obtain ⟨i, hi, rfl⟩ := List.mem_iff_getElem.1 h
  exact ⟨i, by unfold MazeComplex.structAt; rw [List.getD_eq_getElem _ _ hi]⟩

/-- C12. On a grid with at least one cell, for every room configuration and every random
sequence, `initMazeComplex` on a reset model returns a state in which the start cell is the
one visited cell and has distance 0, every perimeter record of every structure has its
wall present, and every frontier member is an unvisited cell of the grid next to the start
cell, above, below, left or right of it. -/
theorem C12_state_after_init (rng : Nat → Nat) (game : Game) (s : MazeComplex) (k : Nat)
    (hnx : 0 < game.app.screenWidth.tdiv game.renderConfig.pixelSize)
    (hny : 0 < game.app.screenHeight.tdiv game.renderConfig.pixelSize) :
    ∃ s0 k0, initMazeComplex rng game (resetMazeComplex s) k = some (s0, k0) ∧
      s0.inRange s0.start ∧
      (∀ i, s0.inRange i → ((s0.cell i).visited = true ↔ i = s0.start)) ∧
      visitedCount s0 = 1 ∧
      (s0.cell s0.start).distance = 0 ∧
      (∀ st ∈ s0.structures, ∀ p ∈ st.perimeterCells, p.visited = true) ∧
      ∀ f ∈ s0.frontier, s0.inRange f ∧ (s0.cell f).visited = false ∧
        ∃ d, hasNeighbor s0.numCellX s0.numCellY s0.start d = true ∧
          f = neighborIndex s0.numCellX s0.start d := by
  obtain ⟨r, kr, _, hfresh, _, _, hstart, hinit⟩ := initMazeComplex_spec rng game s k hnx hny
  obtain ⟨inv, hse, hx0, hy0, hvis, _⟩ := mazeInv_seedStart hfresh _ hstart
    (game.app.screenWidth.tdiv game.renderConfig.pixelSize)
    (game.app.screenHeight.tdiv game.renderConfig.pixelSize)
  have hrange : ∀ i, (seedStart r (drawnStart rng game k)
      (game.app.screenWidth.tdiv game.renderConfig.pixelSize)
      (game.app.screenHeight.tdiv game.renderConfig.pixelSize)).inRange i ↔ r.inRange i := by
    intro i
    unfold MazeComplex.inRange
    rw [hx0, hy0]
  refine ⟨_, kr, hinit, ?_, ?_, visitedCount_seedStart hfresh _ hstart _ _, ?_, ?_, ?_⟩
  · rw [hse]; exact (hrange _).2 hstart
  · intro i hi
    rw [hvis i ((hrange i).1 hi), hse]
    simp
  · rw [hse, seedStart_cell _ _ _ _ _ hstart.1]
    split
    · exact hfresh.distance _
    · exact hfresh.distance _
  · intro st hst p hp
    rw [seedStart_structures] at hst
    obtain ⟨i, rfl⟩ := mem_structures_structAt r st hst
    exact hfresh.walls i p hp
  · intro f hf
    obtain ⟨hfr, hfv, _⟩ := inv.growth.frontier_mem f hf
    refine ⟨hfr, hfv, ?_⟩
    have hw : 1 < (seedStart r (drawnStart rng game k)
        (game.app.screenWidth.tdiv game.renderConfig.pixelSize)
        (game.app.screenHeight.tdiv game.renderConfig.pixelSize)).numCellX :=
      wide_of_frontier inv (List.ne_nil_of_mem hf)
    rw [seedStart_frontier, mem_foldl_frontierInsert, hfresh.frontier] at hf
    rcases hf with hf | hf
    · exact absurd hf (List.not_mem_nil _)
    · obtain ⟨d, hd, hfd, _, _⟩ :=
        (mem_getNeighbors inv.grid hw _ ((hrange _).2 hstart) false f).1 hf
      rw [hse]
      exact ⟨d, hd, hfd⟩

/-- C12 on the 2 by 2 grid of the example with one room of 2 by 1 cells. -/
theorem C12_state_after_init_witness :
    0 < pairGame.app.screenWidth.tdiv pairGame.renderConfig.pixelSize ∧
    0 < pairGame.app.screenHeight.tdiv pairGame.renderConfig.pixelSize ∧
    ∃ s0 k0, initMazeComplex pairRng pairGame (resetMazeComplex pairModel) 0 = some (s0, k0) ∧
      s0.inRange s0.start ∧
      (∀ i, s0.inRange i → ((s0.cell i).visited = true ↔ i = s0.start)) ∧
      visitedCount s0 = 1 ∧
      (s0.cell s0.start).distance = 0 ∧
      (∀ st ∈ s0.structures, ∀ p ∈ st.perimeterCells, p.visited = true) ∧
      ∀ f ∈ s0.frontier, s0.inRange f ∧ (s0.cell f).visited = false ∧
        ∃ d, hasNeighbor s0.numCellX s0.numCellY s0.start d = true ∧
          f = neighborIndex s0.numCellX s0.start d :=
  ⟨by decide, by decide,
    C12_state_after_init pairRng pairGame pairModel 0 (by decide) (by decide)⟩

/-! ## C13: `maxDistance` -/

/-- C13 at a concrete input. On the 3 by 3 grid with the start cell 0 (column 0 of row 0),
`initMazeComplex` sets `maxDistance` to 6, while the farthest corner cell, the cell at
column 2 of row 2, is at Manhattan distance `max(0, 3-1-0) + max(0, 3-1-0) = 4` from the
start cell. -/
theorem C13_maxDistance_off_by_one :
    (initMazeComplex (fun _ => 0) roomGame (resetMazeComplex MazeComplex.new) 0).map
      (fun r => ((r.1.numCellX, r.1.numCellY, r.1.startX, r.1.startY), r.1.maxDistance,
        max r.1.startX (r.1.numCellX - 1 - r.1.startX) +
          max r.1.startY (r.1.numCellY - 1 - r.1.startY),
        calculateDistance r.1.startX r.1.startY (r.1.numCellX - 1) (r.1.numCellY - 1))) =
      some ((3, 3, 0, 0), 6, 4, 4) := by
  decide

/-! ## C14: the display time of a complete maze under the batch policy -/

set_option maxRecDepth 100000 in
/-- C14 at a concrete input. Batch policy on a 2 by 2 grid, no rooms. The tick at time 100
generates the first maze and records the completion time 100 (state `b`). Before the tick
at time 5200 the user interface forces a reset and a new initialisation (state `c`), which
keep the completion time 100. In the tick at time 5200 the new maze is generated and is
observed complete for the first time, still with completion time 100, and the same tick
resets it, since `5200 - 100 > 5000` (state `e`, the result of `updateGame`): the maze
completed at time 5200 is reset at time 5200. Each state is listed with its `mazeComplete`,
its number of visited cells and its `mazeCompletionTime`. -/
theorem C14_stale_completion_time :
    ((initMazeComplex (fun _ => 0) pairGame (resetMazeComplex MazeComplex.new) 0).bind fun a =>
      (updateGame (fun _ => 0) pairGame false 0 5 5 4 100 a.1 a.2).bind fun b =>
      (initMazeComplex (fun _ => 0) pairGame (resetMazeComplex (configureRooms b.1 0 5 5))
        b.2).bind fun c =>
      (updateGrow (fun _ => 0) pairGame 4 5200 c.1 c.2).bind fun d =>
      (updateCycle (fun _ => 0) pairGame 5200 (updateObserve 5200 d.1) d.2).map fun e =>
        ([(b.1.mazeComplete, visitedCount b.1, b.1.mazeCompletionTime),
          (c.1.mazeComplete, visitedCount c.1, c.1.mazeCompletionTime),
          ((updateObserve 5200 d.1).mazeComplete, visitedCount (updateObserve 5200 d.1),
            (updateObserve 5200 d.1).mazeCompletionTime),
          (e.1.mazeComplete, visitedCount e.1, e.1.mazeCompletionTime)],
          decide (updateGame (fun _ => 0) pairGame true 0 5 5 4 5200 b.1 b.2 = some e))) =
      some ([(true, 4, 100), (false, 1, 100), (true, 4, 100), (false, 1, 0)], true) := by
  decide

/-! ## C15: the colour bands -/

theorem generateColor_eq {F : Type} (ops : FloatOps F) (s : MazeComplex) (cfg : ColorConfig F)
    (distance : Int) (time : Nat) :
    generateColor ops s cfg distance time =
      if ops.lt (colorIntensity ops s cfg distance time) (ops.lit (33 / 100)) then
        ImVec4ToSDLColor ops cfg.color1
      else if ops.lt (colorIntensity ops s cfg distance time) (ops.lit (66 / 100)) then
        ImVec4ToSDLColor ops cfg.color2
      else ImVec4ToSDLColor ops cfg.color3 := by
  unfold generateColor colorIntensity
  cases cfg.colorWave <;> rfl

/-- C15. For every interpretation of the floating-point operations, every maze model,
colour configuration, distance and time, `generateColor` returns one of the three palette
colours (converted by `ImVec4ToSDLColor`), chosen by the value `w` that it compares with
the band boundaries, the wave `sin(...) * 0.5 + 0.5` times the pulse `1.0`: colour 1 when
`w < 0.33`; colour 2 when `w < 0.33` fails and `w < 0.66` holds, that is, for a number,
when `0.33 <= w < 0.66`; colour 3 in every other case. -/
theorem C15_generateColor_bands {F : Type} (ops : FloatOps F) (s : MazeComplex)
    (cfg : ColorConfig F) (distance : Int) (time : Nat) :
    (generateColor ops s cfg distance time = ImVec4ToSDLColor ops cfg.color1 ∨
      generateColor ops s cfg distance time = ImVec4ToSDLColor ops cfg.color2 ∨
      generateColor ops s cfg distance time = ImVec4ToSDLColor ops cfg.color3) ∧
    (ops.lt (colorIntensity ops s cfg distance time) (ops.lit (33 / 100)) = true →
      generateColor ops s cfg distance time = ImVec4ToSDLColor ops cfg.color1) ∧
    (ops.lt (colorIntensity ops s cfg distance time) (ops.lit (33 / 100)) = false →
      ops.lt (colorIntensity ops s cfg distance time) (ops.lit (66 / 100)) = true →
      generateColor ops s cfg distance time = ImVec4ToSDLColor ops cfg.color2) ∧
    (ops.lt (colorIntensity ops s cfg distance time) (ops.lit (33 / 100)) = false →
      ops.lt (colorIntensity ops s cfg distance time) (ops.lit (66 / 100)) = false →
      generateColor ops s cfg distance time = ImVec4ToSDLColor ops cfg.color3) := by
  rw [generateColor_eq]
  cases h1 : ops.lt (colorIntensity ops s cfg distance time) (ops.lit (33 / 100)) <;>
    cases h2 : ops.lt (colorIntensity ops s cfg distance time) (ops.lit (66 / 100)) <;>
    simp

/-! ## C16: one cell per grid position -/

/-- C16. On a grid with at least one cell, `initMazeComplex` on a reset model returns a
state whose vector `maze` holds `numCellX * numCellY` cells; the cell stored at index `i`
has `place = i`, a column `gridX` and a row `gridY` inside the grid with
`place = gridY * numCellX + gridX`, and the decoding of `removeWall`
(`cell % numCellX`, `cell / numCellX`) gives `(gridX, gridY)`; and every grid position
`(x, y)` is the position of the cell stored at index `y * numCellX + x`. -/
theorem C16_one_cell_per_position (rng : Nat → Nat) (game : Game) (s : MazeComplex) (k : Nat)
    (hnx : 0 < game.app.screenWidth.tdiv game.renderConfig.pixelSize)
    (hny : 0 < game.app.screenHeight.tdiv game.renderConfig.pixelSize) :
    ∃ s0 k0, initMazeComplex rng game (resetMazeComplex s) k = some (s0, k0) ∧
      s0.numCellX = game.app.screenWidth.tdiv game.renderConfig.pixelSize ∧
      s0.numCellY = game.app.screenHeight.tdiv game.renderConfig.pixelSize ∧
      (s0.maze.length : Int) = s0.numCellX * s0.numCellY ∧
      (∀ i, 0 ≤ i → i < s0.numCellX * s0.numCellY →
        (s0.cell i).place = i ∧
        0 ≤ (s0.cell i).gridX ∧ (s0.cell i).gridX < s0.numCellX ∧
        0 ≤ (s0.cell i).gridY ∧ (s0.cell i).gridY < s0.numCellY ∧
        (s0.cell i).place = (s0.cell i).gridY * s0.numCellX + (s0.cell i).gridX ∧
        i.tmod s0.numCellX = (s0.cell i).gridX ∧ i.tdiv s0.numCellX = (s0.cell i).gridY) ∧
      ∀ x y, 0 ≤ x → x < s0.numCellX → 0 ≤ y → y < s0.numCellY →
        (s0.cell (y * s0.numCellX + x)).gridX = x ∧
        (s0.cell (y * s0.numCellX + x)).gridY = y := by
  obtain ⟨r, kr, _, hfresh, hrx, hry, hstart, hinit⟩ :=
    initMazeComplex_spec rng game s k hnx hny
  obtain ⟨inv, _, hx0, hy0, _, _⟩ := mazeInv_seedStart hfresh _ hstart
    (game.app.screenWidth.tdiv game.renderConfig.pixelSize)
    (game.app.screenHeight.tdiv game.renderConfig.pixelSize)
  have g := inv.grid
  refine ⟨_, kr, hinit, hx0.trans hrx, hy0.trans hry, g.len, ?_, ?_⟩
  · intro i h0 h1
    have hi : (seedStart r (drawnStart rng game k)
        (game.app.screenWidth.tdiv game.renderConfig.pixelSize)
        (game.app.screenHeight.tdiv game.renderConfig.pixelSize)).inRange i := ⟨h0, h1⟩
    have hc := coords_range g.nx_pos i h0 h1
    rw [g.place i hi, g.gridX i hi, g.gridY i hi,
      Int.tmod_eq_emod h0 (le_of_lt g.nx_pos), Int.tdiv_eq_ediv h0 (le_of_lt g.nx_pos)]
    exact ⟨rfl, hc.1, hc.2.1, hc.2.2.1, hc.2.2.2, index_split _ i, rfl, rfl⟩
  · intro x y hx hx2 hy hy2
    have hi := @index_range _ _ x y hx hx2 hy hy2
    have hco := index_coords g.nx_pos x y hx hx2
    rw [g.gridX _ hi, g.gridY _ hi]
    exact hco

/-- C16 on the 2 by 2 grid of the example with one room of 2 by 1 cells. -/
theorem C16_one_cell_per_position_witness :
    0 < pairGame.app.screenWidth.tdiv pairGame.renderConfig.pixelSize ∧
    0 < pairGame.app.screenHeight.tdiv pairGame.renderConfig.pixelSize ∧
    ∃ s0 k0, initMazeComplex pairRng pairGame (resetMazeComplex pairModel) 0 = some (s0, k0) ∧
      s0.numCellX = pairGame.app.screenWidth.tdiv pairGame.renderConfig.pixelSize ∧
      s0.numCellY = pairGame.app.screenHeight.tdiv pairGame.renderConfig.pixelSize ∧
      (s0.maze.length : Int) = s0.numCellX * s0.numCellY ∧
      (∀ i, 0 ≤ i → i < s0.numCellX * s0.numCellY →
        (s0.cell i).place = i ∧
        0 ≤ (s0.cell i).gridX ∧ (s0.cell i).gridX < s0.numCellX ∧
        0 ≤ (s0.cell i).gridY ∧ (s0.cell i).gridY < s0.numCellY ∧
        (s0.cell i).place = (s0.cell i).gridY * s0.numCellX + (s0.cell i).gridX ∧
        i.tmod s0.numCellX = (s0.cell i).gridX ∧ i.tdiv s0.numCellX = (s0.cell i).gridY) ∧
      ∀ x y, 0 ≤ x → x < s0.numCellX → 0 ≤ y → y < s0.numCellY →
        (s0.cell (y * s0.numCellX + x)).gridX = x ∧
        (s0.cell (y * s0.numCellX + x)).gridY = y :=
  ⟨by decide, by decide,
    C16_one_cell_per_position pairRng pairGame pairModel 0 (by decide) (by decide)⟩

/-! ## C17: the Manhattan distance -/

/-- C17. The function `calculateDistance` is the Manhattan distance `|x1-x2| + |y1-y2|`,
it is symmetric and it is 0 on equal points; the overload on two cells is the distance of
their grid positions and has the same two properties. -/
theorem C17_calculateDistance_manhattan (x1 y1 x2 y2 : Int) (elem1 elem2 : MazeElement) :
    calculateDistance x1 y1 x2 y2 = |x1 - x2| + |y1 - y2| ∧
    calculateDistance x1 y1 x2 y2 = calculateDistance x2 y2 x1 y1 ∧
    calculateDistance x1 y1 x1 y1 = 0 ∧
    elem1.calculateDistance elem2 =
      |elem1.gridX - elem2.gridX| + |elem1.gridY - elem2.gridY| ∧
    elem1.calculateDistance elem2 = elem2.calculateDistance elem1 ∧
    elem1.calculateDistance elem1 = 0 := by
  unfold MazeElement.calculateDistance calculateDistance
  refine ⟨rfl, ?_, by simp, rfl, ?_, by simp⟩
  · rw [abs_sub_comm x1 x2, abs_sub_comm y1 y2]
  · rw [abs_sub_comm elem1.gridX, abs_sub_comm elem1.gridY]

/-! ## C18: `hash` and `operator==` of `MazeRenderConfig` -/

theorem hashCombine_cancel (seed h h2 : Nat) (e : hashCombine seed h = hashCombine seed h2) :
    h % 2 ^ 64 = h2 % 2 ^ 64 := by
  unfold hashCombine at e
  have e2 := Nat.xor_right_injective e
  simp only at e2
  omega

theorem hashCombine_congr (seed h h2 : Nat) (e : h % 2 ^ 64 = h2 % 2 ^ 64) :
    hashCombine seed h = hashCombine seed h2 := by
  unfold hashCombine
  have : (h + 0x9e3779b9 + (seed <<< 6) + (seed >>> 2)) % 2 ^ 64 =
      (h2 + 0x9e3779b9 + (seed <<< 6) + (seed >>> 2)) % 2 ^ 64 := by omega
  rw [this]

theorem operatorEq_testConfig : testConfig.operatorEq testConfig = true := by
  simp [MazeRenderConfig.operatorEq, MazeRenderConfig.epsilon]

theorem operatorEq_fields (a b : MazeRenderConfig) (h : a.operatorEq b = true) :
    a.renderByFrame = b.renderByFrame ∧ a.numRooms = b.numRooms ∧
    a.roomWidth = b.roomWidth ∧ a.roomHeight = b.roomHeight ∧ a.pixelSize = b.pixelSize ∧
    |a.angle - b.angle| < MazeRenderConfig.epsilon := by
  unfold MazeRenderConfig.operatorEq at h
  simpa [and_assoc] using h

/-- C18 fails as stated: the configuration of the test and the same configuration with
the angle `2^-21` are equal for `operator==`, since the angles differ by less than
`epsilon`, but their hashes are different for every `std::hash<float>` that gives the two
angles different values, for example one that gives 0 to the angle 0 and 1 to every
other angle. -/
theorem C18_equal_configs_with_different_hashes :
    testConfig.operatorEq tiltedConfig = true ∧
    (∀ (bool_hash : Bool → Nat) (int_hash : Int → Nat) (float_hash : Rat → Nat),
      float_hash 0 % 2 ^ 64 ≠ float_hash (1 / 2097152) % 2 ^ 64 →
      testConfig.hash bool_hash int_hash float_hash ≠
        tiltedConfig.hash bool_hash int_hash float_hash) ∧
    testConfig.hash (fun b => if b then 1 else 0) (fun i => (i % 2 ^ 64).toNat)
        (fun q => if q = 0 then 0 else 1) ≠
      tiltedConfig.hash (fun b => if b then 1 else 0) (fun i => (i % 2 ^ 64).toNat)
        (fun q => if q = 0 then 0 else 1) := by
  have key : ∀ (bool_hash : Bool → Nat) (int_hash : Int → Nat) (float_hash : Rat → Nat),
      float_hash 0 % 2 ^ 64 ≠ float_hash (1 / 2097152) % 2 ^ 64 →
      testConfig.hash bool_hash int_hash float_hash ≠
        tiltedConfig.hash bool_hash int_hash float_hash := by
    intro bh ih fh hne e
    exact hne (hashCombine_cancel _ _ _ e)
  refine ⟨?_, key, key _ _ _ ?_⟩
  · simp [MazeRenderConfig.operatorEq, testConfig, tiltedConfig, MazeRenderConfig.epsilon,
      abs_lt]
    norm_num
  · norm_num

/-- C18, amended. For every `std::hash` of the library and all configurations `a` and `b`:
when `a == b` and the hash of floats gives the angle of `a` and the angle of `b` the same
value (as it does when the two angles are the same float), `a.hash() == b.hash()`. -/
theorem C18_hash_consistent_for_equal_angles (bool_hash : Bool → Nat) (int_hash : Int → Nat)
    (float_hash : Rat → Nat) (a b : MazeRenderConfig) (h : a.operatorEq b = true)
    (hangle : float_hash a.angle % 2 ^ 64 = float_hash b.angle % 2 ^ 64) :
    a.hash bool_hash int_hash float_hash = b.hash bool_hash int_hash float_hash := by
  obtain ⟨h1, h2, h3, h4, h5, _⟩ := operatorEq_fields a b h
  unfold MazeRenderConfig.hash
  simp only [h1, h2, h3, h4, h5]
  exact hashCombine_congr _ _ _ hangle

/-- C18 on the two equal configurations of the test, with the hash of a `bool` 0 or 1,
the hash of a non-negative `int` its value, and a hash of floats that is 0. -/
theorem C18_hash_consistent_for_equal_angles_witness :
    testConfig.operatorEq testConfig = true ∧
    testConfig.hash (fun b => if b then 1 else 0) Int.toNat (fun _ => 0) =
      testConfig.hash (fun b => if b then 1 else 0) Int.toNat (fun _ => 0) :=
  ⟨operatorEq_testConfig,
    C18_hash_consistent_for_equal_angles (fun b => if b then 1 else 0) Int.toNat (fun _ => 0)
      testConfig testConfig operatorEq_testConfig rfl⟩

/-- The third assertion of the test `test_hash_function`: with the hash of a `bool` and of
an `int` their conversion to `size_t` and a hash of floats that is 0 on the angle 0, the
configurations `config` and `config3` have different hashes. -/
theorem test_hash_function_config3 (float_hash : Rat → Nat) (h0 : float_hash 0 = 0) :
    testConfig.hash (fun b => if b then 1 else 0) (fun i => (i % 2 ^ 64).toNat) float_hash ≠
      testConfig3.hash (fun b => if b then 1 else 0) (fun i => (i % 2 ^ 64).toNat)
        float_hash := by
  unfold MazeRenderConfig.hash
  simp only [testConfig, testConfig3, h0]
  decide

/-! ## C19: the neighbours on a grid with one column -/

/-- C19 at a concrete input. On the grid with 1 column and 2 rows, after
`initMazeComplex` with the start cell 0, cell 1 lies below cell 0 inside the grid, is not
visited and can be connected, but `getNeighbors` returns no unvisited neighbour of cell 0
(and no visited neighbour of cell 1): with `numCellX = 1` the keys `place - numCellX` and
`place + numCellX` of the map `conditions` are the keys `place - 1` and `place + 1`, which
are already there with the value `false`. The frontier is empty after the initialisation
and the run to completion leaves cell 1 unvisited. -/
theorem C19_no_neighbours_in_one_column :
    (initMazeComplex (fun _ => 0) columnGame (resetMazeComplex MazeComplex.new) 0).map
      (fun r => (r.1.numCellX, r.1.numCellY, neighborIndex r.1.numCellX 0 Direction.SOUTH)) =
      some (1, 2, 1) ∧
    (initMazeComplex (fun _ => 0) columnGame (resetMazeComplex MazeComplex.new) 0).map
      (fun r => [hasNeighbor r.1.numCellX r.1.numCellY 0 Direction.SOUTH,
        (r.1.cell 1).visited, canConnect r.1 (r.1.cell 1)]) =
      some [true, false, true] ∧
    (initMazeComplex (fun _ => 0) columnGame (resetMazeComplex MazeComplex.new) 0).map
      (fun r => (neighborConditions r.1.numCellX r.1.numCellY 0 0 0,
        [getNeighbors r.1 (r.1.cell 0) false, getNeighbors r.1 (r.1.cell 1) true,
          r.1.frontier])) =
      some ([(-1, false), (1, false)], [[], [], []]) ∧
    (initAndGenerate (fun _ => 0) columnGame MazeComplex.new 0 2).map
      (fun r => (r.1.maze.map (fun e => e.visited), r.1.mazeComplete)) =
      some ([true, false], true) := by
  decide

/-! ## C20: the side of a room that a neighbour is reached through -/

/-- C20 fails as stated: in the example with a room of 2 by 1 cells on the cells 0 and 1,
`getNeighbors` returns cell 1 as an unvisited neighbour of cell 0, although the two cells
belong to the same `ROOM` structure and that structure has no perimeter record for cell 1
on its side `WEST`, the side that faces cell 0 (it has one on its side `EAST`). -/
theorem C20_neighbour_in_same_room :
    (getNeighbors pairInit.1 (pairInit.1.cell 0) false,
      neighborIndex pairInit.1.numCellX 1 Direction.WEST,
      (pairInit.1.cell 0).parentStructure, (pairInit.1.cell 1).parentStructure,
      (pairInit.1.structOf 1).structureType,
      pairInit.1.hasRecord 1 Direction.WEST, pairInit.1.hasRecord 1 Direction.EAST) =
      ([1], 0, 4, 4, StructureType.ROOM, false, true) := by
  decide

/-- C20, amended. In every state reached from `initMazeComplex` by growth steps, for every
cell `c` of the grid and every neighbour `n` that `getNeighbors(c, v)` returns: `n` is a
cell of the grid next to `c`; and for the side `d` of `c` on which `n` lies, when `n`
belongs to a `ROOM` structure that is not the structure of `c`, that structure has a
perimeter record for `n` on the side of `n` that faces `c`. When `n` belongs to the `ROOM`
structure of `c` itself, there is no record for `n` on the side that faces `c`, and there
is a record for `n` on another side. -/
theorem C20_room_neighbour_facing_side {s : MazeComplex} (h : Reachable s) (c : Int)
    (hc : s.inRange c) (v : Bool) (n : Int) (hn : n ∈ getNeighbors s (s.cell c) v) :
    (∃ d, hasNeighbor s.numCellX s.numCellY c d = true ∧ n = neighborIndex s.numCellX c d) ∧
    s.inRange n ∧
    ∀ d, hasNeighbor s.numCellX s.numCellY c d = true → n = neighborIndex s.numCellX c d →
      (s.structOf n).structureType = StructureType.ROOM →
        ((s.cell n).parentStructure ≠ (s.cell c).parentStructure →
          s.hasRecord n (getOppositeDirection d) = true) ∧
        ((s.cell n).parentStructure = (s.cell c).parentStructure →
          s.hasRecord n (getOppositeDirection d) = false ∧
          ∃ e, e ≠ getOppositeDirection d ∧ s.hasRecord n e = true) := by
  have inv := reachable_inv h
  have hw : 1 < s.numCellX := by
    have h1 := inv.grid.nx_pos
    have h2 : s.numCellX ≠ 1 := by
      intro h1
      rw [getNeighbors_one_column inv.grid h1 c hc v] at hn
      exact absurd hn (List.not_mem_nil _)
    omega
  obtain ⟨d, hd, hnd, hcc, _⟩ := (mem_getNeighbors inv.grid hw c hc v n).1 hn
  have hr : s.inRange n := by
    rw [hnd]; exact neighbor_range inv.grid.nx_pos c d hc.1 hc.2 hd
  refine ⟨⟨d, hd, hnd⟩, hr, ?_⟩
  intro d2 hd2 hnd2 hroom
  have hback : hasNeighbor s.numCellX s.numCellY n (getOppositeDirection d2) = true := by
    rw [hnd2]; exact neighbor_hasNeighbor inv.grid.nx_pos c d2 hc.1 hc.2 hd2
  have hopp : neighborIndex s.numCellX n (getOppositeDirection d2) = c := by
    rw [hnd2]; exact neighbor_opposite _ _ _
  have hiff := hasRecord_iff_parent_ne inv.grid inv.structs n hr (getOppositeDirection d2) hback
  rw [hopp] at hiff
  constructor
  · intro hne
    exact hiff.2 (Ne.symm hne)
  · intro heq
    have hno : s.hasRecord n (getOppositeDirection d2) = false := by
      cases hrec : s.hasRecord n (getOppositeDirection d2)
      · rfl
      · exact absurd heq.symm (hiff.1 hrec)
    obtain ⟨e, he⟩ := hasRecord_of_canConnect inv.grid n hr hcc (by rw [hroom]; decide)
    refine ⟨hno, e, ?_, he⟩
    intro hee
    rw [hee, hno] at he
    exact absurd he (by decide)

/-- C20 on the example with a room of 2 by 1 cells: cell 0 of the room as a neighbour of
cell 2, a cell outside the room. -/
theorem C20_room_neighbour_facing_side_witness :
    Reachable pairInit.1 ∧ pairInit.1.inRange 2 ∧
    (0 : Int) ∈ getNeighbors pairInit.1 (pairInit.1.cell 2) false ∧
    ((∃ d, hasNeighbor pairInit.1.numCellX pairInit.1.numCellY 2 d = true ∧
        (0 : Int) = neighborIndex pairInit.1.numCellX 2 d) ∧
    pairInit.1.inRange 0 ∧
    ∀ d, hasNeighbor pairInit.1.numCellX pairInit.1.numCellY 2 d = true →
      (0 : Int) = neighborIndex pairInit.1.numCellX 2 d →
      (pairInit.1.structOf 0).structureType = StructureType.ROOM →
        ((pairInit.1.cell 0).parentStructure ≠ (pairInit.1.cell 2).parentStructure →
          pairInit.1.hasRecord 0 (getOppositeDirection d) = true) ∧
        ((pairInit.1.cell 0).parentStructure = (pairInit.1.cell 2).parentStructure →
          pairInit.1.hasRecord 0 (getOppositeDirection d) = false ∧
          ∃ e, e ≠ getOppositeDirection d ∧ pairInit.1.hasRecord 0 e = true)) :=
  ⟨pairInit_reachable, ⟨by decide, by decide⟩, by decide,
    C20_room_neighbour_facing_side pairInit_reachable 2 ⟨by decide, by decide⟩ false 0
      (by decide)⟩

/-! ## The perimeter records in a growth step -/

theorem forall₂_self {α : Type} (R : α → α → Prop) (h : ∀ x, R x x) (l : List α) :
    List.Forall₂ R l l :=
  List.forall₂_same.2 fun x _ => h x

theorem forall₂_comp {α : Type} {R1 R2 R : α → α → Prop}
    (h : ∀ a b c, R1 a b → R2 b c → R a c) :
    ∀ {l l1 l2 : List α}, List.Forall₂ R1 l l1 → List.Forall₂ R2 l1 l2 → List.Forall₂ R l l2
  | _, _, _, List.Forall₂.nil, List.Forall₂.nil => List.Forall₂.nil
  | _, _, _, List.Forall₂.cons a as, List.Forall₂.cons b bs =>
    List.Forall₂.cons (h _ _ _ a b) (forall₂_comp h as bs)

/-- The loop of `checkCell` keeps the side and the cell of every record, and changes the
wall flag of a record of `c` on side `d` at most, to `false`. -/
theorem clearWall_forall₂ (c : Int) (d : Direction) (l : List PerimeterCell) :
    List.Forall₂
      (fun p p2 => p2.direction = p.direction ∧ p2.cell = p.cell ∧
        (p2.visited = p.visited ∨ (p2.visited = false ∧ p.cell = c ∧ p.direction = d)))
      l (clearWall c d l) := by
  induction l with
  | nil => exact List.Forall₂.nil
  | cons p rest ih =>
    unfold clearWall
    split
    · next hm =>
      exact List.Forall₂.cons ⟨rfl, rfl, Or.inr ⟨rfl, hm.1, hm.2⟩⟩
        (forall₂_self _ (fun x => ⟨rfl, rfl, Or.inl rfl⟩) rest)
    · exact List.Forall₂.cons ⟨rfl, rfl, Or.inl rfl⟩ ih

theorem modifyStruct_clearWall_records (s : MazeComplex) (h0 h : Nat) (c : Int)
    (d : Direction) :
    List.Forall₂
      (fun p p2 => p2.direction = p.direction ∧ p2.cell = p.cell ∧
        (p2.visited = p.visited ∨
          (p2.visited = false ∧ h = h0 ∧ p.cell = c ∧ p.direction = d)))
      (s.structAt h).perimeterCells
      ((s.modifyStruct h0 fun st =>
        { st with perimeterCells := clearWall c d st.perimeterCells }).structAt h).perimeterCells
    := by
  rw [structAt_modifyStruct]
  split
  · next hh =>
    obtain ⟨rfl, _⟩ := hh
    refine (clearWall_forall₂ c d _).imp ?_
    rintro p p2 ⟨h1, h2, h3⟩
    refine ⟨h1, h2, ?_⟩
    rcases h3 with h3 | ⟨h3, h4, h5⟩
    · exact Or.inl h3
    · exact Or.inr ⟨h3, rfl, h4, h5⟩
  · exact forall₂_self _ (fun x => ⟨rfl, rfl, Or.inl rfl⟩) _

/-- The function `checkCell` changes the records of `one` on side `direction` in the
structure of `one` and the records of `two` on the opposite side in the structure of `two`
at most, and only to "wall absent". -/
theorem checkCell_records (s : MazeComplex) (d : Direction) (c v : Int) (h : Nat) :
    List.Forall₂
      (fun p p2 => p2.direction = p.direction ∧ p2.cell = p.cell ∧
        (p2.visited = p.visited ∨
          (p2.visited = false ∧
            ((h = (s.cell c).parentStructure ∧ p.cell = c ∧ p.direction = d) ∨
              (h = (s.cell v).parentStructure ∧ p.cell = v ∧
                p.direction = getOppositeDirection d)))))
      (s.structAt h).perimeterCells ((checkCell s d c v).structAt h).perimeterCells := by
  unfold checkCell
  simp only
  refine forall₂_comp ?_ (modifyStruct_clearWall_records s (s.cell c).parentStructure h c d)
    (modifyStruct_clearWall_records _ (s.cell v).parentStructure h v (getOppositeDirection d))
  rintro p p1 p2 ⟨a1, a2, a3⟩ ⟨b1, b2, b3⟩
  refine ⟨b1.trans a1, b2.trans a2, ?_⟩
  rcases b3 with b3 | ⟨b3, b4, b5, b6⟩
  · rcases a3 with a3 | ⟨a3, a4, a5, a6⟩
    · exact Or.inl (b3.trans a3)
    · exact Or.inr ⟨b3.trans a3, Or.inl ⟨a4, a5, a6⟩⟩
  · exact Or.inr ⟨b3, Or.inr ⟨b4, a2 ▸ b5, a1 ▸ b6⟩⟩

theorem chooseWallCandidate_cases (rng : Nat → Nat) {s : MazeComplex} (g : GridWF s)
    (hw : 1 < s.numCellX) (c : Int) (hc : s.inRange c) (k : Nat) :
    (chooseWallCandidate rng s c k = (s, k) ∧ getNeighbors s (s.cell c) true = []) ∨
    ∃ d, hasNeighbor s.numCellX s.numCellY c d = true ∧
      (s.cell (neighborIndex s.numCellX c d)).visited = true ∧
      canConnect s (s.cell (neighborIndex s.numCellX c d)) = true ∧
      chooseWallCandidate rng s c k =
        (checkCell s d c (neighborIndex s.numCellX c d), k + 1) := by
  unfold chooseWallCandidate
  simp only
  cases hvs : getNeighbors s (s.cell c) true with
  | nil => left; simp
  | cons a rest =>
    right
    have hlen : rng k % (a :: rest).length < (a :: rest).length :=
      Nat.mod_lt _ (by simp)
    have hmem : (a :: rest).getD (rng k % (a :: rest).length) 0 ∈
        getNeighbors s (s.cell c) true := by
      rw [hvs, List.getD_eq_getElem _ 0 hlen]
      exact List.getElem_mem _
    obtain ⟨d, hd, hv, hcc, hvis⟩ := (mem_getNeighbors g hw c hc true _).1 hmem
    rw [hv] at hcc hvis
    refine ⟨d, hd, hvis, hcc, ?_⟩
    simp only [List.isEmpty_cons, Bool.not_false, if_true]
    rw [hv, removeWall_neighbor g c hc d hd]

theorem growStep_structures (rng : Nat → Nat) (t : Int) (s : MazeComplex) (k : Nat) :
    (growStep rng t s k).1.structures =
      (chooseWallCandidate rng (visitPicked rng t s k) (pickedCell rng s k)
        (k + 1)).1.structures := by
  unfold growStep
  rfl

theorem structAt_congr {s s2 : MazeComplex} (h : s2.structures = s.structures) (i : Nat) :
    s2.structAt i = s.structAt i := by
  unfold MazeComplex.structAt
  rw [h]

/-- What one growth step does to the perimeter records: nothing, when the popped cell has
no visited neighbour that can be connected; otherwise the relation `wallStep` holds
between the records before and after, for the side `d` of the chosen neighbour. -/
theorem growStep_records (rng : Nat → Nat) (t : Int) {s : MazeComplex} (inv : MazeInv s)
    (k : Nat) (hne : s.frontier ≠ []) :
    ((growStep rng t s k).1.structures = s.structures ∧
      (growStep rng t s k).2 = k + 1) ∨
    ∃ d, hasNeighbor s.numCellX s.numCellY (pickedCell rng s k) d = true ∧
      (s.cell (neighborIndex s.numCellX (pickedCell rng s k) d)).visited = true ∧
      canConnect s (s.cell (neighborIndex s.numCellX (pickedCell rng s k) d)) = true ∧
      (growStep rng t s k).2 = k + 2 ∧
      (∀ h, List.Forall₂ (wallStep s (pickedCell rng s k) d h) (s.structAt h).perimeterCells
        ((growStep rng t s k).1.structAt h).perimeterCells) ∧
      ∀ x e, (growStep rng t s k).1.wallOpen x e =
        if (x = pickedCell rng s k ∧ e = d) ∨
            (x = neighborIndex s.numCellX (pickedCell rng s k) d ∧
              e = getOppositeDirection d) then s.hasRecord x e
        else s.wallOpen x e := by
  have hw := wide_of_frontier inv hne
  have hpick := pickedCell_mem rng s k hne
  have hc := (inv.growth.frontier_mem _ hpick).1
  have hst := sameStatic_visitPicked rng t s k
  have g3 := hst.gridWF inv.grid
  have hc3 : (visitPicked rng t s k).inRange (pickedCell rng s k) := (hst.inRange _).2 hc
  have hw3 : 1 < (visitPicked rng t s k).numCellX := by rw [hst.numCellX]; exact hw
  have hsv := visitPicked_structures rng t s k
  have h2 : (growStep rng t s k).2 =
      (chooseWallCandidate rng (visitPicked rng t s k) (pickedCell rng s k) (k + 1)).2 := by
    unfold growStep
    rfl
  rcases chooseWallCandidate_cases rng g3 hw3 _ hc3 (k + 1) with ⟨h1, _⟩ | ⟨d, hd, hv, hcc, h1⟩
  · left
    rw [growStep_structures, h2, h1]
    exact ⟨hsv, rfl⟩
  · right
    rw [hst.numCellX, hst.numCellY] at hd
    rw [hst.numCellX] at hv hcc h1
    have hnbr : (visitPicked rng t s k).cell (neighborIndex s.numCellX (pickedCell rng s k) d) =
        s.cell (neighborIndex s.numCellX (pickedCell rng s k) d) :=
      visitPicked_cell_other rng t s k _ (neighbor_range inv.grid.nx_pos _ d hc.1 hc.2 hd).1
        (neighbor_ne _ _ inv.grid.nx_pos d)
    rw [hnbr] at hv
    rw [hst.canConnect] at hcc
    refine ⟨d, hd, hv, hcc, by rw [h2, h1], ?_, ?_⟩
    swap
    · intro x e
      have w3 := hst.structWF inv.structs
      rw [growStep_wallOpen, h1]
      simp only
      rw [wallOpen_checkCell _ d _ _ x e (w3.handle _ hc3)
        (w3.handle _ ((hst.inRange _).2 (neighbor_range inv.grid.nx_pos _ d hc.1 hc.2 hd))),
        hasRecord_congr hsv hst.parent, wallOpen_congr hsv hst.parent]
    intro h
    have hs2 : (growStep rng t s k).1.structAt h =
        (checkCell (visitPicked rng t s k) d (pickedCell rng s k)
          (neighborIndex s.numCellX (pickedCell rng s k) d)).structAt h := by
      apply structAt_congr
      rw [growStep_structures, h1]
    rw [hs2, ← structAt_congr hsv h]
    refine (checkCell_records (visitPicked rng t s k) d (pickedCell rng s k)
      (neighborIndex s.numCellX (pickedCell rng s k) d) h).imp ?_
    intro p p2 hp
    unfold wallStep
    rw [hst.parent, hst.parent] at hp
    exact hp

theorem recordCount_map_key (l l2 : List PerimeterCell)
    (h : l2.map PerimeterCell.key = l.map PerimeterCell.key) (c : Int) (d : Direction) :
    recordCount l2 c d = recordCount l c d := by
  have hk : ∀ m : List PerimeterCell, recordCount m c d =
      (m.map PerimeterCell.key).countP (fun q => decide (q.2 = c ∧ q.1 = d)) := by
    intro m
    unfold recordCount
    rw [List.countP_map]
    rfl
  rw [hk l2, hk l, h]

/-- The structure of a cell of the grid has at most one record for the cell on each
side. -/
theorem recordCount_le_one {s : MazeComplex} (g : GridWF s) (w : StructWF s) (a : Int)
    (ha : s.inRange a) (d : Direction) :
    recordCount (s.structOf a).perimeterCells a d ≤ 1 := by
  have hb := w.bounds a ha
  have hcn := w.contains a ha
  unfold MazeStructure.inFootprint at hcn
  rw [recordCount_map_key _ _ (w.perims a ha)]
  obtain ⟨W, hW⟩ : ∃ W : Nat, (s.structOf a).width = (W : Int) :=
    ⟨_, (Int.toNat_of_nonneg (by omega)).symm⟩
  obtain ⟨H, hH⟩ : ∃ H : Nat, (s.structOf a).height = (H : Int) :=
    ⟨_, (Int.toNat_of_nonneg (by omega)).symm⟩
  obtain ⟨x0, hx0⟩ : ∃ x0 : Nat, a % s.numCellX - (s.structOf a).startX = (x0 : Int) :=
    ⟨_, (Int.toNat_of_nonneg (by omega)).symm⟩
  obtain ⟨y0, hy0⟩ : ∃ y0 : Nat, a / s.numCellX - (s.structOf a).startY = (y0 : Int) :=
    ⟨_, (Int.toNat_of_nonneg (by omega)).symm⟩
  have e1 : (s.structOf a).startY + (y0 : Int) = a / s.numCellX := by omega
  have e2 : (s.structOf a).startX + (x0 : Int) = a % s.numCellX := by omega
  have key := new_perimeter_count W H (s.structOf a).startX (s.structOf a).startY s.numCellX
    hb.1 (by omega) x0 y0 (by omega) (by omega) d
  rw [e1, e2, ← index_split s.numCellX a] at key
  rw [hW, hH]
  unfold recordCount
  rw [key]
  split <;> omega

/-! ## C21: one growth step changes the walls at the chosen edge only -/

/-- C21. In every state reached from `initMazeComplex` by growth steps, with a non-empty
frontier, `lookahead` keeps the number of structures and either leaves every structure as
it is (the popped cell `c` has no visited neighbour that can be connected), or there is a
side `d` of `c` with a visited neighbour `v` that can be connected such that: every
perimeter record of every structure keeps its side and its cell, and keeps its wall flag
unless it is the record of `c` on side `d` in the structure of `c` or the record of `v` on
the opposite side in the structure of `v`, and then the wall is absent afterwards
(`wallStep`); there is at most one record of each of the two kinds; and after the step the
two records, where they exist, have their wall absent. No record goes from wall absent to
wall present. -/
theorem C21_step_changes_chosen_edge {s : MazeComplex} (h : Reachable s) (rng : Nat → Nat)
    (currentTime k : Nat) (hne : s.frontier ≠ []) :
    (lookahead rng currentTime s k).1.structures.length = s.structures.length ∧
    (∀ i, List.Forall₂
      (fun p p2 => p2.direction = p.direction ∧ p2.cell = p.cell ∧
        (p.visited = false → p2.visited = false))
      (s.structAt i).perimeterCells
      ((lookahead rng currentTime s k).1.structAt i).perimeterCells) ∧
    ((lookahead rng currentTime s k).1.structures = s.structures ∨
      ∃ d, hasNeighbor s.numCellX s.numCellY (pickedCell rng s k) d = true ∧
        (s.cell (neighborIndex s.numCellX (pickedCell rng s k) d)).visited = true ∧
        canConnect s (s.cell (neighborIndex s.numCellX (pickedCell rng s k) d)) = true ∧
        (∀ i, List.Forall₂ (wallStep s (pickedCell rng s k) d i)
          (s.structAt i).perimeterCells
          ((lookahead rng currentTime s k).1.structAt i).perimeterCells) ∧
        recordCount (s.structOf (pickedCell rng s k)).perimeterCells (pickedCell rng s k) d
          ≤ 1 ∧
        recordCount
          (s.structOf (neighborIndex s.numCellX (pickedCell rng s k) d)).perimeterCells
          (neighborIndex s.numCellX (pickedCell rng s k) d) (getOppositeDirection d) ≤ 1 ∧
        (lookahead rng currentTime s k).1.wallOpen (pickedCell rng s k) d =
          s.hasRecord (pickedCell rng s k) d ∧
        (lookahead rng currentTime s k).1.wallOpen
            (neighborIndex s.numCellX (pickedCell rng s k) d) (getOppositeDirection d) =
          s.hasRecord (neighborIndex s.numCellX (pickedCell rng s k) d)
            (getOppositeDirection d)) := by
  have inv := reachable_inv h
  have hl : lookahead rng currentTime s k = growStep rng (toInt32 currentTime) s k := by
    rw [lookahead_eq, (isEmpty_eq_false_iff _).2 hne]
    rfl
  rw [hl]
  have hpick := pickedCell_mem rng s k hne
  have hc := (inv.growth.frontier_mem _ hpick).1
  refine ⟨(sameStatic_growStep rng _ s k).slength, ?_, ?_⟩
  · intro i
    rcases growStep_records rng (toInt32 currentTime) inv k hne with ⟨h1, _⟩ |
      ⟨d, _, _, _, _, h5, _⟩
    · rw [structAt_congr h1 i]
      exact forall₂_self _ (fun x => ⟨rfl, rfl, fun hx => hx⟩) _
    · refine (h5 i).imp ?_
      rintro p p2 ⟨a1, a2, a3⟩
      refine ⟨a1, a2, fun hp => ?_⟩
      rcases a3 with a3 | ⟨a3, _⟩
      · rw [a3]; exact hp
      · exact a3
  · rcases growStep_records rng (toInt32 currentTime) inv k hne with ⟨h1, _⟩ |
      ⟨d, hd, hv, hcc, _, h5, h6⟩
    · exact Or.inl h1
    · right
      have hr := neighbor_range inv.grid.nx_pos _ d hc.1 hc.2 hd
      refine ⟨d, hd, hv, hcc, h5, recordCount_le_one inv.grid inv.structs _ hc d,
        recordCount_le_one inv.grid inv.structs _ hr _, ?_, ?_⟩
      · rw [h6, if_pos (Or.inl ⟨rfl, rfl⟩)]
      · rw [h6, if_pos (Or.inr ⟨rfl, rfl⟩)]

/-- C21 on the first growth step of the example with a room of 2 by 1 cells. -/
theorem C21_step_changes_chosen_edge_witness :
    Reachable pairInit.1 ∧ pairInit.1.frontier ≠ [] ∧
    ((lookahead pairRng 0 pairInit.1 pairInit.2).1.structures.length = pairInit.1.structures.length ∧
    (∀ i, List.Forall₂
      (fun p p2 => p2.direction = p.direction ∧ p2.cell = p.cell ∧
        (p.visited = false → p2.visited = false))
      (pairInit.1.structAt i).perimeterCells
      ((lookahead pairRng 0 pairInit.1 pairInit.2).1.structAt i).perimeterCells) ∧
    ((lookahead pairRng 0 pairInit.1 pairInit.2).1.structures = pairInit.1.structures ∨
      ∃ d, hasNeighbor pairInit.1.numCellX pairInit.1.numCellY (pickedCell pairRng pairInit.1 pairInit.2) d = true ∧
        (pairInit.1.cell (neighborIndex pairInit.1.numCellX (pickedCell pairRng pairInit.1 pairInit.2) d)).visited = true ∧
        canConnect pairInit.1 (pairInit.1.cell (neighborIndex pairInit.1.numCellX (pickedCell pairRng pairInit.1 pairInit.2) d)) = true ∧
        (∀ i, List.Forall₂ (wallStep pairInit.1 (pickedCell pairRng pairInit.1 pairInit.2) d i)
          (pairInit.1.structAt i).perimeterCells
          ((lookahead pairRng 0 pairInit.1 pairInit.2).1.structAt i).perimeterCells) ∧
        recordCount (pairInit.1.structOf (pickedCell pairRng pairInit.1 pairInit.2)).perimeterCells (pickedCell pairRng pairInit.1 pairInit.2) d
          ≤ 1 ∧
        recordCount
          (pairInit.1.structOf (neighborIndex pairInit.1.numCellX (pickedCell pairRng pairInit.1 pairInit.2) d)).perimeterCells
          (neighborIndex pairInit.1.numCellX (pickedCell pairRng pairInit.1 pairInit.2) d) (getOppositeDirection d) ≤ 1 ∧
        (lookahead pairRng 0 pairInit.1 pairInit.2).1.wallOpen (pickedCell pairRng pairInit.1 pairInit.2) d =
          pairInit.1.hasRecord (pickedCell pairRng pairInit.1 pairInit.2) d ∧
        (lookahead pairRng 0 pairInit.1 pairInit.2).1.wallOpen
            (neighborIndex pairInit.1.numCellX (pickedCell pairRng pairInit.1 pairInit.2) d) (getOppositeDirection d) =
          pairInit.1.hasRecord (neighborIndex pairInit.1.numCellX (pickedCell pairRng pairInit.1 pairInit.2) d)
            (getOppositeDirection d))) :=
  ⟨pairInit_reachable, by decide,
    C21_step_changes_chosen_edge pairInit_reachable pairRng 0 pairInit.2 (by decide)⟩

/-! ## Induction over the reachable states -/

theorem generateCompleteMaze_inv_with (rng : Nat → Nat) (P : MazeComplex → Prop)
    (hstep : ∀ (t : Int) s k, MazeInv s → P s → s.frontier ≠ [] → P (growStep rng t s k).1)
    (hdone : ∀ s, P s → P { s with mazeComplete := true }) (fuel : Nat) :
    ∀ (s : MazeComplex) (k : Nat) (s1 : MazeComplex) (k1 : Nat), MazeInv s → P s →
      generateCompleteMaze rng fuel s k = some (s1, k1) → P s1 := by
  induction fuel with
  | zero =>
    intro s k s1 k1 inv hP h
    unfold generateCompleteMaze at h
    cases hfr : s.frontier.isEmpty
    · rw [hfr] at h; exact absurd h (by simp)
    · rw [hfr] at h
      simp only [if_true, Option.some.injEq, Prod.mk.injEq] at h
      rw [← h.1]
      exact hdone s hP
  | succ n ih =>
    intro s k s1 k1 inv hP h
    unfold generateCompleteMaze at h
    cases hfr : s.frontier.isEmpty
    · rw [hfr] at h
      simp only [Bool.false_eq_true, if_false] at h
      rw [generateCompleteMazeBody_eq] at h
      have hne := (isEmpty_eq_false_iff _).1 hfr
      exact ih _ _ s1 k1 (mazeInv_growStep rng 0 inv k hne) (hstep 0 s k inv hP hne) h
    · rw [hfr] at h
      simp only [if_true, Option.some.injEq, Prod.mk.injEq] at h
      rw [← h.1]
      exact hdone s hP

/-- A property that holds after `initMazeComplex`, is kept by every growth step and does
not depend on `mazeComplete` holds in every reachable state. -/
theorem reachable_with (P : MazeComplex → Prop)
    (hinit : ∀ (rng : Nat → Nat) (game : Game) (s : MazeComplex) (k : Nat) (r : MazeComplex),
      0 < game.app.screenWidth.tdiv game.renderConfig.pixelSize →
      0 < game.app.screenHeight.tdiv game.renderConfig.pixelSize →
      FreshInv r →
      r.numCellX = game.app.screenWidth.tdiv game.renderConfig.pixelSize →
      r.numCellY = game.app.screenHeight.tdiv game.renderConfig.pixelSize →
      r.inRange (drawnStart rng game k) →
      P (seedStart r (drawnStart rng game k)
        (game.app.screenWidth.tdiv game.renderConfig.pixelSize)
        (game.app.screenHeight.tdiv game.renderConfig.pixelSize)))
    (hstep : ∀ (rng : Nat → Nat) (t : Int) s k, MazeInv s → P s → s.frontier ≠ [] →
      P (growStep rng t s k).1)
    (hdone : ∀ s, P s → P { s with mazeComplete := true }) :
    ∀ {s : MazeComplex}, Reachable s → P s := by
  intro s h
  induction h with
  | init rng game s k s0 k0 hnx hny h =>
    obtain ⟨r, kr, _, h2, h3, h4, h5, h6⟩ := initMazeComplex_spec rng game s k hnx hny
    rw [h6] at h
    have : seedStart r (drawnStart rng game k)
        (game.app.screenWidth.tdiv game.renderConfig.pixelSize)
        (game.app.screenHeight.tdiv game.renderConfig.pixelSize) = s0 := by
      injection h with h; exact (Prod.mk.inj h).1
    rw [← this]
    exact hinit rng game s k r hnx hny h2 h3 h4 h5
  | lookahead rng t s k hr ih =>
    rw [lookahead_eq]
    cases hfr : s.frontier.isEmpty
    · simp only [Bool.false_eq_true, if_false]
      exact hstep rng _ s k (reachable_inv hr) ih ((isEmpty_eq_false_iff _).1 hfr)
    · simpa using ih
  | generate rng fuel s k s1 k1 hr h ih =>
    exact generateCompleteMaze_inv_with rng P (hstep rng) hdone fuel s k s1 k1
      (reachable_inv hr) ih h

/-! ## C25: the walls around the grid -/

theorem forall₂_mem_right {α : Type} {R : α → α → Prop} :
    ∀ {l l2 : List α}, List.Forall₂ R l l2 → ∀ b ∈ l2, ∃ a ∈ l, R a b
  | _, _, List.Forall₂.nil, b, hb => absurd hb (List.not_mem_nil _)
  | _, _, List.Forall₂.cons h hs, b, hb => by
    rcases List.mem_cons.1 hb with rfl | hb
    · exact ⟨_, List.mem_cons_self _ _, h⟩
    · obtain ⟨a, ha, hr⟩ := forall₂_mem_right hs b hb
      exact ⟨a, List.mem_cons_of_mem _ ha, hr⟩

/-- In every reachable state a record whose wall is absent is a record of a cell of the
grid on a side where the cell has a neighbour in the grid. -/
theorem absent_wall_inside {s : MazeComplex} (h : Reachable s) :
    ∀ i, ∀ p ∈ (s.structAt i).perimeterCells, p.visited = false →
      s.inRange p.cell ∧ hasNeighbor s.numCellX s.numCellY p.cell p.direction = true := by
  refine reachable_with
    (fun s => ∀ i, ∀ p ∈ (s.structAt i).perimeterCells, p.visited = false →
      s.inRange p.cell ∧ hasNeighbor s.numCellX s.numCellY p.cell p.direction = true)
    ?_ ?_ ?_ h
  · intro rng game s k r _ _ hfresh _ _ _ i p hp hv
    rw [structAt_congr (seedStart_structures r _ _ _) i] at hp
    rw [hfresh.walls i p hp] at hv
    exact absurd hv (by decide)
  · intro rng t s k inv hP hne i p2 hp2 hv2
    have hst := sameStatic_growStep rng t s k
    have hpick := pickedCell_mem rng s k hne
    have hc := (inv.growth.frontier_mem _ hpick).1
    unfold MazeComplex.inRange
    rw [hst.numCellX, hst.numCellY]
    rcases growStep_records rng t inv k hne with ⟨h1, _⟩ | ⟨d, hd, _, _, _, h5, _⟩
    · rw [structAt_congr h1 i] at hp2
      exact hP i p2 hp2 hv2
    · obtain ⟨p, hp, a1, a2, a3⟩ := forall₂_mem_right (h5 i) p2 hp2
      rw [a1, a2]
      rcases a3 with a3 | ⟨_, ⟨_, b2, b3⟩ | ⟨_, b2, b3⟩⟩
      · exact hP i p hp (a3 ▸ hv2)
      · rw [b2, b3]
        exact ⟨hc, hd⟩
      · rw [b2, b3]
        exact ⟨neighbor_range inv.grid.nx_pos _ d hc.1 hc.2 hd,
          neighbor_hasNeighbor inv.grid.nx_pos _ d hc.1 hc.2 hd⟩
  · intro s hP
    exact hP

/-- C25. In every state reached from `initMazeComplex` by growth steps, every perimeter
record of every structure that faces outside the grid (`NORTH` of a cell of row 0, `SOUTH`
of a cell of the last row, `WEST` of a cell of column 0, `EAST` of a cell of the last
column) has its wall present. -/
theorem C25_maze_stays_enclosed {s : MazeComplex} (h : Reachable s) (st : MazeStructure)
    (hst : st ∈ s.structures) (p : PerimeterCell) (hp : p ∈ st.perimeterCells)
    (hout : (p.direction = Direction.NORTH ∧ p.cell / s.numCellX = 0) ∨
      (p.direction = Direction.SOUTH ∧ p.cell / s.numCellX = s.numCellY - 1) ∨
      (p.direction = Direction.WEST ∧ p.cell % s.numCellX = 0) ∨
      (p.direction = Direction.EAST ∧ p.cell % s.numCellX = s.numCellX - 1)) :
    p.visited = true := by
  obtain ⟨i, rfl⟩ := mem_structures_structAt s st hst
  cases hv : p.visited
  · exfalso
    obtain ⟨_, hn⟩ := absent_wall_inside h i p hp hv
    rcases hout with ⟨h1, h2⟩ | ⟨h1, h2⟩ | ⟨h1, h2⟩ | ⟨h1, h2⟩ <;>
      · rw [h1] at hn
        simp only [hasNeighbor, decide_eq_true_eq] at hn
        omega
  · rfl

set_option maxRecDepth 100000 in
/-- C25 on the complete maze of the example with a room of 2 by 1 cells: the record of the
room for cell 1, in the last column, on its side `EAST`. -/
theorem C25_maze_stays_enclosed_witness :
    Reachable pairFinal.1 ∧ pairFinal.1.structAt 4 ∈ pairFinal.1.structures ∧
    (pairFinal.1.structAt 4).perimeterCells.getD 3 ⟨Direction.NORTH, 0, true⟩ ∈
      (pairFinal.1.structAt 4).perimeterCells ∧
    ((pairFinal.1.structAt 4).perimeterCells.getD 3 ⟨Direction.NORTH, 0, true⟩).direction =
      Direction.EAST ∧
    ((pairFinal.1.structAt 4).perimeterCells.getD 3 ⟨Direction.NORTH, 0, true⟩).cell %
      pairFinal.1.numCellX = pairFinal.1.numCellX - 1 ∧
    ((pairFinal.1.structAt 4).perimeterCells.getD 3 ⟨Direction.NORTH, 0, true⟩).visited = true :=
  ⟨pairFinal_reachable, by decide, by decide, by decide, by decide,
    C25_maze_stays_enclosed pairFinal_reachable (pairFinal.1.structAt 4) (by decide)
      ((pairFinal.1.structAt 4).perimeterCells.getD 3 ⟨Direction.NORTH, 0, true⟩) (by decide)
      (Or.inr (Or.inr (Or.inr ⟨by decide, by decide⟩)))⟩

/-! ## C22: `generateCompleteMaze` terminates -/

theorem unvisited_add_visited (s : MazeComplex) :
    unvisitedCount s + visitedCount s = s.maze.length := by
  unfold unvisitedCount visitedCount
  rw [List.length_eq_countP_add_countP (fun e : MazeElement => e.visited) s.maze]
  have : List.countP (fun e : MazeElement => decide ¬ (e.visited = true)) s.maze =
      List.countP (fun e : MazeElement => !e.visited) s.maze := by
    apply List.countP_congr
    intro e _
    cases e.visited <;> simp
  omega

theorem visitedCount_pos {s : MazeComplex} (inv : MazeInv s) : 0 < visitedCount s := by
  have hr := start_inRange inv.growth
  have hlt := toNat_lt_length inv.grid hr
  unfold visitedCount
  rw [List.countP_pos_iff]
  refine ⟨s.maze[s.start.toNat], List.getElem_mem _, ?_⟩
  rw [← cell_eq_getElem s _ hlt]
  exact inv.growth.start_visited

theorem reachable_body {s : MazeComplex} (h : Reachable s) (rng : Nat → Nat) (k : Nat)
    (hne : s.frontier ≠ []) : Reachable (generateCompleteMazeBody rng s k).1 := by
  have hl : lookahead rng 0 s k = generateCompleteMazeBody rng s k := by
    rw [lookahead_eq, (isEmpty_eq_false_iff _).2 hne, generateCompleteMazeBody_eq]
    rfl
  rw [← hl]
  exact Reachable.lookahead rng 0 s k h

/-- C22. From every state reached from `initMazeComplex` by growth steps, for every random
sequence: a pass through the loop of `generateCompleteMaze` pops a frontier cell that is
not visited, marks it visited, keeps every visited cell visited and does not put the
popped cell back into the frontier, so the number of visited cells grows by one; and with
room for `numCells - 1` passes `generateCompleteMaze` returns, with an empty frontier and
`mazeComplete = true`. -/
theorem C22_generateCompleteMaze_terminates {s : MazeComplex} (h : Reachable s)
    (rng : Nat → Nat) (k : Nat) :
    (s.frontier ≠ [] →
      pickedCell rng s k ∈ s.frontier ∧
      (s.cell (pickedCell rng s k)).visited = false ∧
      ((generateCompleteMazeBody rng s k).1.cell (pickedCell rng s k)).visited = true ∧
      (∀ j, s.inRange j → (s.cell j).visited = true →
        ((generateCompleteMazeBody rng s k).1.cell j).visited = true) ∧
      pickedCell rng s k ∉ (generateCompleteMazeBody rng s k).1.frontier ∧
      visitedCount (generateCompleteMazeBody rng s k).1 = visitedCount s + 1 ∧
      Reachable (generateCompleteMazeBody rng s k).1) ∧
    ∀ fuel, s.maze.length - 1 ≤ fuel →
      ∃ s1 k1, generateCompleteMaze rng fuel s k = some (s1, k1) ∧ s1.frontier = [] ∧
        s1.mazeComplete = true ∧ Reachable s1 := by
  have inv := reachable_inv h
  constructor
  · intro hne
    have hpick := pickedCell_mem rng s k hne
    have hcf := inv.growth.frontier_mem _ hpick
    have hw := wide_of_frontier inv hne
    have sf := stepFacts rng 0 inv.grid inv.structs hw k hne inv.growth.frontier_nodup
      (fun f hf => (inv.growth.frontier_mem f hf).1)
    have hreach := reachable_body h rng k hne
    rw [generateCompleteMazeBody_eq] at hreach ⊢
    refine ⟨hpick, hcf.2.1, sf.visited_c, ?_, ?_, visitedCount_growStep rng 0 inv k hne,
      hreach⟩
    · intro j hj hv
      by_cases hjc : j = pickedCell rng s k
      · rw [hjc]; exact sf.visited_c
      · rw [sf.visited_other j hj.1 hjc]; exact hv
    · intro hmem
      have := ((reachable_inv hreach).growth.frontier_mem _ hmem).2.1
      rw [sf.visited_c] at this
      exact absurd this (by decide)
  · intro fuel hfuel
    have h1 := unvisited_add_visited s
    have h2 := visitedCount_pos inv
    obtain ⟨s1, k1, hg, _, hf, hc⟩ := generateCompleteMaze_spec rng fuel s k inv (by omega)
    exact ⟨s1, k1, hg, hf, hc, Reachable.generate rng fuel s k s1 k1 h hg⟩

set_option maxRecDepth 100000 in
/-- C22 on the example with a room of 2 by 1 cells on a grid of 4 cells, with room for 3
passes through the loop. -/
theorem C22_generateCompleteMaze_terminates_witness :
    Reachable pairInit.1 ∧ pairInit.1.maze.length - 1 = 3 ∧
    ((pairInit.1.frontier ≠ [] →
      pickedCell pairRng pairInit.1 pairInit.2 ∈ pairInit.1.frontier ∧
      (pairInit.1.cell (pickedCell pairRng pairInit.1 pairInit.2)).visited = false ∧
      ((generateCompleteMazeBody pairRng pairInit.1 pairInit.2).1.cell
        (pickedCell pairRng pairInit.1 pairInit.2)).visited = true ∧
      (∀ j, pairInit.1.inRange j → (pairInit.1.cell j).visited = true →
        ((generateCompleteMazeBody pairRng pairInit.1 pairInit.2).1.cell j).visited = true) ∧
      pickedCell pairRng pairInit.1 pairInit.2 ∉
        (generateCompleteMazeBody pairRng pairInit.1 pairInit.2).1.frontier ∧
      visitedCount (generateCompleteMazeBody pairRng pairInit.1 pairInit.2).1 =
        visitedCount pairInit.1 + 1 ∧
      Reachable (generateCompleteMazeBody pairRng pairInit.1 pairInit.2).1) ∧
    ∀ fuel, pairInit.1.maze.length - 1 ≤ fuel →
      ∃ s1 k1, generateCompleteMaze pairRng fuel pairInit.1 pairInit.2 = some (s1, k1) ∧
        s1.frontier = [] ∧ s1.mazeComplete = true ∧ Reachable s1) :=
  ⟨pairInit_reachable, by decide,
    C22_generateCompleteMaze_terminates pairInit_reachable pairRng pairInit.2⟩

/-! ## C23: a tick under the incremental policy -/

@[simp] theorem checkCell_mazeComplete (s : MazeComplex) (d : Direction) (one two : Int) :
    (checkCell s d one two).mazeComplete = s.mazeComplete := rfl

@[simp] theorem removeWall_mazeComplete (s : MazeComplex) (c1 c2 : Int) :
    (removeWall s c1 c2).mazeComplete = s.mazeComplete := by
  unfold removeWall; simp only; split <;> split <;> rfl

@[simp] theorem chooseWallCandidate_mazeComplete (rng : Nat → Nat) (s : MazeComplex) (c : Int)
    (k : Nat) : (chooseWallCandidate rng s c k).1.mazeComplete = s.mazeComplete := by
  unfold chooseWallCandidate; simp only; split <;> simp

@[simp] theorem visitPicked_mazeComplete (rng : Nat → Nat) (t : Int) (s : MazeComplex)
    (k : Nat) : (visitPicked rng t s k).mazeComplete = s.mazeComplete := by
  simp [visitPicked]

theorem growStep_mazeComplete (rng : Nat → Nat) (t : Int) (s : MazeComplex) (k : Nat) :
    (growStep rng t s k).1.mazeComplete = s.mazeComplete := by
  unfold growStep
  simp only
  rw [chooseWallCandidate_mazeComplete, visitPicked_mazeComplete]

theorem placeRoom_mazeComplete (s : MazeComplex) (sX sY w h : Int) :
    (placeRoom s sX sY w h).mazeComplete = s.mazeComplete := by
  rw [placeRoom_eq_with]

theorem addRooms_mazeComplete (rng : Nat → Nat) (w h : Int) (n : Nat) :
    ∀ {s : MazeComplex} (inv : FreshInv s) (k : Nat) (s2 : MazeComplex) (k2 : Nat),
      addRooms rng w h n s k = some (s2, k2) → s2.mazeComplete = s.mazeComplete := by
  induction n with
  | zero =>
    intro s inv k s2 k2 hr
    unfold addRooms at hr
    injection hr with hr
    rw [← (Prod.mk.inj hr).1]
  | succ n ih =>
    intro s inv k s2 k2 hr
    unfold addRooms addRoom at hr
    obtain ⟨k3, _, _, h3 | ⟨i, hi, hfx, hfy, hcell, h3⟩⟩ :=
      addRoomAttempts_cases rng w h 20 s k (length_ne_zero inv.grid)
    · rw [h3] at hr
      exact ih inv k3 s2 k2 hr
    · rw [h3] at hr
      have hrg := inRange_of_lt inv.grid i hi
      have hc := coords_range inv.grid.nx_pos (i : Int) hrg.1 hrg.2
      have hx := inv.grid.gridX _ hrg
      have hy := inv.grid.gridY _ hrg
      have inv2 := freshInv_placeRoom inv (s.cell (i : Int)).gridX (s.cell (i : Int)).gridY w h
        (by omega) hfx (by omega) hfy hcell
      rw [ih inv2 k3 s2 k2 hr, placeRoom_mazeComplete]

theorem seedStart_mazeComplete (r : MazeComplex) (start nx ny : Int) :
    (seedStart r start nx ny).mazeComplete = r.mazeComplete := by
  rw [seedStart_eq]; simp

/-- On a grid with at least one cell `initMazeComplex` on a reset model returns a reachable
state with one visited cell that is not complete. -/
theorem initMazeComplex_fresh (rng : Nat → Nat) (game : Game) (s : MazeComplex) (k : Nat)
    (hnx : 0 < game.app.screenWidth.tdiv game.renderConfig.pixelSize)
    (hny : 0 < game.app.screenHeight.tdiv game.renderConfig.pixelSize) :
    ∃ s0 k0, initMazeComplex rng game (resetMazeComplex s) k = some (s0, k0) ∧
      s0.mazeComplete = false ∧ visitedCount s0 = 1 ∧ Reachable s0 := by
  obtain ⟨r, kr, h1, h2, _, _, h5, h6⟩ := initMazeComplex_spec rng game s k hnx hny
  refine ⟨_, kr, h6, ?_, visitedCount_seedStart h2 _ h5 _ _,
    Reachable.init rng game s k _ kr hnx hny h6⟩
  rw [seedStart_mazeComplete,
    addRooms_mazeComplete rng _ _ _ (freshInv_gridState game s hnx hny) (k + 1) r kr h1]
  rfl

/-- C23. Under the incremental policy, a tick of `updateMazeComplex` on a reachable model
that is not complete and has a non-empty frontier makes one growth step: when the frontier
is not empty after the step, the tick returns the result of `lookahead` (one more cell is
visited, and the model is still not complete); when the step empties the frontier, the
tick returns what `initMazeComplex` makes of the reset model, which on a grid with at
least one cell is a new model with one visited cell. -/
theorem C23_incremental_tick {s : MazeComplex} (h : Reachable s) (rng : Nat → Nat)
    (game : Game) (fuel currentTime k : Nat)
    (hframe : game.renderConfig.renderByFrame = true) (hc : s.mazeComplete = false)
    (hne : s.frontier ≠ []) :
    visitedCount (lookahead rng currentTime s k).1 = visitedCount s + 1 ∧
    ((lookahead rng currentTime s k).1.frontier ≠ [] →
      updateMazeComplex rng game fuel currentTime s k = some (lookahead rng currentTime s k) ∧
      (lookahead rng currentTime s k).1.mazeComplete = false) ∧
    ((lookahead rng currentTime s k).1.frontier = [] →
      updateMazeComplex rng game fuel currentTime s k =
        initMazeComplex rng game
          (resetMazeComplex (updateObserve currentTime (lookahead rng currentTime s k).1))
          (lookahead rng currentTime s k).2 ∧
      (0 < game.app.screenWidth.tdiv game.renderConfig.pixelSize →
        0 < game.app.screenHeight.tdiv game.renderConfig.pixelSize →
        ∃ s0 k0, updateMazeComplex rng game fuel currentTime s k = some (s0, k0) ∧
          s0.mazeComplete = false ∧ visitedCount s0 = 1 ∧ Reachable s0)) := by
  have inv := reachable_inv h
  have hl : lookahead rng currentTime s k = growStep rng (toInt32 currentTime) s k := by
    rw [lookahead_eq, (isEmpty_eq_false_iff _).2 hne]
    rfl
  have hmc : (lookahead rng currentTime s k).1.mazeComplete = false := by
    rw [hl, growStep_mazeComplete, hc]
  have hgrow : updateGrow rng game fuel currentTime s k =
      some (lookahead rng currentTime s k) := by
    unfold updateGrow
    simp [hc, (isEmpty_eq_false_iff _).2 hne, hframe]
  refine ⟨by rw [hl]; exact visitedCount_growStep rng _ inv k hne, ?_, ?_⟩
  · intro hne2
    refine ⟨?_, hmc⟩
    unfold updateMazeComplex
    rw [hgrow]
    simp only
    have hobs : updateObserve currentTime (lookahead rng currentTime s k).1 =
        (lookahead rng currentTime s k).1 := by
      unfold updateObserve
      rw [(isEmpty_eq_false_iff _).2 hne2]
      simp
    rw [hobs]
    unfold updateCycle
    simp [hmc]
  · intro he
    have hupd : updateMazeComplex rng game fuel currentTime s k =
        initMazeComplex rng game
          (resetMazeComplex (updateObserve currentTime (lookahead rng currentTime s k).1))
          (lookahead rng currentTime s k).2 := by
      unfold updateMazeComplex
      rw [hgrow]
      simp only
      have hobs : (updateObserve currentTime (lookahead rng currentTime s k).1).mazeComplete
          = true := by
        unfold updateObserve
        rw [he]
        simp only [List.isEmpty_nil, if_true]
        split <;> rfl
      unfold updateCycle
      simp [hobs, hframe]
    refine ⟨hupd, ?_⟩
    intro hnx hny
    rw [hupd]
    exact initMazeComplex_fresh rng game _ _ hnx hny

/-- C23 on the first tick after the initialisation in the example with a room of 2 by 1
cells, with the incremental policy, at time 7. -/
theorem C23_incremental_tick_witness :
    Reachable pairInit.1 ∧ pairInit.1.mazeComplete = false ∧ pairInit.1.frontier ≠ [] ∧
    (visitedCount (lookahead pairRng 7 pairInit.1 pairInit.2).1 = visitedCount pairInit.1 + 1 ∧
    ((lookahead pairRng 7 pairInit.1 pairInit.2).1.frontier ≠ [] →
      updateMazeComplex pairRng ({ pairGame with renderConfig := { pairGame.renderConfig with renderByFrame := true } }) 0 7 pairInit.1 pairInit.2 = some (lookahead pairRng 7 pairInit.1 pairInit.2) ∧
      (lookahead pairRng 7 pairInit.1 pairInit.2).1.mazeComplete = false) ∧
    ((lookahead pairRng 7 pairInit.1 pairInit.2).1.frontier = [] →
      updateMazeComplex pairRng ({ pairGame with renderConfig := { pairGame.renderConfig with renderByFrame := true } }) 0 7 pairInit.1 pairInit.2 =
        initMazeComplex pairRng ({ pairGame with renderConfig := { pairGame.renderConfig with renderByFrame := true } })
          (resetMazeComplex (updateObserve 7 (lookahead pairRng 7 pairInit.1 pairInit.2).1))
          (lookahead pairRng 7 pairInit.1 pairInit.2).2 ∧
      (0 < ({ pairGame with renderConfig := { pairGame.renderConfig with renderByFrame := true } }).app.screenWidth.tdiv ({ pairGame with renderConfig := { pairGame.renderConfig with renderByFrame := true } }).renderConfig.pixelSize →
        0 < ({ pairGame with renderConfig := { pairGame.renderConfig with renderByFrame := true } }).app.screenHeight.tdiv ({ pairGame with renderConfig := { pairGame.renderConfig with renderByFrame := true } }).renderConfig.pixelSize →
        ∃ s0 k0, updateMazeComplex pairRng ({ pairGame with renderConfig := { pairGame.renderConfig with renderByFrame := true } }) 0 7 pairInit.1 pairInit.2 = some (s0, k0) ∧
          s0.mazeComplete = false ∧ visitedCount s0 = 1 ∧ Reachable s0))) :=
  ⟨pairInit_reachable, by decide, by decide,
    C23_incremental_tick pairInit_reachable pairRng
      { pairGame with renderConfig := { pairGame.renderConfig with renderByFrame := true } }
      0 7 pairInit.2 rfl (by decide) (by decide)⟩

/-! ## C24: the normalised distance without the colour wave -/

@[simp] theorem checkCell_maxDistance (s : MazeComplex) (d : Direction) (one two : Int) :
    (checkCell s d one two).maxDistance = s.maxDistance := rfl

@[simp] theorem removeWall_maxDistance (s : MazeComplex) (c1 c2 : Int) :
    (removeWall s c1 c2).maxDistance = s.maxDistance := by
  unfold removeWall; simp only; split <;> split <;> rfl

@[simp] theorem chooseWallCandidate_maxDistance (rng : Nat → Nat) (s : MazeComplex) (c : Int)
    (k : Nat) : (chooseWallCandidate rng s c k).1.maxDistance = s.maxDistance := by
  unfold chooseWallCandidate; simp only; split <;> simp

@[simp] theorem visitPicked_maxDistance (rng : Nat → Nat) (t : Int) (s : MazeComplex)
    (k : Nat) : (visitPicked rng t s k).maxDistance = s.maxDistance := by
  simp [visitPicked]

theorem growStep_maxDistance (rng : Nat → Nat) (t : Int) (s : MazeComplex) (k : Nat) :
    (growStep rng t s k).1.maxDistance = s.maxDistance := by
  unfold growStep
  simp only
  rw [chooseWallCandidate_maxDistance, visitPicked_maxDistance]

/-- In every reachable state `maxDistance` has the value that `initMazeComplex` computes
from the start position, and a cell that is not visited has the distance 0 of its
constructor. -/
theorem distance_inv {s : MazeComplex} (h : Reachable s) :
    s.maxDistance =
      max s.startX (s.numCellX - s.startX) + max s.startY (s.numCellY - s.startY) ∧
    ∀ i, s.inRange i → (s.cell i).visited = false → (s.cell i).distance = 0 := by
  refine reachable_with
    (fun s => s.maxDistance =
        max s.startX (s.numCellX - s.startX) + max s.startY (s.numCellY - s.startY) ∧
      ∀ i, s.inRange i → (s.cell i).visited = false → (s.cell i).distance = 0)
    ?_ ?_ ?_ h
  · intro rng game s k r _ _ hfresh hx hy hstart
    obtain ⟨_, _, hx0, hy0, _, _⟩ := mazeInv_seedStart hfresh _ hstart
      (game.app.screenWidth.tdiv game.renderConfig.pixelSize)
      (game.app.screenHeight.tdiv game.renderConfig.pixelSize)
    constructor
    · rw [seedStart_maxDistance, seedStart_startX, seedStart_startY, hx0, hy0, hx, hy]
    · intro i hi _
      rw [seedStart_cell _ _ _ _ _ hi.1]
      split
      · exact hfresh.distance _
      · exact hfresh.distance _
  · intro rng t s k inv hP hne
    have hst := sameStatic_growStep rng t s k
    have hw := wide_of_frontier inv hne
    have sf := stepFacts rng t inv.grid inv.structs hw k hne inv.growth.frontier_nodup
      (fun f hf => (inv.growth.frontier_mem f hf).1)
    constructor
    · rw [growStep_maxDistance, hst.startX, hst.startY, hst.numCellX, hst.numCellY]
      exact hP.1
    · intro i hi hv
      have hi2 : s.inRange i := (hst.inRange i).1 hi
      by_cases hic : i = pickedCell rng s k
      · rw [hic, sf.visited_c] at hv
        exact absurd hv (by decide)
      · rw [sf.visited_other i hi.1 hic] at hv
        rw [sf.distance_other i hi.1 hic]
        exact hP.2 i hi2 hv
  · intro s hP
    exact hP

theorem abs_sub_le_max (x sx nx : Int) (h0 : 0 ≤ x) (h1 : x < nx) :
    |x - sx| ≤ max sx (nx - sx) := by
  have h2 := le_max_left sx (nx - sx)
  have h3 := le_max_right sx (nx - sx)
  exact abs_le.2 ⟨by omega, by omega⟩

/-- In every reachable state the distance of a cell lies between 0 and `maxDistance`, and
`maxDistance` is at least 1 and at most `numCellX + numCellY`. -/
theorem distance_bounds {s : MazeComplex} (h : Reachable s) :
    1 ≤ s.maxDistance ∧ s.maxDistance ≤ s.numCellX + s.numCellY ∧
    ∀ i, s.inRange i → 0 ≤ (s.cell i).distance ∧ (s.cell i).distance ≤ s.maxDistance := by
  have inv := reachable_inv h
  obtain ⟨hm, hz⟩ := distance_inv h
  have hsx := inv.growth.start_x
  have hsy := inv.growth.start_y
  have a1 := le_max_right s.startX (s.numCellX - s.startX)
  have a2 := le_max_left s.startY (s.numCellY - s.startY)
  have a3 : max s.startX (s.numCellX - s.startX) ≤ s.numCellX := max_le (by omega) (by omega)
  have a4 : max s.startY (s.numCellY - s.startY) ≤ s.numCellY := max_le (by omega) (by omega)
  refine ⟨by omega, by omega, ?_⟩
  intro i hi
  cases hv : (s.cell i).visited
  · rw [hz i hi hv]
    exact ⟨le_refl _, by omega⟩
  · rw [inv.growth.distance i hi hv, hm]
    have hc := coords_range inv.grid.nx_pos i hi.1 hi.2
    have b1 := abs_sub_le_max (i % s.numCellX) s.startX s.numCellX hc.1 hc.2.1
    have b2 := abs_sub_le_max (i / s.numCellX) s.startY s.numCellY hc.2.2.1 hc.2.2.2
    have b3 := abs_nonneg (i % s.numCellX - s.startX)
    have b4 := abs_nonneg (i / s.numCellX - s.startY)
    exact ⟨by omega, by omega⟩

theorem tdiv_unit (d m : Int) (h0 : 0 ≤ d) (h1 : d ≤ m) (hm : 1 ≤ m) :
    d.tdiv m = if d = m then 1 else 0 := by
  rw [Int.tdiv_eq_ediv h0 (by omega)]
  split
  · next h => rw [h]; exact Int.ediv_self (by omega)
  · next h => exact Int.ediv_eq_zero_of_lt h0 (by omega)

theorem generateColor_flat {F : Type} (ops : FloatOps F) (s : MazeComplex)
    (cfg : ColorConfig F) (hwave : cfg.colorWave = false) (distance : Int) (time : Nat) :
    generateColor ops s cfg distance time =
      generateColor ops s { cfg with colorWave := true }
        (ops.toInt (ops.div (ops.ofInt distance) (ops.ofInt s.maxDistance))) time := by
  unfold generateColor
  simp [hwave]

/-- C24. When the floating-point operations give the truncated integer quotient for small
integers, then in every state reached from `initMazeComplex` by growth steps on a grid
with `numCellX + numCellY < 2^24`: `maxDistance >= 1`; the distance `d` of every cell
satisfies `0 <= d <= maxDistance`; the normalised distance converted to `int` is 1 when
`d = maxDistance` and 0 otherwise; and without the colour wave `generateColor` returns for
`d` the colour that it returns with the colour wave for that 0 or 1. -/
theorem C24_flat_distance {F : Type} (ops : FloatOps F) (hexact : ops.ExactQuotient)
    {s : MazeComplex} (h : Reachable s) (hsmall : s.numCellX + s.numCellY < 2 ^ 24)
    (cfg : ColorConfig F) (hwave : cfg.colorWave = false) (time : Nat) :
    1 ≤ s.maxDistance ∧
    ∀ i, s.inRange i →
      0 ≤ (s.cell i).distance ∧ (s.cell i).distance ≤ s.maxDistance ∧
      ops.toInt (ops.div (ops.ofInt (s.cell i).distance) (ops.ofInt s.maxDistance)) =
        (if (s.cell i).distance = s.maxDistance then 1 else 0) ∧
      generateColor ops s cfg (s.cell i).distance time =
        generateColor ops s { cfg with colorWave := true }
          (if (s.cell i).distance = s.maxDistance then 1 else 0) time := by
  obtain ⟨h1, h2, h3⟩ := distance_bounds h
  refine ⟨h1, ?_⟩
  intro i hi
  obtain ⟨h4, h5⟩ := h3 i hi
  have hq : ops.toInt (ops.div (ops.ofInt (s.cell i).distance) (ops.ofInt s.maxDistance)) =
      (if (s.cell i).distance = s.maxDistance then 1 else 0) := by
    rw [hexact _ _ h4 h5 h1 (by omega), tdiv_unit _ _ h4 h5 h1]
  refine ⟨h4, h5, hq, ?_⟩
  rw [generateColor_flat ops s cfg hwave, hq]

theorem ratOps_exact : ratOps.ExactQuotient := by
  intro a b ha hab hb _
  obtain ⟨n, rfl⟩ : ∃ n : Nat, b = (n : Int) := ⟨b.toNat, (Int.toNat_of_nonneg (by omega)).symm⟩
  have hq : (0 : Rat) ≤ (a : Rat) / ((n : Int) : Rat) :=
    div_nonneg (Int.cast_nonneg.2 ha) (Int.cast_nonneg.2 (by omega))
  show ((a : Rat) / ((n : Int) : Rat)).num.tdiv (((a : Rat) / ((n : Int) : Rat)).den : Int) =
    a.tdiv (n : Int)
  rw [Int.tdiv_eq_ediv (Rat.num_nonneg.2 hq) (Int.ofNat_nonneg _), ← Rat.floor_def,
    Int.cast_natCast, Rat.floor_intCast_div_natCast, Int.tdiv_eq_ediv ha (by omega)]

set_option maxRecDepth 100000 in
/-- C24 on the complete maze of the example with a room of 2 by 1 cells, with exact
rational arithmetic for the floating-point operations. -/
theorem C24_flat_distance_witness :
    ratOps.ExactQuotient ∧ Reachable pairFinal.1 ∧
    pairFinal.1.numCellX + pairFinal.1.numCellY < 2 ^ 24 ∧ flatColors.colorWave = false ∧
    (1 ≤ pairFinal.1.maxDistance ∧
    ∀ i, pairFinal.1.inRange i →
      0 ≤ (pairFinal.1.cell i).distance ∧
      (pairFinal.1.cell i).distance ≤ pairFinal.1.maxDistance ∧
      ratOps.toInt (ratOps.div (ratOps.ofInt (pairFinal.1.cell i).distance)
          (ratOps.ofInt pairFinal.1.maxDistance)) =
        (if (pairFinal.1.cell i).distance = pairFinal.1.maxDistance then 1 else 0) ∧
      generateColor ratOps pairFinal.1 flatColors (pairFinal.1.cell i).distance 0 =
        generateColor ratOps pairFinal.1 { flatColors with colorWave := true }
          (if (pairFinal.1.cell i).distance = pairFinal.1.maxDistance then 1 else 0) 0) :=
  ⟨ratOps_exact, pairFinal_reachable, by decide, rfl,
    C24_flat_distance ratOps ratOps_exact pairFinal_reachable (by decide) flatColors rfl 0⟩

/-! ## The checked functions agree with the unchecked ones -/

theorem cellChecked_some (s : MazeComplex) (c : Int) (h0 : 0 ≤ c)
    (hlt : c.toNat < s.maze.length) : s.cellChecked c = some (s.cell c) := by
  unfold MazeComplex.cellChecked
  rw [if_pos ⟨h0, hlt⟩]

theorem modifyCellChecked_some (s : MazeComplex) (c : Int) (f : MazeElement → MazeElement)
    (h0 : 0 ≤ c) (hlt : c.toNat < s.maze.length) :
    s.modifyCellChecked c f = some (s.modifyCell c f) := by
  unfold MazeComplex.modifyCellChecked
  rw [if_pos ⟨h0, hlt⟩]

theorem neighborsFold_some (s : MazeComplex) (v : Bool) (conds : List (Int × Bool))
    (hr : ∀ e ∈ conds, e.2 = true → 0 ≤ e.1 ∧ e.1.toNat < s.maze.length) (acc : List Int) :
    conds.foldl
      (fun acc mapElem =>
        match acc with
        | none => none
        | some nx =>
          if mapElem.2 then
            match s.cellChecked mapElem.1 with
            | none => none
            | some neighbor => some (mazeStructureNeighbors s nx neighbor v)
          else some nx)
      (some acc) =
    some (conds.foldl
      (fun nx mapElem =>
        if mapElem.2 then mazeStructureNeighbors s nx (s.cell mapElem.1) v else nx)
      acc) := by
  induction conds generalizing acc with
  | nil => rfl
  | cons e rest ih =>
    rw [List.foldl_cons, List.foldl_cons]
    have hrest : ∀ e2 ∈ rest, e2.2 = true → 0 ≤ e2.1 ∧ e2.1.toNat < s.maze.length :=
      fun e2 he2 => hr e2 (List.mem_cons_of_mem _ he2)
    cases he : e.2
    · simp only [Bool.false_eq_true, if_false]
      exact ih hrest acc
    · have hc := hr e (List.mem_cons_self _ _) he
      simp only [if_true, cellChecked_some s e.1 hc.1 hc.2]
      exact ih hrest _

/-- The keys of the map `conditions` of `getNeighbors` whose value is `true` are indices
of cells of the grid. -/
theorem conditions_inRange {s : MazeComplex} (g : GridWF s) (c : Int) (hc : s.inRange c) :
    ∀ e ∈ neighborConditions s.numCellX s.numCellY c (c % s.numCellX) (c / s.numCellX),
      e.2 = true → s.inRange e.1 := by
  intro e he ht
  have hnx := g.nx_pos
  by_cases hw : s.numCellX = 1
  · exfalso
    rw [hw, neighborConditions_one] at he
    have h1 : c % 1 = 0 := Int.emod_one c
    simp only [h1, List.mem_cons, List.mem_singleton, List.not_mem_nil, or_false] at he
    rcases he with rfl | rfl <;> simp at ht
  · have hw2 : 1 < s.numCellX := by omega
    rw [neighborConditions_wide _ _ _ _ _ hw2] at he
    simp only [List.mem_cons, List.mem_singleton, List.not_mem_nil, or_false] at he
    have key : ∀ d, hasNeighbor s.numCellX s.numCellY c d = true →
        s.inRange (neighborIndex s.numCellX c d) :=
      fun d hd => neighbor_range hnx c d hc.1 hc.2 hd
    rcases he with rfl | rfl | rfl | rfl
    · exact key Direction.WEST (by simpa [hasNeighbor] using ht)
    · exact key Direction.EAST (by simpa [hasNeighbor] using ht)
    · exact key Direction.NORTH (by simpa [hasNeighbor] using ht)
    · exact key Direction.SOUTH (by simpa [hasNeighbor] using ht)

theorem getNeighborsChecked_some {s : MazeComplex} (g : GridWF s) (c : Int)
    (hc : s.inRange c) (v : Bool) :
    getNeighborsChecked s (s.cell c) v = some (getNeighbors s (s.cell c) v) := by
  unfold getNeighborsChecked getNeighbors
  apply neighborsFold_some
  intro e he ht
  rw [g.place c hc, g.gridX c hc, g.gridY c hc] at he
  have := conditions_inRange g c hc e he ht
  exact ⟨this.1, toNat_lt_length g this⟩

theorem getNeighbors_inRange {s : MazeComplex} (g : GridWF s) (c : Int) (hc : s.inRange c)
    (v : Bool) : ∀ u ∈ getNeighbors s (s.cell c) v, s.inRange u := by
  intro u hu
  rw [getNeighbors_eq, g.place c hc, g.gridX c hc, g.gridY c hc] at hu
  simp only [List.mem_flatMap] at hu
  obtain ⟨m, hm, hu⟩ := hu
  split at hu
  · next hcond =>
    have hr := conditions_inRange g c hc m hm hcond.1
    rw [List.mem_singleton] at hu
    rw [hu, g.place m.1 hr]
    exact hr
  · exact absurd hu (List.not_mem_nil _)

theorem checkCellChecked_some {s : MazeComplex} (g : GridWF s) (d : Direction) (c v : Int)
    (hc : s.inRange c) (hv : s.inRange v) :
    checkCellChecked s d c v = some (checkCell s d c v) := by
  unfold checkCellChecked
  rw [cellChecked_some s c hc.1 (toNat_lt_length g hc),
    cellChecked_some s v hv.1 (toNat_lt_length g hv)]

theorem removeWallChecked_some {s : MazeComplex} (g : GridWF s) (c v : Int)
    (hc : s.inRange c) (hv : s.inRange v) :
    removeWallChecked s c v = some (removeWall s c v) := by
  unfold removeWallChecked removeWall
  rw [if_neg (ne_of_gt g.nx_pos)]
  simp only
  split <;> split <;> exact checkCellChecked_some g _ c v hc hv

theorem chooseWallCandidateChecked_some (rng : Nat → Nat) {s : MazeComplex} (g : GridWF s)
    (c : Int) (hc : s.inRange c) (k : Nat) :
    chooseWallCandidateChecked rng s c k = some (chooseWallCandidate rng s c k) := by
  unfold chooseWallCandidateChecked chooseWallCandidate
  rw [cellChecked_some s c hc.1 (toNat_lt_length g hc)]
  simp only
  rw [getNeighborsChecked_some g c hc true]
  simp only
  have hin := getNeighbors_inRange g c hc true
  cases hvs : getNeighbors s (s.cell c) true with
  | nil => simp
  | cons a rest =>
    rw [hvs] at hin
    have hlen : rng k % (a :: rest).length < (a :: rest).length :=
      Nat.mod_lt _ (by simp)
    have hget : (a :: rest)[rng k % (a :: rest).length]? =
        some ((a :: rest).getD (rng k % (a :: rest).length) 0) := by
      rw [List.getD_eq_getElem _ 0 hlen, List.getElem?_eq_getElem hlen]
    have hmem : (a :: rest).getD (rng k % (a :: rest).length) 0 ∈ a :: rest := by
      rw [List.getD_eq_getElem _ 0 hlen]
      exact List.getElem_mem _
    simp only [List.isEmpty_cons, Bool.not_false, if_true]
    rw [if_neg (by simp), hget]
    simp only
    rw [removeWallChecked_some g c _ hc (hin _ hmem)]

theorem growChecked_some (rng : Nat → Nat) (t : Int) {s : MazeComplex} (inv : MazeInv s)
    (k : Nat) (hne : s.frontier ≠ []) :
    growChecked rng t s k = some (growStep rng t s k) := by
  have hpick := pickedCell_mem rng s k hne
  have hc := (inv.growth.frontier_mem _ hpick).1
  have hlt := toNat_lt_length inv.grid hc
  have hlen : s.frontier.length ≠ 0 := fun h => hne (List.length_eq_zero.1 h)
  have hidx : rng k % s.frontier.length < s.frontier.length :=
    Nat.mod_lt _ (Nat.pos_of_ne_zero hlen)
  have hget : s.frontier[rng k % s.frontier.length]? = some (pickedCell rng s k) := by
    unfold pickedCell
    rw [List.getD_eq_getElem _ 0 hidx, List.getElem?_eq_getElem hidx]
  have hst := sameStatic_visitPicked rng t s k
  have g3 := hst.gridWF inv.grid
  have hc3 : (visitPicked rng t s k).inRange (pickedCell rng s k) := (hst.inRange _).2 hc
  have hsc := sameStatic_chooseWallCandidate rng (visitPicked rng t s k)
    (pickedCell rng s k) (k + 1)
  have g4 := hsc.gridWF g3
  have hc4 := (hsc.inRange _).2 hc3
  have h5 := chooseWallCandidateChecked_some rng g3 _ hc3 (k + 1)
  have h6 := cellChecked_some _ _ hc4.1 (toNat_lt_length g4 hc4)
  have h7 := getNeighborsChecked_some g4 _ hc4 false
  unfold growChecked
  rw [if_neg hlen]
  simp only
  rw [hget]
  simp only
  rw [modifyCellChecked_some _ _ _ hc.1 (by exact hlt)]
  simp only
  rw [cellChecked_some _ _ hc.1 (by rw [modifyCell_length]; exact hlt)]
  simp only
  rw [modifyCellChecked_some _ _ _ hc.1 (by rw [modifyCell_length]; exact hlt)]
  simp only
  unfold visitPicked at h5 h6 h7
  simp only at h5 h6 h7
  rw [h5]
  simp only
  rw [h6]
  simp only
  rw [h7]
  rfl

theorem lookaheadChecked_some (rng : Nat → Nat) (t : Nat) {s : MazeComplex} (inv : MazeInv s)
    (k : Nat) : lookaheadChecked rng t s k = some (lookahead rng t s k) := by
  unfold lookaheadChecked
  rw [lookahead_eq]
  cases hfr : s.frontier.isEmpty
  · simp only [Bool.not_false, if_true, Bool.false_eq_true, if_false]
    exact growChecked_some rng _ inv k ((isEmpty_eq_false_iff _).1 hfr)
  · simp

theorem generateCompleteMazeChecked_eq (rng : Nat → Nat) (fuel : Nat) :
    ∀ (s : MazeComplex) (k : Nat), MazeInv s →
      generateCompleteMazeChecked rng fuel s k = generateCompleteMaze rng fuel s k := by
  induction fuel with
  | zero =>
    intro s k _
    unfold generateCompleteMazeChecked generateCompleteMaze
    rfl
  | succ n ih =>
    intro s k inv
    unfold generateCompleteMazeChecked generateCompleteMaze
    cases hfr : s.frontier.isEmpty
    · have hne := (isEmpty_eq_false_iff _).1 hfr
      simp only [Bool.false_eq_true, if_false]
      rw [growChecked_some rng 0 inv k hne, generateCompleteMazeBody_eq]
      simp only
      exact ih _ _ (mazeInv_growStep rng 0 inv k hne)
    · simp

theorem roomCellsChecked_some (s : MazeComplex) (cells : List Int)
    (hr : ∀ c ∈ cells, 0 ≤ c ∧ c.toNat < s.maze.length) :
    roomCellsChecked s cells =
      some (cells.all fun c => decide ((s.structOf c).structureType = StructureType.CELL)) := by
  induction cells with
  | nil => rfl
  | cons c rest ih =>
    have hc := hr c (List.mem_cons_self _ _)
    unfold roomCellsChecked
    rw [cellChecked_some s c hc.1 hc.2]
    simp only
    rw [ih (fun c2 hc2 => hr c2 (List.mem_cons_of_mem _ hc2))]
    by_cases ht : (s.structOf c).structureType = StructureType.CELL
    · have ht2 : (s.structAt (s.cell c).parentStructure).structureType = StructureType.CELL := ht
      simp [ht, ht2]
    · have ht2 : (s.structAt (s.cell c).parentStructure).structureType ≠ StructureType.CELL := ht
      simp [ht, ht2]

theorem setParentFold_some (handle : Nat) (cells : List Int) :
    ∀ (s1 : MazeComplex), (∀ c ∈ cells, 0 ≤ c ∧ c.toNat < s1.maze.length) →
      cells.foldl
        (fun acc cellIndex =>
          match acc with
          | none => none
          | some st =>
            st.modifyCellChecked cellIndex fun e => { e with parentStructure := handle })
        (some s1) =
      some (cells.foldl
        (fun st cellIndex => st.modifyCell cellIndex fun e =>
          { e with parentStructure := handle }) s1) := by
  induction cells with
  | nil => intro s1 _; rfl
  | cons c rest ih =>
    intro s1 hr
    have hc := hr c (List.mem_cons_self _ _)
    rw [List.foldl_cons, List.foldl_cons]
    simp only
    rw [modifyCellChecked_some s1 c _ hc.1 hc.2]
    apply ih
    intro c2 hc2
    rw [modifyCell_length]
    exact hr c2 (List.mem_cons_of_mem _ hc2)

theorem roomFootprint_inRange {s : MazeComplex} (g : GridWF s) (sX sY w h : Int)
    (hsx : 0 ≤ sX) (hfx : sX + w ≤ s.numCellX) (hsy : 0 ≤ sY) (hfy : sY + h ≤ s.numCellY) :
    ∀ c ∈ roomFootprint s.numCellX sX sY w h, 0 ≤ c ∧ c.toNat < s.maze.length := by
  intro c hc
  obtain ⟨x, y, hx, hy, rfl⟩ := (mem_roomFootprint _ _ _ _ _ _).1 hc
  have hr : s.inRange ((sY + y) * s.numCellX + (sX + x)) :=
    @index_range s.numCellX s.numCellY (sX + x) (sY + y) (by omega) (by omega) (by omega)
      (by omega)
  exact ⟨hr.1, toNat_lt_length g hr⟩

theorem addRoomAttemptsChecked_eq (rng : Nat → Nat) (w h : Int) (n : Nat) {s : MazeComplex}
    (g : GridWF s) :
    ∀ k, addRoomAttemptsChecked rng w h n s k = addRoomAttempts rng w h n s k := by
  induction n with
  | zero => intro k; rfl
  | succ n ih =>
    intro k
    have hlen := length_ne_zero g
    have hi : rng k % s.maze.length < s.maze.length :=
      Nat.mod_lt _ (Nat.pos_of_ne_zero hlen)
    have hri := inRange_of_lt g _ hi
    have hco := coords_range g.nx_pos _ hri.1 hri.2
    have hx := g.gridX _ hri
    have hy := g.gridY _ hri
    unfold addRoomAttemptsChecked addRoomAttempts
    rw [if_neg hlen, if_neg hlen]
    simp only
    rw [cellChecked_some s _ hri.1 (toNat_lt_length g hri)]
    simp only
    by_cases hfit : (s.cell ((rng k % s.maze.length : Nat) : Int)).gridX + w > s.numCellX ∨
        (s.cell ((rng k % s.maze.length : Nat) : Int)).gridY + h > s.numCellY
    · rw [if_pos hfit, if_pos hfit]
      exact ih (k + 1)
    · rw [if_neg hfit, if_neg hfit]
      have hcells := roomFootprint_inRange g
        (s.cell ((rng k % s.maze.length : Nat) : Int)).gridX
        (s.cell ((rng k % s.maze.length : Nat) : Int)).gridY w h (by omega) (by omega)
        (by omega) (by omega)
      rw [roomCellsChecked_some s _ hcells]
      cases hall : (roomFootprint s.numCellX
          (s.cell ((rng k % s.maze.length : Nat) : Int)).gridX
          (s.cell ((rng k % s.maze.length : Nat) : Int)).gridY w h).all
          (fun c => decide ((s.structOf c).structureType = StructureType.CELL))
      · simp only [Bool.false_eq_true, if_false]
        exact ih (k + 1)
      · simp only [if_true]
        erw [setParentFold_some _ _ _ (by exact hcells)]

theorem addRoomsChecked_eq (rng : Nat → Nat) (w h : Int) (n : Nat) :
    ∀ {s : MazeComplex} (inv : FreshInv s) (k : Nat),
      addRoomsChecked rng w h n s k = addRooms rng w h n s k := by
  induction n with
  | zero => intro s _ k; rfl
  | succ n ih =>
    intro s inv k
    unfold addRoomsChecked addRooms addRoomChecked addRoom
    rw [addRoomAttemptsChecked_eq rng w h 20 inv.grid k]
    obtain ⟨s2, k2, h1, h2, _, _⟩ := freshInv_addRoomAttempts rng w h 20 inv k
    rw [h1]
    simp only
    exact ih h2 k2

theorem initMazeComplexChecked_eq (rng : Nat → Nat) (game : Game) (s : MazeComplex) (k : Nat)
    (hnx : 0 < game.app.screenWidth.tdiv game.renderConfig.pixelSize)
    (hny : 0 < game.app.screenHeight.tdiv game.renderConfig.pixelSize) :
    initMazeComplexChecked rng game (resetMazeComplex s) k =
      initMazeComplex rng game (resetMazeComplex s) k := by
  obtain ⟨r, kr, h1, hfresh, hrx, hry, hstart, hinit⟩ :=
    initMazeComplex_spec rng game s k hnx hny
  obtain ⟨inv, _, hx0, hy0, _, _⟩ := mazeInv_seedStart hfresh _ hstart
    (game.app.screenWidth.tdiv game.renderConfig.pixelSize)
    (game.app.screenHeight.tdiv game.renderConfig.pixelSize)
  have hpx : game.renderConfig.pixelSize ≠ 0 := by
    intro h; rw [h, Int.tdiv_zero] at hnx; exact absurd hnx (lt_irrefl _)
  have hprod : game.app.screenWidth.tdiv game.renderConfig.pixelSize *
      game.app.screenHeight.tdiv game.renderConfig.pixelSize ≠ 0 :=
    ne_of_gt (mul_pos hnx hny)
  have hlt := toNat_lt_length hfresh.grid hstart
  have g3 : GridWF (seedStart r (drawnStart rng game k)
      (game.app.screenWidth.tdiv game.renderConfig.pixelSize)
      (game.app.screenHeight.tdiv game.renderConfig.pixelSize)) := inv.grid
  have hs3 : (seedStart r (drawnStart rng game k)
      (game.app.screenWidth.tdiv game.renderConfig.pixelSize)
      (game.app.screenHeight.tdiv game.renderConfig.pixelSize)).inRange (drawnStart rng game k) := by
    unfold MazeComplex.inRange; rw [hx0, hy0]; exact hstart
  rw [hinit]
  unfold initMazeComplexChecked
  rw [if_neg hpx]
  simp only
  rw [if_neg hprod]
  rw [addRoomsChecked_eq rng _ _ _ (by exact freshInv_gridState game s hnx hny) (k + 1)]
  erw [h1]
  simp only
  erw [modifyCellChecked_some r _ _ hstart.1 hlt]
  simp only
  erw [cellChecked_some _ _ hstart.1 (by rw [modifyCell_length]; exact hlt)]
  simp only
  have key : ∀ (S : MazeComplex), GridWF S → S.inRange (drawnStart rng game k) →
      ∀ E, E = S.cell (drawnStart rng game k) →
        getNeighborsChecked S E false =
          some (getNeighbors S (S.cell (drawnStart rng game k)) false) := by
    intro S g h E hE
    rw [hE]
    exact getNeighborsChecked_some g _ h false
  erw [key _ (by exact ⟨g3.nx_pos, g3.ny_pos, g3.len, g3.place, g3.gridX, g3.gridY⟩)
    (by exact hs3) _ (by rfl)]
  rfl

/-! ## C26: index safety -/

theorem clearWall_eq_self (c : Int) (d : Direction) (l : List PerimeterCell)
    (h : findPerimeter c d l = none) : clearWall c d l = l := by
  induction l with
  | nil => rfl
  | cons p rest ih =>
    unfold findPerimeter at h ih
    rw [List.find?_cons] at h
    simp only [clearWall]
    by_cases hp : p.cell = c ∧ p.direction = d
    · simp [hp] at h
    · rw [if_neg hp]
      congr 1
      apply ih
      simpa [hp] using h

theorem modifyStruct_eq_self (s : MazeComplex) (h : Nat) (f : MazeStructure → MazeStructure)
    (hf : f (s.structAt h) = s.structAt h) : s.modifyStruct h f = s := by
  unfold MazeComplex.modifyStruct
  rw [hf]
  have hset : s.structures.set h (s.structAt h) = s.structures := by
    unfold MazeComplex.structAt
    by_cases hlt : h < s.structures.length
    · rw [List.getD_eq_getElem _ _ hlt]
      apply List.ext_getElem (by simp)
      intro n h1 h2
      rw [List.getElem_set]
      split
      · next hn => subst hn; rfl
      · rfl
    · exact List.set_eq_of_length_le (by omega)
  rw [hset]

/-- The function `checkCell` changes nothing when neither cell has a record on the side
that faces the other cell. -/
theorem checkCell_eq_self (s : MazeComplex) (d : Direction) (c v : Int)
    (h1 : s.hasRecord c d = false) (h2 : s.hasRecord v (getOppositeDirection d) = false) :
    checkCell s d c v = s := by
  have f1 : findPerimeter c d (s.structOf c).perimeterCells = none := by
    unfold MazeComplex.hasRecord at h1
    cases hf : findPerimeter c d (s.structOf c).perimeterCells with
    | none => rfl
    | some p => rw [hf] at h1; simp at h1
  have f2 : findPerimeter v (getOppositeDirection d) (s.structOf v).perimeterCells = none := by
    unfold MazeComplex.hasRecord at h2
    cases hf : findPerimeter v (getOppositeDirection d) (s.structOf v).perimeterCells with
    | none => rfl
    | some p => rw [hf] at h2; simp at h2
  unfold MazeComplex.structOf at f1 f2
  unfold checkCell
  simp only
  rw [modifyStruct_eq_self s _ _ (by rw [clearWall_eq_self _ _ _ f1])]
  rw [modifyStruct_eq_self s _ _ (by rw [clearWall_eq_self _ _ _ f2])]

/-- C10, amended. In every state reached from `initMazeComplex` by growth steps in which the
start cell can be connected (it is not a cell inside a room, away from the room's outline),
every frontier member has a visited neighbour that can be connected; and in the growth step
that takes a cell out of the frontier, `chooseWallCandidate` finds such a neighbour `u`, on
a side `d` of the cell, draws once, and returns the result of `removeWall` for the cell and
`u`. After that call no perimeter record marks a wall between the two cells: the call keeps
the records and changes the wall flags of the two facing records at most, to "wall absent".
When the two cells belong to different structures both facing records exist and are
cleared; when they belong to the same structure (two cells of one room) there are no
facing records and the call changes nothing. -/
theorem C10_frontier_has_visited_neighbour {s : MazeComplex} (h : Reachable s)
    (hs : canConnect s (s.cell s.start) = true) :
    (∀ f ∈ s.frontier, ∃ u ∈ getNeighbors s (s.cell f) true,
      (s.cell u).visited = true ∧ canConnect s (s.cell u) = true) ∧
    ∀ (rng : Nat → Nat) (t : Int) (k : Nat), s.frontier ≠ [] →
      ∃ u ∈ getNeighbors (visitPicked rng t s k)
          ((visitPicked rng t s k).cell (pickedCell rng s k)) true,
        ((visitPicked rng t s k).cell u).visited = true ∧
        canConnect (visitPicked rng t s k) ((visitPicked rng t s k).cell u) = true ∧
        chooseWallCandidate rng (visitPicked rng t s k) (pickedCell rng s k) (k + 1) =
          (removeWall (visitPicked rng t s k) (pickedCell rng s k) u, k + 2) ∧
        ∃ d, hasNeighbor s.numCellX s.numCellY (pickedCell rng s k) d = true ∧
          u = neighborIndex s.numCellX (pickedCell rng s k) d ∧
          (∀ x e, (removeWall (visitPicked rng t s k) (pickedCell rng s k) u).hasRecord x e =
            (visitPicked rng t s k).hasRecord x e) ∧
          (∀ x e, (removeWall (visitPicked rng t s k) (pickedCell rng s k) u).wallOpen x e =
            if (x = pickedCell rng s k ∧ e = d) ∨ (x = u ∧ e = getOppositeDirection d) then
              (visitPicked rng t s k).hasRecord x e
            else (visitPicked rng t s k).wallOpen x e) ∧
          ((s.cell u).parentStructure ≠ (s.cell (pickedCell rng s k)).parentStructure →
            (removeWall (visitPicked rng t s k) (pickedCell rng s k) u).wallOpen
              (pickedCell rng s k) d = true ∧
            (removeWall (visitPicked rng t s k) (pickedCell rng s k) u).wallOpen
              u (getOppositeDirection d) = true) ∧
          ((s.cell u).parentStructure = (s.cell (pickedCell rng s k)).parentStructure →
            (visitPicked rng t s k).hasRecord (pickedCell rng s k) d = false ∧
            (visitPicked rng t s k).hasRecord u (getOppositeDirection d) = false ∧
            removeWall (visitPicked rng t s k) (pickedCell rng s k) u =
              visitPicked rng t s k) := by
  have inv := reachable_inv h
  constructor
  · intro f hf
    exact visited_neighbour_mem inv.grid (wide_of_frontier inv (List.ne_nil_of_mem hf)) f
      (inv.growth.frontier_mem f hf).1 (inv.growth.anchored hs f hf)
  · intro rng t k hne
    have hw := wide_of_frontier inv hne
    have hpick := pickedCell_mem rng s k hne
    have hc := (inv.growth.frontier_mem _ hpick).1
    have hst := sameStatic_visitPicked rng t s k
    have g3 := hst.gridWF inv.grid
    have w3 := hst.structWF inv.structs
    have hc3 : (visitPicked rng t s k).inRange (pickedCell rng s k) := (hst.inRange _).2 hc
    have hw3 : 1 < (visitPicked rng t s k).numCellX := by rw [hst.numCellX]; exact hw
    obtain ⟨d, hd, hv, hcc⟩ := inv.growth.anchored hs _ hpick
    have hnbr : (visitPicked rng t s k).cell (neighborIndex s.numCellX (pickedCell rng s k) d) =
        s.cell (neighborIndex s.numCellX (pickedCell rng s k) d) :=
      visitPicked_cell_other rng t s k _ (neighbor_range inv.grid.nx_pos _ d hc.1 hc.2 hd).1
        (neighbor_ne _ _ inv.grid.nx_pos d)
    have hmem : neighborIndex s.numCellX (pickedCell rng s k) d ∈
        getNeighbors (visitPicked rng t s k)
          ((visitPicked rng t s k).cell (pickedCell rng s k)) true := by
      refine (mem_getNeighbors g3 hw3 _ hc3 true _).2 ⟨d, ?_, ?_, ?_, ?_⟩
      · rw [hst.numCellX, hst.numCellY]; exact hd
      · rw [hst.numCellX]
      · rw [hst.canConnect]; exact hcc
      · rw [hnbr]; exact hv
    have hne2 : getNeighbors (visitPicked rng t s k)
        ((visitPicked rng t s k).cell (pickedCell rng s k)) true ≠ [] :=
      List.ne_nil_of_mem hmem
    have hlen : 0 < (getNeighbors (visitPicked rng t s k)
        ((visitPicked rng t s k).cell (pickedCell rng s k)) true).length :=
      List.length_pos.2 hne2
    have hlt := Nat.mod_lt (rng (k + 1)) hlen
    obtain ⟨u, hudef⟩ : ∃ u, u = (getNeighbors (visitPicked rng t s k)
        ((visitPicked rng t s k).cell (pickedCell rng s k)) true).getD
          (rng (k + 1) % (getNeighbors (visitPicked rng t s k)
            ((visitPicked rng t s k).cell (pickedCell rng s k)) true).length) 0 := ⟨_, rfl⟩
    have hu : u ∈ getNeighbors (visitPicked rng t s k)
          ((visitPicked rng t s k).cell (pickedCell rng s k)) true := by
      rw [hudef, List.getD_eq_getElem _ 0 hlt]
      exact List.getElem_mem _
    obtain ⟨e, he, hue, hcc2, hv2⟩ := (mem_getNeighbors g3 hw3 _ hc3 true _).1 hu
    have he3 := he
    rw [hst.numCellX, hst.numCellY] at he
    have hue3 := hue
    rw [hst.numCellX] at hue
    have hur : s.inRange u := by
      rw [hue]; exact neighbor_range inv.grid.nx_pos _ e hc.1 hc.2 he
    have hrw : removeWall (visitPicked rng t s k) (pickedCell rng s k) u =
        checkCell (visitPicked rng t s k) e (pickedCell rng s k) u := by
      rw [hue3]; exact removeWall_neighbor g3 _ hc3 e he3
    have hrec : ∀ x a, (visitPicked rng t s k).hasRecord x a = s.hasRecord x a :=
      fun x a => hst.hasRecord x a
    have hwall : ∀ x a,
        (removeWall (visitPicked rng t s k) (pickedCell rng s k) u).wallOpen x a =
          if (x = pickedCell rng s k ∧ a = e) ∨ (x = u ∧ a = getOppositeDirection e) then
            (visitPicked rng t s k).hasRecord x a
          else (visitPicked rng t s k).wallOpen x a := by
      intro x a
      rw [hrw]
      exact wallOpen_checkCell _ e _ _ x a (w3.handle _ hc3) (w3.handle _ ((hst.inRange _).2 hur))
    have hside := hasRecord_iff_parent_ne inv.grid inv.structs _ hc e he
    rw [← hue] at hside
    have hsym := hasRecord_sym inv.grid inv.structs _ hc e he
    rw [← hue] at hsym
    refine ⟨u, hu, hv2, hcc2, ?_, e, he, hue, ?_, hwall, ?_, ?_⟩
    · unfold chooseWallCandidate
      simp only
      rw [if_pos (by simpa using hne2), hudef]
    · intro x a
      exact (sameStatic_removeWall _ _ _).hasRecord x a
    · intro hpar
      have h1 : s.hasRecord (pickedCell rng s k) e = true := hside.2 hpar
      have h2 : s.hasRecord u (getOppositeDirection e) = true := by rw [← hsym]; exact h1
      constructor
      · rw [hwall, if_pos (Or.inl ⟨rfl, rfl⟩), hrec]; exact h1
      · rw [hwall, if_pos (Or.inr ⟨rfl, rfl⟩), hrec]; exact h2
    · intro hpar
      have h1 : s.hasRecord (pickedCell rng s k) e = false := by
        cases hr : s.hasRecord (pickedCell rng s k) e
        · rfl
        · exact absurd hpar (hside.1 hr)
      have h2 : s.hasRecord u (getOppositeDirection e) = false := by rw [← hsym]; exact h1
      rw [← hrec] at h1 h2
      exact ⟨h1, h2, by rw [hrw]; exact checkCell_eq_self _ _ _ _ h1 h2⟩

/-- C10 on the state that `initMazeComplex` returns in the example with a room of 2 by 1
cells, whose start cell is a cell outside the room. -/
theorem C10_frontier_has_visited_neighbour_witness :
    canConnect pairInit.1 (pairInit.1.cell pairInit.1.start) = true ∧
    ((∀ f ∈ pairInit.1.frontier, ∃ u ∈ getNeighbors pairInit.1 (pairInit.1.cell f) true,
      (pairInit.1.cell u).visited = true ∧ canConnect pairInit.1 (pairInit.1.cell u) = true) ∧
    ∀ (rng : Nat → Nat) (t : Int) (k : Nat), pairInit.1.frontier ≠ [] →
      ∃ u ∈ getNeighbors (visitPicked rng t pairInit.1 k)
          ((visitPicked rng t pairInit.1 k).cell (pickedCell rng pairInit.1 k)) true,
        ((visitPicked rng t pairInit.1 k).cell u).visited = true ∧
        canConnect (visitPicked rng t pairInit.1 k) ((visitPicked rng t pairInit.1 k).cell u)
          = true ∧
        chooseWallCandidate rng (visitPicked rng t pairInit.1 k) (pickedCell rng pairInit.1 k)
            (k + 1) =
          (removeWall (visitPicked rng t pairInit.1 k) (pickedCell rng pairInit.1 k) u,
            k + 2) ∧
        ∃ d, hasNeighbor pairInit.1.numCellX pairInit.1.numCellY
              (pickedCell rng pairInit.1 k) d = true ∧
          u = neighborIndex pairInit.1.numCellX (pickedCell rng pairInit.1 k) d ∧
          (∀ x e, (removeWall (visitPicked rng t pairInit.1 k) (pickedCell rng pairInit.1 k)
              u).hasRecord x e = (visitPicked rng t pairInit.1 k).hasRecord x e) ∧
          (∀ x e, (removeWall (visitPicked rng t pairInit.1 k) (pickedCell rng pairInit.1 k)
              u).wallOpen x e =
            if (x = pickedCell rng pairInit.1 k ∧ e = d) ∨
                (x = u ∧ e = getOppositeDirection d) then
              (visitPicked rng t pairInit.1 k).hasRecord x e
            else (visitPicked rng t pairInit.1 k).wallOpen x e) ∧
          ((pairInit.1.cell u).parentStructure ≠
              (pairInit.1.cell (pickedCell rng pairInit.1 k)).parentStructure →
            (removeWall (visitPicked rng t pairInit.1 k) (pickedCell rng pairInit.1 k)
              u).wallOpen (pickedCell rng pairInit.1 k) d = true ∧
            (removeWall (visitPicked rng t pairInit.1 k) (pickedCell rng pairInit.1 k)
              u).wallOpen u (getOppositeDirection d) = true) ∧
          ((pairInit.1.cell u).parentStructure =
              (pairInit.1.cell (pickedCell rng pairInit.1 k)).parentStructure →
            (visitPicked rng t pairInit.1 k).hasRecord (pickedCell rng pairInit.1 k) d
              = false ∧
            (visitPicked rng t pairInit.1 k).hasRecord u (getOppositeDirection d) = false ∧
            removeWall (visitPicked rng t pairInit.1 k) (pickedCell rng pairInit.1 k) u =
              visitPicked rng t pairInit.1 k)) :=
  ⟨by decide, C10_frontier_has_visited_neighbour pairInit_reachable (by decide)⟩

end Maze
